import Mathlib

/-!
# lindb: metric block reader (`tsdb/tblstore/metricsdata/reader.go`)

A shallow embedding of the metric block reader.  Go values become Lean values,
the `*reader` receiver becomes explicit state passing, and a call that does not
return normally becomes an `Except Fault _` value: `Fault.error` is a returned Go
`error`, `Fault.panic` is a run-time panic (index or slice bound out of range).
`int` is taken to be 64 bits wide, so `int(uint32)` never wraps.

The merge scanner (`dataScanner`) and the field decode loop (`readField`) of the same file
follow, and a model of the tag value index reader, of which only the test is available.
-/

namespace Lindb

/-- How a Go call can fail: with a returned `error`, or with a run-time panic. -/
inductive Fault where
  | error (msg : String)
  | panic
  deriving DecidableEq, Repr

/-- The Go slice expression `buf[off:]`: panics unless `0 <= off <= len(buf)`. -/
def sliceFrom (buf : List UInt8) (off : Int) : Except Fault (List UInt8) :=
  if 0 ≤ off ∧ off ≤ (buf.length : Int) then .ok (buf.drop off.toNat) else .error .panic

/-- The Go index expression `buf[i]`: panics unless `i < len(buf)`. -/
def byteAt (buf : List UInt8) (i : Nat) : Except Fault UInt8 :=
  match buf[i]? with
  | some b => .ok b
  | none => .error .panic

/-- Modelled from the spec: `stream.ReadUint16` (package `pkg/stream`) is not part of the
available sources; the footer is "all little-endian", so it reads two bytes at `offset`,
least significant first, and panics when they are not both inside the buffer. -/
def ReadUint16 (buf : List UInt8) (offset : Nat) : Except Fault Nat :=
  match buf[offset]?, buf[offset + 1]? with
  | some b0, some b1 => .ok (b0.toNat + 256 * b1.toNat)
  | _, _ => .error .panic

/-- Modelled from the spec: `stream.ReadUint32` (package `pkg/stream`) is not part of the
available sources; it reads four bytes at `offset`, least significant first, and panics
when they are not all inside the buffer. -/
def ReadUint32 (buf : List UInt8) (offset : Nat) : Except Fault Nat :=
  match buf[offset]?, buf[offset + 1]?, buf[offset + 2]?, buf[offset + 3]? with
  | some b0, some b1, some b2, some b3 =>
    .ok (b0.toNat + 256 * b1.toNat + 65536 * b2.toNat + 16777216 * b3.toNat)
  | _, _, _, _ => .error .panic

/-! ## Collaborators

The roaring bitmap library (`github.com/lindb/roaring`) is represented by what its
operations mean on the stored sets; the codecs of package `pkg/encoding` are parameters
(`Env`). -/

/-- A roaring container: the low 16-bit members under one high key, ascending. -/
abbrev Container := List Nat

/-- A roaring bitmap as the reader uses it: its containers in ascending high-key order,
each paired with its high key. -/
structure Bitmap where
  entries : List (Nat × Container)
  deriving DecidableEq, Repr

/-- Go `roaring.Bitmap.GetHighKeys`: the high keys in container order. -/
def Bitmap.GetHighKeys (b : Bitmap) : List Nat := b.entries.map Prod.fst

/-- Go `roaring.Bitmap.GetContainerIndex`: the position of the container for `key`,
negative when there is none. -/
def Bitmap.GetContainerIndex (b : Bitmap) (key : Nat) : Int :=
  let i := b.GetHighKeys.indexOf key
  if i < b.entries.length then (i : Int) else -1

/-- Go `roaring.Bitmap.GetContainerAtIndex`: the container at a position; indexing past the
end panics. -/
def Bitmap.GetContainerAtIndex (b : Bitmap) (i : Int) : Except Fault Container :=
  if i < 0 then .error .panic else
    match b.entries[i.toNat]? with
    | some e => .ok e.2
    | none => .error .panic

/-- Go `roaring.Container.And`: the members common to both containers. -/
def Container.And (c other : Container) : Container := c.filter (fun x => decide (x ∈ other))

/-- Go `roaring.Container.GetCardinality`. -/
def Container.GetCardinality (c : Container) : Nat := c.length

/-- Modelled from the spec: `encoding.FixedOffsetDecoder` (package `pkg/encoding`) is not
part of the available sources; the fixed-offset index is a codec over a byte buffer, so a
decoder is represented by the bytes it was created on, and what its methods return for
those bytes is a parameter (`Env`). -/
structure FixedOffsetDecoder where
  buf : List UInt8
  deriving DecidableEq, Repr

/-- Modelled from the spec: `encoding.NewFixedOffsetDecoder` is not part of the available
sources; it creates the decoder over the given bytes. -/
def NewFixedOffsetDecoder (buf : List UInt8) : FixedOffsetDecoder := ⟨buf⟩

/-- The parts of package `pkg/encoding` that the reader calls and whose code is not part
of the available sources, taken as parameters: the bitmap deserialiser and the lookup of
the fixed-offset index (`Get` returns the offset and whether the entry exists). -/
structure Env where
  BitmapUnmarshal : List UInt8 → Except String Bitmap
  Get : FixedOffsetDecoder → Int → Int × Bool
  Header : FixedOffsetDecoder → Int
  ValueWidth : FixedOffsetDecoder → Int

/-! ## The reader -/

/-- The footer size: start slot, end slot, three positions and the checksum. -/
def dataFooterSize : Nat := 2 + 2 + 4 + 4 + 4 + 4

/-- Go `field.Meta`: one entry of the field catalogue. -/
structure Meta where
  ID : Nat
  Typ : Nat
  deriving DecidableEq, Repr

/-- Go `fieldAggregator`: a catalogue entry paired with the caller's sink of type `B`. -/
structure fieldAggregator (B : Type) where
  fieldMeta : Meta
  block : B
  deriving DecidableEq, Repr

/-- Go `newFieldAggregator`. -/
def newFieldAggregator {B : Type} (fieldMeta : Meta) (block : B) : fieldAggregator B :=
  { fieldMeta := fieldMeta, block := block }

/-- The `reader` struct. -/
structure reader where
  path : String
  buf : List UInt8
  highOffsets : FixedOffsetDecoder
  seriesIDs : Bitmap
  fields : List Meta
  crc32CheckSum : Nat
  start : Nat
  end_ : Nat
  readFieldIndexes : List Nat
  deriving DecidableEq, Repr

/-- The catalogue loop of `initReader`: `n` entries of two bytes each from `offset` on. -/
def readFieldMetas (buf : List UInt8) : Nat → Nat → Except Fault (List Meta)
  | _, 0 => .ok []
  | offset, n + 1 =>
    match buf[offset]?, buf[offset + 1]? with
    | some id, some ty =>
      match readFieldMetas buf (offset + 2) n with
      | .ok rest => .ok ({ ID := id.toNat, Typ := ty.toNat } :: rest)
      | .error e => .error e
    | _, _ => .error .panic

/-- Go `reader.initReader`. -/
def initReader (env : Env) (r : reader) : Except Fault reader :=
  if r.buf.length ≤ dataFooterSize then .error (.error "block length not ok") else
  let footerPos := r.buf.length - dataFooterSize
  match ReadUint16 r.buf footerPos, ReadUint16 r.buf (footerPos + 2),
      ReadUint32 r.buf (footerPos + 4), ReadUint32 r.buf (footerPos + 8),
      ReadUint32 r.buf (footerPos + 12), ReadUint32 r.buf (footerPos + 16) with
  | .ok start, .ok end_, .ok fieldMetaStartPos, .ok seriesIDsStartPos, .ok highOffsetsPos,
      .ok crc =>
    if fieldMetaStartPos > footerPos ∨ seriesIDsStartPos > highOffsetsPos then
      .error (.error "bad offsets")
    else
      match byteAt r.buf fieldMetaStartPos with
      | .error e => .error e
      | .ok fieldCount =>
        match readFieldMetas r.buf (fieldMetaStartPos + 1) fieldCount.toNat with
        | .error e => .error e
        | .ok fields =>
          match sliceFrom r.buf seriesIDsStartPos with
          | .error e => .error e
          | .ok sub =>
            match env.BitmapUnmarshal sub with
            | .error msg => .error (.error msg)
            | .ok seriesIDs =>
              match sliceFrom r.buf highOffsetsPos with
              | .error e => .error e
              | .ok hsub =>
                .ok { r with
                  start := start, end_ := end_, crc32CheckSum := crc, fields := fields,
                  seriesIDs := seriesIDs, highOffsets := NewFixedOffsetDecoder hsub }
  | _, _, _, _, _, _ => .error .panic

/-- Go `NewReader`. -/
def NewReader (env : Env) (path : String) (buf : List UInt8) : Except Fault reader :=
  match initReader env
      { path := path, buf := buf, highOffsets := ⟨[]⟩, seriesIDs := ⟨[]⟩, fields := [],
        crc32CheckSum := 0, start := 0, end_ := 0, readFieldIndexes := [] } with
  | .error e => .error e
  | .ok r => .ok r

/-- Go `reader.GetFields`. -/
def reader.GetFields (r : reader) : List Meta := r.fields

/-- Go `reader.GetSeriesIDs`. -/
def reader.GetSeriesIDs (r : reader) : Bitmap := r.seriesIDs

/-- Go `reader.GetTimeRange`. -/
def reader.GetTimeRange (r : reader) : Nat × Nat := (r.start, r.end_)

/-! ## Footer fields, as total functions of the buffer -/

/-- The little-endian 16-bit value of the two bytes at `p` (bytes outside count as 0). -/
def leU16 (buf : List UInt8) (p : Nat) : Nat :=
  (buf.getD p 0).toNat + 256 * (buf.getD (p + 1) 0).toNat

/-- The little-endian 32-bit value of the four bytes at `p` (bytes outside count as 0). -/
def leU32 (buf : List UInt8) (p : Nat) : Nat :=
  (buf.getD p 0).toNat + 256 * (buf.getD (p + 1) 0).toNat
    + 65536 * (buf.getD (p + 2) 0).toNat + 16777216 * (buf.getD (p + 3) 0).toNat

/-- Where the footer starts. -/
def footerPos (buf : List UInt8) : Nat := buf.length - dataFooterSize

/-- The field-catalogue offset the footer declares. -/
def footerFieldMetaStartPos (buf : List UInt8) : Nat := leU32 buf (footerPos buf + 4)

/-- The series-ID-set offset the footer declares. -/
def footerSeriesIDsStartPos (buf : List UInt8) : Nat := leU32 buf (footerPos buf + 8)

/-- The high-offset-index offset the footer declares. -/
def footerHighOffsetsPos (buf : List UInt8) : Nat := leU32 buf (footerPos buf + 12)

/-- The checksum the footer declares. -/
def footerChecksum (buf : List UInt8) : Nat := leU32 buf (footerPos buf + 16)

/-- What `initReader` does after the footer has been read and found acceptable. -/
def initBody (env : Env) (r : reader) : Except Fault reader :=
  match byteAt r.buf (footerFieldMetaStartPos r.buf) with
  | .error e => .error e
  | .ok fieldCount =>
    match readFieldMetas r.buf (footerFieldMetaStartPos r.buf + 1) fieldCount.toNat with
    | .error e => .error e
    | .ok fields =>
      match sliceFrom r.buf (footerSeriesIDsStartPos r.buf) with
      | .error e => .error e
      | .ok sub =>
        match env.BitmapUnmarshal sub with
        | .error msg => .error (.error msg)
        | .ok seriesIDs =>
          match sliceFrom r.buf (footerHighOffsetsPos r.buf) with
          | .error e => .error e
          | .ok hsub =>
            .ok { r with
              start := leU16 r.buf (footerPos r.buf), end_ := leU16 r.buf (footerPos r.buf + 2),
              crc32CheckSum := footerChecksum r.buf, fields := fields,
              seriesIDs := seriesIDs, highOffsets := NewFixedOffsetDecoder hsub }

/-! ## Load -/

/-- Go `aggregation.ContainerAggregator`, as far as `prepare` uses it: the list that
`GetFieldAggregates()` returns, each element standing for its `GetAggregateBlock`, which
yields the sink for a family time when there is one. -/
abbrev ContainerAggregator (B : Type) := List (Int → Option B)

/-- Go `flow.StorageQueryFlow`, as far as `Load` uses it: `GetAggregator(highKey)`. -/
abbrev StorageQueryFlow (B : Type) := Nat → ContainerAggregator B

/-- The `fieldMap` that `prepare` builds: every catalogue entry stores its position under
its id, a later entry overwriting an earlier one with the same id. -/
def fieldMap (fields : List Meta) : Nat → Option Nat :=
  fields.enum.foldl (fun m e => fun id => if id = e.2.ID then some e.1 else m id)
    (fun _ => none)

/-- The second loop of `prepare`, from request position `idx` on; `rfi` is
`r.readFieldIndexes` and `aggs` the result so far. -/
def prepareLoop {B : Type} (fields : List Meta) (familyTime : Int)
    (aggregator : ContainerAggregator B) :
    Nat → List Nat → List Nat → List (fieldAggregator B) →
      Except Fault (List (fieldAggregator B) × List Nat)
  | _, [], rfi, aggs => .ok (aggs, rfi)
  | idx, fieldID :: rest, rfi, aggs =>
    match fieldMap fields fieldID with
    | none => prepareLoop fields familyTime aggregator (idx + 1) rest rfi aggs
    | some fieldIdx =>
      match aggregator[idx]? with
      | none => .error .panic
      | some fa =>
        match fa familyTime with
        | none => prepareLoop fields familyTime aggregator (idx + 1) rest rfi aggs
        | some block =>
          match fields[fieldIdx]? with
          | none => .error .panic
          | some fieldMeta =>
            prepareLoop fields familyTime aggregator (idx + 1) rest (rfi ++ [fieldIdx])
              (aggs ++ [newFieldAggregator fieldMeta block])

/-- Go `reader.prepare`: the field aggregators and the reader afterwards. -/
def reader.prepare {B : Type} (r : reader) (familyTime : Int) (fieldIDs : List Nat)
    (aggregator : ContainerAggregator B) : Except Fault (List (fieldAggregator B) × reader) :=
  match prepareLoop r.fields familyTime aggregator 0 fieldIDs r.readFieldIndexes [] with
  | .error e => .error e
  | .ok (aggs, rfi) => .ok (aggs, { r with readFieldIndexes := rfi })

/-- Modelled from the spec: the query scanner and its constructor `newMetricScanner` are
not part of the available sources; the scanner is built "over: this reader, the resolved
field aggregators, this block's own stored container, and the container-scoped offset
index".  The reader it points to is the reader state that `Load` returns next to it. -/
structure metricScanner (B : Type) where
  fieldAggs : List (fieldAggregator B)
  lowContainer : Container
  seriesOffsets : FixedOffsetDecoder
  deriving DecidableEq, Repr

/-- Go `newMetricScanner`. -/
def newMetricScanner {B : Type} (fieldAggs : List (fieldAggregator B)) (lowContainer : Container)
    (seriesOffsets : FixedOffsetDecoder) : metricScanner B :=
  { fieldAggs := fieldAggs, lowContainer := lowContainer, seriesOffsets := seriesOffsets }

/-- Go `reader.Load`: the scanner (`none` for Go's nil) and the reader afterwards. -/
def reader.Load {B : Type} (env : Env) (r : reader) (queryFlow : StorageQueryFlow B)
    (familyTime : Int) (fieldIDs : List Nat) (highKey : Nat) (seriesID : Container) :
    Except Fault (Option (metricScanner B) × reader) :=
  let highContainerIdx := r.seriesIDs.GetContainerIndex highKey
  if highContainerIdx < 0 then .ok (none, r) else
  match r.seriesIDs.GetContainerAtIndex highContainerIdx with
  | .error e => .error e
  | .ok lowContainer =>
    let foundSeriesIDs := lowContainer.And seriesID
    if foundSeriesIDs.GetCardinality = 0 then .ok (none, r) else
    let offset := (env.Get r.highOffsets highContainerIdx).1
    match sliceFrom r.buf offset with
    | .error e => .error e
    | .ok sub =>
      let seriesOffsets := NewFixedOffsetDecoder sub
      let aggregator := queryFlow highKey
      match r.prepare familyTime fieldIDs aggregator with
      | .error e => .error e
      | .ok (fieldAggs, r1) =>
        if fieldAggs.length = 0 then .ok (none, r1) else
        .ok (some (newMetricScanner fieldAggs lowContainer seriesOffsets), r1)

/-! ## A reference instance of the codecs

The theorems below hold for every `Env`.  Concrete blocks are evaluated with this
instance. -/

/-- The little-endian value of the `n` bytes at `p` (bytes outside count as 0). -/
def leBytes (buf : List UInt8) (p : Nat) : Nat → Nat
  | 0 => 0
  | n + 1 => (buf.getD p 0).toNat + 256 * leBytes buf (p + 1) n

/-- The `n` little-endian 16-bit values from `p` on, when they are all inside `buf`. -/
def refArrayContainer (buf : List UInt8) : Nat → Nat → Option Container
  | _, 0 => some []
  | p, n + 1 =>
    if p + 2 ≤ buf.length then
      match refArrayContainer buf (p + 2) n with
      | some rest => some (leU16 buf p :: rest)
      | none => none
    else none

/-- The containers `i, i+1, ...` (`k` of them) of a serialised bitmap with `n` containers:
key and cardinality-minus-one from the descriptive header at `8 + 4 * i`, members from
`p` on. -/
def refContainers (buf : List UInt8) (n : Nat) : Nat → Nat → Nat → Option (List (Nat × Container))
  | 0, _, _ => some []
  | k + 1, i, p =>
    let key := leU16 buf (8 + 4 * i)
    let card := leU16 buf (8 + 4 * i + 2) + 1
    if card > 4096 then none else
      match refArrayContainer buf p card with
      | none => none
      | some c =>
        match refContainers buf n k (i + 1) (p + 2 * card) with
        | some rest => some ((key, c) :: rest)
        | none => none

/-- Modelled from the spec: `encoding.BitmapUnmarshal` is not part of the available
sources; the series-ID set uses the "standard sparse-bitmap serialization".  This instance
reads the standard portable layout without run containers: cookie 12346, the number of
containers, per container its key and cardinality minus one, per container a 32-bit
offset, then the containers, of which it accepts the array kind (at most 4096 members).
Bytes after the last container are ignored. -/
def refBitmapUnmarshal (data : List UInt8) : Except String Bitmap :=
  if data.length < 8 then .error "unexpected EOF"
  else if leU32 data 0 ≠ 12346 then .error "invalid cookie"
  else
    let n := leU32 data 4
    if n > 65536 ∨ data.length < 8 + 8 * n then .error "unexpected EOF"
    else
      match refContainers data n n 0 (8 + 8 * n) with
      | some es => .ok ⟨es⟩
      | none => .error "unexpected EOF"

/-- Modelled from the spec: `encoding.FixedOffsetDecoder.Get` is not part of the available
sources; the index is "a header plus an array of offsets with a declared per-entry byte
width" and `get(rank)` yields the offset or absent.  This instance takes the header to be
one byte holding the width (1 to 4) and the entries to be little-endian. -/
def refGet (d : FixedOffsetDecoder) (i : Int) : Int × Bool :=
  match d.buf with
  | [] => (0, false)
  | w :: body =>
    if i < 0 ∨ w.toNat = 0 ∨ w.toNat > 4 then (0, false)
    else if i.toNat * w.toNat + w.toNat > body.length then (0, false)
    else ((leBytes body (i.toNat * w.toNat) w.toNat : Nat), true)

/-- The header length of the reference fixed-offset index. -/
def refHeader (_ : FixedOffsetDecoder) : Int := 1

/-- The entry width of the reference fixed-offset index. -/
def refValueWidth (d : FixedOffsetDecoder) : Int :=
  match d.buf with
  | [] => 0
  | w :: _ => (w.toNat : Nat)

/-- The reference instance. -/
def refEnv : Env :=
  { BitmapUnmarshal := refBitmapUnmarshal, Get := refGet, Header := refHeader,
    ValueWidth := refValueWidth }

/-- The footer bytes for a time range and three positions (checksum 0); all values here
are below 256. -/
def sampleFooter (start end_ fm sid hop : UInt8) : List UInt8 :=
  [start, 0, end_, 0, fm, 0, 0, 0, sid, 0, 0, 0, hop, 0, 0, 0, 0, 0, 0, 0]

/-- The serialised series-ID set with the single container 0 = {1, 2}. -/
def sampleBitmapBytes : List UInt8 :=
  [0x3A, 0x30, 0, 0, 1, 0, 0, 0, 0, 0, 1, 0, 16, 0, 0, 0, 1, 0, 2, 0]

/-- A well-formed block of 50 bytes: the offset index of container 0 at 0, the catalogue
(ids 1 and 2) at 3, the series-ID set at 8, the high-offset index at 28 (its entry for
rank 0 is `hi`), the footer (slots 5 to 10) at 30. -/
def sampleBlockWith (hi : UInt8) : List UInt8 :=
  [1, 10, 11] ++ [2, 1, 1, 2, 1] ++ sampleBitmapBytes ++ [1, hi] ++ sampleFooter 5 10 3 8 28

/-- The well-formed block: the high-offset entry of rank 0 is 0. -/
def sampleBlock : List UInt8 := sampleBlockWith 0

/-- The same block with the high-offset entry of rank 0 set to 200, past the end. -/
def corruptHighOffsetBlock : List UInt8 := sampleBlockWith 200

/-- A block of 43 bytes that stores the series-ID set first (at 0) and the catalogue after
it (at 20), and declares the high-offset index at 43, the end of the buffer. -/
def unorderedBlock : List UInt8 :=
  sampleBitmapBytes ++ [1, 7, 1] ++ sampleFooter 5 10 20 0 43

/-- A block of 21 bytes whose catalogue, at 0, declares 255 fields. -/
def overlongCatalogueBlock : List UInt8 := [255] ++ sampleFooter 0 0 0 1 1

/-- A block of 21 bytes with an empty catalogue at 0 that declares the series-ID set at
100 and the high-offset index at 200. -/
def farSeriesIDsBlock : List UInt8 := [0] ++ sampleFooter 0 0 0 100 200

/-- A block of 41 bytes with the series-ID set at 0 and an empty catalogue at 20 that
declares the high-offset index at 100. -/
def farHighOffsetsBlock : List UInt8 := sampleBitmapBytes ++ [0] ++ sampleFooter 0 0 20 0 100

/-- The reader that `NewReader` returns for `sampleBlockWith hi`. -/
def sampleReaderWith (hi : UInt8) : reader :=
  { path := "blk", buf := sampleBlockWith hi,
    highOffsets := ⟨[1, hi] ++ sampleFooter 5 10 3 8 28⟩, seriesIDs := ⟨[(0, [1, 2])]⟩,
    fields := [⟨1, 1⟩, ⟨2, 1⟩], crc32CheckSum := 0, start := 5, end_ := 10,
    readFieldIndexes := [] }

/-- The reader of the well-formed block. -/
def sampleReader : reader := sampleReaderWith 0

/-- The reader of the block whose high-offset entry points past the end. -/
def corruptHighOffsetReader : reader := sampleReaderWith 200

/-- The reader that `NewReader` returns for `unorderedBlock`. -/
def unorderedReader : reader :=
  { path := "blk", buf := unorderedBlock, highOffsets := ⟨[]⟩, seriesIDs := ⟨[(0, [1, 2])]⟩,
    fields := [⟨7, 1⟩], crc32CheckSum := 0, start := 5, end_ := 10, readFieldIndexes := [] }

/-- A query flow whose aggregator, for every high key, has a sink for each of two request
positions at every family time: sink 7 for position 0 and sink 8 for position 1. -/
def sampleFlow : StorageQueryFlow Nat := fun _ => [fun _ => some 7, fun _ => some 8]

/-- An aggregator with sinks 7 and 8 at request positions 0 and 1 and a field aggregate
without a sink at position 2. -/
def sampleAggregates : ContainerAggregator Nat :=
  [fun _ => some 7, fun _ => some 8, fun _ => none]

/-- The two bytes a 16-bit slot takes in the footer, least significant first. -/
def slotBytes (v : Nat) : List UInt8 := [UInt8.ofNat (v % 256), UInt8.ofNat (v / 256 % 256)]

/-- The container that the series-ID set stores for a high key, if any. -/
def Bitmap.containerFor (b : Bitmap) (key : Nat) : Option Container := b.entries.lookup key

/-- The requests that resolve, in the spec's words: going through the requested field ids
in order from request position `idx`, a request resolves when its id is in the catalogue
and the field aggregate at its request position yields a sink; the result lists the
resolved ids with their sinks, in request order. -/
def resolvedRequests {B : Type} (fields : List Meta) (familyTime : Int)
    (aggregator : ContainerAggregator B) : Nat → List Nat → List (Nat × B)
  | _, [] => []
  | idx, fieldID :: rest =>
    match (if fieldID ∈ fields.map Meta.ID then
        aggregator[idx]?.bind (fun fa => fa familyTime) else none) with
    | some block => (fieldID, block) :: resolvedRequests fields familyTime aggregator (idx + 1) rest
    | none => resolvedRequests fields familyTime aggregator (idx + 1) rest

/-- A block of 40 bytes whose footer (at 20) declares the catalogue at 20, the footer's own
first byte, which is 9: the nine catalogue entries are read from the footer bytes 21 to 38
and so include the first three checksum bytes `c0 c1 c2`.  The series-ID set is at 0 and
the high-offset index at 40. -/
def overlapBlock (c0 c1 c2 c3 : UInt8) : List UInt8 :=
  sampleBitmapBytes ++ [9, 0, 10, 0, 20, 0, 0, 0, 0, 0, 0, 0, 40, 0, 0, 0, c0, c1, c2, c3]

/-- The well-formed block without its 4 checksum bytes. -/
def sampleBody : List UInt8 := sampleBlock.take 46

/-! ## The merge scanner -/

/-- Library `roaring.Container.Contains`. -/
def Container.Contains (c : Container) (x : Nat) : Bool := decide (x ∈ c)

/-- Library `roaring.Container.Rank`: the number of members smaller than or equal to `x`. -/
def Container.Rank (c : Container) (x : Nat) : Int :=
  ((c.filter (fun y => decide (y ≤ x))).length : Nat)

/-- The `dataScanner` struct. -/
structure dataScanner where
  reader : reader
  container : Container
  seriesOffsets : FixedOffsetDecoder
  highKeys : List Nat
  highKey : Nat
  seriesPos : Nat
  deriving DecidableEq, Repr

/-- Go `dataScanner.nextContainer`. -/
def dataScanner.nextContainer (env : Env) (s : dataScanner) : Except Fault dataScanner :=
  match s.highKeys[s.seriesPos]? with
  | none => .error .panic
  | some highKey =>
    match s.reader.seriesIDs.GetContainerAtIndex s.seriesPos with
    | .error e => .error e
    | .ok container =>
      let offset := (env.Get s.reader.highOffsets s.seriesPos).1
      match sliceFrom s.reader.buf offset with
      | .error e => .error e
      | .ok sub =>
        .ok { s with
          highKey := highKey, container := container,
          seriesOffsets := NewFixedOffsetDecoder sub, seriesPos := s.seriesPos + 1 }

/-- Go `newDataScanner`. -/
def newDataScanner (env : Env) (r : reader) : Except Fault dataScanner :=
  dataScanner.nextContainer env
    { reader := r, container := [], seriesOffsets := ⟨[]⟩, highKeys := r.seriesIDs.GetHighKeys,
      highKey := 0, seriesPos := 0 }

/-- Go `getOffset`, the value of `getOffsetFunc`. -/
def getOffset (env : Env) (seriesOffsets : FixedOffsetDecoder) (idx : Int) : Int × Bool :=
  env.Get seriesOffsets idx

/-- The part of `dataScanner.scan` after the advance: the high-key test and the lookup of
the low series id.  The result is the offset, or -1, with the scanner afterwards. -/
def dataScanner.scanFind (env : Env) (s : dataScanner) (highKey lowSeriesID : Nat) :
    Int × dataScanner :=
  if highKey ≠ s.highKey then (-1, s)
  else if s.container.Contains lowSeriesID then
    let idx := s.container.Rank lowSeriesID
    let res := getOffset env s.seriesOffsets (idx - 1)
    if !res.2 then (-1, s) else (res.1, s)
  else (-1, s)

/-- Go `dataScanner.scan`: the offset, or -1, with the scanner afterwards. -/
def dataScanner.scan (env : Env) (s : dataScanner) (highKey lowSeriesID : Nat) :
    Except Fault (Int × dataScanner) :=
  if s.highKey < highKey then
    if s.seriesPos ≥ s.highKeys.length then .ok (-1, s)
    else
      match s.nextContainer env with
      | .error e => .error e
      | .ok s1 => .ok (s1.scanFind env highKey lowSeriesID)
  else .ok (s.scanFind env highKey lowSeriesID)

/-- A sequence of `scan` calls on one scanner, one per probe `(highKey, lowSeriesID)`: the
results in order, and the scanner afterwards. -/
def scanAll (env : Env) : dataScanner → List (Nat × Nat) → Except Fault (List Int × dataScanner)
  | s, [] => .ok ([], s)
  | s, p :: rest =>
    match s.scan env p.1 p.2 with
    | .error e => .error e
    | .ok (v, s1) =>
      match scanAll env s1 rest with
      | .error e => .error e
      | .ok (vs, s2) => .ok (v :: vs, s2)

/-- The 0-based ordinal of `x` in a container: the number of members strictly smaller. -/
def Container.ordinal (c : Container) (x : Nat) : Nat :=
  (c.filter (fun y => decide (y < x))).length

/-- The offset index of the container of a rank: the fixed-offset index decoded at the byte
offset that the high-offset index returns for that rank. -/
def reader.containerOffsets (env : Env) (r : reader) (rank : Nat) : FixedOffsetDecoder :=
  NewFixedOffsetDecoder (r.buf.drop (env.Get r.highOffsets rank).1.toNat)

/-- The entry of an offset index at a position, or -1 when the index has none there. -/
def entryOrAbsent (env : Env) (d : FixedOffsetDecoder) (i : Int) : Int :=
  if (env.Get d i).2 then (env.Get d i).1 else -1

/-- What a probe for a series should yield: the entry that the offset index of the series'
container holds at the ordinal of the series, and -1 when the block does not contain the
series. -/
def reader.recordedOffset (env : Env) (r : reader) (p : Nat × Nat) : Int :=
  match r.seriesIDs.containerFor p.1 with
  | none => -1
  | some c =>
    if p.2 ∈ c then
      entryOrAbsent env (r.containerOffsets env (r.seriesIDs.GetHighKeys.indexOf p.1))
        (c.ordinal p.2)
    else -1

/-- The invariants of a roaring bitmap that the list representation does not enforce: the
high keys are strictly ascending, and every container is free of duplicates and
non-empty. -/
def Bitmap.WF (b : Bitmap) : Prop :=
  b.GetHighKeys.Pairwise (fun x y => x < y) ∧ ∀ e ∈ b.entries, e.2.Nodup ∧ e.2 ≠ []

/-- The scanner's cursor is on the container of rank `j` of the reader `r`: the position is
`j + 1` and the current high key, container and offset index are those of rank `j`. -/
def dataScanner.atRank (env : Env) (r : Lindb.reader) (s : dataScanner) (j : Nat) : Prop :=
  s.reader = r ∧ s.highKeys = r.seriesIDs.GetHighKeys ∧ s.seriesPos = j + 1 ∧
    r.seriesIDs.entries[j]? = some (s.highKey, s.container) ∧
    s.seriesOffsets = r.containerOffsets env j

/-- A block of 71 bytes with three containers, 0 = {1}, 1 = {1} and 2 = {1}: their offset
indexes at 0, 2 and 4 hold the series offsets 30, 31 and 32; the catalogue (one field) is
at 6, the series-ID set at 9, the high-offset index (entries 0, 2, 4) at 47 and the footer
at 51. -/
def threeContainerBlock : List UInt8 :=
  [1, 30, 1, 31, 1, 32] ++ [1, 1, 1]
    ++ [0x3A, 0x30, 0, 0, 3, 0, 0, 0, 0, 0, 0, 0, 1, 0, 0, 0, 2, 0, 0, 0,
        32, 0, 0, 0, 34, 0, 0, 0, 36, 0, 0, 0, 1, 0, 1, 0, 1, 0]
    ++ [1, 0, 2, 4] ++ sampleFooter 5 10 6 9 47

/-- The reader that `NewReader` returns for `threeContainerBlock`. -/
def threeContainerReader : reader :=
  { path := "blk", buf := threeContainerBlock,
    highOffsets := ⟨[1, 0, 2, 4] ++ sampleFooter 5 10 6 9 47⟩,
    seriesIDs := ⟨[(0, [1]), (1, [1]), (2, [1])]⟩, fields := [⟨1, 1⟩], crc32CheckSum := 0,
    start := 5, end_ := 10, readFieldIndexes := [] }

/-- The scanner that `newDataScanner` returns for `threeContainerReader`. -/
def threeContainerScanner : dataScanner :=
  { reader := threeContainerReader, container := [1],
    seriesOffsets := ⟨threeContainerBlock⟩, highKeys := [0, 1, 2], highKey := 0,
    seriesPos := 1 }

/-- A block of 32 bytes whose series-ID set, at 3, is the empty set: the catalogue (one
field) is at 0, the high-offset index at 11 and the footer at 12. -/
def emptySeriesBlock : List UInt8 :=
  [1, 1, 1] ++ [0x3A, 0x30, 0, 0, 0, 0, 0, 0] ++ [1] ++ sampleFooter 5 10 0 3 11

/-- The reader that `NewReader` returns for `emptySeriesBlock`. -/
def emptySeriesReader : reader :=
  { path := "blk", buf := emptySeriesBlock, highOffsets := ⟨[1] ++ sampleFooter 5 10 0 3 11⟩,
    seriesIDs := ⟨[]⟩, fields := [⟨1, 1⟩], crc32CheckSum := 0, start := 5, end_ := 10,
    readFieldIndexes := [] }

/-- The scanner of `threeContainerReader` once its cursor is on the last container. -/
def threeContainerLastScanner : dataScanner :=
  { threeContainerScanner with
    highKey := 2, container := [1], seriesOffsets := ⟨threeContainerBlock.drop 4⟩,
    seriesPos := 3 }

/-- The ascending probes of a union set that includes the three series of
`threeContainerBlock` and four series of other blocks. -/
def unionProbes : List (Nat × Nat) := [(0, 1), (0, 7), (1, 1), (2, 0), (2, 1), (3, 1), (5, 2)]

/-- A block of 58 bytes with the two containers 0 = {1} and 5 = {2}: their offset indexes
at 0 and 2 hold the series offsets 30 and 31; the catalogue (one field) is at 4, the
series-ID set at 7, the high-offset index (entries 0, 2) at 35 and the footer at 38. -/
def gapBlock : List UInt8 :=
  [1, 30, 1, 31] ++ [1, 1, 1]
    ++ [0x3A, 0x30, 0, 0, 2, 0, 0, 0, 0, 0, 0, 0, 5, 0, 0, 0,
        24, 0, 0, 0, 26, 0, 0, 0, 1, 0, 2, 0]
    ++ [1, 0, 2] ++ sampleFooter 5 10 4 7 35

/-- The reader that `NewReader` returns for `gapBlock`. -/
def gapReader : reader :=
  { path := "blk", buf := gapBlock, highOffsets := ⟨[1, 0, 2] ++ sampleFooter 5 10 4 7 35⟩,
    seriesIDs := ⟨[(0, [1]), (5, [2])]⟩, fields := [⟨1, 1⟩], crc32CheckSum := 0,
    start := 5, end_ := 10, readFieldIndexes := [] }

/-! ## The field decode loop -/

/-- Modelled from the spec: `encoding.TSDDecoder` (package `pkg/encoding`) is not part of the
available sources; the decoder advances "slot-by-slot across `[start,end]`" and a slot has
"a present value" or none.  A decoder positioned on a field stream is represented by the
slots it has still to deliver, in its order, each with its stored 64-bit value when one is
present: `Next()` moves to the head, `HasValue()`, `Slot()` and `Value()` read it. -/
abbrev TSDDecoder := List (Nat × Option Nat)

/-- The sink `series.Block` with its state of type `σ`: `Append(slot, value)` yields the
sink afterwards and whether it asks to stop.  `F` stands for `float64`. -/
abbrev Block (σ F : Type) := σ → Nat → F → σ × Bool

/-- Go `reader.readField`: the sink afterwards and what is left of the decoder.
`Float64frombits` is `math.Float64frombits`. -/
def readField {σ F : Type} (Append : Block σ F) (Float64frombits : Nat → F) :
    σ → TSDDecoder → σ × TSDDecoder
  | block, [] => (block, [])
  | block, (_, none) :: rest => readField Append Float64frombits block rest
  | block, (timeSlot, some val) :: rest =>
    match Append block timeSlot (Float64frombits val) with
    | (block1, true) => (block1, rest)
    | (block1, false) => readField Append Float64frombits block1 rest

/-- A sink that behaves as `Append` and also records each call made to it: the slot, the
value and the answer. -/
def recording {σ F : Type} (Append : Block σ F) : Block (σ × List (Nat × F × Bool)) F :=
  fun st slot value =>
    match Append st.1 slot value with
    | (block1, stop) => ((block1, st.2 ++ [(slot, value, stop)]), stop)

/-- The `Append` calls that `readField` makes on a sink, in order, each with its answer. -/
def appendCalls {σ F : Type} (Append : Block σ F) (Float64frombits : Nat → F) (block : σ)
    (tsd : TSDDecoder) : List (Nat × F × Bool) :=
  (readField (recording Append) Float64frombits (block, []) tsd).1.2

/-- The present slots of a stream in the decoder's order, each with the floating-point
value of its stored bit pattern. -/
def presentSlots {F : Type} (Float64frombits : Nat → F) (tsd : TSDDecoder) : List (Nat × F) :=
  tsd.filterMap (fun e => e.2.map (fun val => (e.1, Float64frombits val)))

/-- A sink that keeps the appended pairs and asks to stop once it holds two of them (a
window of size 2); values are kept as their bit patterns. -/
def windowSink : Block (List (Nat × Nat)) Nat :=
  fun st slot value => (st ++ [(slot, value)], decide (2 ≤ st.length + 1))

/-- A field stream over the slots 5 to 8 of which slot 6 has no value. -/
def sampleStream : TSDDecoder := [(5, some 10), (6, none), (7, some 20), (8, some 30)]

/-! ## The tag value index reader -/

/-- Modelled from the spec: the tag value entry set (package `invertedindex`) is not part of
the available sources, only its test is; an entry set "owns a trie from value string to
value identifier" whose decoding can fail ("`trie() -> Trie | Error`") "and a bitmap of all
value identifiers under the key" (`all_value_ids()`). -/
structure TagKVEntrySet where
  trie : Except String (List (String × Nat))
  tagValueIDs : Finset Nat

/-- Modelled from the spec: the flusher is not part of the available sources; the block it
writes for a tag key from the flushed (value, id) pairs holds their trie and "the bitmap of
IDs flushed for that key". -/
def flushedEntrySet (mapping : List (String × Nat)) : TagKVEntrySet :=
  { trie := .ok mapping, tagValueIDs := (mapping.map Prod.snd).toFinset }

/-- Modelled from the spec: the tag value index reader is not part of the available
sources; it "holds an ordered list of underlying sources, each addressable by tag key
identifier": a source yields the entry set of its block for a tag key, or nothing when it
has no block for the key. -/
abbrev tagReader := List (Nat → Option TagKVEntrySet)

/-- Modelled from the spec: `GetTagValueIDsForTagKeyID` (`get_all_value_ids`) "returns the
union, across all sources, of each source's full-membership bitmap for that key" and
"fails with `NotFound` if no source has a block for the key". -/
def tagReader.GetTagValueIDsForTagKeyID (r : tagReader) (tagKeyID : Nat) :
    Except Fault (Finset Nat) :=
  match r.filterMap (fun source => source tagKeyID) with
  | [] => .error (.error "not found")
  | e :: rest => .ok ((e :: rest).foldl (fun acc entrySet => acc ∪ entrySet.tagValueIDs) ∅)

/-- The source of the test: no block for the tag key 19, and for the tag key 20 the block
flushed from the zone values nj, sh and bj with the ids 1, 2 and 3. -/
def zoneSource : Nat → Option TagKVEntrySet :=
  fun tagKeyID =>
    if tagKeyID = 20 then some (flushedEntrySet [("nj", 1), ("sh", 2), ("bj", 3)]) else none

/-! ## Reading the data of one series -/

/-- The loop of `readSeriesData` over `r.readFieldIndexes`, from loop index `i` on: the
field aggregators with their sinks afterwards.  `reset` stands for
`TSDDecoder.ResetWithTimeRange`, which is not part of the available sources: the decoder
positioned on the given bytes for the slot range. -/
def readFieldsLoop {σ F : Type} (env : Env) (reset : List UInt8 → Nat → Nat → TSDDecoder)
    (Append : Block σ F) (Float64frombits : Nat → F) (fieldOffsets : FixedOffsetDecoder)
    (fieldsData : List UInt8) (start end_ : Nat) :
    Nat → List Nat → List (fieldAggregator σ) → Except Fault (List (fieldAggregator σ))
  | _, [], fieldAggs => .ok fieldAggs
  | i, idx :: rest, fieldAggs =>
    let res := env.Get fieldOffsets idx
    if res.2 then
      match sliceFrom fieldsData res.1 with
      | .error e => .error e
      | .ok data =>
        match fieldAggs[i]? with
        | none => .error .panic
        | some agg =>
          readFieldsLoop env reset Append Float64frombits fieldOffsets fieldsData start end_
            (i + 1) rest
            (fieldAggs.set i
              { fieldMeta := agg.fieldMeta,
                block := (readField Append Float64frombits agg.block (reset data start end_)).1 })
    else
      readFieldsLoop env reset Append Float64frombits fieldOffsets fieldsData start end_
        (i + 1) rest fieldAggs

/-- Go `reader.readSeriesData`: the field aggregators with their sinks afterwards. -/
def reader.readSeriesData {σ F : Type} (env : Env)
    (reset : List UInt8 → Nat → Nat → TSDDecoder) (Append : Block σ F)
    (Float64frombits : Nat → F) (r : reader) (position : Int)
    (fieldAggs : List (fieldAggregator σ)) : Except Fault (List (fieldAggregator σ)) :=
  let fieldCount := r.fields.length
  if fieldCount = 1 then
    match sliceFrom r.buf position with
    | .error e => .error e
    | .ok data =>
      match fieldAggs[0]? with
      | none => .error .panic
      | some agg =>
        .ok (fieldAggs.set 0
          { fieldMeta := agg.fieldMeta,
            block := (readField Append Float64frombits agg.block (reset data r.start r.end_)).1 })
  else
    match sliceFrom r.buf position with
    | .error e => .error e
    | .ok seriesData =>
      let fieldOffsets := NewFixedOffsetDecoder seriesData
      match sliceFrom seriesData
          (env.Header fieldOffsets + (fieldCount : Int) * env.ValueWidth fieldOffsets) with
      | .error e => .error e
      | .ok fieldsData =>
        readFieldsLoop env reset Append Float64frombits fieldOffsets fieldsData r.start r.end_
          0 r.readFieldIndexes fieldAggs

/-- A sink that counts the values appended to it and never asks to stop. -/
def countSink : Block Nat Nat := fun st _ _ => (st + 1, false)

/-- A decoder for the examples: one slot per slot of the range, slot `start + k` holding the
`k`-th byte of the stream as its value when the stream has one. -/
def sampleReset (data : List UInt8) (start end_ : Nat) : TSDDecoder :=
  (List.range (end_ + 1 - start)).map (fun k => (start + k, data[k]?.map UInt8.toNat))

/-- A block of 52 bytes with the series (0, 1) and two fields: the series region at 0 is
the field offset index `[1, 0, 200]` (field position 0 at offset 0, field position 1 at
offset 200) followed by two stream bytes; the offset index of container 0 is at 5, the
catalogue (ids 1 and 2) at 7, the series-ID set at 12, the high-offset index at 30 and the
footer at 32. -/
def badFieldOffsetBlock : List UInt8 :=
  [1, 0, 200, 7, 7] ++ [1, 0] ++ [2, 1, 1, 2, 1]
    ++ [0x3A, 0x30, 0, 0, 1, 0, 0, 0, 0, 0, 0, 0, 16, 0, 0, 0, 1, 0]
    ++ [1, 5] ++ sampleFooter 5 10 7 12 30

/-- The reader that `NewReader` returns for `badFieldOffsetBlock`. -/
def badFieldOffsetReader : reader :=
  { path := "blk", buf := badFieldOffsetBlock, highOffsets := ⟨[1, 5] ++ sampleFooter 5 10 7 12 30⟩,
    seriesIDs := ⟨[(0, [1])]⟩, fields := [⟨1, 1⟩, ⟨2, 1⟩], crc32CheckSum := 0, start := 5,
    end_ := 10, readFieldIndexes := [] }

/-- The scanner that `Load` returns on `badFieldOffsetReader` for the request of field 1. -/
def fieldOneScanner : metricScanner Nat :=
  { fieldAggs := [⟨⟨1, 1⟩, 7⟩], lowContainer := [1],
    seriesOffsets := ⟨badFieldOffsetBlock.drop 5⟩ }

/-- The reader of `badFieldOffsetBlock` after the `Load` of field 1. -/
def fieldOneReader : reader := { badFieldOffsetReader with readFieldIndexes := [0] }

/-! ## The tag value index reader: predicates, suggestions and walks -/

/-- Modelled from the spec: the filter predicates (package `sql/stmt`) are not part of the
available sources; the "predicate kinds" are Equals, In, Like and Regex, and a predicate
can be "malformed/unsupported" (the test passes nil). -/
inductive TagExpr where
  | Equals (value : String)
  | In (values : List String)
  | Like (pattern : String)
  | Regex (pattern : String)
  | Unsupported

/-- Modelled from the spec: the pattern engines behind Like ("prefix match ... filtered to
confirm full semantics") and Regex ("full-pattern match") are not part of the available
sources; they are parameters: whether a pattern matches a value. -/
structure Matchers where
  like : String → String → Bool
  regex : String → String → Bool

/-- Modelled from the spec: whether a value satisfies a predicate: Equals is an "exact trie
lookup", In a "set of exact lookups". -/
def TagExpr.holds (M : Matchers) : TagExpr → String → Bool
  | .Equals value, s => decide (s = value)
  | .In values, s => decide (s ∈ values)
  | .Like pattern, s => M.like pattern s
  | .Regex pattern, s => M.regex pattern s
  | .Unsupported, _ => false

/-- Modelled from the spec: the ids that a predicate matches in the given entry sets,
"unioned across sources"; a trie that fails to decode "is NOT silently skipped; it is
surfaced as an error for that call". -/
def collectMatches (M : Matchers) (expr : TagExpr) :
    List TagKVEntrySet → Except Fault (Finset Nat)
  | [] => .ok ∅
  | e :: rest =>
    match e.trie with
    | .error msg => .error (.error msg)
    | .ok entries =>
      match collectMatches M expr rest with
      | .error err => .error err
      | .ok ids =>
        .ok (((entries.filter (fun p => expr.holds M p.1)).map Prod.snd).toFinset ∪ ids)

/-- Modelled from the spec: `FindValueIDsByExprForTagKeyID` (`find_value_ids`) "fails if the
key is absent, if the predicate is malformed/unsupported, or if any source's trie fails to
decode", and "an empty match set for Equals/In/Like/Regex is reported as an error, not an
empty bitmap". -/
def tagReader.FindValueIDsByExprForTagKeyID (M : Matchers) (r : tagReader) (tagKeyID : Nat)
    (expr : TagExpr) : Except Fault (Finset Nat) :=
  match r.filterMap (fun source => source tagKeyID) with
  | [] => .error (.error "not found")
  | e :: rest =>
    match expr with
    | .Unsupported => .error (.error "unsupported expression")
    | _ =>
      match collectMatches M expr (e :: rest) with
      | .error err => .error err
      | .ok ids => if ids = ∅ then .error (.error "not found") else .ok ids

/-- Modelled from the spec: the entries of one entry set as enumerations see them: those of
its trie, and none when the trie fails to decode. -/
def TagKVEntrySet.decoded (e : TagKVEntrySet) : List (String × Nat) :=
  match e.trie with
  | .ok entries => entries
  | .error _ => []

/-- Modelled from the spec: the entries under a tag key that enumerations see: those of
every source whose trie decodes; a trie that fails to decode contributes nothing ("aborts
that source's contribution silently"). -/
def tagReader.decodedEntries (r : tagReader) (tagKeyID : Nat) : List (String × Nat) :=
  (r.filterMap (fun source => source tagKeyID)).flatMap TagKVEntrySet.decoded

/-- Whether a value starts with `pre`. -/
def startsWith (pre value : String) : Bool := pre.data.isPrefixOf value.data

/-- Modelled from the spec: `SuggestTagValues` (`suggest_values`) is the "lexicographic
enumeration of trie entries whose string starts with `prefix`, truncated at `limit`", and
empty "if the key is absent or the block is empty". -/
def tagReader.SuggestTagValues (r : tagReader) (tagKeyID : Nat) (pre : String) (limit : Nat) :
    List String :=
  ((((r.decodedEntries tagKeyID).map Prod.fst).filter (startsWith pre)).dedup.insertionSort
    (fun a b => a ≤ b)).take limit

/-- Modelled from the spec: the visits of a walk ("stops early when `visit_fn` returns
false"): the visitor is called on one entry after the other until it answers false. -/
def walkLoop {σ : Type} (fn : σ → String → Nat → σ × Bool) : σ → List (String × Nat) → σ
  | st, [] => st
  | st, e :: rest =>
    match fn st e.1 e.2 with
    | (st1, true) => walkLoop fn st1 rest
    | (st1, false) => st1

/-- Modelled from the spec: `WalkTagValues` (`walk_values`) "enumerates matching entries in
lexicographic order invoking `visit_fn(value, value_id) -> continue`" and "stops early when
`visit_fn` returns false"; it reports no error.  The visitor has a state of type `σ`; the
result is that state afterwards. -/
def tagReader.WalkTagValues {σ : Type} (r : tagReader) (tagKeyID : Nat) (pre : String)
    (fn : σ → String → Nat → σ × Bool) (st : σ) : Except Fault σ :=
  .ok (walkLoop fn st
    ((((r.decodedEntries tagKeyID).filter (fun p => startsWith pre p.1)).dedup).insertionSort
      (fun a b => a.1 ≤ b.1)))

/-- A visitor that behaves as `fn` and also records each call made to it: the value, the id
and the answer. -/
def recordingVisitor {σ : Type} (fn : σ → String → Nat → σ × Bool) :
    (σ × List (String × Nat × Bool)) → String → Nat → (σ × List (String × Nat × Bool)) × Bool :=
  fun st value id =>
    match fn st.1 value id with
    | (st1, go) => ((st1, st.2 ++ [(value, id, go)]), go)

/-- The source of the test for the ip tag, key 21: nine flushed values. -/
def ipSource : Nat → Option TagKVEntrySet :=
  fun tagKeyID =>
    if tagKeyID = 21 then
      some (flushedEntrySet [("192.168.1.1", 1), ("192.168.1.2", 2), ("192.168.1.3", 3),
        ("192.168.2.4", 4), ("192.168.2.5", 5), ("192.168.2.6", 6), ("192.168.3.7", 7),
        ("192.168.3.8", 8), ("192.168.3.9", 9)])
    else none

/-- The source of the test for the host tag, key 22: nine flushed values. -/
def hostSource : Nat → Option TagKVEntrySet :=
  fun tagKeyID =>
    if tagKeyID = 22 then
      some (flushedEntrySet [("eleme-dev-nj-1", 1), ("eleme-dev-nj-2", 2), ("eleme-dev-nj-3", 3),
        ("eleme-dev-sh-4", 4), ("eleme-dev-sh-5", 5), ("eleme-dev-sh-6", 6),
        ("eleme-dev-bj-7", 7), ("eleme-dev-bj-8", 8), ("eleme-dev-bj-9", 9)])
    else none

/-- A source whose block for every tag key has a trie that fails to decode. -/
def brokenSource : Nat → Option TagKVEntrySet :=
  fun _ => some { trie := .error "err", tagValueIDs := ∅ }

/-- Matchers for the examples: a Like pattern and a Regex pattern match the values that
start with them. -/
def sampleMatchers : Matchers := { like := startsWith, regex := startsWith }

/-- A visitor that counts its calls and answers false at the third. -/
def thirdStops : Nat → String → Nat → Nat × Bool := fun n _ _ => (n + 1, decide (n + 1 ≠ 3))

/-! ## Task messages: the wire encoding of `common.pb.go` -/

/-- Go `ErrInvalidLengthCommon`. -/
def ErrInvalidLengthCommon : Fault := .error "proto: negative length found during unmarshaling"

/-- Go `ErrIntOverflowCommon`. -/
def ErrIntOverflowCommon : Fault := .error "proto: integer overflow"

/-- Go `io.ErrUnexpectedEOF`. -/
def ErrUnexpectedEOF : Fault := .error "unexpected EOF"

/-- Go conversion `uint64(x)` of a signed integer: its two's complement bit pattern. -/
def toU64 (x : Int) : Nat := (x % 2 ^ 64).toNat

/-- Go conversions `int64(x)` and `int(x)` of a 64-bit pattern: the signed reading. -/
def toI64 (x : Nat) : Int :=
  if x % 2 ^ 64 < 2 ^ 63 then ((x % 2 ^ 64 : Nat) : Int) else ((x % 2 ^ 64 : Nat) : Int) - 2 ^ 64

/-- Go conversion `int32(x)` of a bit pattern: the signed reading of its low 32 bits. -/
def toI32 (x : Nat) : Int :=
  if x % 2 ^ 32 < 2 ^ 31 then ((x % 2 ^ 32 : Nat) : Int) else ((x % 2 ^ 32 : Nat) : Int) - 2 ^ 32

/-- Go addition of two `int` values, which wraps around at 64 bits. -/
def wrapAdd (a b : Int) : Int := toI64 (toU64 (a + b))

/-- Go message `TaskRequest`.  A string is the list of its bytes; a nil and an empty byte
slice are the same empty list; `JobID` is an int64 and `Type_` (Go `Type`) an int32, both
held as integers. -/
structure TaskRequest where
  JobID : Int
  ParentTaskID : List UInt8
  Type_ : Int
  PhysicalPlan : List UInt8
  Payload : List UInt8
  XXX_unrecognized : List UInt8
  deriving DecidableEq

/-- Go message `TaskResponse`, with the conventions of `TaskRequest`. -/
structure TaskResponse where
  JobID : Int
  TaskID : List UInt8
  Completed : Bool
  ErrMsg : List UInt8
  Payload : List UInt8
  XXX_unrecognized : List UInt8
  deriving DecidableEq

/-- The number of binary digits of `x`, by halving; `fuel` bounds the number of digits. -/
def bitLen : Nat → Nat → Nat
  | 0, _ => 0
  | fuel + 1, x => if x = 0 then 0 else bitLen fuel (x / 2) + 1

/-- Library `math/bits.Len64`: the minimum number of bits required to represent the uint64
`x`; the result is 0 for `x = 0`. -/
def Len64 (x : Nat) : Nat := bitLen 64 x

/-- Go `sovCommon`: `(math_bits.Len64(x|1) + 6) / 7`. -/
def sovCommon (x : Nat) : Nat := (Len64 (x ||| 1) + 6) / 7

/-- Go `copy(dAtA[i:], src)`: the slice expression panics unless `0 <= i <= len(dAtA)`, and
the copy overwrites as many bytes as both sides hold. -/
def copyAt (dAtA : List UInt8) (i : Int) (src : List UInt8) : Except Fault (List UInt8) :=
  if i < 0 ∨ (dAtA.length : Int) < i then .error .panic
  else
    let n := min (dAtA.length - i.toNat) src.length
    .ok (dAtA.take i.toNat ++ src.take n ++ dAtA.drop (i.toNat + n))

/-- Go `dAtA[i] = b`: panics unless `0 <= i < len(dAtA)`. -/
def setAt (dAtA : List UInt8) (i : Int) (b : UInt8) : Except Fault (List UInt8) :=
  if i < 0 ∨ (dAtA.length : Int) ≤ i then .error .panic else .ok (dAtA.set i.toNat b)

/-- Go loop of `encodeVarintCommon`: `for v >= 1<<7 { dAtA[offset] = uint8(v&0x7f | 0x80);
v >>= 7; offset++ }` followed by `dAtA[offset] = uint8(v)`.  A uint64 has ten groups of
seven bits, so ten rounds always suffice; the fuel counts them. -/
def encodeVarintLoop : Nat → List UInt8 → Int → Nat → Except Fault (List UInt8)
  | 0, _, _, _ => .error .panic
  | fuel + 1, dAtA, offset, v =>
    if v ≥ 1 <<< 7 then
      match setAt dAtA offset (UInt8.ofNat (v &&& 0x7f ||| 0x80)) with
      | .error e => .error e
      | .ok dAtA1 => encodeVarintLoop fuel dAtA1 (offset + 1) (v >>> 7)
    else setAt dAtA offset (UInt8.ofNat v)

/-- Go `encodeVarintCommon(dAtA, offset, v)`: writes the varint of `v` so that it ends just
before `offset`, and returns the index of its first byte. -/
def encodeVarintCommon (dAtA : List UInt8) (offset : Int) (v : Nat) :
    Except Fault (List UInt8 × Int) :=
  let base := offset - (sovCommon v : Int)
  match encodeVarintLoop 10 dAtA base v with
  | .error e => .error e
  | .ok dAtA1 => .ok (dAtA1, base)

/-- Go block that `MarshalToSizedBuffer` repeats for each string and bytes field:
`if len(x) > 0 { i -= len(x); copy(dAtA[i:], x); i = encodeVarintCommon(dAtA, i,
uint64(len(x))); i--; dAtA[i] = tag }`. -/
def putBytesField (tag : UInt8) (x : List UInt8) (st : List UInt8 × Int) :
    Except Fault (List UInt8 × Int) :=
  if x.length > 0 then
    match copyAt st.1 (st.2 - (x.length : Int)) x with
    | .error e => .error e
    | .ok dAtA1 =>
      match encodeVarintCommon dAtA1 (st.2 - (x.length : Int)) (x.length % 2 ^ 64) with
      | .error e => .error e
      | .ok (dAtA2, i2) =>
        match setAt dAtA2 (i2 - 1) tag with
        | .error e => .error e
        | .ok dAtA3 => .ok (dAtA3, i2 - 1)
  else .ok st

/-- Go block that `MarshalToSizedBuffer` repeats for each integer field `x`:
`if x != 0 { i = encodeVarintCommon(dAtA, i, uint64(x)); i--; dAtA[i] = tag }`. -/
def putVarintField (tag : UInt8) (x : Int) (st : List UInt8 × Int) :
    Except Fault (List UInt8 × Int) :=
  if x ≠ 0 then
    match encodeVarintCommon st.1 st.2 (toU64 x) with
    | .error e => .error e
    | .ok (dAtA1, i1) =>
      match setAt dAtA1 (i1 - 1) tag with
      | .error e => .error e
      | .ok dAtA2 => .ok (dAtA2, i1 - 1)
  else .ok st

/-- Go block of `TaskResponse.MarshalToSizedBuffer` for the bool field:
`if m.Completed { i--; dAtA[i] = 1; i--; dAtA[i] = 0x18 }`. -/
def putBoolField (tag : UInt8) (x : Bool) (st : List UInt8 × Int) :
    Except Fault (List UInt8 × Int) :=
  if x then
    match setAt st.1 (st.2 - 1) (if x then 1 else 0) with
    | .error e => .error e
    | .ok dAtA1 =>
      match setAt dAtA1 (st.2 - 1 - 1) tag with
      | .error e => .error e
      | .ok dAtA2 => .ok (dAtA2, st.2 - 1 - 1)
  else .ok st

/-- Go block at the head of `MarshalToSizedBuffer`:
`if m.XXX_unrecognized != nil { i -= len(m.XXX_unrecognized); copy(dAtA[i:],
m.XXX_unrecognized) }`; for an empty slice the block changes nothing. -/
def putUnrecognized (x : List UInt8) (st : List UInt8 × Int) : Except Fault (List UInt8 × Int) :=
  if x ≠ [] then
    match copyAt st.1 (st.2 - (x.length : Int)) x with
    | .error e => .error e
    | .ok dAtA1 => .ok (dAtA1, st.2 - (x.length : Int))
  else .ok st

/-- Go `(*TaskRequest).Size`. -/
def TaskRequest.Size (m : TaskRequest) : Nat :=
  (if m.JobID ≠ 0 then 1 + sovCommon (toU64 m.JobID) else 0)
    + (if m.ParentTaskID.length > 0 then
        1 + m.ParentTaskID.length + sovCommon (m.ParentTaskID.length % 2 ^ 64) else 0)
    + (if m.Type_ ≠ 0 then 1 + sovCommon (toU64 m.Type_) else 0)
    + (if m.PhysicalPlan.length > 0 then
        1 + m.PhysicalPlan.length + sovCommon (m.PhysicalPlan.length % 2 ^ 64) else 0)
    + (if m.Payload.length > 0 then
        1 + m.Payload.length + sovCommon (m.Payload.length % 2 ^ 64) else 0)
    + m.XXX_unrecognized.length

/-- Go `(*TaskResponse).Size`. -/
def TaskResponse.Size (m : TaskResponse) : Nat :=
  (if m.JobID ≠ 0 then 1 + sovCommon (toU64 m.JobID) else 0)
    + (if m.TaskID.length > 0 then
        1 + m.TaskID.length + sovCommon (m.TaskID.length % 2 ^ 64) else 0)
    + (if m.Completed then 2 else 0)
    + (if m.ErrMsg.length > 0 then
        1 + m.ErrMsg.length + sovCommon (m.ErrMsg.length % 2 ^ 64) else 0)
    + (if m.Payload.length > 0 then
        1 + m.Payload.length + sovCommon (m.Payload.length % 2 ^ 64) else 0)
    + m.XXX_unrecognized.length

/-- Go `(*TaskRequest).MarshalToSizedBuffer`: writes the fields from the end of the buffer
backwards and returns the number of bytes written. -/
def TaskRequest.MarshalToSizedBuffer (m : TaskRequest) (dAtA : List UInt8) :
    Except Fault (List UInt8 × Int) :=
  match putUnrecognized m.XXX_unrecognized (dAtA, (dAtA.length : Int)) with
  | .error e => .error e
  | .ok st1 =>
    match putBytesField 0x2a m.Payload st1 with
    | .error e => .error e
    | .ok st2 =>
      match putBytesField 0x22 m.PhysicalPlan st2 with
      | .error e => .error e
      | .ok st3 =>
        match putVarintField 0x18 m.Type_ st3 with
        | .error e => .error e
        | .ok st4 =>
          match putBytesField 0x12 m.ParentTaskID st4 with
          | .error e => .error e
          | .ok st5 =>
            match putVarintField 0x8 m.JobID st5 with
            | .error e => .error e
            | .ok st6 => .ok (st6.1, (dAtA.length : Int) - st6.2)

/-- Go `(*TaskResponse).MarshalToSizedBuffer`. -/
def TaskResponse.MarshalToSizedBuffer (m : TaskResponse) (dAtA : List UInt8) :
    Except Fault (List UInt8 × Int) :=
  match putUnrecognized m.XXX_unrecognized (dAtA, (dAtA.length : Int)) with
  | .error e => .error e
  | .ok st1 =>
    match putBytesField 0x2a m.Payload st1 with
    | .error e => .error e
    | .ok st2 =>
      match putBytesField 0x22 m.ErrMsg st2 with
      | .error e => .error e
      | .ok st3 =>
        match putBoolField 0x18 m.Completed st3 with
        | .error e => .error e
        | .ok st4 =>
          match putBytesField 0x12 m.TaskID st4 with
          | .error e => .error e
          | .ok st5 =>
            match putVarintField 0x8 m.JobID st5 with
            | .error e => .error e
            | .ok st6 => .ok (st6.1, (dAtA.length : Int) - st6.2)

/-- Go slice expression `dAtA[:n]`: panics unless `0 <= n <= len(dAtA)`. -/
def sliceTo (dAtA : List UInt8) (n : Int) : Except Fault (List UInt8) :=
  if n < 0 ∨ (dAtA.length : Int) < n then .error .panic else .ok (dAtA.take n.toNat)

/-- Go `(*TaskRequest).Marshal`: a buffer of `Size()` zero bytes is filled by
`MarshalToSizedBuffer` and cut to the number of bytes written. -/
def TaskRequest.Marshal (m : TaskRequest) : Except Fault (List UInt8) :=
  let size := m.Size
  let dAtA : List UInt8 := List.replicate size 0
  match m.MarshalToSizedBuffer dAtA with
  | .error e => .error e
  | .ok (dAtA1, n) => sliceTo dAtA1 n

/-- Go `(*TaskResponse).Marshal`. -/
def TaskResponse.Marshal (m : TaskResponse) : Except Fault (List UInt8) :=
  let size := m.Size
  let dAtA : List UInt8 := List.replicate size 0
  match m.MarshalToSizedBuffer dAtA with
  | .error e => .error e
  | .ok (dAtA1, n) => sliceTo dAtA1 n

/-- Go slice expression `dAtA[lo:hi]`: panics unless `0 <= lo <= hi <= len(dAtA)`.  (Go
allows `hi` up to the capacity; the length is the bound that holds for every slice.) -/
def sliceBetween (dAtA : List UInt8) (lo hi : Int) : Except Fault (List UInt8) :=
  if 0 ≤ lo ∧ lo ≤ hi ∧ hi ≤ (dAtA.length : Int) then
    .ok ((dAtA.drop lo.toNat).take (hi.toNat - lo.toNat))
  else .error .panic

/-- Go loop that `Unmarshal` and `skipCommon` repeat for the tag and for each varint:
`for shift := uint(0); ; shift += 7 { if shift >= 64 { return ErrIntOverflowCommon };
if iNdEx >= l { return io.ErrUnexpectedEOF }; b := dAtA[iNdEx]; iNdEx++;
x |= T(b&0x7F) << shift; if b < 0x80 { break } }`, for an integer type `T` of `w` bits; the
result is the bit pattern of `x` and the index after the varint.  The shift takes the values
0, 7, .., 63 in ten rounds, which the fuel counts; the next round finds `shift >= 64`. -/
def readVarint (w : Nat) (dAtA : List UInt8) :
    Nat → Nat → Nat → Nat → Except Fault (Nat × Nat)
  | 0, _, _, _ => .error ErrIntOverflowCommon
  | fuel + 1, shift, iNdEx, x =>
    if shift ≥ 64 then .error ErrIntOverflowCommon
    else if iNdEx ≥ dAtA.length then .error ErrUnexpectedEOF
    else
      match dAtA[iNdEx]? with
      | none => .error .panic
      | some b =>
        if b.toNat < 0x80 then
          .ok (x ||| (((b.toNat &&& 0x7F) <<< shift) % 2 ^ w), iNdEx + 1)
        else
          readVarint w dAtA fuel (shift + 7) (iNdEx + 1)
            (x ||| (((b.toNat &&& 0x7F) <<< shift) % 2 ^ w))

/-- Go loop of `skipCommon` for wire type 0: `for shift := uint(0); ; shift += 7 { if shift
>= 64 { return 0, ErrIntOverflowCommon }; if iNdEx >= l { return 0, io.ErrUnexpectedEOF };
iNdEx++; if dAtA[iNdEx-1] < 0x80 { break } }`. -/
def skipVarint (dAtA : List UInt8) : Nat → Nat → Nat → Except Fault Nat
  | 0, _, _ => .error ErrIntOverflowCommon
  | fuel + 1, shift, iNdEx =>
    if shift ≥ 64 then .error ErrIntOverflowCommon
    else if iNdEx ≥ dAtA.length then .error ErrUnexpectedEOF
    else
      match dAtA[iNdEx]? with
      | none => .error .panic
      | some b =>
        if b.toNat < 0x80 then .ok (iNdEx + 1) else skipVarint dAtA fuel (shift + 7) (iNdEx + 1)

mutual

/-- Go `skipCommon(dAtA)`: the length of the field at the head of `dAtA`.  Every branch of
the switch returns, so the outer `for iNdEx < l` runs its body at most once, and the final
`panic("unreachable")` is what an empty `dAtA` reaches.  The fuel bounds the nesting of
groups together with the rounds of the group loop. -/
def skipCommon : Nat → List UInt8 → Except Fault Int
  | 0, _ => .error .panic
  | fuel + 1, dAtA =>
    if 0 < dAtA.length then
      match readVarint 64 dAtA 10 0 0 0 with
      | .error e => .error e
      | .ok (wire, iNdEx) =>
        let wireType := wire &&& 0x7
        if wireType = 0 then
          match skipVarint dAtA 10 0 iNdEx with
          | .error e => .error e
          | .ok iNdEx1 => .ok (iNdEx1 : Int)
        else if wireType = 1 then .ok (wrapAdd iNdEx 8)
        else if wireType = 2 then
          match readVarint 64 dAtA 10 0 iNdEx 0 with
          | .error e => .error e
          | .ok (length, iNdEx1) =>
            if toI64 length < 0 then .error ErrInvalidLengthCommon
            else if wrapAdd iNdEx1 (toI64 length) < 0 then .error ErrInvalidLengthCommon
            else .ok (wrapAdd iNdEx1 (toI64 length))
        else if wireType = 3 then skipGroup fuel dAtA iNdEx
        else if wireType = 4 then .ok (iNdEx : Int)
        else if wireType = 5 then .ok (wrapAdd iNdEx 4)
        else .error (.error "proto: illegal wireType")
    else .error .panic

/-- Go loop of `skipCommon` for wire type 3 (start of a group): `for { start := iNdEx; read
innerWire; if innerWireType == 4 { break }; next, err := skipCommon(dAtA[start:]); iNdEx =
start + next; if iNdEx < 0 { return 0, ErrInvalidLengthCommon } }; return iNdEx, nil`. -/
def skipGroup : Nat → List UInt8 → Nat → Except Fault Int
  | 0, _, _ => .error .panic
  | fuel + 1, dAtA, start =>
    match readVarint 64 dAtA 10 0 start 0 with
    | .error e => .error e
    | .ok (innerWire, iNdEx) =>
      if innerWire &&& 0x7 = 4 then .ok (iNdEx : Int)
      else
        match sliceFrom dAtA start with
        | .error e => .error e
        | .ok rest =>
          match skipCommon fuel rest with
          | .error e => .error e
          | .ok next =>
            if wrapAdd start next < 0 then .error ErrInvalidLengthCommon
            else skipGroup fuel dAtA (wrapAdd start next).toNat

end

/-- Go block that `Unmarshal` repeats for each string and bytes field: the length is read as
a varint; `if byteLen < 0 { return ErrInvalidLengthCommon }; postIndex := iNdEx + byteLen;
if postIndex < 0 { return ErrInvalidLengthCommon }; if postIndex > l { return
io.ErrUnexpectedEOF }`; the field is `dAtA[iNdEx:postIndex]` and `iNdEx = postIndex`. -/
def readBytes (dAtA : List UInt8) (iNdEx : Nat) : Except Fault (List UInt8 × Nat) :=
  match readVarint 64 dAtA 10 0 iNdEx 0 with
  | .error e => .error e
  | .ok (byteLen, iNdEx1) =>
    if toI64 byteLen < 0 then .error ErrInvalidLengthCommon
    else if wrapAdd iNdEx1 (toI64 byteLen) < 0 then .error ErrInvalidLengthCommon
    else if wrapAdd iNdEx1 (toI64 byteLen) > (dAtA.length : Int) then .error ErrUnexpectedEOF
    else
      match sliceBetween dAtA iNdEx1 (wrapAdd iNdEx1 (toI64 byteLen)) with
      | .error e => .error e
      | .ok s => .ok (s, (wrapAdd iNdEx1 (toI64 byteLen)).toNat)

/-- Go default branch of the switch of `Unmarshal`: `iNdEx = preIndex; skippy, err :=
skipCommon(dAtA[iNdEx:])`, the checks on `skippy`, and the skipped bytes, which are appended
to `XXX_unrecognized`, with the index after them. -/
def skipUnknown (dAtA : List UInt8) (preIndex : Nat) : Except Fault (List UInt8 × Nat) :=
  match sliceFrom dAtA preIndex with
  | .error e => .error e
  | .ok rest =>
    match skipCommon (2 * dAtA.length + 2) rest with
    | .error e => .error e
    | .ok skippy =>
      if skippy < 0 then .error ErrInvalidLengthCommon
      else if wrapAdd preIndex skippy < 0 then .error ErrInvalidLengthCommon
      else if wrapAdd preIndex skippy > (dAtA.length : Int) then .error ErrUnexpectedEOF
      else
        match sliceBetween dAtA preIndex (wrapAdd preIndex skippy) with
        | .error e => .error e
        | .ok s => .ok (s, (wrapAdd preIndex skippy).toNat)

/-- Go loop `for iNdEx < l { ... }` of `(*TaskRequest).Unmarshal` with its final check.
Every round reads at least one byte, so `l + 1` rounds always suffice; the fuel counts
them. -/
def TaskRequest.unmarshalLoop (dAtA : List UInt8) :
    Nat → Nat → TaskRequest → Except Fault TaskRequest
  | 0, _, _ => .error .panic
  | fuel + 1, iNdEx, m =>
    if iNdEx < dAtA.length then
      match readVarint 64 dAtA 10 0 iNdEx 0 with
      | .error e => .error e
      | .ok (wire, iNdEx1) =>
        let fieldNum := toI32 (wire >>> 3)
        let wireType := wire &&& 0x7
        if wireType = 4 then
          .error (.error "proto: TaskRequest: wiretype end group for non-group")
        else if fieldNum ≤ 0 then .error (.error "proto: TaskRequest: illegal tag")
        else if fieldNum = 1 then
          if wireType ≠ 0 then .error (.error "proto: wrong wireType for field JobID")
          else
            match readVarint 64 dAtA 10 0 iNdEx1 0 with
            | .error e => .error e
            | .ok (v, iNdEx2) =>
              TaskRequest.unmarshalLoop dAtA fuel iNdEx2
                ⟨toI64 v, m.ParentTaskID, m.Type_, m.PhysicalPlan, m.Payload, m.XXX_unrecognized⟩
        else if fieldNum = 2 then
          if wireType ≠ 2 then .error (.error "proto: wrong wireType for field ParentTaskID")
          else
            match readBytes dAtA iNdEx1 with
            | .error e => .error e
            | .ok (s, iNdEx2) =>
              TaskRequest.unmarshalLoop dAtA fuel iNdEx2
                ⟨m.JobID, s, m.Type_, m.PhysicalPlan, m.Payload, m.XXX_unrecognized⟩
        else if fieldNum = 3 then
          if wireType ≠ 0 then .error (.error "proto: wrong wireType for field Type")
          else
            match readVarint 32 dAtA 10 0 iNdEx1 0 with
            | .error e => .error e
            | .ok (v, iNdEx2) =>
              TaskRequest.unmarshalLoop dAtA fuel iNdEx2
                ⟨m.JobID, m.ParentTaskID, toI32 v, m.PhysicalPlan, m.Payload, m.XXX_unrecognized⟩
        else if fieldNum = 4 then
          if wireType ≠ 2 then .error (.error "proto: wrong wireType for field PhysicalPlan")
          else
            match readBytes dAtA iNdEx1 with
            | .error e => .error e
            | .ok (s, iNdEx2) =>
              TaskRequest.unmarshalLoop dAtA fuel iNdEx2
                ⟨m.JobID, m.ParentTaskID, m.Type_, s, m.Payload, m.XXX_unrecognized⟩
        else if fieldNum = 5 then
          if wireType ≠ 2 then .error (.error "proto: wrong wireType for field Payload")
          else
            match readBytes dAtA iNdEx1 with
            | .error e => .error e
            | .ok (s, iNdEx2) =>
              TaskRequest.unmarshalLoop dAtA fuel iNdEx2
                ⟨m.JobID, m.ParentTaskID, m.Type_, m.PhysicalPlan, s, m.XXX_unrecognized⟩
        else
          match skipUnknown dAtA iNdEx with
          | .error e => .error e
          | .ok (s, iNdEx2) =>
            TaskRequest.unmarshalLoop dAtA fuel iNdEx2
              ⟨m.JobID, m.ParentTaskID, m.Type_, m.PhysicalPlan, m.Payload,
                m.XXX_unrecognized ++ s⟩
    else if iNdEx > dAtA.length then .error ErrUnexpectedEOF
    else .ok m

/-- Go `(*TaskRequest).Unmarshal(dAtA)`: the message `m` after the call, or the error. -/
def TaskRequest.Unmarshal (m : TaskRequest) (dAtA : List UInt8) : Except Fault TaskRequest :=
  TaskRequest.unmarshalLoop dAtA (dAtA.length + 1) 0 m

/-- Go loop `for iNdEx < l { ... }` of `(*TaskResponse).Unmarshal` with its final check. -/
def TaskResponse.unmarshalLoop (dAtA : List UInt8) :
    Nat → Nat → TaskResponse → Except Fault TaskResponse
  | 0, _, _ => .error .panic
  | fuel + 1, iNdEx, m =>
    if iNdEx < dAtA.length then
      match readVarint 64 dAtA 10 0 iNdEx 0 with
      | .error e => .error e
      | .ok (wire, iNdEx1) =>
        let fieldNum := toI32 (wire >>> 3)
        let wireType := wire &&& 0x7
        if wireType = 4 then
          .error (.error "proto: TaskResponse: wiretype end group for non-group")
        else if fieldNum ≤ 0 then .error (.error "proto: TaskResponse: illegal tag")
        else if fieldNum = 1 then
          if wireType ≠ 0 then .error (.error "proto: wrong wireType for field JobID")
          else
            match readVarint 64 dAtA 10 0 iNdEx1 0 with
            | .error e => .error e
            | .ok (v, iNdEx2) =>
              TaskResponse.unmarshalLoop dAtA fuel iNdEx2
                ⟨toI64 v, m.TaskID, m.Completed, m.ErrMsg, m.Payload, m.XXX_unrecognized⟩
        else if fieldNum = 2 then
          if wireType ≠ 2 then .error (.error "proto: wrong wireType for field TaskID")
          else
            match readBytes dAtA iNdEx1 with
            | .error e => .error e
            | .ok (s, iNdEx2) =>
              TaskResponse.unmarshalLoop dAtA fuel iNdEx2
                ⟨m.JobID, s, m.Completed, m.ErrMsg, m.Payload, m.XXX_unrecognized⟩
        else if fieldNum = 3 then
          if wireType ≠ 0 then .error (.error "proto: wrong wireType for field Completed")
          else
            match readVarint 64 dAtA 10 0 iNdEx1 0 with
            | .error e => .error e
            | .ok (v, iNdEx2) =>
              TaskResponse.unmarshalLoop dAtA fuel iNdEx2
                ⟨m.JobID, m.TaskID, decide (v ≠ 0), m.ErrMsg, m.Payload, m.XXX_unrecognized⟩
        else if fieldNum = 4 then
          if wireType ≠ 2 then .error (.error "proto: wrong wireType for field ErrMsg")
          else
            match readBytes dAtA iNdEx1 with
            | .error e => .error e
            | .ok (s, iNdEx2) =>
              TaskResponse.unmarshalLoop dAtA fuel iNdEx2
                ⟨m.JobID, m.TaskID, m.Completed, s, m.Payload, m.XXX_unrecognized⟩
        else if fieldNum = 5 then
          if wireType ≠ 2 then .error (.error "proto: wrong wireType for field Payload")
          else
            match readBytes dAtA iNdEx1 with
            | .error e => .error e
            | .ok (s, iNdEx2) =>
              TaskResponse.unmarshalLoop dAtA fuel iNdEx2
                ⟨m.JobID, m.TaskID, m.Completed, m.ErrMsg, s, m.XXX_unrecognized⟩
        else
          match skipUnknown dAtA iNdEx with
          | .error e => .error e
          | .ok (s, iNdEx2) =>
            TaskResponse.unmarshalLoop dAtA fuel iNdEx2
              ⟨m.JobID, m.TaskID, m.Completed, m.ErrMsg, m.Payload, m.XXX_unrecognized ++ s⟩
    else if iNdEx > dAtA.length then .error ErrUnexpectedEOF
    else .ok m

/-- Go `(*TaskResponse).Unmarshal(dAtA)`: the message `m` after the call, or the error. -/
def TaskResponse.Unmarshal (m : TaskResponse) (dAtA : List UInt8) : Except Fault TaskResponse :=
  TaskResponse.unmarshalLoop dAtA (dAtA.length + 1) 0 m

/-- The varint of `v`: groups of seven bits, the lowest first, each but the last with the
high bit set. -/
def varintBytes (v : Nat) : List UInt8 :=
  if v < 128 then [UInt8.ofNat v] else UInt8.ofNat (v % 128 + 128) :: varintBytes (v / 128)
decreasing_by omega

/-- The wire form of a string or bytes field: nothing when empty, else the tag, the
length as a varint and the bytes. -/
def bytesFieldBytes (tag : UInt8) (x : List UInt8) : List UInt8 :=
  if x.length > 0 then tag :: (varintBytes (x.length % 2 ^ 64) ++ x) else []

/-- The wire form of an integer field: nothing when zero, else the tag and the varint of
the 64-bit pattern. -/
def varintFieldBytes (tag : UInt8) (x : Int) : List UInt8 :=
  if x ≠ 0 then tag :: varintBytes (toU64 x) else []

/-- The wire form of a bool field: nothing when false, else the tag and the byte 1. -/
def boolFieldBytes (tag : UInt8) (x : Bool) : List UInt8 :=
  if x then [tag, 1] else []

/-- The wire form of a `TaskRequest`: the fields in the order of their numbers, then the
unrecognized bytes. -/
def TaskRequest.wire (m : TaskRequest) : List UInt8 :=
  varintFieldBytes 0x8 m.JobID ++ (bytesFieldBytes 0x12 m.ParentTaskID
    ++ (varintFieldBytes 0x18 m.Type_ ++ (bytesFieldBytes 0x22 m.PhysicalPlan
    ++ (bytesFieldBytes 0x2a m.Payload ++ m.XXX_unrecognized))))

/-- The wire form of a `TaskResponse`. -/
def TaskResponse.wire (m : TaskResponse) : List UInt8 :=
  varintFieldBytes 0x8 m.JobID ++ (bytesFieldBytes 0x12 m.TaskID
    ++ (boolFieldBytes 0x18 m.Completed ++ (bytesFieldBytes 0x22 m.ErrMsg
    ++ (bytesFieldBytes 0x2a m.Payload ++ m.XXX_unrecognized))))

/-- A request with a negative job id, a negative type and an empty physical plan. -/
def sampleRequest : TaskRequest :=
  { JobID := -2, ParentTaskID := [0x61, 0x62], Type_ := -1, PhysicalPlan := [],
    Payload := [7, 8, 9], XXX_unrecognized := [] }

/-- A completed response with an error message and no payload. -/
def sampleResponse : TaskResponse :=
  { JobID := 300, TaskID := [0x74], Completed := true, ErrMsg := [0x65, 0x72, 0x72],
    Payload := [], XXX_unrecognized := [] }

/-! ## Lemmas -/

theorem ReadUint16_eq (buf : List UInt8) (p : Nat) (h : p + 2 ≤ buf.length) :
    ReadUint16 buf p = .ok (leU16 buf p) := by
  have h0 : p < buf.length := by omega
  have h1 : p + 1 < buf.length := by omega
  simp [ReadUint16, leU16, List.getD, List.getElem?_eq_getElem, h0, h1]

theorem ReadUint32_eq (buf : List UInt8) (p : Nat) (h : p + 4 ≤ buf.length) :
    ReadUint32 buf p = .ok (leU32 buf p) := by
  have h0 : p < buf.length := by omega
  have h1 : p + 1 < buf.length := by omega
  have h2 : p + 2 < buf.length := by omega
  have h3 : p + 3 < buf.length := by omega
  simp [ReadUint32, leU32, List.getD, List.getElem?_eq_getElem, h0, h1, h2, h3]

theorem initReader_long (env : Env) (r : reader) (h : 20 < r.buf.length) :
    initReader env r =
      if footerFieldMetaStartPos r.buf > footerPos r.buf
          ∨ footerSeriesIDsStartPos r.buf > footerHighOffsetsPos r.buf then
        .error (.error "bad offsets")
      else initBody env r := by
  have hlen : ¬ r.buf.length ≤ dataFooterSize := by simp [dataFooterSize]; omega
  have e1 := ReadUint16_eq r.buf (r.buf.length - dataFooterSize) (by simp [dataFooterSize]; omega)
  have e2 := ReadUint16_eq r.buf (r.buf.length - dataFooterSize + 2)
    (by simp [dataFooterSize]; omega)
  have e3 := ReadUint32_eq r.buf (r.buf.length - dataFooterSize + 4)
    (by simp [dataFooterSize]; omega)
  have e4 := ReadUint32_eq r.buf (r.buf.length - dataFooterSize + 8)
    (by simp [dataFooterSize]; omega)
  have e5 := ReadUint32_eq r.buf (r.buf.length - dataFooterSize + 12)
    (by simp [dataFooterSize]; omega)
  have e6 := ReadUint32_eq r.buf (r.buf.length - dataFooterSize + 16)
    (by simp [dataFooterSize]; omega)
  unfold initReader
  rw [if_neg hlen]
  simp only [e1, e2, e3, e4, e5, e6]
  rfl

/-! ## Theorems -/

/-- C1: a buffer of at most 20 bytes (the footer size) is rejected by `NewReader` with
the error "block length not ok"; no reader is returned. -/
theorem NewReader_short_buffer (env : Env) (path : String) (buf : List UInt8)
    (h : buf.length ≤ 20) :
    NewReader env path buf = .error (.error "block length not ok") := by
  simp [NewReader, initReader, dataFooterSize, h]

theorem sliceFrom_ok {buf sub : List UInt8} {off : Int} (h : sliceFrom buf off = .ok sub) :
    0 ≤ off ∧ off ≤ (buf.length : Int) ∧ sub = buf.drop off.toNat := by
  unfold sliceFrom at h
  split at h
  · rename_i hb
    injection h with h
    exact ⟨hb.1, hb.2, h.symm⟩
  · cases h

theorem sliceFrom_of_le (buf : List UInt8) (off : Int) (h0 : 0 ≤ off)
    (h1 : off ≤ (buf.length : Int)) : sliceFrom buf off = .ok (buf.drop off.toNat) := by
  simp [sliceFrom, h0, h1]

/-- The fresh reader that `NewReader` hands to `initReader`. -/
theorem NewReader_eq (env : Env) (path : String) (buf : List UInt8) :
    NewReader env path buf = initReader env
      { path := path, buf := buf, highOffsets := ⟨[]⟩, seriesIDs := ⟨[]⟩, fields := [],
        crc32CheckSum := 0, start := 0, end_ := 0, readFieldIndexes := [] } := by
  unfold NewReader
  split <;> simp_all

/-- Everything a successful `initBody` has done. -/
theorem initBody_ok {env : Env} {r0 r : reader} (h : initBody env r0 = .ok r) :
    ∃ fieldCount fields sub seriesIDs hsub,
      byteAt r0.buf (footerFieldMetaStartPos r0.buf) = .ok fieldCount ∧
      readFieldMetas r0.buf (footerFieldMetaStartPos r0.buf + 1) fieldCount.toNat = .ok fields ∧
      sliceFrom r0.buf (footerSeriesIDsStartPos r0.buf) = .ok sub ∧
      env.BitmapUnmarshal sub = .ok seriesIDs ∧
      sliceFrom r0.buf (footerHighOffsetsPos r0.buf) = .ok hsub ∧
      r = { r0 with
        start := leU16 r0.buf (footerPos r0.buf), end_ := leU16 r0.buf (footerPos r0.buf + 2),
        crc32CheckSum := footerChecksum r0.buf, fields := fields,
        seriesIDs := seriesIDs, highOffsets := NewFixedOffsetDecoder hsub } := by
  unfold initBody at h
  split at h
  · cases h
  · rename_i fieldCount h1
    split at h
    · cases h
    · rename_i fields h2
      split at h
      · cases h
      · rename_i sub h3
        split at h
        · cases h
        · rename_i seriesIDs h4
          split at h
          · cases h
          · rename_i hsub h5
            injection h with h
            exact ⟨fieldCount, fields, sub, seriesIDs, hsub, h1, h2, h3, h4, h5, h.symm⟩

/-- A successful `NewReader` saw more than 20 bytes, passed the offset check and ran
`initBody`. -/
theorem NewReader_ok {env : Env} {path : String} {buf : List UInt8} {r : reader}
    (h : NewReader env path buf = .ok r) :
    20 < buf.length ∧ footerFieldMetaStartPos buf ≤ footerPos buf ∧
      footerSeriesIDsStartPos buf ≤ footerHighOffsetsPos buf ∧
      initBody env
        { path := path, buf := buf, highOffsets := ⟨[]⟩, seriesIDs := ⟨[]⟩, fields := [],
          crc32CheckSum := 0, start := 0, end_ := 0, readFieldIndexes := [] } = .ok r := by
  rw [NewReader_eq] at h
  by_cases hlen : buf.length ≤ 20
  · simp [initReader, dataFooterSize, hlen] at h
  · have hlen2 : 20 < buf.length := by omega
    rw [initReader_long env _ hlen2] at h
    split at h
    · cases h
    · rename_i hc
      simp only [not_or, not_lt] at hc
      exact ⟨hlen2, hc.1, hc.2, h⟩

/-- C2: a buffer longer than 20 bytes whose footer declares a series-ID-set offset greater
than its high-offset-index offset is rejected by `NewReader` with the error "bad offsets";
no reader is returned. -/
theorem NewReader_seriesIDs_after_highOffsets (env : Env) (path : String) (buf : List UInt8)
    (hlen : 20 < buf.length) (h : footerSeriesIDsStartPos buf > footerHighOffsetsPos buf) :
    NewReader env path buf = .error (.error "bad offsets") := by
  rw [NewReader_eq, initReader_long env _ hlen]
  simp [h]

/-- C3 (as amended): whenever `NewReader` succeeds, the buffer is longer than 20 bytes, the
field-catalogue offset is at most `len - 20`, and the series-ID-set offset is at most the
high-offset-index offset, which is at most `len`. -/
theorem NewReader_ok_offsets (env : Env) (path : String) (buf : List UInt8) (r : reader)
    (h : NewReader env path buf = .ok r) :
    20 < buf.length ∧ footerFieldMetaStartPos buf ≤ buf.length - 20 ∧
      footerSeriesIDsStartPos buf ≤ footerHighOffsetsPos buf ∧
      footerHighOffsetsPos buf ≤ buf.length := by
  obtain ⟨hlen, hfm, hsh, hbody⟩ := NewReader_ok h
  obtain ⟨_, _, _, _, _, _, _, _, _, h5, _⟩ := initBody_ok hbody
  have hb := sliceFrom_ok h5
  refine ⟨hlen, hfm, hsh, ?_⟩
  have := hb.2.1
  simp only at this
  exact_mod_cast this

/-- Witness for C1: the 20 bytes of a bare footer are rejected. -/
theorem NewReader_short_buffer_witness :
    (sampleFooter 5 10 3 8 28).length ≤ 20 ∧
      NewReader refEnv "blk" (sampleFooter 5 10 3 8 28) = .error (.error "block length not ok") :=
  ⟨by decide, NewReader_short_buffer refEnv "blk" (sampleFooter 5 10 3 8 28) (by decide)⟩

/-- Witness for C2: a 21-byte block declaring the series-ID set at 9 and the high-offset
index at 1. -/
theorem NewReader_seriesIDs_after_highOffsets_witness :
    NewReader refEnv "blk" ([0] ++ sampleFooter 5 10 0 9 1) = .error (.error "bad offsets") :=
  NewReader_seriesIDs_after_highOffsets refEnv "blk" ([0] ++ sampleFooter 5 10 0 9 1)
    (by decide) (by decide)

/-- C3 (counterexample): `NewReader` accepts the 43-byte block `unorderedBlock`, whose
footer declares the catalogue at 20, the series-ID set at 0 and the high-offset index at
43: the catalogue offset exceeds the series-ID-set offset and the high-offset-index offset
exceeds `len - 20 = 23`. -/
theorem NewReader_accepts_unordered_offsets :
    NewReader refEnv "blk" unorderedBlock = .ok unorderedReader ∧
      ¬ (footerFieldMetaStartPos unorderedBlock ≤ footerSeriesIDsStartPos unorderedBlock ∧
          footerSeriesIDsStartPos unorderedBlock ≤ footerHighOffsetsPos unorderedBlock ∧
          footerHighOffsetsPos unorderedBlock ≤ unorderedBlock.length - 20) := by
  refine ⟨rfl, ?_⟩
  decide

/-- Witness for C3 (as amended): the well-formed 50-byte block. -/
theorem NewReader_ok_offsets_witness :
    NewReader refEnv "blk" sampleBlock = .ok sampleReader ∧
      (20 < sampleBlock.length ∧ footerFieldMetaStartPos sampleBlock ≤ sampleBlock.length - 20 ∧
        footerSeriesIDsStartPos sampleBlock ≤ footerHighOffsetsPos sampleBlock ∧
        footerHighOffsetsPos sampleBlock ≤ sampleBlock.length) :=
  ⟨rfl, NewReader_ok_offsets refEnv "blk" sampleBlock sampleReader rfl⟩

/-- C4 (the code at the failing inputs): whatever the codecs, `NewReader` panics with an
out-of-range access, returning neither a reader nor an error, on the 21-byte block whose
catalogue declares 255 fields and on the 21-byte block that declares the series-ID set at
offset 100; with the reference codecs it also panics on the 41-byte block that declares
the high-offset index at offset 100. -/
theorem NewReader_panics_on_corrupt_block (env : Env) (path : String) :
    NewReader env path overlongCatalogueBlock = .error .panic ∧
      NewReader env path farSeriesIDsBlock = .error .panic ∧
      NewReader refEnv "blk" farHighOffsetsBlock = .error .panic :=
  ⟨rfl, rfl, rfl⟩

/-- C10: when `NewReader` succeeds, `GetTimeRange` returns the little-endian 16-bit value
of the two bytes at `len - 20` as start and that of the two bytes at `len - 18` as end; so
a footer that begins with the two little-endian bytes of `s` and then of `e` (both below
65536) reopens with the time range `(s, e)`. -/
theorem GetTimeRange_footer (env : Env) (path : String) (buf : List UInt8) (r : reader)
    (h : NewReader env path buf = .ok r) :
    (∃ b0 b1 b2 b3, buf[buf.length - 20]? = some b0 ∧ buf[buf.length - 19]? = some b1 ∧
        buf[buf.length - 18]? = some b2 ∧ buf[buf.length - 17]? = some b3 ∧
        r.GetTimeRange = (b0.toNat + 256 * b1.toNat, b2.toNat + 256 * b3.toNat)) ∧
      ∀ s e, s < 65536 → e < 65536 →
        (buf.drop (buf.length - 20)).take 4 = slotBytes s ++ slotBytes e →
        r.GetTimeRange = (s, e) := by
  obtain ⟨hlen, -, -, hbody⟩ := NewReader_ok h
  obtain ⟨_, _, _, _, _, -, -, -, -, -, hr⟩ := initBody_ok hbody
  have hrange : r.GetTimeRange = (leU16 buf (buf.length - 20), leU16 buf (buf.length - 18)) := by
    subst hr
    simp only [reader.GetTimeRange, footerPos, dataFooterSize]
    have : buf.length - 20 + 2 = buf.length - 18 := by omega
    rw [this]
  have e19 : buf.length - 20 + 1 = buf.length - 19 := by omega
  have e17 : buf.length - 18 + 1 = buf.length - 17 := by omega
  have h0 : buf.length - 20 < buf.length := by omega
  have h1 : buf.length - 19 < buf.length := by omega
  have h2 : buf.length - 18 < buf.length := by omega
  have h3 : buf.length - 17 < buf.length := by omega
  have hval : r.GetTimeRange = ((buf[buf.length - 20]).toNat + 256 * (buf[buf.length - 19]).toNat,
      (buf[buf.length - 18]).toNat + 256 * (buf[buf.length - 17]).toNat) := by
    rw [hrange]
    simp [leU16, e19, e17, List.getD, List.getElem?_eq_getElem, h0, h1, h2, h3]
  refine ⟨⟨buf[buf.length - 20], buf[buf.length - 19], buf[buf.length - 18],
    buf[buf.length - 17], ?_, ?_, ?_, ?_, hval⟩, ?_⟩
  · exact List.getElem?_eq_getElem h0
  · exact List.getElem?_eq_getElem h1
  · exact List.getElem?_eq_getElem h2
  · exact List.getElem?_eq_getElem h3
  · intro s e hs he hbytes
    have hd : ∀ k, k < 4 → ((buf.drop (buf.length - 20)).take 4)[k]? = buf[buf.length - 20 + k]? := by
      intro k hk
      rw [List.getElem?_take_of_lt hk, List.getElem?_drop]
    have g0 := hd 0 (by omega)
    have g1 := hd 1 (by omega)
    have g2 := hd 2 (by omega)
    have g3 := hd 3 (by omega)
    rw [hbytes] at g0 g1 g2 g3
    have e18 : buf.length - 20 + 2 = buf.length - 18 := by omega
    have e17b : buf.length - 20 + 3 = buf.length - 17 := by omega
    simp only [slotBytes, List.cons_append, List.nil_append, Nat.add_zero, e19, e18, e17b,
      List.getElem?_eq_getElem h0, List.getElem?_eq_getElem h1, List.getElem?_eq_getElem h2,
      List.getElem?_eq_getElem h3] at g0 g1 g2 g3
    simp at g0 g1 g2 g3
    rw [hval, ← g0, ← g1, ← g2, ← g3]
    have m1 : s / 256 % 256 = s / 256 := Nat.mod_eq_of_lt (by omega)
    have m2 : e / 256 % 256 = e / 256 := Nat.mod_eq_of_lt (by omega)
    simp [UInt8.toNat, UInt8.ofNat, Fin.ofNat, m1, m2]
    constructor <;> omega

/-- Witness for C10: the well-formed block, whose footer starts with the slots 5 and 10. -/
theorem GetTimeRange_footer_witness :
    NewReader refEnv "blk" sampleBlock = .ok sampleReader ∧ sampleReader.GetTimeRange = (5, 10) :=
  ⟨rfl, (GetTimeRange_footer refEnv "blk" sampleBlock sampleReader rfl).2 5 10 (by decide)
    (by decide) (by decide)⟩

/-! ## Lemmas on the series-ID set -/

theorem GetContainerIndex_neg_iff (b : Bitmap) (key : Nat) :
    b.GetContainerIndex key < 0 ↔ key ∉ b.GetHighKeys := by
  unfold Bitmap.GetContainerIndex
  have hl : b.entries.length = b.GetHighKeys.length := by simp [Bitmap.GetHighKeys]
  simp only [hl, List.indexOf_lt_length]
  split <;> simp_all

theorem lookup_indexOf (l : List (Nat × Container)) (key : Nat) (c : Container)
    (h : l.lookup key = some c) :
    (l.map Prod.fst).indexOf key < l.length ∧ l[(l.map Prod.fst).indexOf key]? = some (key, c) := by
  induction l with
  | nil => simp at h
  | cons e rest ih =>
    obtain ⟨k, v⟩ := e
    by_cases hk : key = k
    · subst hk
      simp [List.lookup] at h
      subst h
      simp
    · have hk2 : (key == k) = false := by simpa using hk
      simp only [List.lookup, hk2] at h
      have := ih h
      have hne : ¬ k = key := fun e => hk e.symm
      have h2 := this.2
      rw [List.getElem?_eq_getElem this.1] at h2
      simp only [Option.some.injEq] at h2
      simp [List.indexOf_cons, hne, this.1, h2]

theorem GetContainer_of_containerFor (b : Bitmap) (key : Nat) (c : Container)
    (h : b.containerFor key = some c) :
    ¬ b.GetContainerIndex key < 0 ∧ b.GetContainerAtIndex (b.GetContainerIndex key) = .ok c := by
  have hl := lookup_indexOf b.entries key c h
  have hidx : b.GetContainerIndex key = ((b.entries.map Prod.fst).indexOf key : Nat) := by
    simp [Bitmap.GetContainerIndex, Bitmap.GetHighKeys, hl.1]
  rw [hidx]
  refine ⟨by omega, ?_⟩
  have hn : ¬ (((b.entries.map Prod.fst).indexOf key : Nat) : Int) < 0 := by omega
  simp only [Bitmap.GetContainerAtIndex, hn, if_false, Int.toNat_ofNat, hl.2]

theorem containerFor_isSome_iff (b : Bitmap) (key : Nat) :
    (∃ c, b.containerFor key = some c) ↔ key ∈ b.GetHighKeys := by
  unfold Bitmap.containerFor Bitmap.GetHighKeys
  induction b.entries with
  | nil => simp
  | cons e rest ih =>
    obtain ⟨k, v⟩ := e
    by_cases hk : key = k
    · subst hk
      simp [List.lookup]
    · have hk2 : (key == k) = false := by simpa using hk
      simp only [List.lookup, hk2, List.map_cons, List.mem_cons, hk, false_or]
      exact ih

theorem And_card_eq_zero_iff (c other : Container) :
    (Container.And c other).GetCardinality = 0 ↔ ∀ x ∈ c, x ∉ other := by
  simp [Container.And, Container.GetCardinality, List.filter_eq_nil_iff]

/-! ## Lemmas on `prepare` -/

theorem fieldMap_append (fields : List Meta) (m : Meta) (id : Nat) :
    fieldMap (fields ++ [m]) id = if id = m.ID then some fields.length else fieldMap fields id := by
  simp [fieldMap, List.enum_append, List.foldl_append, List.enumFrom]

theorem fieldMap_eq_none_iff (fields : List Meta) (id : Nat) :
    fieldMap fields id = none ↔ id ∉ fields.map Meta.ID := by
  induction fields using List.reverseRecOn with
  | nil => simp [fieldMap]
  | append_singleton l m ih =>
    rw [fieldMap_append]
    by_cases h : id = m.ID
    · simp [h]
    · simp [h, ih]

theorem fieldMap_some (fields : List Meta) (id p : Nat) (h : fieldMap fields id = some p) :
    ∃ m, fields[p]? = some m ∧ m.ID = id := by
  induction fields using List.reverseRecOn with
  | nil => simp [fieldMap] at h
  | append_singleton l m ih =>
    rw [fieldMap_append] at h
    by_cases hid : id = m.ID
    · simp [hid] at h
      subst h
      exact ⟨m, by simp, hid.symm⟩
    · simp [hid] at h
      obtain ⟨m1, h1, h2⟩ := ih h
      refine ⟨m1, ?_, h2⟩
      have hp : p < l.length := by
        by_contra hc
        rw [List.getElem?_eq_none (by omega)] at h1
        cases h1
      rw [List.getElem?_append_left hp]
      exact h1

theorem prepareLoop_ok {B : Type} (fields : List Meta) (familyTime : Int)
    (aggregator : ContainerAggregator B) :
    ∀ (fieldIDs : List Nat) (idx : Nat) (rfi : List Nat) (aggs : List (fieldAggregator B))
      (res : List (fieldAggregator B) × List Nat),
      prepareLoop fields familyTime aggregator idx fieldIDs rfi aggs = .ok res →
      ∃ a p, res = (aggs ++ a, rfi ++ p) ∧
        List.Forall₂ (fun q x => fields[q]? = some x.fieldMeta) p a ∧
        a.map (fun x => (x.fieldMeta.ID, x.block))
          = resolvedRequests fields familyTime aggregator idx fieldIDs := by
  intro fieldIDs
  induction fieldIDs with
  | nil =>
    intro idx rfi aggs res h
    simp only [prepareLoop] at h
    injection h with h
    exact ⟨[], [], by simp [h.symm], List.Forall₂.nil, by simp [resolvedRequests]⟩
  | cons id rest ih =>
    intro idx rfi aggs res h
    rw [prepareLoop] at h
    cases hm : fieldMap fields id with
    | none =>
      simp only [hm] at h
      obtain ⟨a, p, h1, h2, h3⟩ := ih _ _ _ _ h
      have hid : id ∉ fields.map Meta.ID := (fieldMap_eq_none_iff fields id).1 hm
      exact ⟨a, p, h1, h2, by simp only [resolvedRequests, hid, if_false]; exact h3⟩
    | some q =>
      simp only [hm] at h
      have hid : id ∈ fields.map Meta.ID := by
        by_contra hc
        rw [(fieldMap_eq_none_iff fields id).2 hc] at hm
        cases hm
      cases ha : aggregator[idx]? with
      | none => simp only [ha] at h; cases h
      | some fa =>
        simp only [ha] at h
        cases hb : fa familyTime with
        | none =>
          simp only [hb] at h
          obtain ⟨a, p, h1, h2, h3⟩ := ih _ _ _ _ h
          refine ⟨a, p, h1, h2, ?_⟩
          simp only [resolvedRequests, hid, if_true, ha, Option.some_bind, hb]
          exact h3
        | some block =>
          simp only [hb] at h
          cases hf : fields[q]? with
          | none => simp only [hf] at h; cases h
          | some m =>
            simp only [hf] at h
            obtain ⟨a, p, h1, h2, h3⟩ := ih _ _ _ _ h
            obtain ⟨m1, hm1, hm2⟩ := fieldMap_some fields id q hm
            rw [hf] at hm1
            injection hm1 with hm1
            subst hm1
            refine ⟨newFieldAggregator m block :: a, q :: p, ?_, ?_, ?_⟩
            · simp [h1]
            · exact List.Forall₂.cons hf h2
            · simp only [resolvedRequests, hid, if_true, ha, Option.some_bind, hb, List.map_cons,
                newFieldAggregator, hm2]
              rw [h3]

theorem prepareLoop_total {B : Type} (fields : List Meta) (familyTime : Int)
    (aggregator : ContainerAggregator B) :
    ∀ (fieldIDs : List Nat) (idx : Nat) (rfi : List Nat) (aggs : List (fieldAggregator B)),
      idx + fieldIDs.length ≤ aggregator.length →
      ∃ res, prepareLoop fields familyTime aggregator idx fieldIDs rfi aggs = .ok res := by
  intro fieldIDs
  induction fieldIDs with
  | nil =>
    intro idx rfi aggs _
    exact ⟨_, rfl⟩
  | cons id rest ih =>
    intro idx rfi aggs hlen
    simp only [List.length_cons] at hlen
    rw [prepareLoop]
    cases hm : fieldMap fields id with
    | none => exact ih _ _ _ (by omega)
    | some q =>
      have hidx : idx < aggregator.length := by omega
      simp only [List.getElem?_eq_getElem hidx]
      cases hb : aggregator[idx] familyTime with
      | none => exact ih _ _ _ (by omega)
      | some block =>
        obtain ⟨m, hm1, _⟩ := fieldMap_some fields id q hm
        simp only [hm1]
        exact ih _ _ _ (by omega)

theorem prepareLoop_none {B : Type} (fields : List Meta) (familyTime : Int)
    (aggregator : ContainerAggregator B) :
    ∀ (fieldIDs : List Nat) (idx : Nat) (rfi : List Nat) (aggs : List (fieldAggregator B)),
      (∀ k id, fieldIDs[k]? = some id →
        id ∉ fields.map Meta.ID ∨ ∃ fa, aggregator[idx + k]? = some fa ∧ fa familyTime = none) →
      prepareLoop fields familyTime aggregator idx fieldIDs rfi aggs = .ok (aggs, rfi) := by
  intro fieldIDs
  induction fieldIDs with
  | nil =>
    intro idx rfi aggs _
    rfl
  | cons id rest ih =>
    intro idx rfi aggs hres
    have hrest : ∀ k id1, rest[k]? = some id1 →
        id1 ∉ fields.map Meta.ID
          ∨ ∃ fa, aggregator[idx + 1 + k]? = some fa ∧ fa familyTime = none := by
      intro k id1 hk
      have := hres (k + 1) id1 (by simpa using hk)
      have e : idx + (k + 1) = idx + 1 + k := by omega
      rwa [e] at this
    rw [prepareLoop]
    rcases hres 0 id (by simp) with hnot | ⟨fa, hfa, hnone⟩
    · rw [(fieldMap_eq_none_iff fields id).2 hnot]
      exact ih _ _ _ hrest
    · cases hm : fieldMap fields id with
      | none => exact ih _ _ _ hrest
      | some q =>
        simp only [Nat.add_zero] at hfa
        simp only [hfa, hnone]
        exact ih _ _ _ hrest

theorem prepare_ok {B : Type} {r r1 : reader} {familyTime : Int} {fieldIDs : List Nat}
    {aggregator : ContainerAggregator B} {aggs : List (fieldAggregator B)}
    (h : r.prepare familyTime fieldIDs aggregator = .ok (aggs, r1)) :
    ∃ p, r1 = { r with readFieldIndexes := r.readFieldIndexes ++ p } ∧
      List.Forall₂ (fun q x => r.fields[q]? = some x.fieldMeta) p aggs ∧
      aggs.map (fun x => (x.fieldMeta.ID, x.block))
        = resolvedRequests r.fields familyTime aggregator 0 fieldIDs := by
  unfold reader.prepare at h
  split at h
  · cases h
  · rename_i a rfi hl
    obtain ⟨a1, p, h1, h2, h3⟩ := prepareLoop_ok _ _ _ _ _ _ _ _ hl
    simp only [List.nil_append, Prod.mk.injEq] at h1
    injection h with h
    simp only [Prod.mk.injEq] at h
    obtain ⟨ha, hr⟩ := h
    subst ha
    obtain ⟨h1a, h1b⟩ := h1
    subst h1a
    exact ⟨p, by rw [← hr, h1b], h2, h3⟩

/-- The steps of `Load` once the container for the high key is known. -/
theorem Load_of_containerFor {B : Type} (env : Env) (r : reader) (queryFlow : StorageQueryFlow B)
    (familyTime : Int) (fieldIDs : List Nat) (highKey : Nat) (seriesID c : Container)
    (hc : r.seriesIDs.containerFor highKey = some c) :
    r.Load env queryFlow familyTime fieldIDs highKey seriesID =
      if (Container.And c seriesID).GetCardinality = 0 then .ok (none, r) else
        match sliceFrom r.buf (env.Get r.highOffsets (r.seriesIDs.GetContainerIndex highKey)).1 with
        | .error e => .error e
        | .ok sub =>
          match r.prepare familyTime fieldIDs (queryFlow highKey) with
          | .error e => .error e
          | .ok (fieldAggs, r1) =>
            if fieldAggs.length = 0 then .ok (none, r1) else
              .ok (some (newMetricScanner fieldAggs c (NewFixedOffsetDecoder sub)), r1) := by
  obtain ⟨h1, h2⟩ := GetContainer_of_containerFor _ _ _ hc
  unfold reader.Load
  simp only [h1, if_false, h2]

/-- C5 (as amended): a `Load` that returns leaves every part of the reader other than the
recorded read-field positions as it was, and a `Load` that returns absent leaves the
reader, recorded positions included, equal to its state before the call. -/
theorem Load_frame {B : Type} (env : Env) (r r1 : reader) (queryFlow : StorageQueryFlow B)
    (familyTime : Int) (fieldIDs : List Nat) (highKey : Nat) (seriesID : Container)
    (sc : Option (metricScanner B))
    (h : r.Load env queryFlow familyTime fieldIDs highKey seriesID = .ok (sc, r1)) :
    r1 = { r with readFieldIndexes := r1.readFieldIndexes } ∧ (sc = none → r1 = r) := by
  unfold reader.Load at h
  simp only at h
  split at h
  · injection h with h
    simp only [Prod.mk.injEq] at h
    obtain ⟨_, hr⟩ := h
    subst hr
    exact ⟨rfl, fun _ => rfl⟩
  · split at h
    · cases h
    · split at h
      · injection h with h
        simp only [Prod.mk.injEq] at h
        obtain ⟨_, hr⟩ := h
        subst hr
        exact ⟨rfl, fun _ => rfl⟩
      · split at h
        · cases h
        · split at h
          · cases h
          · rename_i fieldAggs r2 hprep
            obtain ⟨p, hp, hf, _⟩ := prepare_ok hprep
            split at h
            · rename_i hlen
              injection h with h
              simp only [Prod.mk.injEq] at h
              obtain ⟨_, hr⟩ := h
              subst hr
              have hnil : fieldAggs = [] := List.length_eq_zero.1 hlen
              subst hnil
              cases hf
              simp only [List.append_nil] at hp
              exact ⟨by rw [hp], fun _ => hp⟩
            · injection h with h
              simp only [Prod.mk.injEq] at h
              obtain ⟨hs, hr⟩ := h
              subst hr
              subst hs
              exact ⟨by rw [hp], fun hn => by cases hn⟩

/-- C5 (counterexample): on the reader opened from the well-formed block, the call
`Load(flow, 0, [1], 0, {1})` returns a scanner and leaves the reader with the recorded
read-field positions `[0]` where they were empty before, so the reader has changed. -/
theorem Load_changes_reader :
    NewReader refEnv "blk" sampleBlock = .ok sampleReader ∧
      sampleReader.Load refEnv sampleFlow 0 [1] 0 [1] =
        .ok (some (newMetricScanner [⟨⟨1, 1⟩, 7⟩] [1, 2] (NewFixedOffsetDecoder sampleBlock)),
          { sampleReader with readFieldIndexes := [0] }) ∧
      ({ sampleReader with readFieldIndexes := [0] } : reader) ≠ sampleReader := by
  refine ⟨rfl, rfl, ?_⟩
  intro h
  have := congrArg reader.readFieldIndexes h
  simp [sampleReader, sampleReaderWith] at this

/-- Witness for C5 (as amended): the same call on the well-formed block. -/
theorem Load_frame_witness :
    sampleReader.Load refEnv sampleFlow 0 [1] 0 [1] =
        .ok (some (newMetricScanner [⟨⟨1, 1⟩, 7⟩] [1, 2] (NewFixedOffsetDecoder sampleBlock)),
          { sampleReader with readFieldIndexes := [0] }) ∧
      (({ sampleReader with readFieldIndexes := [0] } : reader) =
          { sampleReader with readFieldIndexes := [0] } ∧
        ((some (newMetricScanner [⟨⟨1, 1⟩, 7⟩] [1, 2] (NewFixedOffsetDecoder sampleBlock))
            : Option (metricScanner Nat)) = none →
          ({ sampleReader with readFieldIndexes := [0] } : reader) = sampleReader)) :=
  ⟨rfl, Load_frame refEnv sampleReader _ sampleFlow 0 [1] 0 [1] _ rfl⟩

/-- C6 (as amended): when the series-ID set stores the container `c` for the high key, `c`
has a member in the caller's container, at least one requested field resolves (`prepare`
returns a non-empty list), and the byte offset that the high-offset index returns for the
container's rank lies within the buffer, `Load` returns a scanner built over `c` itself
(not its intersection with the caller's container), the resolved field aggregators, and
the offset index decoded at that byte offset. -/
theorem Load_scanner {B : Type} (env : Env) (r r1 : reader) (queryFlow : StorageQueryFlow B)
    (familyTime : Int) (fieldIDs : List Nat) (highKey : Nat) (seriesID c : Container)
    (fieldAggs : List (fieldAggregator B))
    (hc : r.seriesIDs.containerFor highKey = some c)
    (hne : ∃ x ∈ c, x ∈ seriesID)
    (hprep : r.prepare familyTime fieldIDs (queryFlow highKey) = .ok (fieldAggs, r1))
    (hres : fieldAggs ≠ [])
    (hoff : 0 ≤ (env.Get r.highOffsets (r.seriesIDs.GetContainerIndex highKey)).1 ∧
      (env.Get r.highOffsets (r.seriesIDs.GetContainerIndex highKey)).1 ≤ (r.buf.length : Int)) :
    r.Load env queryFlow familyTime fieldIDs highKey seriesID =
      .ok (some (newMetricScanner fieldAggs c (NewFixedOffsetDecoder (r.buf.drop
        (env.Get r.highOffsets (r.seriesIDs.GetContainerIndex highKey)).1.toNat))), r1) := by
  rw [Load_of_containerFor env r queryFlow familyTime fieldIDs highKey seriesID c hc]
  have hcard : ¬ (Container.And c seriesID).GetCardinality = 0 := by
    rw [And_card_eq_zero_iff]
    obtain ⟨x, hx1, hx2⟩ := hne
    exact fun hall => hall x hx1 hx2
  have hlen : ¬ fieldAggs.length = 0 := fun h0 => hres (List.length_eq_zero.1 h0)
  simp only [hcard, if_false, sliceFrom_of_le _ _ hoff.1 hoff.2, hprep, hlen]

/-- C6 (counterexample): the block `corruptHighOffsetBlock` opens; its series-ID set has the
container {1, 2} for high key 0, which meets the caller's container {1}, and the requested
field 1 resolves; yet `Load` panics, because the high-offset index holds the offset 200 for
rank 0 and the buffer has 50 bytes. -/
theorem Load_panics_on_corrupt_high_offset :
    NewReader refEnv "blk" corruptHighOffsetBlock = .ok corruptHighOffsetReader ∧
      corruptHighOffsetReader.seriesIDs.containerFor 0 = some [1, 2] ∧
      Container.And [1, 2] [1] = [1] ∧
      corruptHighOffsetReader.prepare 0 [1] (sampleFlow 0) =
        .ok ([⟨⟨1, 1⟩, 7⟩], { corruptHighOffsetReader with readFieldIndexes := [0] }) ∧
      refEnv.Get corruptHighOffsetReader.highOffsets 0 = (200, true) ∧
      corruptHighOffsetReader.Load refEnv sampleFlow 0 [1] 0 [1] = .error .panic :=
  ⟨rfl, rfl, rfl, rfl, rfl, rfl⟩

/-- Witness for C6 (as amended): on the well-formed block the scanner holds the stored
container {1, 2}, not its intersection {1} with the caller's container. -/
theorem Load_scanner_witness :
    sampleReader.Load refEnv sampleFlow 0 [2, 1] 0 [1] =
      .ok (some (newMetricScanner [⟨⟨2, 1⟩, 7⟩, ⟨⟨1, 1⟩, 8⟩] [1, 2]
        (NewFixedOffsetDecoder (sampleReader.buf.drop
          (refEnv.Get sampleReader.highOffsets
            (sampleReader.seriesIDs.GetContainerIndex 0)).1.toNat))),
        { sampleReader with readFieldIndexes := [1, 0] }) :=
  Load_scanner refEnv sampleReader _ sampleFlow 0 [2, 1] 0 [1] [1, 2] _ rfl
    ⟨1, by decide, by decide⟩ rfl (by simp) (by decide)

/-- Without a container for the high key `Load` returns absent at its first step. -/
theorem Load_no_container {B : Type} (env : Env) (r : reader) (queryFlow : StorageQueryFlow B)
    (familyTime : Int) (fieldIDs : List Nat) (highKey : Nat) (seriesID : Container)
    (h : highKey ∉ r.seriesIDs.GetHighKeys) :
    r.Load env queryFlow familyTime fieldIDs highKey seriesID = .ok (none, r) := by
  have := (GetContainerIndex_neg_iff r.seriesIDs highKey).2 h
  simp only [reader.Load, this, if_true]

/-- C7: `Load` returns absent, leaving the reader as it was, whenever the series-ID set has
no container for the high key, and whenever the container it stores for the high key has
no member in common with the caller's container; this holds for every query flow, family
time and field list. -/
theorem Load_absent_without_series {B : Type} (env : Env) (r : reader)
    (queryFlow : StorageQueryFlow B) (familyTime : Int) (fieldIDs : List Nat) (highKey : Nat)
    (seriesID : Container)
    (h : highKey ∉ r.seriesIDs.GetHighKeys ∨
      ∃ c, r.seriesIDs.containerFor highKey = some c ∧ ∀ x ∈ c, x ∉ seriesID) :
    r.Load env queryFlow familyTime fieldIDs highKey seriesID = .ok (none, r) := by
  rcases h with h | ⟨c, hc, hall⟩
  · exact Load_no_container env r queryFlow familyTime fieldIDs highKey seriesID h
  · rw [Load_of_containerFor env r queryFlow familyTime fieldIDs highKey seriesID c hc]
    simp only [(And_card_eq_zero_iff c seriesID).2 hall, if_true]

/-- Witness for C7: the well-formed block has no container for high key 3, and its
container {1, 2} for high key 0 has no member in common with {5}. -/
theorem Load_absent_without_series_witness :
    sampleReader.Load refEnv sampleFlow 0 [1, 2] 3 [1, 2] = .ok (none, sampleReader) ∧
      sampleReader.Load refEnv sampleFlow 0 [1, 2] 0 [5] = .ok (none, sampleReader) :=
  ⟨Load_absent_without_series refEnv sampleReader sampleFlow 0 [1, 2] 3 [1, 2]
      (Or.inl (by decide)),
    Load_absent_without_series refEnv sampleReader sampleFlow 0 [1, 2] 0 [5]
      (Or.inr ⟨[1, 2], rfl, by decide⟩)⟩

/-- C8 (as amended): when every requested field id is either missing from the catalogue or
has a field aggregate at its request position that yields no sink for the family time (an
empty request list included), and the byte offset that the high-offset index returns for
the rank of the high key's container lies within the buffer, `Load` returns absent,
whether or not the series intersection is empty. -/
theorem Load_absent_without_field {B : Type} (env : Env) (r : reader)
    (queryFlow : StorageQueryFlow B) (familyTime : Int) (fieldIDs : List Nat) (highKey : Nat)
    (seriesID : Container)
    (hres : ∀ (k id : Nat), fieldIDs[k]? = some id →
      id ∉ r.fields.map Meta.ID
        ∨ ∃ fa : Int → Option B, (queryFlow highKey)[k]? = some fa ∧ fa familyTime = none)
    (hoff : 0 ≤ (env.Get r.highOffsets (r.seriesIDs.GetContainerIndex highKey)).1 ∧
      (env.Get r.highOffsets (r.seriesIDs.GetContainerIndex highKey)).1 ≤ (r.buf.length : Int)) :
    r.Load env queryFlow familyTime fieldIDs highKey seriesID = .ok (none, r) := by
  by_cases hk : highKey ∈ r.seriesIDs.GetHighKeys
  · obtain ⟨c, hc⟩ := (containerFor_isSome_iff r.seriesIDs highKey).2 hk
    rw [Load_of_containerFor env r queryFlow familyTime fieldIDs highKey seriesID c hc]
    have hloop := prepareLoop_none r.fields familyTime (queryFlow highKey) fieldIDs 0
      r.readFieldIndexes [] (by simpa using hres)
    have hprep : r.prepare familyTime fieldIDs (queryFlow highKey) = .ok ([], r) := by
      simp only [reader.prepare, hloop]
    simp only [sliceFrom_of_le _ _ hoff.1 hoff.2, hprep, List.length_nil, if_true, ite_self]
  · exact Load_no_container env r queryFlow familyTime fieldIDs highKey seriesID hk

/-- C8 (counterexample): on the reader opened from `corruptHighOffsetBlock`, whose
high-offset index holds the offset 200 for rank 0 in a buffer of 50 bytes, no requested
field resolves for the empty request list nor for the request `[9]` (9 is not in the
catalogue), and `Load` panics instead of returning absent. -/
theorem Load_panics_without_field :
    NewReader refEnv "blk" corruptHighOffsetBlock = .ok corruptHighOffsetReader ∧
      corruptHighOffsetReader.fields.map Meta.ID = [1, 2] ∧
      corruptHighOffsetReader.Load refEnv sampleFlow 0 [] 0 [1] = .error .panic ∧
      corruptHighOffsetReader.Load refEnv sampleFlow 0 [9] 0 [1] = .error .panic :=
  ⟨rfl, rfl, rfl, rfl⟩

/-- Witness for C8 (as amended): on the well-formed block the request `[9, 1]` resolves
nothing, 9 being absent from the catalogue and the aggregate at position 1 having no sink,
and `Load` returns absent although series 1 is in the block. -/
theorem Load_absent_without_field_witness :
    sampleReader.Load refEnv (fun _ => [fun _ => some 7, fun _ => (none : Option Nat)]) 0 [9, 1] 0
        [1] = .ok (none, sampleReader) :=
  Load_absent_without_field refEnv sampleReader
    (fun _ => [fun _ => some 7, fun _ => (none : Option Nat)]) 0 [9, 1] 0 [1]
    (by
      intro k id hk
      match k, hk with
      | 0, hk =>
        left
        simp at hk
        subst hk
        decide
      | 1, hk =>
        right
        exact ⟨fun _ => none, rfl, rfl⟩
      | k + 2, hk => simp at hk)
    (by decide)

/-- C9: on a freshly opened reader whose caller supplies a field aggregate for every request
position, `prepare` returns one (catalogue entry, sink) pair for each request that
resolves (its id is in the catalogue and the field aggregate at its request position
yields a sink for the family time), in request order and skipping all others; pair `i`
carries a catalogue entry whose id is the requested id, and the `i`-th recorded read-field
position is the position of that entry in the catalogue. -/
theorem prepare_resolves {B : Type} (env : Env) (path : String) (buf : List UInt8) (r : reader)
    (familyTime : Int) (fieldIDs : List Nat) (aggregator : ContainerAggregator B)
    (hopen : NewReader env path buf = .ok r)
    (halign : fieldIDs.length ≤ aggregator.length) :
    ∃ aggs rfi,
      r.prepare familyTime fieldIDs aggregator = .ok (aggs, { r with readFieldIndexes := rfi }) ∧
      aggs.map (fun x => (x.fieldMeta.ID, x.block))
        = resolvedRequests r.fields familyTime aggregator 0 fieldIDs ∧
      rfi.length = aggs.length ∧
      ∀ (i p : Nat) (x : fieldAggregator B),
        rfi[i]? = some p → aggs[i]? = some x → r.fields[p]? = some x.fieldMeta := by
  have hfresh : r.readFieldIndexes = [] := by
    obtain ⟨-, -, -, hbody⟩ := NewReader_ok hopen
    obtain ⟨_, _, _, _, _, -, -, -, -, -, hr⟩ := initBody_ok hbody
    rw [hr]
  obtain ⟨res, hloop⟩ := prepareLoop_total r.fields familyTime aggregator fieldIDs 0
    r.readFieldIndexes [] (by omega)
  obtain ⟨aggs, rfi⟩ := res
  have hprep : r.prepare familyTime fieldIDs aggregator
      = .ok (aggs, { r with readFieldIndexes := rfi }) := by
    simp only [reader.prepare, hloop]
  obtain ⟨p, hp, hf, hmap⟩ := prepare_ok hprep
  have hrfi : rfi = p := by
    have := congrArg reader.readFieldIndexes hp
    simpa [hfresh] using this
  subst hrfi
  refine ⟨aggs, rfi, hprep, hmap, hf.length_eq, ?_⟩
  intro i q x hq hx
  obtain ⟨hi1, hq1⟩ := List.getElem?_eq_some_iff.1 hq
  obtain ⟨hi2, hx1⟩ := List.getElem?_eq_some_iff.1 hx
  have := List.Forall₂.get hf hi1 hi2
  simp only [List.get_eq_getElem, hq1, hx1] at this
  exact this

/-- Witness for C9: on the well-formed block (catalogue ids 1 and 2), the request
`[2, 9, 1]` with sinks at positions 0 and 1 only resolves to the single pair for id 2,
whose catalogue position is 1. -/
theorem prepare_resolves_witness :
    (sampleReader.prepare 0 [2, 9, 1] sampleAggregates
        = .ok ([⟨⟨2, 1⟩, 7⟩], { sampleReader with readFieldIndexes := [1] }) ∧
      resolvedRequests sampleReader.fields 0 sampleAggregates 0 [2, 9, 1] = [(2, 7)]) ∧
    ∃ aggs rfi,
      sampleReader.prepare 0 [2, 9, 1] sampleAggregates
        = .ok (aggs, { sampleReader with readFieldIndexes := rfi }) ∧
      aggs.map (fun x => (x.fieldMeta.ID, x.block))
        = resolvedRequests sampleReader.fields 0 sampleAggregates 0 [2, 9, 1] ∧
      rfi.length = aggs.length ∧
      ∀ (i p : Nat) (x : fieldAggregator Nat),
        rfi[i]? = some p → aggs[i]? = some x → sampleReader.fields[p]? = some x.fieldMeta :=
  ⟨⟨rfl, by decide⟩,
    prepare_resolves refEnv "blk" sampleBlock sampleReader 0 [2, 9, 1] sampleAggregates rfl
      (by decide)⟩

/-! ## The field catalogue and the checksum -/

theorem readFieldMetas_ok (buf : List UInt8) :
    ∀ (n off : Nat) (fields : List Meta), readFieldMetas buf off n = .ok fields →
      fields.length = n ∧
      ∀ i, i < n → ∃ a b : UInt8, buf[off + 2 * i]? = some a ∧ buf[off + 2 * i + 1]? = some b ∧
        fields[i]? = some { ID := a.toNat, Typ := b.toNat } := by
  intro n
  induction n with
  | zero =>
    intro off fields h
    simp only [readFieldMetas] at h
    injection h with h
    subst h
    exact ⟨rfl, fun i hi => absurd hi (Nat.not_lt_zero i)⟩
  | succ n ih =>
    intro off fields h
    rw [readFieldMetas] at h
    split at h
    · rename_i id ty h0 h1
      split at h
      · rename_i rest hrest
        injection h with h
        subst h
        obtain ⟨hl, hall⟩ := ih _ _ hrest
        refine ⟨by simp [hl], ?_⟩
        intro i hi
        cases i with
        | zero => exact ⟨id, ty, by simpa using h0, by simpa using h1, by simp⟩
        | succ j =>
          obtain ⟨a, b, ha, hb, hf⟩ := hall j (by omega)
          refine ⟨a, b, ?_, ?_, by simpa using hf⟩
          · have e : off + 2 * (j + 1) = off + 2 + 2 * j := by omega
            rw [e]; exact ha
          · have e : off + 2 * (j + 1) + 1 = off + 2 + 2 * j + 1 := by omega
            rw [e]; exact hb
      · cases h
    · cases h

/-- C11: when `NewReader` succeeds, `GetFields` has exactly `c` entries, `c` being the byte
at the field-catalogue offset `p` that the footer declares, and entry `i` has the byte at
`p + 1 + 2i` as id and the byte at `p + 2 + 2i` as type, in stored order. -/
theorem GetFields_catalogue (env : Env) (path : String) (buf : List UInt8) (r : reader)
    (h : NewReader env path buf = .ok r) :
    ∃ c : UInt8, buf[footerFieldMetaStartPos buf]? = some c ∧ r.GetFields.length = c.toNat ∧
      ∀ i, i < c.toNat → ∃ a b : UInt8,
        buf[footerFieldMetaStartPos buf + 1 + 2 * i]? = some a ∧
        buf[footerFieldMetaStartPos buf + 2 + 2 * i]? = some b ∧
        r.GetFields[i]? = some { ID := a.toNat, Typ := b.toNat } := by
  obtain ⟨-, -, -, hbody⟩ := NewReader_ok h
  obtain ⟨c, fields, _, _, _, hc, hf, -, -, -, hr⟩ := initBody_ok hbody
  have hfields : r.GetFields = fields := by rw [hr]; rfl
  obtain ⟨hl, hall⟩ := readFieldMetas_ok _ _ _ _ hf
  refine ⟨c, ?_, by rw [hfields, hl], ?_⟩
  · simp only [byteAt] at hc
    split at hc
    · rename_i b hb
      injection hc with hc
      rw [← hc]; exact hb
    · cases hc
  · intro i hi
    obtain ⟨a, b, ha, hb, hfi⟩ := hall i hi
    refine ⟨a, b, ha, ?_, by rw [hfields]; exact hfi⟩
    have e : footerFieldMetaStartPos buf + 2 + 2 * i = footerFieldMetaStartPos buf + 1 + 2 * i + 1 := by
      omega
    rw [e]; exact hb

/-- Witness for C11: the well-formed block, whose catalogue `[2, 1, 1, 2, 1]` is at 3. -/
theorem GetFields_catalogue_witness :
    sampleReader.GetFields = [⟨1, 1⟩, ⟨2, 1⟩] ∧
    ∃ c : UInt8, sampleBlock[footerFieldMetaStartPos sampleBlock]? = some c ∧
      sampleReader.GetFields.length = c.toNat ∧
      ∀ i, i < c.toNat → ∃ a b : UInt8,
        sampleBlock[footerFieldMetaStartPos sampleBlock + 1 + 2 * i]? = some a ∧
        sampleBlock[footerFieldMetaStartPos sampleBlock + 2 + 2 * i]? = some b ∧
        sampleReader.GetFields[i]? = some { ID := a.toNat, Typ := b.toNat } :=
  ⟨rfl, GetFields_catalogue refEnv "blk" sampleBlock sampleReader rfl⟩

theorem getD_append_body (body c : List UInt8) (i : Nat) (h : i < body.length) :
    (body ++ c).getD i 0 = body.getD i 0 := by
  simp [List.getD, List.getElem?_append_left h]

theorem leU16_append_body (body c : List UInt8) (p : Nat) (h : p + 2 ≤ body.length) :
    leU16 (body ++ c) p = leU16 body p := by
  simp only [leU16]
  rw [getD_append_body body c p (by omega), getD_append_body body c (p + 1) (by omega)]

theorem leU32_append_body (body c : List UInt8) (p : Nat) (h : p + 4 ≤ body.length) :
    leU32 (body ++ c) p = leU32 body p := by
  simp only [leU32]
  rw [getD_append_body body c p (by omega), getD_append_body body c (p + 1) (by omega),
    getD_append_body body c (p + 2) (by omega), getD_append_body body c (p + 3) (by omega)]

theorem readFieldMetas_append_body (body c : List UInt8) :
    ∀ (n off : Nat), off + 2 * n ≤ body.length →
      readFieldMetas (body ++ c) off n = readFieldMetas body off n := by
  intro n
  induction n with
  | zero => intro off _; rfl
  | succ n ih =>
    intro off h
    rw [readFieldMetas, readFieldMetas, ih (off + 2) (by omega),
      List.getElem?_append_left (show off < body.length by omega),
      List.getElem?_append_left (show off + 1 < body.length by omega)]

/-- The converse of `initBody_ok`. -/
theorem initBody_eq_ok (env : Env) (r0 : reader) (fieldCount : UInt8) (fields : List Meta)
    (sub hsub : List UInt8) (seriesIDs : Bitmap)
    (h1 : byteAt r0.buf (footerFieldMetaStartPos r0.buf) = .ok fieldCount)
    (h2 : readFieldMetas r0.buf (footerFieldMetaStartPos r0.buf + 1) fieldCount.toNat = .ok fields)
    (h3 : sliceFrom r0.buf (footerSeriesIDsStartPos r0.buf) = .ok sub)
    (h4 : env.BitmapUnmarshal sub = .ok seriesIDs)
    (h5 : sliceFrom r0.buf (footerHighOffsetsPos r0.buf) = .ok hsub) :
    initBody env r0 = .ok { r0 with
        start := leU16 r0.buf (footerPos r0.buf), end_ := leU16 r0.buf (footerPos r0.buf + 2),
        crc32CheckSum := footerChecksum r0.buf, fields := fields,
        seriesIDs := seriesIDs, highOffsets := NewFixedOffsetDecoder hsub } := by
  simp only [initBody, h1, h2, h3, h4, h5]

/-- One direction of the checksum comparison: what a successful open of `body ++ c1`
implies for `body ++ c2`. -/
theorem NewReader_checksum_step (env : Env) (path : String) (body c1 c2 : List UInt8)
    (hc1 : c1.length = 4) (hc2 : c2.length = 4)
    (hcat : footerFieldMetaStartPos (body ++ c1) + 1
        + 2 * ((body ++ c1).getD (footerFieldMetaStartPos (body ++ c1)) 0).toNat ≤ body.length)
    (hbm : (∃ b, env.BitmapUnmarshal
          ((body ++ c1).drop (footerSeriesIDsStartPos (body ++ c1))) = .ok b) →
        ∃ b, env.BitmapUnmarshal
          ((body ++ c2).drop (footerSeriesIDsStartPos (body ++ c2))) = .ok b)
    (r1 : reader) (h1 : NewReader env path (body ++ c1) = .ok r1) :
    ∃ r2, NewReader env path (body ++ c2) = .ok r2 ∧ r2.GetTimeRange = r1.GetTimeRange ∧
      r2.GetFields = r1.GetFields := by
  obtain ⟨hlen, hfm, hsh, hbody⟩ := NewReader_ok h1
  obtain ⟨fc, fields, sub, ids, hsub, e1, e2, e3, e4, e5, hr⟩ := initBody_ok hbody
  simp only at e1 e2 e3 e4 e5
  have hl1 : (body ++ c1).length = body.length + 4 := by simp [hc1]
  have hl2 : (body ++ c2).length = body.length + 4 := by simp [hc2]
  have hfp1 : footerPos (body ++ c1) = body.length - 16 := by
    simp only [footerPos, dataFooterSize, hl1]; omega
  have hfp2 : footerPos (body ++ c2) = body.length - 16 := by
    simp only [footerPos, dataFooterSize, hl2]; omega
  have hb16 : 16 < body.length := by omega
  have efm : footerFieldMetaStartPos (body ++ c2) = footerFieldMetaStartPos (body ++ c1) := by
    simp only [footerFieldMetaStartPos, hfp1, hfp2]
    rw [leU32_append_body _ _ _ (by omega), leU32_append_body _ _ _ (by omega)]
  have esid : footerSeriesIDsStartPos (body ++ c2) = footerSeriesIDsStartPos (body ++ c1) := by
    simp only [footerSeriesIDsStartPos, hfp1, hfp2]
    rw [leU32_append_body _ _ _ (by omega), leU32_append_body _ _ _ (by omega)]
  have ehop : footerHighOffsetsPos (body ++ c2) = footerHighOffsetsPos (body ++ c1) := by
    simp only [footerHighOffsetsPos, hfp1, hfp2]
    rw [leU32_append_body _ _ _ (by omega), leU32_append_body _ _ _ (by omega)]
  have est : leU16 (body ++ c2) (footerPos (body ++ c2))
      = leU16 (body ++ c1) (footerPos (body ++ c1)) := by
    rw [hfp1, hfp2, leU16_append_body _ _ _ (by omega), leU16_append_body _ _ _ (by omega)]
  have een : leU16 (body ++ c2) (footerPos (body ++ c2) + 2)
      = leU16 (body ++ c1) (footerPos (body ++ c1) + 2) := by
    rw [hfp1, hfp2, leU16_append_body _ _ _ (by omega), leU16_append_body _ _ _ (by omega)]
  have hfmlt : footerFieldMetaStartPos (body ++ c1) < body.length := by
    rw [hfp1] at hfm; omega
  -- the count byte
  have hcount : (body ++ c1)[footerFieldMetaStartPos (body ++ c1)]? = some fc := by
    simp only [byteAt] at e1
    split at e1
    · rename_i b hb
      injection e1 with e1
      rw [← e1]; exact hb
    · cases e1
  have hcountD : (body ++ c1).getD (footerFieldMetaStartPos (body ++ c1)) 0 = fc := by
    simp [List.getD, hcount]
  rw [hcountD] at hcat
  have g1 : byteAt (body ++ c2) (footerFieldMetaStartPos (body ++ c2)) = .ok fc := by
    rw [efm]
    simp only [byteAt, List.getElem?_append_left hfmlt]
    rw [List.getElem?_append_left hfmlt] at hcount
    rw [hcount]
  have g2 : readFieldMetas (body ++ c2) (footerFieldMetaStartPos (body ++ c2) + 1) fc.toNat
      = .ok fields := by
    rw [efm, readFieldMetas_append_body _ _ _ _ (by omega), ← e2,
      readFieldMetas_append_body _ _ _ _ (by omega)]
  have hs := sliceFrom_ok e3
  have hh := sliceFrom_ok e5
  have g3 : sliceFrom (body ++ c2) (footerSeriesIDsStartPos (body ++ c2))
      = .ok ((body ++ c2).drop (footerSeriesIDsStartPos (body ++ c2))) := by
    have := sliceFrom_of_le (body ++ c2) (footerSeriesIDsStartPos (body ++ c2))
      (by omega) (by rw [esid, hl2]; rw [hl1] at hs; exact hs.2.1)
    simpa using this
  have g5 : sliceFrom (body ++ c2) (footerHighOffsetsPos (body ++ c2))
      = .ok ((body ++ c2).drop (footerHighOffsetsPos (body ++ c2))) := by
    have := sliceFrom_of_le (body ++ c2) (footerHighOffsetsPos (body ++ c2))
      (by omega) (by rw [ehop, hl2]; rw [hl1] at hh; exact hh.2.1)
    simpa using this
  obtain ⟨ids2, g4⟩ := hbm ⟨ids, by
    have := hs.2.2
    simp only [Int.toNat_ofNat] at this
    rw [← this]; exact e4⟩
  have hnew := initBody_eq_ok env
    { path := path, buf := body ++ c2, highOffsets := ⟨[]⟩, seriesIDs := ⟨[]⟩, fields := [],
      crc32CheckSum := 0, start := 0, end_ := 0, readFieldIndexes := [] }
    fc fields _ _ ids2 g1 g2 g3 g4 g5
  have hN : NewReader env path (body ++ c2) = initBody env
      { path := path, buf := body ++ c2, highOffsets := ⟨[]⟩, seriesIDs := ⟨[]⟩, fields := [],
        crc32CheckSum := 0, start := 0, end_ := 0, readFieldIndexes := [] } := by
    rw [NewReader_eq, initReader_long env _ (by simp only [hl2]; omega)]
    have hguard : ¬ (footerFieldMetaStartPos (body ++ c2) > footerPos (body ++ c2)
        ∨ footerSeriesIDsStartPos (body ++ c2) > footerHighOffsetsPos (body ++ c2)) := by
      rw [efm, esid, ehop, hfp2]; rw [hfp1] at hfm; omega
    simp only [hguard, if_false]
  rw [hnew] at hN
  refine ⟨_, hN, ?_, ?_⟩
  · rw [hr]
    simp only [reader.GetTimeRange, est, een]
  · rw [hr]
    simp only [reader.GetFields]

/-- C12 (as amended): for two buffers `body ++ c1` and `body ++ c2` that differ only in
their last 4 bytes, when the catalogue ends before those bytes and the bitmap deserialiser
accepts either both or neither of the two series-ID-set slices (which end with those
bytes), `NewReader` succeeds on both or on neither, and on success both readers report the
same time range and the same field catalogue. -/
theorem NewReader_checksum_not_verified (env : Env) (path : String) (body c1 c2 : List UInt8)
    (hc1 : c1.length = 4) (hc2 : c2.length = 4)
    (hcat : footerFieldMetaStartPos (body ++ c1) + 1
        + 2 * ((body ++ c1).getD (footerFieldMetaStartPos (body ++ c1)) 0).toNat ≤ body.length)
    (hbm : (∃ b, env.BitmapUnmarshal
          ((body ++ c1).drop (footerSeriesIDsStartPos (body ++ c1))) = .ok b) ↔
        ∃ b, env.BitmapUnmarshal
          ((body ++ c2).drop (footerSeriesIDsStartPos (body ++ c2))) = .ok b) :
    ((∃ r1, NewReader env path (body ++ c1) = .ok r1) ↔
        ∃ r2, NewReader env path (body ++ c2) = .ok r2) ∧
      ∀ r1 r2, NewReader env path (body ++ c1) = .ok r1 →
        NewReader env path (body ++ c2) = .ok r2 →
        r1.GetTimeRange = r2.GetTimeRange ∧ r1.GetFields = r2.GetFields := by
  have hl1 : (body ++ c1).length = body.length + 4 := by simp [hc1]
  have hl2 : (body ++ c2).length = body.length + 4 := by simp [hc2]
  by_cases hb : 16 < body.length
  · have hfp1 : footerPos (body ++ c1) = body.length - 16 := by
      simp only [footerPos, dataFooterSize, hl1]; omega
    have hfp2 : footerPos (body ++ c2) = body.length - 16 := by
      simp only [footerPos, dataFooterSize, hl2]; omega
    have efm : footerFieldMetaStartPos (body ++ c2) = footerFieldMetaStartPos (body ++ c1) := by
      simp only [footerFieldMetaStartPos, hfp1, hfp2]
      rw [leU32_append_body _ _ _ (by omega), leU32_append_body _ _ _ (by omega)]
    have hcat2 : footerFieldMetaStartPos (body ++ c2) + 1
        + 2 * ((body ++ c2).getD (footerFieldMetaStartPos (body ++ c2)) 0).toNat
          ≤ body.length := by
      rw [efm, getD_append_body _ _ _ (by omega)]
      rw [getD_append_body _ _ _ (by omega)] at hcat
      exact hcat
    have hfwd := NewReader_checksum_step env path body c1 c2 hc1 hc2 hcat hbm.1
    have hbwd := NewReader_checksum_step env path body c2 c1 hc2 hc1 hcat2 hbm.2
    refine ⟨⟨?_, ?_⟩, ?_⟩
    · rintro ⟨r1, h1⟩
      obtain ⟨r2, h2, -⟩ := hfwd r1 h1
      exact ⟨r2, h2⟩
    · rintro ⟨r2, h2⟩
      obtain ⟨r1, h1, -⟩ := hbwd r2 h2
      exact ⟨r1, h1⟩
    · intro r1 r2 h1 h2
      obtain ⟨r2a, h2a, ht, hf⟩ := hfwd r1 h1
      rw [h2] at h2a
      injection h2a with h2a
      subst h2a
      exact ⟨ht.symm, hf.symm⟩
  · refine ⟨⟨?_, ?_⟩, ?_⟩
    · rintro ⟨r1, h1⟩
      have := (NewReader_ok h1).1
      omega
    · rintro ⟨r2, h2⟩
      have := (NewReader_ok h2).1
      omega
    · intro r1 r2 h1
      have := (NewReader_ok h1).1
      omega

/-- C12 (counterexample): the two 40-byte blocks `overlapBlock 0 0 0 0` and
`overlapBlock 1 2 3 4` differ only in their last 4 bytes, `NewReader` succeeds on both, and
the two readers report different field catalogues: the footer declares the catalogue at
the footer's own start with 9 entries, so entries 7 and 8 are read from the checksum
bytes. -/
theorem NewReader_catalogue_reads_checksum :
    (overlapBlock 0 0 0 0).length = (overlapBlock 1 2 3 4).length ∧
      (overlapBlock 0 0 0 0).take 36 = (overlapBlock 1 2 3 4).take 36 ∧
      (NewReader refEnv "blk" (overlapBlock 0 0 0 0)).map reader.GetFields
        = .ok [⟨0, 10⟩, ⟨0, 20⟩, ⟨0, 0⟩, ⟨0, 0⟩, ⟨0, 0⟩, ⟨0, 40⟩, ⟨0, 0⟩, ⟨0, 0⟩, ⟨0, 0⟩] ∧
      (NewReader refEnv "blk" (overlapBlock 1 2 3 4)).map reader.GetFields
        = .ok [⟨0, 10⟩, ⟨0, 20⟩, ⟨0, 0⟩, ⟨0, 0⟩, ⟨0, 0⟩, ⟨0, 40⟩, ⟨0, 0⟩, ⟨0, 1⟩, ⟨2, 3⟩] :=
  ⟨rfl, rfl, rfl, rfl⟩

/-- Witness for C12 (as amended): the well-formed block with the checksums `0 0 0 0` and
`1 2 3 4`; both open, with the same time range and catalogue. -/
theorem NewReader_checksum_not_verified_witness :
    ((∃ r1, NewReader refEnv "blk" (sampleBody ++ [0, 0, 0, 0]) = .ok r1) ↔
        ∃ r2, NewReader refEnv "blk" (sampleBody ++ [1, 2, 3, 4]) = .ok r2) ∧
      ∀ r1 r2, NewReader refEnv "blk" (sampleBody ++ [0, 0, 0, 0]) = .ok r1 →
        NewReader refEnv "blk" (sampleBody ++ [1, 2, 3, 4]) = .ok r2 →
        r1.GetTimeRange = r2.GetTimeRange ∧ r1.GetFields = r2.GetFields :=
  NewReader_checksum_not_verified refEnv "blk" sampleBody [0, 0, 0, 0] [1, 2, 3, 4] rfl rfl
    (by decide) ⟨fun _ => ⟨⟨[(0, [1, 2])]⟩, rfl⟩, fun _ => ⟨⟨[(0, [1, 2])]⟩, rfl⟩⟩

/-! ## Lemmas on the merge scanner -/

theorem filter_le_length (c : Container) (x : Nat) :
    (c.filter (fun y => decide (y ≤ x))).length
      = (c.filter (fun y => decide (y < x))).length + c.count x := by
  induction c with
  | nil => simp
  | cons a rest ih =>
    rcases Nat.lt_trichotomy a x with h | h | h
    · have h1 : a ≤ x := by omega
      have h2 : ¬ a = x := by omega
      simp [List.filter_cons, h, h1, List.count_cons, h2, ih]
      omega
    · subst h
      simp [List.filter_cons, List.count_cons, ih]
      omega
    · have h1 : ¬ a ≤ x := by omega
      have h2 : ¬ a < x := by omega
      have h3 : ¬ a = x := by omega
      simp [List.filter_cons, h1, h2, List.count_cons, h3, ih]

/-- For a member of a duplicate-free container, rank minus one is the 0-based ordinal. -/
theorem Rank_sub_one (c : Container) (x : Nat) (hnd : c.Nodup) (hx : x ∈ c) :
    c.Rank x - 1 = (c.ordinal x : Int) := by
  have h1 := filter_le_length c x
  have h2 : c.count x = 1 := List.count_eq_one_of_mem hnd hx
  simp only [Container.Rank, Container.ordinal]
  omega

theorem lookup_of_getElem (l : List (Nat × Container)) (hnd : (l.map Prod.fst).Nodup) :
    ∀ (i : Nat) (k : Nat) (c : Container), l[i]? = some (k, c) →
      l.lookup k = some c ∧ (l.map Prod.fst).indexOf k = i := by
  induction l with
  | nil => intro i k c h; simp at h
  | cons e rest ih =>
    intro i k c h
    obtain ⟨k0, c0⟩ := e
    simp only [List.map_cons, List.nodup_cons] at hnd
    cases i with
    | zero =>
      simp at h
      obtain ⟨h1, h2⟩ := h
      subst h1; subst h2
      simp [List.lookup]
    | succ j =>
      simp only [List.getElem?_cons_succ] at h
      obtain ⟨h1, h2⟩ := ih hnd.2 j k c h
      have hmem : k ∈ rest.map Prod.fst := by
        rw [List.mem_iff_getElem?]
        exact ⟨j, by simp [h]⟩
      have hne : k ≠ k0 := fun e => hnd.1 (e ▸ hmem)
      have hne2 : ¬ k0 = k := fun e => hne e.symm
      have hb : (k == k0) = false := by simpa using hne
      simp [List.lookup, hb, h1, List.indexOf_cons, hne2, h2]

theorem containerFor_eq_none (b : Bitmap) (key : Nat) (h : key ∉ b.GetHighKeys) :
    b.containerFor key = none := by
  cases hc : b.containerFor key with
  | none => rfl
  | some c => exact absurd ((containerFor_isSome_iff b key).1 ⟨c, hc⟩) h

theorem recordedOffset_absent (env : Env) (r : reader) (p : Nat × Nat)
    (h : p.1 ∉ r.seriesIDs.GetHighKeys) : r.recordedOffset env p = -1 := by
  simp only [reader.recordedOffset, containerFor_eq_none _ _ h]

theorem scanFind_ne (env : Env) (s : dataScanner) (highKey lowSeriesID : Nat)
    (h : highKey ≠ s.highKey) : s.scanFind env highKey lowSeriesID = (-1, s) := by
  simp only [dataScanner.scanFind, h, ne_eq, not_false_eq_true, if_true]

/-- On the container of the requested high key the lookup yields the recorded offset. -/
theorem scanFind_atRank (env : Env) (r : reader) (s : dataScanner) (j : Nat)
    (hs : s.atRank env r j) (hkeys : r.seriesIDs.GetHighKeys.Nodup)
    (hnd : ∀ e ∈ r.seriesIDs.entries, e.2.Nodup) (lowSeriesID : Nat) :
    s.scanFind env s.highKey lowSeriesID = (r.recordedOffset env (s.highKey, lowSeriesID), s) := by
  obtain ⟨-, -, -, hent, hoff⟩ := hs
  obtain ⟨hl, hi⟩ := lookup_of_getElem r.seriesIDs.entries hkeys j _ _ hent
  have hcnd : s.container.Nodup := hnd _ (List.getElem?_mem hent)
  simp only [dataScanner.scanFind, ne_eq, not_true_eq_false, if_false, reader.recordedOffset,
    Bitmap.containerFor, hl, Bitmap.GetHighKeys, hi, Container.Contains, getOffset]
  by_cases hmem : lowSeriesID ∈ s.container
  · simp only [hmem, decide_True, if_true, Rank_sub_one _ _ hcnd hmem, hoff, entryOrAbsent]
    by_cases hok : (env.Get (r.containerOffsets env j) (s.container.ordinal lowSeriesID)).2 = true
    · simp [hok]
    · simp [hok]
  · simp only [hmem, decide_False, if_false, Bool.false_eq_true]

theorem nextContainer_ok (env : Env) (r : reader) (s : dataScanner) (p k : Nat) (c : Container)
    (hr : s.reader = r) (hk : s.highKeys = r.seriesIDs.GetHighKeys) (hp : s.seriesPos = p)
    (hent : r.seriesIDs.entries[p]? = some (k, c))
    (hoff : 0 ≤ (env.Get r.highOffsets (p : Int)).1 ∧
      (env.Get r.highOffsets (p : Int)).1 ≤ (r.buf.length : Int)) :
    ∃ s1, s.nextContainer env = .ok s1 ∧ s1.atRank env r p ∧ s1.highKey = k := by
  have h1 : s.highKeys[s.seriesPos]? = some k := by
    rw [hk, hp]; simp [Bitmap.GetHighKeys, hent]
  have h2 : s.reader.seriesIDs.GetContainerAtIndex (s.seriesPos : Int) = .ok c := by
    rw [hr, hp]
    have hn : ¬ ((p : Int) < 0) := by omega
    simp only [Bitmap.GetContainerAtIndex, hn, if_false, Int.toNat_ofNat, hent]
  have h3 : sliceFrom s.reader.buf (env.Get s.reader.highOffsets (s.seriesPos : Int)).1
      = .ok (r.buf.drop (env.Get r.highOffsets (p : Int)).1.toNat) := by
    rw [hr, hp]; exact sliceFrom_of_le _ _ hoff.1 hoff.2
  refine ⟨{ s with
      highKey := k, container := c,
      seriesOffsets := NewFixedOffsetDecoder (r.buf.drop (env.Get r.highOffsets (p : Int)).1.toNat),
      seriesPos := s.seriesPos + 1 },
    by simp only [dataScanner.nextContainer, h1, h2, h3], ?_, rfl⟩
  exact ⟨hr, hk, by simp only [hp], hent, rfl⟩

theorem keys_getElem_of_entries (b : Bitmap) (i k : Nat) (c : Container)
    (h : b.entries[i]? = some (k, c)) : b.GetHighKeys[i]? = some k := by
  simp [Bitmap.GetHighKeys, h]

theorem keys_lt_of_lt (keys : List Nat) (hsorted : keys.Pairwise (fun a b => a < b))
    (i i1 a b : Nat) (hlt : i < i1) (ha : keys[i]? = some a) (hb : keys[i1]? = some b) : a < b := by
  obtain ⟨hi, ha1⟩ := List.getElem?_eq_some_iff.1 ha
  obtain ⟨hi1, hb1⟩ := List.getElem?_eq_some_iff.1 hb
  have := (List.pairwise_iff_getElem.1 hsorted) i i1 hi hi1 hlt
  rw [ha1, hb1] at this
  exact this

theorem keys_le_of_le (keys : List Nat) (hsorted : keys.Pairwise (fun a b => a < b))
    (i i1 a b : Nat) (hle : i ≤ i1) (ha : keys[i]? = some a) (hb : keys[i1]? = some b) : a ≤ b := by
  rcases Nat.lt_or_eq_of_le hle with hlt | heq
  · exact Nat.le_of_lt (keys_lt_of_lt keys hsorted i i1 a b hlt ha hb)
  · subst heq
    rw [ha] at hb
    injection hb with hb
    omega

theorem not_mem_keys (keys : List Nat) (h j : Nat)
    (hlow : ∀ i k, i < j → keys[i]? = some k → k < h)
    (hhigh : ∀ i k, j ≤ i → keys[i]? = some k → h < k) : h ∉ keys := by
  intro hmem
  obtain ⟨i, hi⟩ := List.mem_iff_getElem?.1 hmem
  by_cases hij : i < j
  · have := hlow i h hij hi
    omega
  · have := hhigh i h (by omega) hi
    omega

/-- One `scan` call on a scanner whose cursor is on rank `j`, for a probe whose high key
is above every earlier high key of the block and not above the next one when the current
one is below it: the result is the recorded offset, and the cursor stays or moves on by
one container. -/
theorem scan_step (env : Env) (r : reader) (s : dataScanner) (j : Nat)
    (hs : s.atRank env r j)
    (hsorted : r.seriesIDs.GetHighKeys.Pairwise (fun a b => a < b))
    (hnd : ∀ e ∈ r.seriesIDs.entries, e.2.Nodup)
    (hrange : ∀ i : Nat, i < r.seriesIDs.entries.length →
      0 ≤ (env.Get r.highOffsets (i : Int)).1 ∧
        (env.Get r.highOffsets (i : Int)).1 ≤ (r.buf.length : Int))
    (h l : Nat)
    (hnext : s.highKey < h → ∀ k, r.seriesIDs.GetHighKeys[j + 1]? = some k → h ≤ k)
    (hpast : ∀ i k, i < j → r.seriesIDs.GetHighKeys[i]? = some k → k < h) :
    ∃ s1 j1, s.scan env h l = .ok (r.recordedOffset env (h, l), s1) ∧ s1.atRank env r j1 ∧
      (j1 = j ∨ (j1 = j + 1 ∧ s.highKey < h)) ∧
      (h ≤ s1.highKey ∨ r.seriesIDs.GetHighKeys.length ≤ j1 + 1) := by
  have hkeysnd : r.seriesIDs.GetHighKeys.Nodup :=
    List.Pairwise.imp (fun hab => Nat.ne_of_lt hab) hsorted
  have hkj : r.seriesIDs.GetHighKeys[j]? = some s.highKey :=
    keys_getElem_of_entries _ _ _ _ hs.2.2.2.1
  have hlen : r.seriesIDs.GetHighKeys.length = r.seriesIDs.entries.length := by
    simp [Bitmap.GetHighKeys]
  by_cases hlt : s.highKey < h
  · by_cases hex : s.seriesPos ≥ s.highKeys.length
    · -- exhausted
      refine ⟨s, j, ?_, hs, Or.inl rfl, Or.inr ?_⟩
      · simp only [dataScanner.scan, hlt, if_true, hex]
        rw [recordedOffset_absent]
        apply not_mem_keys _ h (j + 1)
        · intro i k hi hk
          have := keys_le_of_le _ hsorted i j k s.highKey (by omega) hk hkj
          omega
        · intro i k hi hk
          obtain ⟨hi1, -⟩ := List.getElem?_eq_some_iff.1 hk
          rw [hs.2.1, hs.2.2.1] at hex
          omega
      · rw [hs.2.1, hs.2.2.1] at hex
        omega
    · -- advance by one container
      have hj1 : j + 1 < r.seriesIDs.entries.length := by
        rw [hs.2.1, hs.2.2.1] at hex
        omega
      obtain ⟨e, he⟩ : ∃ e, r.seriesIDs.entries[j + 1]? = some e :=
        ⟨_, List.getElem?_eq_getElem hj1⟩
      obtain ⟨k1, c1⟩ := e
      obtain ⟨s1, hn, hs1, hk1⟩ := nextContainer_ok env r s (j + 1) k1 c1 hs.1 hs.2.1 hs.2.2.1 he
        (hrange (j + 1) hj1)
      have hkj1 := keys_getElem_of_entries _ _ _ _ he
      have hle : h ≤ k1 := hnext hlt k1 hkj1
      refine ⟨s1, j + 1, ?_, hs1, Or.inr ⟨rfl, hlt⟩, Or.inl (by rw [hk1]; exact hle)⟩
      simp only [dataScanner.scan, hlt, if_true, hex, if_false, hn]
      by_cases heq : h = k1
      · rw [heq, ← hk1, scanFind_atRank env r s1 (j + 1) hs1 hkeysnd hnd]
      · rw [scanFind_ne env s1 h l (by rw [hk1]; exact heq), recordedOffset_absent]
        apply not_mem_keys _ h (j + 1)
        · intro i k hi hk
          have := keys_le_of_le _ hsorted i j k s.highKey (by omega) hk hkj
          omega
        · intro i k hi hk
          have := keys_le_of_le _ hsorted (j + 1) i k1 k hi hkj1 hk
          omega
  · refine ⟨s, j, ?_, hs, Or.inl rfl, Or.inl (by omega)⟩
    simp only [dataScanner.scan, hlt, if_false]
    by_cases heq : h = s.highKey
    · rw [heq, scanFind_atRank env r s j hs hkeysnd hnd]
    · rw [scanFind_ne env s h l heq, recordedOffset_absent]
      apply not_mem_keys _ h j
      · exact hpast
      · intro i k hi hk
        have := keys_le_of_le _ hsorted j i s.highKey k hi hkj hk
        omega

/-- A sequence of probes with non-decreasing high keys that visits every high key of the
block after the cursor's: every `scan` yields the recorded offset of its probe. -/
theorem scanAll_correct (env : Env) (r : reader)
    (hsorted : r.seriesIDs.GetHighKeys.Pairwise (fun a b => a < b))
    (hnd : ∀ e ∈ r.seriesIDs.entries, e.2.Nodup)
    (hrange : ∀ i : Nat, i < r.seriesIDs.entries.length →
      0 ≤ (env.Get r.highOffsets (i : Int)).1 ∧
        (env.Get r.highOffsets (i : Int)).1 ≤ (r.buf.length : Int)) :
    ∀ (ps : List (Nat × Nat)) (s : dataScanner) (j : Nat), s.atRank env r j →
      ps.Pairwise (fun a b => a.1 ≤ b.1) →
      (∀ i k, j < i → r.seriesIDs.GetHighKeys[i]? = some k → k ∈ ps.map Prod.fst) →
      (∀ p ∈ ps, ∀ i k, i < j → r.seriesIDs.GetHighKeys[i]? = some k → k < p.1) →
      ∃ s1 j1, scanAll env s ps = .ok (ps.map (r.recordedOffset env), s1) ∧
        s1.atRank env r j1 := by
  intro ps
  induction ps with
  | nil =>
    intro s j hs _ _ _
    exact ⟨s, j, rfl, hs⟩
  | cons p rest ih =>
    intro s j hs hps hP hQ
    rw [List.pairwise_cons] at hps
    have hkj : r.seriesIDs.GetHighKeys[j]? = some s.highKey :=
      keys_getElem_of_entries _ _ _ _ hs.2.2.2.1
    have hnext : s.highKey < p.1 → ∀ k, r.seriesIDs.GetHighKeys[j + 1]? = some k → p.1 ≤ k := by
      intro _ k hk
      have hmem := hP (j + 1) k (by omega) hk
      simp only [List.map_cons, List.mem_cons, List.mem_map] at hmem
      rcases hmem with heq | ⟨q, hq, hqk⟩
      · omega
      · have := hps.1 q hq
        omega
    obtain ⟨s1, j1, hscan, hs1, hj1, hend⟩ := scan_step env r s j hs hsorted hnd hrange p.1 p.2
      hnext (hQ p (List.mem_cons_self _ _))
    have hkj1 : r.seriesIDs.GetHighKeys[j1]? = some s1.highKey :=
      keys_getElem_of_entries _ _ _ _ hs1.2.2.2.1
    have hP1 : ∀ i k, j1 < i → r.seriesIDs.GetHighKeys[i]? = some k → k ∈ rest.map Prod.fst := by
      intro i k hi hk
      have hmem := hP i k (by omega) hk
      simp only [List.map_cons, List.mem_cons] at hmem
      rcases hmem with heq | hmem
      · exfalso
        rcases hend with hle | hlen
        · have := keys_lt_of_lt _ hsorted j1 i s1.highKey k hi hkj1 hk
          omega
        · obtain ⟨hi1, -⟩ := List.getElem?_eq_some_iff.1 hk
          omega
      · exact hmem
    have hQ1 : ∀ q ∈ rest, ∀ i k, i < j1 → r.seriesIDs.GetHighKeys[i]? = some k → k < q.1 := by
      intro q hq i k hi hk
      rcases hj1 with heq | ⟨heq, hlt⟩
      · exact hQ q (List.mem_cons_of_mem _ hq) i k (by omega) hk
      · have h1 := keys_le_of_le _ hsorted i j k s.highKey (by omega) hk hkj
        have h2 := hps.1 q hq
        omega
    obtain ⟨s2, j2, hall, hs2⟩ := ih s1 j1 hs1 hps.2 hP1 hQ1
    refine ⟨s2, j2, ?_, hs2⟩
    simp only [scanAll, hscan, hall, List.map_cons]

/-- A freshly built scanner is on the container of rank 0. -/
theorem newDataScanner_ok (env : Env) (r : reader) (k : Nat) (c : Container)
    (hent : r.seriesIDs.entries[0]? = some (k, c))
    (hoff : 0 ≤ (env.Get r.highOffsets 0).1 ∧ (env.Get r.highOffsets 0).1 ≤ (r.buf.length : Int)) :
    ∃ s, newDataScanner env r = .ok s ∧ s.atRank env r 0 ∧ s.highKey = k :=
  nextContainer_ok env r _ 0 k c rfl rfl rfl hent hoff

/-- C13: when, after its at-most-one advance (the scanner is then `s1`), the current high key
equals the requested one and the current container contains the low series id, `scan`
returns the entry of the cached offset index at position rank - 1, or -1 if the index has
no entry there; for a duplicate-free container rank - 1 is the 0-based ordinal of the id,
the number of members strictly smaller than it. -/
theorem scan_found (env : Env) (s s1 : dataScanner) (highKey lowSeriesID : Nat)
    (hadv : (s.highKey < highKey ∧ s.seriesPos < s.highKeys.length
        ∧ s.nextContainer env = .ok s1) ∨ (¬ s.highKey < highKey ∧ s1 = s))
    (hkey : s1.highKey = highKey) (hmem : lowSeriesID ∈ s1.container) :
    s.scan env highKey lowSeriesID
        = .ok (entryOrAbsent env s1.seriesOffsets (s1.container.Rank lowSeriesID - 1), s1) ∧
      (s1.container.Nodup →
        s1.container.Rank lowSeriesID - 1 = (s1.container.ordinal lowSeriesID : Int)) := by
  have hfind : s1.scanFind env highKey lowSeriesID
      = (entryOrAbsent env s1.seriesOffsets (s1.container.Rank lowSeriesID - 1), s1) := by
    simp only [dataScanner.scanFind, hkey, ne_eq, not_true_eq_false, if_false,
      Container.Contains, hmem, decide_True, if_true, getOffset, entryOrAbsent]
    by_cases hok : (env.Get s1.seriesOffsets (s1.container.Rank lowSeriesID - 1)).2 = true
    · simp [hok]
    · simp [hok]
  refine ⟨?_, fun hnd => Rank_sub_one _ _ hnd hmem⟩
  rcases hadv with ⟨hlt, hpos, hnext⟩ | ⟨hlt, heq⟩
  · have hex : ¬ s.seriesPos ≥ s.highKeys.length := by omega
    simp only [dataScanner.scan, hlt, if_true, hex, if_false, hnext, hfind]
  · subst heq
    simp only [dataScanner.scan, hlt, if_false, hfind]

/-- Witness for C13: on the block with three containers, the probe (1, 1) advances the fresh
scanner to the container of high key 1 and returns the entry 31 of its offset index at
position 0. -/
theorem scan_found_witness :
    threeContainerScanner.scan refEnv 1 1
        = .ok (31, { threeContainerScanner with
            highKey := 1, container := [1], seriesOffsets := ⟨threeContainerBlock.drop 2⟩,
            seriesPos := 2 }) ∧
      (threeContainerScanner.scan refEnv 1 1
        = .ok (entryOrAbsent refEnv (⟨threeContainerBlock.drop 2⟩ : FixedOffsetDecoder)
            (Container.Rank [1] 1 - 1),
          { threeContainerScanner with
            highKey := 1, container := [1], seriesOffsets := ⟨threeContainerBlock.drop 2⟩,
            seriesPos := 2 }) ∧
      ((([1] : Container)).Nodup →
        Container.Rank [1] 1 - 1 = ((Container.ordinal [1] 1 : Nat) : Int))) :=
  ⟨rfl, scan_found refEnv threeContainerScanner
    { threeContainerScanner with
      highKey := 1, container := [1], seriesOffsets := ⟨threeContainerBlock.drop 2⟩,
      seriesPos := 2 } 1 1 (Or.inl ⟨by decide, by decide, rfl⟩) rfl (by decide)⟩

theorem newDataScanner_inv (env : Env) (r : reader) (s : dataScanner)
    (h : newDataScanner env r = .ok s) : s.atRank env r 0 := by
  unfold newDataScanner dataScanner.nextContainer at h
  simp only at h
  split at h
  · cases h
  · rename_i k hk
    split at h
    · cases h
    · rename_i c hc
      split at h
      · cases h
      · rename_i sub hsub
        injection h with h
        subst h
        have hent : r.seriesIDs.entries[0]? = some (k, c) := by
          simp only [Bitmap.GetHighKeys, List.getElem?_map] at hk
          simp only [Bitmap.GetContainerAtIndex, Nat.cast_zero, lt_self_iff_false, if_false,
            Int.toNat_zero] at hc
          cases he : r.seriesIDs.entries[0]? with
          | none => rw [he] at hk; cases hk
          | some e =>
            rw [he] at hk hc
            simp only [Option.map_some', Option.some.injEq] at hk
            injection hc with hc
            rw [← hk, ← hc]
        have hs := (sliceFrom_ok hsub).2.2
        refine ⟨rfl, rfl, rfl, hent, ?_⟩
        simp only [reader.containerOffsets, hs, Nat.cast_zero]

/-- C16: once the cursor is on the block's last container and that container's high key is
below `h`, `scan` for `h` reports absent and leaves the scanner unchanged, and so does
every later `scan` call with a high key greater than or equal to `h`. -/
theorem scan_exhausted (env : Env) (s : dataScanner) (h : Nat)
    (hlt : s.highKey < h) (hex : s.highKeys.length ≤ s.seriesPos) :
    (∀ l, s.scan env h l = .ok (-1, s)) ∧
      ∀ ps : List (Nat × Nat), (∀ p ∈ ps, h ≤ p.1) →
        scanAll env s ps = .ok (ps.map (fun _ => -1), s) := by
  have hone : ∀ h1 l, h ≤ h1 → s.scan env h1 l = .ok (-1, s) := by
    intro h1 l hle
    have h2 : s.highKey < h1 := by omega
    simp only [dataScanner.scan, h2, if_true, ge_iff_le, hex]
  refine ⟨fun l => hone h l (Nat.le_refl h), ?_⟩
  intro ps
  induction ps with
  | nil => intro _; rfl
  | cons p rest ih =>
    intro hall
    have h1 := hone p.1 p.2 (hall p (List.mem_cons_self _ _))
    have h2 := ih (fun q hq => hall q (List.mem_cons_of_mem _ hq))
    simp only [scanAll, h1, h2, List.map_cons]

/-- Witness for C16: after the probes (1, 1) and (2, 1) the scanner of the block with three
containers is on its last container, of high key 2; probes for the high keys 3 and 5 then
report absent and leave it unchanged. -/
theorem scan_exhausted_witness :
    scanAll refEnv threeContainerScanner [(1, 1), (2, 1)]
        = .ok ([31, 32], threeContainerLastScanner) ∧
      ((∀ l, threeContainerLastScanner.scan refEnv 3 l = .ok (-1, threeContainerLastScanner)) ∧
        ∀ ps : List (Nat × Nat), (∀ p ∈ ps, 3 ≤ p.1) →
          scanAll refEnv threeContainerLastScanner ps
            = .ok (ps.map (fun _ => -1), threeContainerLastScanner)) :=
  ⟨rfl, scan_exhausted refEnv threeContainerLastScanner 3 (by decide) (by decide)⟩

/-- C14: a merge scanner probed with an ascending sequence of (high key, low series id)
pairs that includes every series of its block, each container of the block having an
offset index with one entry per member, returns for each probe the byte offset recorded
for that series when the block contains it and -1 when it does not. -/
theorem scan_union (env : Env) (r : reader) (s0 : dataScanner) (ps : List (Nat × Nat))
    (hopen : newDataScanner env r = .ok s0)
    (hwf : r.seriesIDs.WF)
    (hidx : ∀ (i k : Nat) (c : Container), r.seriesIDs.entries[i]? = some (k, c) →
      (0 ≤ (env.Get r.highOffsets (i : Int)).1 ∧
        (env.Get r.highOffsets (i : Int)).1 ≤ (r.buf.length : Int)) ∧
      ∀ x ∈ c, (env.Get (r.containerOffsets env i) (c.ordinal x : Nat)).2 = true)
    (hps : ps.Pairwise (fun a b => a.1 < b.1 ∨ (a.1 = b.1 ∧ a.2 < b.2)))
    (hcover : ∀ e ∈ r.seriesIDs.entries, ∀ x ∈ e.2, (e.1, x) ∈ ps) :
    (∃ s1, scanAll env s0 ps = .ok (ps.map (r.recordedOffset env), s1)) ∧
      ∀ p : Nat × Nat,
        (∀ (i : Nat) (c : Container), r.seriesIDs.entries[i]? = some (p.1, c) → p.2 ∈ c →
          r.recordedOffset env p = (env.Get (r.containerOffsets env i) (c.ordinal p.2 : Nat)).1) ∧
        ((∀ c, r.seriesIDs.containerFor p.1 = some c → p.2 ∉ c) →
          r.recordedOffset env p = -1) := by
  obtain ⟨hsorted, hnd⟩ := hwf
  have hs0 := newDataScanner_inv env r s0 hopen
  have hkeysnd : r.seriesIDs.GetHighKeys.Nodup :=
    List.Pairwise.imp (fun hab => Nat.ne_of_lt hab) hsorted
  have hrange : ∀ i : Nat, i < r.seriesIDs.entries.length →
      0 ≤ (env.Get r.highOffsets (i : Int)).1 ∧
        (env.Get r.highOffsets (i : Int)).1 ≤ (r.buf.length : Int) := by
    intro i hi
    exact (hidx i _ _ (List.getElem?_eq_getElem hi)).1
  refine ⟨?_, ?_⟩
  · obtain ⟨s1, j1, hall, -⟩ := scanAll_correct env r hsorted (fun e he => (hnd e he).1) hrange
      ps s0 0 hs0
      (hps.imp (fun hab => by rcases hab with h | ⟨h, -⟩ <;> omega))
      (by
        intro i k _ hk
        simp only [Bitmap.GetHighKeys, List.getElem?_map] at hk
        cases he : r.seriesIDs.entries[i]? with
        | none => rw [he] at hk; cases hk
        | some e =>
          rw [he] at hk
          simp only [Option.map_some', Option.some.injEq] at hk
          have hmem := List.getElem?_mem he
          obtain ⟨x, hx⟩ := List.exists_mem_of_ne_nil _ (hnd e hmem).2
          have := hcover e hmem x hx
          rw [hk] at this
          exact List.mem_map.2 ⟨(k, x), this, rfl⟩)
      (by intro p _ i k hi; omega)
    exact ⟨s1, hall⟩
  · intro p
    refine ⟨?_, ?_⟩
    · intro i c hent hmem
      obtain ⟨hl, hi⟩ := lookup_of_getElem r.seriesIDs.entries hkeysnd i _ _ hent
      have hok := (hidx i _ _ hent).2 p.2 hmem
      simp only [reader.recordedOffset, Bitmap.containerFor, hl, hmem, if_true,
        Bitmap.GetHighKeys, hi, entryOrAbsent, hok]
    · intro hnot
      simp only [reader.recordedOffset]
      cases hc : r.seriesIDs.containerFor p.1 with
      | none => rfl
      | some c => simp only [hnot c hc, if_false]

/-- The hypotheses of the scanner theorems on the offsets of the block with three
containers: each high-offset entry lies in the buffer and each offset index has an entry
for each member of its container. -/
theorem threeContainer_indexes (i k : Nat) (c : Container)
    (h : threeContainerReader.seriesIDs.entries[i]? = some (k, c)) :
    (0 ≤ (refEnv.Get threeContainerReader.highOffsets (i : Int)).1 ∧
      (refEnv.Get threeContainerReader.highOffsets (i : Int)).1
        ≤ (threeContainerReader.buf.length : Int)) ∧
    ∀ x ∈ c, (refEnv.Get (threeContainerReader.containerOffsets refEnv i)
      (c.ordinal x : Nat)).2 = true := by
  match i, h with
  | 0, h =>
    have hc : c = [1] := by
      have : (0, [1]) = (k, c) := by simpa [threeContainerReader] using h
      exact (Prod.mk.inj this).2.symm
    subst hc
    exact ⟨by decide, by decide⟩
  | 1, h =>
    have hc : c = [1] := by
      have : (1, [1]) = (k, c) := by simpa [threeContainerReader] using h
      exact (Prod.mk.inj this).2.symm
    subst hc
    exact ⟨by decide, by decide⟩
  | 2, h =>
    have hc : c = [1] := by
      have : (2, [1]) = (k, c) := by simpa [threeContainerReader] using h
      exact (Prod.mk.inj this).2.symm
    subst hc
    exact ⟨by decide, by decide⟩
  | n + 3, h => simp [threeContainerReader] at h

/-- Witness for C14: the block with three containers probed with the seven ascending pairs
of a union set answers 30, 31 and 32 for its own three series and -1 for the other four. -/
theorem scan_union_witness :
    NewReader refEnv "blk" threeContainerBlock = .ok threeContainerReader ∧
      (scanAll refEnv threeContainerScanner unionProbes).map Prod.fst
        = .ok [30, -1, 31, -1, 32, -1, -1] ∧
      ((∃ s1, scanAll refEnv threeContainerScanner unionProbes
          = .ok (unionProbes.map (threeContainerReader.recordedOffset refEnv), s1)) ∧
        ∀ p : Nat × Nat,
          (∀ (i : Nat) (c : Container),
            threeContainerReader.seriesIDs.entries[i]? = some (p.1, c) → p.2 ∈ c →
            threeContainerReader.recordedOffset refEnv p
              = (refEnv.Get (threeContainerReader.containerOffsets refEnv i)
                  (c.ordinal p.2 : Nat)).1) ∧
          ((∀ c, threeContainerReader.seriesIDs.containerFor p.1 = some c → p.2 ∉ c) →
            threeContainerReader.recordedOffset refEnv p = -1)) :=
  ⟨rfl, rfl, scan_union refEnv threeContainerReader threeContainerScanner unionProbes rfl
    ⟨by decide, by decide⟩ threeContainer_indexes (by decide) (by decide)⟩

/-- C15 (as amended): for a block with a non-empty series-ID set whose high-offset entries
lie in the buffer, and a strictly increasing sequence of probes whose high keys include
every high key of the block after the first, `scan` returns -1 for each probe whose high
key the block has no container for, and for each probe whose high key and series the
block contains it returns the entry of that series in its container's offset index (-1 if
the index has none). -/
theorem scan_gaps (env : Env) (r : reader) (ps : List (Nat × Nat))
    (hne : r.seriesIDs.entries ≠ [])
    (hwf : r.seriesIDs.WF)
    (hrange : ∀ i : Nat, i < r.seriesIDs.entries.length →
      0 ≤ (env.Get r.highOffsets (i : Int)).1 ∧
        (env.Get r.highOffsets (i : Int)).1 ≤ (r.buf.length : Int))
    (hps : ps.Pairwise (fun a b => a.1 < b.1 ∨ (a.1 = b.1 ∧ a.2 < b.2)))
    (hvisit : ∀ i k, 0 < i → r.seriesIDs.GetHighKeys[i]? = some k → k ∈ ps.map Prod.fst) :
    ∃ s0 s1, newDataScanner env r = .ok s0 ∧
      scanAll env s0 ps = .ok (ps.map (r.recordedOffset env), s1) ∧
      (∀ p : Nat × Nat, p.1 ∉ r.seriesIDs.GetHighKeys → r.recordedOffset env p = -1) ∧
      ∀ (p : Nat × Nat) (i : Nat) (c : Container),
        r.seriesIDs.entries[i]? = some (p.1, c) → p.2 ∈ c →
        r.recordedOffset env p
          = entryOrAbsent env (r.containerOffsets env i) (c.ordinal p.2 : Nat) := by
  obtain ⟨hsorted, hnd0⟩ := hwf
  have hnd : ∀ e ∈ r.seriesIDs.entries, e.2.Nodup := fun e he => (hnd0 e he).1
  have hkeysnd : r.seriesIDs.GetHighKeys.Nodup :=
    List.Pairwise.imp (fun hab => Nat.ne_of_lt hab) hsorted
  have hpos : 0 < r.seriesIDs.entries.length := List.length_pos.2 hne
  obtain ⟨e, he⟩ : ∃ e, r.seriesIDs.entries[0]? = some e := ⟨_, List.getElem?_eq_getElem hpos⟩
  obtain ⟨k0, c0⟩ := e
  obtain ⟨s0, hopen, hs0, -⟩ := newDataScanner_ok env r k0 c0 he (by simpa using hrange 0 hpos)
  obtain ⟨s1, j1, hall, -⟩ := scanAll_correct env r hsorted hnd hrange ps s0 0 hs0
    (hps.imp (fun hab => by rcases hab with h | ⟨h, -⟩ <;> omega)) hvisit
    (by intro p _ i k hi; omega)
  refine ⟨s0, s1, hopen, hall, fun p hp => recordedOffset_absent env r p hp, ?_⟩
  intro p i c hent hmem
  obtain ⟨hl, hi⟩ := lookup_of_getElem r.seriesIDs.entries hkeysnd i _ _ hent
  simp only [reader.recordedOffset, Bitmap.containerFor, hl, hmem, if_true, Bitmap.GetHighKeys, hi]

/-- C15 (counterexample): the block with the containers 0, 1 and 2 has a non-empty
series-ID set and contains the series (2, 1), whose recorded offset is 32; for the strictly
increasing sequence that consists of the single probe (2, 1), `scan` advances by one
container only, to high key 1, and returns -1. -/
theorem scan_skips_at_most_one_container :
    NewReader refEnv "blk" threeContainerBlock = .ok threeContainerReader ∧
      newDataScanner refEnv threeContainerReader = .ok threeContainerScanner ∧
      threeContainerReader.seriesIDs.containerFor 2 = some [1] ∧
      threeContainerReader.recordedOffset refEnv (2, 1) = 32 ∧
      (scanAll refEnv threeContainerScanner [(2, 1)]).map Prod.fst = .ok [-1] :=
  ⟨rfl, rfl, rfl, rfl, rfl⟩

theorem gapReader_range (i : Nat) (h : i < gapReader.seriesIDs.entries.length) :
    0 ≤ (refEnv.Get gapReader.highOffsets (i : Int)).1 ∧
      (refEnv.Get gapReader.highOffsets (i : Int)).1 ≤ (gapReader.buf.length : Int) := by
  match i, h with
  | 0, _ => decide
  | 1, _ => decide
  | n + 2, h => simp [gapReader] at h

theorem gapReader_visit (i k : Nat) (hi : 0 < i)
    (h : gapReader.seriesIDs.GetHighKeys[i]? = some k) :
    k ∈ ([(0, 1), (3, 9), (5, 2), (6, 0)] : List (Nat × Nat)).map Prod.fst := by
  match i, hi, h with
  | 1, _, h =>
    have : 5 = k := by simpa [gapReader, Bitmap.GetHighKeys] using h
    subst this
    decide
  | n + 2, _, h => simp [gapReader, Bitmap.GetHighKeys] at h

/-- Witness for C15 (as amended): the block with the containers 0 and 5 answers -1 for the
probes of the high keys 3 and 6, which it lacks, and 30 and 31 for its own two series. -/
theorem scan_gaps_witness :
    NewReader refEnv "blk" gapBlock = .ok gapReader ∧
      ([(0, 1), (3, 9), (5, 2), (6, 0)] : List (Nat × Nat)).map (gapReader.recordedOffset refEnv)
        = [30, -1, 31, -1] ∧
      ∃ s0 s1, newDataScanner refEnv gapReader = .ok s0 ∧
        scanAll refEnv s0 [(0, 1), (3, 9), (5, 2), (6, 0)]
          = .ok (([(0, 1), (3, 9), (5, 2), (6, 0)] : List (Nat × Nat)).map
              (gapReader.recordedOffset refEnv), s1) ∧
        (∀ p : Nat × Nat, p.1 ∉ gapReader.seriesIDs.GetHighKeys →
          gapReader.recordedOffset refEnv p = -1) ∧
        ∀ (p : Nat × Nat) (i : Nat) (c : Container),
          gapReader.seriesIDs.entries[i]? = some (p.1, c) → p.2 ∈ c →
          gapReader.recordedOffset refEnv p
            = entryOrAbsent refEnv (gapReader.containerOffsets refEnv i) (c.ordinal p.2 : Nat) :=
  ⟨rfl, rfl, scan_gaps refEnv gapReader [(0, 1), (3, 9), (5, 2), (6, 0)] (by decide)
    ⟨by decide, by decide⟩ gapReader_range (by decide) gapReader_visit⟩

/-- C17 (the code at the failing input): the 32-byte block `emptySeriesBlock`, whose
series-ID set is empty, opens, and `newDataScanner` on its reader panics, indexing the
empty high-key list at position 0. -/
theorem newDataScanner_panics_on_empty_set :
    NewReader refEnv "blk" emptySeriesBlock = .ok emptySeriesReader ∧
      emptySeriesReader.seriesIDs.GetHighKeys = [] ∧
      newDataScanner refEnv emptySeriesReader = .error .panic :=
  ⟨rfl, rfl, rfl⟩

/-! ## Lemmas on the field decode loop -/

/-- What `readField` records on a recording sink: the calls cover a prefix of the present
slots, only the last call can have asked to stop, and it did if present slots are left. -/
theorem readField_log {σ F : Type} (Append : Block σ F) (fb : Nat → F) :
    ∀ (tsd : TSDDecoder) (block : σ) (log : List (Nat × F × Bool)),
      ∃ calls rest,
        (readField (recording Append) fb (block, log) tsd).1.2 = log ++ calls ∧
        (readField (recording Append) fb (block, log) tsd).1.1
          = (readField Append fb block tsd).1 ∧
        calls.map (fun c => (c.1, c.2.1)) ++ rest = presentSlots fb tsd ∧
        (∀ i c, i + 1 < calls.length → calls[i]? = some c → c.2.2 = false) ∧
        (rest ≠ [] → ∃ c, calls.getLast? = some c ∧ c.2.2 = true) ∧
        ((∀ s slot v, (Append s slot v).2 = false) → rest = []) := by
  intro tsd
  induction tsd with
  | nil =>
    intro block log
    exact ⟨[], [], by simp [readField], rfl, by simp [presentSlots],
      fun i c hi => by simp at hi, fun h => absurd rfl h, fun _ => rfl⟩
  | cons e tail ih =>
    intro block log
    obtain ⟨slot, v⟩ := e
    cases v with
    | none =>
      obtain ⟨calls, rest, h1, h0, h2, h3, h4, h5⟩ := ih block log
      exact ⟨calls, rest, by simpa [readField] using h1, by simpa [readField] using h0,
        by simpa [presentSlots] using h2, h3, h4, h5⟩
    | some val =>
      cases hA : Append block slot (fb val) with
      | mk block1 stop =>
        cases stop with
        | true =>
          refine ⟨[(slot, fb val, true)], presentSlots fb tail, ?_, ?_, ?_, ?_, ?_, ?_⟩
          · simp [readField, recording, hA]
          · simp [readField, recording, hA]
          · simp [presentSlots]
          · intro i c hi
            simp at hi
          · intro _
            exact ⟨_, rfl, rfl⟩
          · intro hno
            have := hno block slot (fb val)
            rw [hA] at this
            cases this
        | false =>
          obtain ⟨calls, rest, h1, h0, h2, h3, h4, h5⟩ :=
            ih block1 (log ++ [(slot, fb val, false)])
          refine ⟨(slot, fb val, false) :: calls, rest, ?_, ?_, ?_, ?_, ?_, h5⟩
          · simpa [readField, recording, hA] using h1
          · simpa [readField, recording, hA] using h0
          · simpa [presentSlots] using h2
          · intro i c hi hc
            cases i with
            | zero =>
              simp at hc
              rw [← hc]
            | succ k =>
              simp only [List.getElem?_cons_succ] at hc
              exact h3 k c (by simpa using hi) hc
          · intro hr
            obtain ⟨c, hc1, hc2⟩ := h4 hr
            refine ⟨c, ?_, hc2⟩
            cases calls with
            | nil => simp at hc1
            | cons a as => simpa [List.getLast?_cons_cons] using hc1

/-- C18: `readField` calls the sink's `Append` only for slots with a present value, in the
decoder's slot order, each time with that slot and the floating-point value of the stored
bit pattern (the calls are an initial part of the present slots); if the sink never
signals stop, the calls are exactly the present slots, each once and no absent slot. -/
theorem readField_appends_present {σ F : Type} (Append : Block σ F) (Float64frombits : Nat → F)
    (block : σ) (tsd : TSDDecoder) :
    (∃ rest, (appendCalls Append Float64frombits block tsd).map (fun c => (c.1, c.2.1)) ++ rest
        = presentSlots Float64frombits tsd) ∧
      ((∀ s slot v, (Append s slot v).2 = false) →
        (appendCalls Append Float64frombits block tsd).map (fun c => (c.1, c.2.1))
          = presentSlots Float64frombits tsd) := by
  obtain ⟨calls, rest, h1, -, h2, -, -, h5⟩ := readField_log Append Float64frombits tsd block []
  simp only [List.nil_append] at h1
  refine ⟨⟨rest, by rw [appendCalls, h1]; exact h2⟩, ?_⟩
  intro hno
  rw [appendCalls, h1, ← h2, h5 hno, List.append_nil]

/-- C19: the slots that `readField` appends are the present slots up to and including the
first one at which the sink signalled stop: the calls are an initial part of the present
slots, every call but the last was answered with "go on", and if a present slot was left
out the last call was answered with "stop". -/
theorem readField_stops_at_first_stop {σ F : Type} (Append : Block σ F)
    (Float64frombits : Nat → F) (block : σ) (tsd : TSDDecoder) :
    ∃ rest, (appendCalls Append Float64frombits block tsd).map (fun c => (c.1, c.2.1)) ++ rest
        = presentSlots Float64frombits tsd ∧
      (∀ i c, i + 1 < (appendCalls Append Float64frombits block tsd).length →
        (appendCalls Append Float64frombits block tsd)[i]? = some c → c.2.2 = false) ∧
      (rest ≠ [] →
        ∃ c, (appendCalls Append Float64frombits block tsd).getLast? = some c ∧ c.2.2 = true) := by
  obtain ⟨calls, rest, h1, -, h2, h3, h4, -⟩ := readField_log Append Float64frombits tsd block []
  simp only [List.nil_append] at h1
  refine ⟨rest, by rw [appendCalls, h1]; exact h2, ?_, ?_⟩
  · rw [appendCalls, h1]; exact h3
  · rw [appendCalls, h1]; exact h4

/-- The recording sink leaves the sink and the decoder as the plain run does. -/
theorem readField_recording {σ F : Type} (Append : Block σ F) (Float64frombits : Nat → F)
    (block : σ) (tsd : TSDDecoder) :
    (readField (recording Append) Float64frombits (block, []) tsd).1.1
      = (readField Append Float64frombits block tsd).1 := by
  obtain ⟨_, _, -, h0, -⟩ := readField_log Append Float64frombits tsd block []
  exact h0

/-- On the sample stream a window of size 2 receives the slots 5 and 7 and stops there;
slot 6, without a value, and slot 8, after the stop, are not appended. -/
theorem readField_sample :
    readField windowSink id [] sampleStream = ([(5, 10), (7, 20)], [(8, some 30)]) ∧
      appendCalls windowSink id [] sampleStream = [(5, 10, false), (7, 20, true)] ∧
      presentSlots id sampleStream = [(5, 10), (7, 20), (8, 30)] :=
  ⟨rfl, rfl, rfl⟩

/-! ## The tag value index reader -/

theorem mem_foldl_union (sets : List TagKVEntrySet) :
    ∀ (acc : Finset Nat) (v : Nat),
      v ∈ sets.foldl (fun acc entrySet => acc ∪ entrySet.tagValueIDs) acc
        ↔ v ∈ acc ∨ ∃ e ∈ sets, v ∈ e.tagValueIDs := by
  induction sets with
  | nil => intro acc v; simp
  | cons e rest ih =>
    intro acc v
    simp only [List.foldl_cons, ih, Finset.mem_union, List.mem_cons, exists_eq_or_imp]
    tauto

/-- C20: `GetTagValueIDsForTagKeyID` returns, when at least one source has a block for the
key, exactly the union over all sources of each source's full-membership set, which for
flushed blocks is the set of all value ids flushed under the key; when no source has a
block for the key it returns an error and no set. -/
theorem GetTagValueIDs_union (r : tagReader) (tagKeyID : Nat) :
    ((∃ source ∈ r, ∃ e, source tagKeyID = some e) →
        ∃ ids, r.GetTagValueIDsForTagKeyID tagKeyID = .ok ids ∧
          ∀ v, v ∈ ids ↔ ∃ source ∈ r, ∃ e, source tagKeyID = some e ∧ v ∈ e.tagValueIDs) ∧
      ((∀ source ∈ r, source tagKeyID = none) →
        r.GetTagValueIDsForTagKeyID tagKeyID = .error (.error "not found")) ∧
      ∀ (mapping : List (String × Nat)) (v : Nat),
        v ∈ (flushedEntrySet mapping).tagValueIDs ↔ ∃ value, (value, v) ∈ mapping := by
  have hmem : ∀ e, e ∈ r.filterMap (fun source => source tagKeyID)
      ↔ ∃ source ∈ r, source tagKeyID = some e := by
    intro e
    simp [List.mem_filterMap]
  refine ⟨?_, ?_, ?_⟩
  · rintro ⟨source, hs, e, he⟩
    have hin : e ∈ r.filterMap (fun source => source tagKeyID) := (hmem e).2 ⟨source, hs, he⟩
    cases hsets : r.filterMap (fun source => source tagKeyID) with
    | nil => rw [hsets] at hin; cases hin
    | cons e0 rest =>
      refine ⟨(e0 :: rest).foldl (fun acc entrySet => acc ∪ entrySet.tagValueIDs) ∅,
        by simp only [tagReader.GetTagValueIDsForTagKeyID, hsets], ?_⟩
      intro v
      rw [mem_foldl_union, ← hsets]
      simp only [Finset.not_mem_empty, false_or]
      constructor
      · rintro ⟨e1, he1, hv⟩
        obtain ⟨s1, hs1, hse⟩ := (hmem e1).1 he1
        exact ⟨s1, hs1, e1, hse, hv⟩
      · rintro ⟨s1, hs1, e1, hse, hv⟩
        exact ⟨e1, (hmem e1).2 ⟨s1, hs1, hse⟩, hv⟩
  · intro hall
    have : r.filterMap (fun source => source tagKeyID) = [] := by
      rw [List.filterMap_eq_nil_iff]
      exact hall
    simp only [tagReader.GetTagValueIDsForTagKeyID, this]
  · intro mapping v
    simp [flushedEntrySet]

/-- The first case of the test of the tag reader: the tag key 19 has no block and yields an
error; the tag key 20 yields the ids 1, 2 and 3 of the flushed zone values. -/
theorem GetTagValueIDs_sample :
    tagReader.GetTagValueIDsForTagKeyID [zoneSource] 19 = .error (.error "not found") ∧
      tagReader.GetTagValueIDsForTagKeyID [zoneSource] 20 = .ok {1, 2, 3} := by
  refine ⟨rfl, ?_⟩
  simp only [tagReader.GetTagValueIDsForTagKeyID, zoneSource, List.filterMap_cons, if_true,
    List.filterMap_nil, List.foldl_cons, List.foldl_nil, flushedEntrySet]
  congr 1

/-! ## Reading the data of one series -/

/-- C29 (the code at the failing input): on the reader of `badFieldOffsetBlock` (two
catalogue fields), two `Load` calls for field 1 each return one aggregator and leave the
recorded read-field positions `[0, 0]`, two of them for an aggregator list of length 1;
`readSeriesData` with the list of the second `Load` then panics on `fieldAggs[1]`. -/
theorem readSeriesData_after_two_loads :
    NewReader refEnv "blk" badFieldOffsetBlock = .ok badFieldOffsetReader ∧
      badFieldOffsetReader.Load refEnv sampleFlow 0 [1] 0 [1]
        = .ok (some fieldOneScanner, { badFieldOffsetReader with readFieldIndexes := [0] }) ∧
      ({ badFieldOffsetReader with readFieldIndexes := [0] } : reader).Load refEnv sampleFlow 0
          [1] 0 [1]
        = .ok (some fieldOneScanner, { badFieldOffsetReader with readFieldIndexes := [0, 0] }) ∧
      fieldOneScanner.fieldAggs.length = 1 ∧
      ({ badFieldOffsetReader with readFieldIndexes := [0, 0] } : reader).readSeriesData refEnv
          sampleReset countSink id 0 fieldOneScanner.fieldAggs = .error .panic :=
  ⟨rfl, rfl, rfl, rfl, rfl⟩

/-- The loop of `readSeriesData` when every offset it meets lies in the field-data area and
an aggregator exists for every loop index: aggregator `i + k` receives the stream of the
`k`-th position when the index has an entry for it and is left alone otherwise. -/
theorem readFieldsLoop_ok {σ F : Type} (env : Env) (reset : List UInt8 → Nat → Nat → TSDDecoder)
    (Append : Block σ F) (fb : Nat → F) (d : FixedOffsetDecoder) (fieldsData : List UInt8)
    (start end_ : Nat) :
    ∀ (rest : List Nat) (i : Nat) (aggs : List (fieldAggregator σ)),
      i + rest.length ≤ aggs.length →
      (∀ idx ∈ rest, (env.Get d (idx : Int)).2 = true →
        0 ≤ (env.Get d (idx : Int)).1 ∧ (env.Get d (idx : Int)).1 ≤ (fieldsData.length : Int)) →
      ∃ out, readFieldsLoop env reset Append fb d fieldsData start end_ i rest aggs = .ok out ∧
        out.length = aggs.length ∧
        ∀ (j : Nat) (agg : fieldAggregator σ), aggs[j]? = some agg →
          out[j]? = some
            (if j < i then agg else
              match rest[j - i]? with
              | none => agg
              | some idx =>
                if (env.Get d (idx : Int)).2 then
                  { fieldMeta := agg.fieldMeta,
                    block := (readField Append fb agg.block
                      (reset (fieldsData.drop (env.Get d (idx : Int)).1.toNat) start end_)).1 }
                else agg) := by
  intro rest
  induction rest with
  | nil =>
    intro i aggs _ _
    refine ⟨aggs, rfl, rfl, ?_⟩
    intro j agg hj
    simp [hj]
  | cons idx rest ih =>
    intro i aggs hlen hoff
    simp only [List.length_cons] at hlen
    have hrest : ∀ idx1 ∈ rest, (env.Get d (idx1 : Int)).2 = true →
        0 ≤ (env.Get d (idx1 : Int)).1 ∧ (env.Get d (idx1 : Int)).1 ≤ (fieldsData.length : Int) :=
      fun idx1 h1 => hoff idx1 (List.mem_cons_of_mem _ h1)
    have hi : i < aggs.length := by omega
    rw [readFieldsLoop]
    by_cases hok : (env.Get d (idx : Int)).2 = true
    · have hr := hoff idx (List.mem_cons_self _ _) hok
      simp only [hok, if_true, sliceFrom_of_le _ _ hr.1 hr.2, List.getElem?_eq_getElem hi]
      obtain ⟨out, hout, hl, hall⟩ := ih (i + 1)
        (aggs.set i (newFieldAggregator (aggs[i]).fieldMeta
          (readField Append fb (aggs[i]).block
            (reset (fieldsData.drop (env.Get d (idx : Int)).1.toNat) start end_)).1))
        (by simp only [List.length_set]; omega) hrest
      refine ⟨out, hout, by simpa using hl, ?_⟩
      intro j agg hj
      by_cases hji : j = i
      · subst hji
        have hagg : aggs[j] = agg := by
          rw [List.getElem?_eq_getElem hi] at hj
          exact Option.some.inj hj
        have := hall j (newFieldAggregator (aggs[j]).fieldMeta
          (readField Append fb (aggs[j]).block
            (reset (fieldsData.drop (env.Get d (idx : Int)).1.toNat) start end_)).1)
          (by simp [List.getElem?_set, hi])
        rw [this]
        simp [hok, hagg, newFieldAggregator]
      · have hne : i ≠ j := fun e => hji e.symm
        have := hall j agg (by simp [List.getElem?_set, hne, hj])
        rw [this]
        by_cases hlt : j < i
        · have h1 : j < i + 1 := by omega
          simp [hlt, h1]
        · have h1 : ¬ j < i + 1 := by omega
          have h2 : j - i = (j - (i + 1)) + 1 := by omega
          simp only [hlt, h1, if_false, h2, List.getElem?_cons_succ]
    · rw [if_neg hok]
      obtain ⟨out, hout, hl, hall⟩ := ih (i + 1) aggs (by omega) hrest
      refine ⟨out, hout, hl, ?_⟩
      intro j agg hj
      rw [hall j agg hj]
      by_cases hji : j = i
      · subst hji
        simp [hok]
      · by_cases hlt : j < i
        · have h1 : j < i + 1 := by omega
          simp [hlt, h1]
        · have h1 : ¬ j < i + 1 := by omega
          have h2 : j - i = (j - (i + 1)) + 1 := by omega
          simp only [hlt, h1, if_false, h2, List.getElem?_cons_succ]

/-- C30 (as amended): for a block with more than one catalogue field, when the byte offset
lies in the buffer, the field-data area, which starts `header + fieldCount x valueWidth`
bytes after it, lies in the series region, the recorded read-field positions are not more
than the aggregators, and every offset that the index holds for a recorded position lies
in the field-data area, `readSeriesData` decodes, for each recorded position with an entry
in the index, the stream at that entry's offset counted from the start of the field-data
area over the block's `[start, end]` range into the aggregator of the same rank, and
leaves the aggregators of positions without an entry untouched. -/
theorem readSeriesData_multi {σ F : Type} (env : Env)
    (reset : List UInt8 → Nat → Nat → TSDDecoder) (Append : Block σ F) (fb : Nat → F)
    (r : reader) (position : Int) (fieldAggs : List (fieldAggregator σ))
    (hcount : 1 < r.fields.length)
    (hpos : 0 ≤ position ∧ position ≤ (r.buf.length : Int))
    (harea : 0 ≤ env.Header (NewFixedOffsetDecoder (r.buf.drop position.toNat))
          + (r.fields.length : Int)
            * env.ValueWidth (NewFixedOffsetDecoder (r.buf.drop position.toNat)) ∧
        env.Header (NewFixedOffsetDecoder (r.buf.drop position.toNat))
          + (r.fields.length : Int)
            * env.ValueWidth (NewFixedOffsetDecoder (r.buf.drop position.toNat))
          ≤ ((r.buf.drop position.toNat).length : Int))
    (hlen : r.readFieldIndexes.length ≤ fieldAggs.length)
    (hoff : ∀ idx ∈ r.readFieldIndexes,
      (env.Get (NewFixedOffsetDecoder (r.buf.drop position.toNat)) (idx : Int)).2 = true →
      0 ≤ (env.Get (NewFixedOffsetDecoder (r.buf.drop position.toNat)) (idx : Int)).1 ∧
        (env.Get (NewFixedOffsetDecoder (r.buf.drop position.toNat)) (idx : Int)).1
          ≤ (((r.buf.drop position.toNat).drop
              (env.Header (NewFixedOffsetDecoder (r.buf.drop position.toNat))
                + (r.fields.length : Int)
                  * env.ValueWidth (NewFixedOffsetDecoder (r.buf.drop position.toNat))).toNat).length
            : Int)) :
    ∃ out, r.readSeriesData env reset Append fb position fieldAggs = .ok out ∧
      out.length = fieldAggs.length ∧
      ∀ (i : Nat) (agg : fieldAggregator σ), fieldAggs[i]? = some agg →
        out[i]? = some
          (match r.readFieldIndexes[i]? with
            | none => agg
            | some idx =>
              if (env.Get (NewFixedOffsetDecoder (r.buf.drop position.toNat)) (idx : Int)).2 then
                { fieldMeta := agg.fieldMeta,
                  block := (readField Append fb agg.block
                    (reset (((r.buf.drop position.toNat).drop
                        (env.Header (NewFixedOffsetDecoder (r.buf.drop position.toNat))
                          + (r.fields.length : Int)
                            * env.ValueWidth
                                (NewFixedOffsetDecoder (r.buf.drop position.toNat))).toNat).drop
                        (env.Get (NewFixedOffsetDecoder (r.buf.drop position.toNat))
                          (idx : Int)).1.toNat)
                      r.start r.end_)).1 }
              else agg) := by
  have hne : ¬ r.fields.length = 1 := by omega
  obtain ⟨out, hout, hl, hall⟩ := readFieldsLoop_ok env reset Append fb
    (NewFixedOffsetDecoder (r.buf.drop position.toNat))
    ((r.buf.drop position.toNat).drop
      (env.Header (NewFixedOffsetDecoder (r.buf.drop position.toNat))
        + (r.fields.length : Int)
          * env.ValueWidth (NewFixedOffsetDecoder (r.buf.drop position.toNat))).toNat)
    r.start r.end_ r.readFieldIndexes 0 fieldAggs (by omega) hoff
  refine ⟨out, ?_, hl, ?_⟩
  · simp only [reader.readSeriesData, hne, if_false, sliceFrom_of_le _ _ hpos.1 hpos.2,
      sliceFrom_of_le _ _ harea.1 harea.2]
    exact hout
  · intro i agg hi
    have := hall i agg hi
    simpa using this

/-- C30 (counterexample): on the reader of `badFieldOffsetBlock` after the `Load` of field
2, whose catalogue position is 1, the series region at byte offset 0 holds the entry 200
for position 1 while the field-data area has 49 bytes; `readSeriesData` panics instead of
decoding the field. -/
theorem readSeriesData_panics_on_far_field_offset :
    badFieldOffsetReader.Load refEnv sampleFlow 0 [2] 0 [1]
        = .ok (some { fieldAggs := [⟨⟨2, 1⟩, 7⟩], lowContainer := [1],
                      seriesOffsets := ⟨badFieldOffsetBlock.drop 5⟩ },
            { badFieldOffsetReader with readFieldIndexes := [1] }) ∧
      refEnv.Get (NewFixedOffsetDecoder (badFieldOffsetBlock.drop 5)) 0 = (0, true) ∧
      refEnv.Get (NewFixedOffsetDecoder badFieldOffsetBlock) 1 = (200, true) ∧
      ({ badFieldOffsetReader with readFieldIndexes := [1] } : reader).readSeriesData refEnv
          sampleReset countSink id 0 [⟨⟨2, 1⟩, 7⟩] = .error .panic :=
  ⟨rfl, rfl, rfl, rfl⟩

/-- Witness for C30 (as amended): on the reader of `badFieldOffsetBlock` after the `Load` of
field 1, whose position 0 has the entry 0, the six slots of the range 5 to 10 are decoded
from the start of the field-data area into the one aggregator, whose counting sink goes
from 7 to 13. -/
theorem readSeriesData_multi_witness :
    fieldOneReader.readSeriesData refEnv sampleReset countSink id 0 [⟨⟨1, 1⟩, 7⟩]
        = .ok [⟨⟨1, 1⟩, 13⟩] ∧
    ∃ out, fieldOneReader.readSeriesData refEnv sampleReset countSink id 0 [⟨⟨1, 1⟩, 7⟩] = .ok out ∧
      out.length = ([⟨⟨1, 1⟩, 7⟩] : List (fieldAggregator Nat)).length ∧
      ∀ (i : Nat) (agg : fieldAggregator Nat),
        ([⟨⟨1, 1⟩, 7⟩] : List (fieldAggregator Nat))[i]? = some agg →
        out[i]? = some
          (match fieldOneReader.readFieldIndexes[i]? with
            | none => agg
            | some idx =>
              if (refEnv.Get (NewFixedOffsetDecoder (fieldOneReader.buf.drop (0 : Int).toNat))
                  (idx : Int)).2 then
                { fieldMeta := agg.fieldMeta,
                  block := (readField countSink id agg.block
                    (sampleReset (((fieldOneReader.buf.drop (0 : Int).toNat).drop
                        (refEnv.Header (NewFixedOffsetDecoder
                            (fieldOneReader.buf.drop (0 : Int).toNat))
                          + (fieldOneReader.fields.length : Int)
                            * refEnv.ValueWidth
                                (NewFixedOffsetDecoder
                                  (fieldOneReader.buf.drop (0 : Int).toNat))).toNat).drop
                        (refEnv.Get (NewFixedOffsetDecoder
                            (fieldOneReader.buf.drop (0 : Int).toNat))
                          (idx : Int)).1.toNat)
                      fieldOneReader.start fieldOneReader.end_)).1 }
              else agg) :=
  ⟨rfl, readSeriesData_multi refEnv sampleReset countSink id fieldOneReader 0 [⟨⟨1, 1⟩, 7⟩]
    (by decide) (by decide) (by decide) (by decide) (by decide)⟩

/-! ## The tag value index reader: predicates -/

/-- When every trie decodes, the matches are the ids of the decoded entries that satisfy the
predicate. -/
theorem collectMatches_ok (M : Matchers) (expr : TagExpr) (es : List TagKVEntrySet)
    (hdec : ∀ e ∈ es, ∃ entries, e.trie = .ok entries) :
    collectMatches M expr es
      = .ok ((((es.flatMap TagKVEntrySet.decoded).filter (fun p => expr.holds M p.1)).map
          Prod.snd).toFinset) := by
  induction es with
  | nil => simp [collectMatches]
  | cons e rest ih =>
    obtain ⟨entries, he⟩ := hdec e (List.mem_cons_self _ _)
    have ih1 := ih (fun e1 h1 => hdec e1 (List.mem_cons_of_mem _ h1))
    simp only [collectMatches, he, ih1, List.flatMap_cons, TagKVEntrySet.decoded,
      List.filter_append, List.map_append, List.toFinset_append]

/-- A trie that fails to decode makes the collection of matches fail. -/
theorem collectMatches_error (M : Matchers) (expr : TagExpr) (es : List TagKVEntrySet)
    (hfail : ∃ e ∈ es, ∃ msg, e.trie = .error msg) :
    ∃ err, collectMatches M expr es = .error err := by
  induction es with
  | nil => obtain ⟨e, he, _⟩ := hfail; simp at he
  | cons e rest ih =>
    cases he : e.trie with
    | error msg => exact ⟨.error msg, by simp only [collectMatches, he]⟩
    | ok entries =>
      obtain ⟨e1, h1, msg, hmsg⟩ := hfail
      rcases List.mem_cons.mp h1 with h | h
      · subst h; rw [he] at hmsg; cases hmsg
      · obtain ⟨err, herr⟩ := ih ⟨e1, h, msg, hmsg⟩
        exact ⟨err, by simp only [collectMatches, he, herr]⟩

/-- The members of a successful collection of matches are ids of decoded entries that
satisfy the predicate, and every trie decoded. -/
theorem collectMatches_mem (M : Matchers) (expr : TagExpr) (es : List TagKVEntrySet)
    (ids : Finset Nat) (h : collectMatches M expr es = .ok ids) :
    (∀ e ∈ es, ∃ entries, e.trie = .ok entries) ∧
      ids = (((es.flatMap TagKVEntrySet.decoded).filter (fun p => expr.holds M p.1)).map
          Prod.snd).toFinset := by
  have hdec : ∀ e ∈ es, ∃ entries, e.trie = .ok entries := by
    intro e he
    cases ht : e.trie with
    | ok entries => exact ⟨entries, rfl⟩
    | error msg =>
      obtain ⟨err, herr⟩ := collectMatches_error M expr es ⟨e, he, msg, ht⟩
      rw [herr] at h; cases h
  refine ⟨hdec, ?_⟩
  rw [collectMatches_ok M expr es hdec] at h
  cases h; rfl

/-- The answer of the reader for a supported predicate on a key that has a block. -/
theorem Find_eq (M : Matchers) (r : tagReader) (tagKeyID : Nat) (expr : TagExpr)
    (hsup : expr ≠ .Unsupported) (hblock : r.filterMap (fun source => source tagKeyID) ≠ []) :
    r.FindValueIDsByExprForTagKeyID M tagKeyID expr
      = match collectMatches M expr (r.filterMap (fun source => source tagKeyID)) with
        | .error err => .error err
        | .ok ids => if ids = ∅ then .error (.error "not found") else .ok ids := by
  unfold tagReader.FindValueIDsByExprForTagKeyID
  cases hes : r.filterMap (fun source => source tagKeyID) with
  | nil => exact absurd hes hblock
  | cons e rest =>
    cases expr with
    | Unsupported => exact absurd rfl hsup
    | Equals value => rfl
    | In values => rfl
    | Like pattern => rfl
    | Regex pattern => rfl

/-- The reader answers every unsupported predicate with an error. -/
theorem Find_unsupported (M : Matchers) (r : tagReader) (tagKeyID : Nat) :
    ∃ err, r.FindValueIDsByExprForTagKeyID M tagKeyID .Unsupported = .error err := by
  unfold tagReader.FindValueIDsByExprForTagKeyID
  cases r.filterMap (fun source => source tagKeyID) with
  | nil => exact ⟨_, rfl⟩
  | cons e rest => exact ⟨_, rfl⟩

/-- The reader finds, for a supported predicate over tries that all decode and with at
least one match, the ids of the decoded entries that satisfy the predicate. -/
theorem Find_ok (M : Matchers) (r : tagReader) (tagKeyID : Nat) (expr : TagExpr)
    (hsup : expr ≠ .Unsupported)
    (hdec : ∀ e ∈ r.filterMap (fun source => source tagKeyID), ∃ entries, e.trie = .ok entries)
    (p : String × Nat) (hp : p ∈ r.decodedEntries tagKeyID) (hholds : expr.holds M p.1 = true) :
    r.FindValueIDsByExprForTagKeyID M tagKeyID expr
      = .ok ((((r.decodedEntries tagKeyID).filter (fun p => expr.holds M p.1)).map
          Prod.snd).toFinset) := by
  have hblock : r.filterMap (fun source => source tagKeyID) ≠ [] := by
    intro h
    simp [tagReader.decodedEntries, h] at hp
  rw [Find_eq M r tagKeyID expr hsup hblock, collectMatches_ok M expr _ hdec]
  have hne : (((r.decodedEntries tagKeyID).filter (fun p => expr.holds M p.1)).map
      Prod.snd).toFinset ≠ ∅ := by
    intro h
    have hmem : p.2 ∈ (((r.decodedEntries tagKeyID).filter (fun p => expr.holds M p.1)).map
        Prod.snd).toFinset := by
      rw [List.mem_toFinset]
      exact List.mem_map.mpr ⟨p, List.mem_filter.mpr ⟨hp, hholds⟩, rfl⟩
    rw [h] at hmem
    exact absurd hmem (Finset.not_mem_empty _)
  simp only [tagReader.decodedEntries] at hne ⊢
  rw [if_neg hne]

/-- Claim C21: over sources whose tries all decode, for a value held under the tag key with
the one value id `v`, `FindValueIDsByExprForTagKeyID` with an Equals predicate on that value
returns, without error, the singleton set of `v`. -/
theorem Find_equals_singleton (M : Matchers) (r : tagReader) (tagKeyID : Nat)
    (value : String) (v : Nat)
    (hdec : ∀ e ∈ r.filterMap (fun source => source tagKeyID), ∃ entries, e.trie = .ok entries)
    (hflushed : (value, v) ∈ r.decodedEntries tagKeyID)
    (hunique : ∀ w, (value, w) ∈ r.decodedEntries tagKeyID → w = v) :
    r.FindValueIDsByExprForTagKeyID M tagKeyID (.Equals value) = .ok {v} := by
  rw [Find_ok M r tagKeyID (.Equals value) (by simp) hdec (value, v) hflushed
    (by simp [TagExpr.holds])]
  congr 1
  ext w
  rw [List.mem_toFinset, List.mem_map, Finset.mem_singleton]
  constructor
  · rintro ⟨⟨s, w1⟩, hp, rfl⟩
    rw [List.mem_filter] at hp
    have hs : s = value := by simpa [TagExpr.holds] using hp.2
    subst hs
    exact hunique w1 hp.1
  · rintro rfl
    exact ⟨(value, w), List.mem_filter.mpr ⟨hflushed, by simp [TagExpr.holds]⟩, rfl⟩

/-- Witness of C21 on the host tag of the test: the value id of eleme-dev-sh-4 is 4. -/
theorem Find_equals_singleton_witness :
    tagReader.FindValueIDsByExprForTagKeyID sampleMatchers [hostSource] 22
      (.Equals "eleme-dev-sh-4") = .ok {4} :=
  Find_equals_singleton sampleMatchers [hostSource] 22 "eleme-dev-sh-4" 4
    (by simp [hostSource, flushedEntrySet])
    (by simp [tagReader.decodedEntries, hostSource, flushedEntrySet, TagKVEntrySet.decoded])
    (by simp [tagReader.decodedEntries, hostSource, flushedEntrySet, TagKVEntrySet.decoded])

/-- Claim C22: over sources whose tries all decode, for an In predicate of which at least
one listed value is held under the tag key, `FindValueIDsByExprForTagKeyID` returns exactly
the ids of the listed values that are held under the key; listed values that are absent
contribute nothing. -/
theorem Find_in_union (M : Matchers) (r : tagReader) (tagKeyID : Nat) (values : List String)
    (hdec : ∀ e ∈ r.filterMap (fun source => source tagKeyID), ∃ entries, e.trie = .ok entries)
    (hexists : ∃ value ∈ values, ∃ v, (value, v) ∈ r.decodedEntries tagKeyID) :
    ∃ ids, r.FindValueIDsByExprForTagKeyID M tagKeyID (.In values) = .ok ids ∧
      ∀ v, v ∈ ids ↔ ∃ value ∈ values, (value, v) ∈ r.decodedEntries tagKeyID := by
  obtain ⟨value, hvalue, v, hv⟩ := hexists
  refine ⟨_, Find_ok M r tagKeyID (.In values) (by simp) hdec (value, v) hv
    (by simp [TagExpr.holds, hvalue]), ?_⟩
  intro w
  rw [List.mem_toFinset, List.mem_map]
  constructor
  · rintro ⟨⟨s, w1⟩, hp, rfl⟩
    rw [List.mem_filter] at hp
    exact ⟨s, by simpa [TagExpr.holds] using hp.2, hp.1⟩
  · rintro ⟨s, hin, hs⟩
    exact ⟨(s, w), List.mem_filter.mpr ⟨hs, by simp [TagExpr.holds, hin]⟩, rfl⟩

/-- Witness of C22 on the host tag of the test: of the three listed values two are held
under the key, and the answer holds their ids and no other id. -/
theorem Find_in_union_witness :
    ∃ ids, tagReader.FindValueIDsByExprForTagKeyID sampleMatchers [hostSource] 22
        (.In ["eleme-dev-sh-4", "eleme-dev-sh-5", "eleme-dev-sh-55"]) = .ok ids ∧
      ∀ v, v ∈ ids ↔ ∃ value ∈ ["eleme-dev-sh-4", "eleme-dev-sh-5", "eleme-dev-sh-55"],
        (value, v) ∈ tagReader.decodedEntries [hostSource] 22 :=
  Find_in_union sampleMatchers [hostSource] 22
    ["eleme-dev-sh-4", "eleme-dev-sh-5", "eleme-dev-sh-55"]
    (by simp [hostSource, flushedEntrySet])
    ⟨"eleme-dev-sh-4", by simp, 4,
      by simp [tagReader.decodedEntries, hostSource, flushedEntrySet, TagKVEntrySet.decoded]⟩

/-- An answer of the reader without error is a non-empty set, for a supported predicate on
a key with a block whose matches were collected without error. -/
theorem Find_nonempty (M : Matchers) (r : tagReader) (tagKeyID : Nat) (expr : TagExpr)
    (ids : Finset Nat) (h : r.FindValueIDsByExprForTagKeyID M tagKeyID expr = .ok ids) :
    ids.Nonempty ∧ expr ≠ .Unsupported ∧ r.filterMap (fun source => source tagKeyID) ≠ [] ∧
      collectMatches M expr (r.filterMap (fun source => source tagKeyID)) = .ok ids := by
  have hblock : r.filterMap (fun source => source tagKeyID) ≠ [] := by
    intro hes
    simp only [tagReader.FindValueIDsByExprForTagKeyID, hes] at h
    cases h
  have hsup : expr ≠ .Unsupported := by
    intro hexpr
    subst hexpr
    obtain ⟨err, herr⟩ := Find_unsupported M r tagKeyID
    rw [herr] at h
    cases h
  rw [Find_eq M r tagKeyID expr hsup hblock] at h
  cases hcm : collectMatches M expr (r.filterMap (fun source => source tagKeyID)) with
  | error err => rw [hcm] at h; cases h
  | ok ids1 =>
    rw [hcm] at h
    simp only at h
    by_cases hempty : ids1 = ∅
    · rw [if_pos hempty] at h; cases h
    · rw [if_neg hempty] at h
      cases h
      exact ⟨Finset.nonempty_iff_ne_empty.mpr hempty, hsup, hblock, rfl⟩

/-- Claim C23: `FindValueIDsByExprForTagKeyID` never succeeds with an empty set: an answer
without error is a non-empty set; for a tag key that has no block it returns an error; and
for a predicate (Equals, In, Like, Regex) that no value under the key satisfies it returns
an error. -/
theorem Find_never_empty (M : Matchers) (r : tagReader) (tagKeyID : Nat) (expr : TagExpr) :
    (∀ ids, r.FindValueIDsByExprForTagKeyID M tagKeyID expr = .ok ids → ids.Nonempty) ∧
    ((∀ source ∈ r, source tagKeyID = none) →
      r.FindValueIDsByExprForTagKeyID M tagKeyID expr = .error (.error "not found")) ∧
    ((∀ p ∈ r.decodedEntries tagKeyID, expr.holds M p.1 = false) →
      ∃ err, r.FindValueIDsByExprForTagKeyID M tagKeyID expr = .error err) := by
  refine ⟨fun ids h => (Find_nonempty M r tagKeyID expr ids h).1, ?_, ?_⟩
  · intro hnone
    have hes : r.filterMap (fun source => source tagKeyID) = [] := by
      rw [List.filterMap_eq_nil_iff]
      exact hnone
    simp only [tagReader.FindValueIDsByExprForTagKeyID, hes]
  · intro hnomatch
    cases hres : r.FindValueIDsByExprForTagKeyID M tagKeyID expr with
    | error err => exact ⟨err, rfl⟩
    | ok ids =>
      exfalso
      obtain ⟨⟨v, hv⟩, _, _, hcm⟩ := Find_nonempty M r tagKeyID expr ids hres
      obtain ⟨_, hids⟩ := collectMatches_mem M expr _ ids hcm
      rw [hids, List.mem_toFinset, List.mem_map] at hv
      obtain ⟨p, hp, _⟩ := hv
      rw [List.mem_filter] at hp
      have hfalse := hnomatch p hp.1
      rw [hp.2] at hfalse
      cases hfalse

/-- The cases of the test on the host tag: a value that is not held, a list of values none
of which is held, a pattern that matches no value, and a key without a block are all
answered with the error "not found". -/
theorem Find_not_found_samples :
    tagReader.FindValueIDsByExprForTagKeyID sampleMatchers [hostSource] 22
        (.Equals "eleme-dev-sh-41") = .error (.error "not found") ∧
      tagReader.FindValueIDsByExprForTagKeyID sampleMatchers [hostSource] 22
        (.In ["eleme-dev-sh-55"]) = .error (.error "not found") ∧
      tagReader.FindValueIDsByExprForTagKeyID sampleMatchers [hostSource] 22
        (.Regex "eleme-prod-sh-") = .error (.error "not found") ∧
      tagReader.FindValueIDsByExprForTagKeyID sampleMatchers [hostSource] 19
        (.Equals "eleme-dev-sh-4") = .error (.error "not found") := by
  refine ⟨?_, ?_, ?_, ?_⟩ <;>
    simp [tagReader.FindValueIDsByExprForTagKeyID, hostSource, flushedEntrySet, collectMatches,
      TagExpr.holds, sampleMatchers, startsWith]

/-! ## The tag value index reader: suggestions and walks -/

/-- The test `startsWith` decides whether the characters of `pre` open those of the value. -/
theorem startsWith_iff (pre value : String) :
    startsWith pre value = true ↔ pre.data <+: value.data := by
  unfold startsWith
  exact List.isPrefixOf_iff_prefix

/-- A reader none of whose sources holds a block for the key has no decoded entries. -/
theorem decodedEntries_no_block (r : tagReader) (tagKeyID : Nat)
    (hnone : ∀ source ∈ r, source tagKeyID = none) : r.decodedEntries tagKeyID = [] := by
  have hes : r.filterMap (fun source => source tagKeyID) = [] := by
    rw [List.filterMap_eq_nil_iff]
    exact hnone
  simp [tagReader.decodedEntries, hes]

/-- A reader whose blocks for the key all fail to decode has no decoded entries. -/
theorem decodedEntries_all_fail (r : tagReader) (tagKeyID : Nat)
    (hall : ∀ source ∈ r, ∀ e, source tagKeyID = some e → ∃ msg, e.trie = .error msg) :
    r.decodedEntries tagKeyID = [] := by
  unfold tagReader.decodedEntries
  rw [List.flatMap_eq_nil_iff]
  intro e he
  obtain ⟨source, hsource, hsome⟩ := List.mem_filterMap.mp he
  obtain ⟨msg, hmsg⟩ := hall source hsource e hsome
  simp [TagKVEntrySet.decoded, hmsg]

/-- The sorted values from which the suggestions are taken hold exactly the distinct values
under the key that start with `pre`. -/
theorem mem_suggest_pool (r : tagReader) (tagKeyID : Nat) (pre v : String) :
    v ∈ ((((r.decodedEntries tagKeyID).map Prod.fst).filter (startsWith pre)).dedup.insertionSort
        (fun a b => a ≤ b))
      ↔ pre.data <+: v.data ∧ ∃ id, (v, id) ∈ r.decodedEntries tagKeyID := by
  rw [(List.perm_insertionSort _ _).mem_iff, List.mem_dedup, List.mem_filter, List.mem_map,
    startsWith_iff]
  constructor
  · rintro ⟨⟨⟨s, id⟩, hp, rfl⟩, hpre⟩
    exact ⟨hpre, id, hp⟩
  · rintro ⟨hpre, id, hp⟩
    exact ⟨⟨(v, id), hp, rfl⟩, hpre⟩

/-- Claim C24: `SuggestTagValues(key, pre, limit)` returns values held under the key that
all start with `pre`, in lexicographic order and without repetition; their number is the
minimum of `limit` and the number of values under the key that start with `pre`; the values
left out are not smaller than the values returned; and for a tag key with no block the
result is empty. -/
theorem Suggest_sorted_limited (r : tagReader) (tagKeyID : Nat) (pre : String) (limit : Nat) :
    (∀ v ∈ r.SuggestTagValues tagKeyID pre limit,
        pre.data <+: v.data ∧ ∃ id, (v, id) ∈ r.decodedEntries tagKeyID) ∧
      (r.SuggestTagValues tagKeyID pre limit).Sorted (fun a b => a ≤ b) ∧
      (r.SuggestTagValues tagKeyID pre limit).Nodup ∧
      (r.SuggestTagValues tagKeyID pre limit).length
        = min limit ((((r.decodedEntries tagKeyID).map Prod.fst).toFinset.filter
            (fun v => startsWith pre v = true)).card) ∧
      (∀ v ∈ r.SuggestTagValues tagKeyID pre limit, ∀ w id,
        (w, id) ∈ r.decodedEntries tagKeyID → pre.data <+: w.data →
          w ∉ r.SuggestTagValues tagKeyID pre limit → v ≤ w) ∧
      ((∀ source ∈ r, source tagKeyID = none) → r.SuggestTagValues tagKeyID pre limit = []) := by
  have hsorted := List.sorted_insertionSort (fun (a b : String) => a ≤ b)
    ((((r.decodedEntries tagKeyID).map Prod.fst).filter (startsWith pre)).dedup)
  have hmem := mem_suggest_pool r tagKeyID pre
  unfold tagReader.SuggestTagValues
  generalize hpool : ((((r.decodedEntries tagKeyID).map Prod.fst).filter
    (startsWith pre)).dedup.insertionSort (fun a b => a ≤ b)) = pool at hsorted hmem
  refine ⟨?_, ?_, ?_, ?_, ?_, ?_⟩
  · intro v hv
    exact (hmem v).mp (List.mem_of_mem_take hv)
  · exact List.Pairwise.sublist (List.take_sublist _ _) hsorted
  · have hnodup : pool.Nodup := by
      rw [← hpool, (List.perm_insertionSort _ _).nodup_iff]
      exact List.nodup_dedup _
    exact hnodup.sublist (List.take_sublist _ _)
  · rw [List.length_take, ← hpool, List.length_insertionSort, ← List.toFinset_filter,
      List.card_toFinset]
  · intro v hv w id hw hpre hnot
    have hwpool : w ∈ pool := (hmem w).mpr ⟨hpre, id, hw⟩
    have hsplit : pool = pool.take limit ++ pool.drop limit := (List.take_append_drop _ _).symm
    have hwdrop : w ∈ pool.drop limit := by
      rw [hsplit, List.mem_append] at hwpool
      rcases hwpool with h | h
      · exact absurd h hnot
      · exact h
    rw [hsplit] at hsorted
    exact (List.pairwise_append.mp hsorted).2.2 v hv w hwdrop
  · intro hnone
    rw [← hpool, decodedEntries_no_block r tagKeyID hnone]
    simp

/-- The cases of the test for C24 on the ip tag, whose nine values all start with 192: a
limit of 3 gives the first three values, a limit of 1000 gives all nine, and a key without a
block gives an empty result. -/
theorem Suggest_sorted_limited_witness :
    tagReader.SuggestTagValues [ipSource] 21 "192" 3
        = ["192.168.1.1", "192.168.1.2", "192.168.1.3"] ∧
      (tagReader.SuggestTagValues [ipSource] 21 "192" 3).length
        = min 3 ((((tagReader.decodedEntries [ipSource] 21).map Prod.fst).toFinset.filter
            (fun v => startsWith "192" v = true)).card) ∧
      (tagReader.SuggestTagValues [ipSource] 21 "192" 1000).length = 9 ∧
      tagReader.SuggestTagValues [ipSource] 19 "" 10000000 = [] := by
  refine ⟨?_, (Suggest_sorted_limited [ipSource] 21 "192" 3).2.2.2.1, ?_,
    (Suggest_sorted_limited [ipSource] 19 "" 10000000).2.2.2.2.2 (by simp [ipSource])⟩
  · simp only [tagReader.SuggestTagValues, tagReader.decodedEntries, ipSource, flushedEntrySet,
      TagKVEntrySet.decoded, List.filterMap_cons, List.filterMap_nil, if_true, List.flatMap_cons,
      List.flatMap_nil, List.append_nil, List.map]
    have hfilter : List.filter (startsWith "192")
        ["192.168.1.1", "192.168.1.2", "192.168.1.3", "192.168.2.4", "192.168.2.5",
          "192.168.2.6", "192.168.3.7", "192.168.3.8", "192.168.3.9"]
        = ["192.168.1.1", "192.168.1.2", "192.168.1.3", "192.168.2.4", "192.168.2.5",
          "192.168.2.6", "192.168.3.7", "192.168.3.8", "192.168.3.9"] := by decide
    have hdedup : List.dedup
        ["192.168.1.1", "192.168.1.2", "192.168.1.3", "192.168.2.4", "192.168.2.5",
          "192.168.2.6", "192.168.3.7", "192.168.3.8", "192.168.3.9"]
        = ["192.168.1.1", "192.168.1.2", "192.168.1.3", "192.168.2.4", "192.168.2.5",
          "192.168.2.6", "192.168.3.7", "192.168.3.8", "192.168.3.9"] := by decide
    rw [hfilter, hdedup]
    simp only [List.insertionSort, List.orderedInsert, String.le_iff_toList_le]
    decide
  · rw [(Suggest_sorted_limited [ipSource] 21 "192" 1000).2.2.2.1]
    decide

/-- The calls that a walk makes to a recording visitor: they follow the entries in order;
a call that answers false is the last one; and if every call answers true the calls cover
all entries.  The recording leaves the result of the visitor unchanged. -/
theorem walkLoop_recording {σ : Type} (fn : σ → String → Nat → σ × Bool)
    (l : List (String × Nat)) :
    ∀ (st : σ) (log : List (String × Nat × Bool)),
      ∃ calls, walkLoop (recordingVisitor fn) (st, log) l = (walkLoop fn st l, log ++ calls) ∧
        calls.map (fun c => (c.1, c.2.1)) <+: l ∧
        (∀ k c, calls[k]? = some c → c.2.2 = false → calls.length = k + 1) ∧
        ((∀ c ∈ calls, c.2.2 = true) → calls.map (fun c => (c.1, c.2.1)) = l) := by
  induction l with
  | nil =>
    intro st log
    exact ⟨[], by simp [walkLoop], by simp, by simp, by simp⟩
  | cons e rest ih =>
    intro st log
    cases hfn : fn st e.1 e.2 with
    | mk st1 go =>
      cases go with
      | false =>
        refine ⟨[(e.1, e.2, false)], ?_, ?_, ?_, ?_⟩
        · simp only [walkLoop, recordingVisitor, hfn]
        · simp
        · intro k c hk hc
          cases k with
          | zero => rfl
          | succ k => simp at hk
        · intro hall
          have := hall (e.1, e.2, false) (List.mem_singleton_self _)
          simp at this
      | true =>
        obtain ⟨calls, heq, hpre, hstop, hall⟩ := ih st1 (log ++ [(e.1, e.2, true)])
        refine ⟨(e.1, e.2, true) :: calls, ?_, ?_, ?_, ?_⟩
        · simp only [walkLoop, recordingVisitor, hfn, heq, List.append_assoc,
            List.singleton_append]
        · simpa using hpre
        · intro k c hk hc
          cases k with
          | zero =>
            simp only [List.getElem?_cons_zero, Option.some.injEq] at hk
            subst hk
            simp at hc
          | succ k =>
            simp only [List.getElem?_cons_succ] at hk
            simp only [List.length_cons, hstop k c hk hc]
        · intro hall1
          have htail := hall (fun c hc => hall1 c (List.mem_cons_of_mem _ hc))
          simp [htail]

/-- Claim C25: `WalkTagValues` invokes the visitor on entries held under the key whose value
starts with `pre`, in lexicographic order and never twice on one entry, and stops at the
first invocation that answers false: if the visitor answers false on its invocation number
`k + 1` it is invoked exactly `k + 1` times, and if it always answers true it is invoked
exactly once per matching entry.  The walk reports no error. -/
theorem Walk_stops_at_first_false {σ : Type} (r : tagReader) (tagKeyID : Nat) (pre : String)
    (fn : σ → String → Nat → σ × Bool) (st : σ) :
    ∃ calls out,
      r.WalkTagValues tagKeyID pre (recordingVisitor fn) (st, []) = .ok (out, calls) ∧
      r.WalkTagValues tagKeyID pre fn st = .ok out ∧
      (∀ c ∈ calls, pre.data <+: c.1.data ∧ (c.1, c.2.1) ∈ r.decodedEntries tagKeyID) ∧
      (calls.map (fun c => (c.1, c.2.1))).Nodup ∧
      calls.Pairwise (fun a b => a.1 ≤ b.1) ∧
      (∀ k c, calls[k]? = some c → c.2.2 = false → calls.length = k + 1) ∧
      ((∀ c ∈ calls, c.2.2 = true) →
        (∀ p ∈ r.decodedEntries tagKeyID, pre.data <+: p.1.data →
          p ∈ calls.map (fun c => (c.1, c.2.1))) ∧
        calls.length = ((r.decodedEntries tagKeyID).toFinset.filter
          (fun p => startsWith pre p.1 = true)).card) := by
  haveI : IsTotal (String × Nat) (fun a b => a.1 ≤ b.1) := ⟨fun a b => le_total a.1 b.1⟩
  haveI : IsTrans (String × Nat) (fun a b => a.1 ≤ b.1) := ⟨fun a b c hab hbc => le_trans hab hbc⟩
  have hsorted := List.sorted_insertionSort (fun (a b : String × Nat) => a.1 ≤ b.1)
    (((r.decodedEntries tagKeyID).filter (fun p => startsWith pre p.1)).dedup)
  have hperm := List.perm_insertionSort (fun (a b : String × Nat) => a.1 ≤ b.1)
    (((r.decodedEntries tagKeyID).filter (fun p => startsWith pre p.1)).dedup)
  have hlen := List.length_insertionSort (fun (a b : String × Nat) => a.1 ≤ b.1)
    (((r.decodedEntries tagKeyID).filter (fun p => startsWith pre p.1)).dedup)
  unfold tagReader.WalkTagValues
  generalize ((((r.decodedEntries tagKeyID).filter (fun p => startsWith pre p.1)).dedup).insertionSort
    (fun a b => a.1 ≤ b.1)) = pool at hsorted hperm hlen
  have hmem : ∀ p, p ∈ pool ↔ pre.data <+: p.1.data ∧ p ∈ r.decodedEntries tagKeyID := by
    intro p
    rw [hperm.mem_iff, List.mem_dedup, List.mem_filter, startsWith_iff]
    exact And.comm
  obtain ⟨calls, heq, hpre, hstop, hall⟩ := walkLoop_recording fn pool st []
  have hsub : (calls.map (fun c => (c.1, c.2.1))).Sublist pool := hpre.sublist
  refine ⟨calls, walkLoop fn st pool, ?_, rfl, ?_, ?_, ?_, hstop, ?_⟩
  · rw [heq, List.nil_append]
  · intro c hc
    exact (hmem (c.1, c.2.1)).mp (hsub.subset (List.mem_map.mpr ⟨c, hc, rfl⟩))
  · have hnodup : pool.Nodup := hperm.nodup_iff.mpr (List.nodup_dedup _)
    exact hnodup.sublist hsub
  · have h := List.Pairwise.sublist hsub hsorted
    rw [List.pairwise_map] at h
    exact h
  · intro htrue
    have hcalls := hall htrue
    refine ⟨?_, ?_⟩
    · intro p hp hstarts
      rw [hcalls]
      exact (hmem p).mpr ⟨hstarts, hp⟩
    · have hlen1 : calls.length = pool.length := by
        rw [← hcalls, List.length_map]
      rw [hlen1, hlen, ← List.toFinset_filter, List.card_toFinset]

/-- The cases of the test for C25 on the ip tag: a visitor that answers false at its third
invocation is invoked three times, on the first three values; a visitor that always answers
true is invoked nine times; no visit is made for a key without a block. -/
theorem Walk_samples :
    tagReader.WalkTagValues [ipSource] 21 "192" (recordingVisitor thirdStops) (0, [])
        = .ok (3, [("192.168.1.1", 1, true), ("192.168.1.2", 2, true),
            ("192.168.1.3", 3, false)]) ∧
      tagReader.WalkTagValues [ipSource] 21 "192" (fun (n : Nat) _ _ => (n + 1, true)) 0
        = .ok 9 ∧
      tagReader.WalkTagValues [ipSource] 19 "" (recordingVisitor thirdStops) (0, [])
        = .ok (0, []) := by
  have hfilter : List.filter (fun p => startsWith "192" p.1)
      [("192.168.1.1", 1), ("192.168.1.2", 2), ("192.168.1.3", 3), ("192.168.2.4", 4),
        ("192.168.2.5", 5), ("192.168.2.6", 6), ("192.168.3.7", 7), ("192.168.3.8", 8),
        ("192.168.3.9", 9)]
      = [("192.168.1.1", 1), ("192.168.1.2", 2), ("192.168.1.3", 3), ("192.168.2.4", 4),
        ("192.168.2.5", 5), ("192.168.2.6", 6), ("192.168.3.7", 7), ("192.168.3.8", 8),
        ("192.168.3.9", 9)] := by decide
  have hdedup : List.dedup
      [("192.168.1.1", 1), ("192.168.1.2", 2), ("192.168.1.3", 3), ("192.168.2.4", 4),
        ("192.168.2.5", 5), ("192.168.2.6", 6), ("192.168.3.7", 7), ("192.168.3.8", 8),
        ("192.168.3.9", 9)]
      = [("192.168.1.1", 1), ("192.168.1.2", 2), ("192.168.1.3", 3), ("192.168.2.4", 4),
        ("192.168.2.5", 5), ("192.168.2.6", 6), ("192.168.3.7", 7), ("192.168.3.8", 8),
        ("192.168.3.9", 9)] := by decide
  have hsort : List.insertionSort (fun (a b : String × Nat) => a.1 ≤ b.1)
      [("192.168.1.1", 1), ("192.168.1.2", 2), ("192.168.1.3", 3), ("192.168.2.4", 4),
        ("192.168.2.5", 5), ("192.168.2.6", 6), ("192.168.3.7", 7), ("192.168.3.8", 8),
        ("192.168.3.9", 9)]
      = [("192.168.1.1", 1), ("192.168.1.2", 2), ("192.168.1.3", 3), ("192.168.2.4", 4),
        ("192.168.2.5", 5), ("192.168.2.6", 6), ("192.168.3.7", 7), ("192.168.3.8", 8),
        ("192.168.3.9", 9)] := by
    simp only [List.insertionSort, List.orderedInsert, String.le_iff_toList_le]
    decide
  refine ⟨?_, ?_, ?_⟩
  · simp only [tagReader.WalkTagValues, tagReader.decodedEntries, ipSource, flushedEntrySet,
      TagKVEntrySet.decoded, List.filterMap_cons, List.filterMap_nil, if_true, List.flatMap_cons,
      List.flatMap_nil, List.append_nil]
    rw [hfilter, hdedup, hsort]
    rfl
  · simp only [tagReader.WalkTagValues, tagReader.decodedEntries, ipSource, flushedEntrySet,
      TagKVEntrySet.decoded, List.filterMap_cons, List.filterMap_nil, if_true, List.flatMap_cons,
      List.flatMap_nil, List.append_nil]
    rw [hfilter, hdedup, hsort]
    rfl
  · simp [tagReader.WalkTagValues, tagReader.decodedEntries, ipSource, walkLoop]

/-- A source whose trie for the key fails to decode adds nothing to the entries that
enumerations see. -/
theorem decodedEntries_drop_failing (r1 r2 : tagReader) (bad : Nat → Option TagKVEntrySet)
    (tagKeyID : Nat) (e : TagKVEntrySet) (msg : String) (hblock : bad tagKeyID = some e)
    (hfail : e.trie = .error msg) :
    tagReader.decodedEntries (r1 ++ bad :: r2) tagKeyID
      = tagReader.decodedEntries (r1 ++ r2) tagKeyID := by
  unfold tagReader.decodedEntries
  rw [List.filterMap_append, List.filterMap_append, List.filterMap_cons, hblock]
  simp [TagKVEntrySet.decoded, hfail]

/-- Counterexample to C26 as stated: in the reader of the broken source followed by the ip
source, the trie of the first source fails to decode for the key 21 and the find returns an
error, yet `SuggestTagValues` returns the nine values of the second source, not an empty
result, and `WalkTagValues` invokes the visitor three times, not zero times. -/
theorem decode_failure_keeps_other_sources :
    (∃ e, brokenSource 21 = some e ∧ e.trie = .error "err") ∧
      (∃ err, tagReader.FindValueIDsByExprForTagKeyID sampleMatchers [brokenSource, ipSource] 21
        (.Equals "192.168.1.1") = .error err) ∧
      tagReader.SuggestTagValues [brokenSource, ipSource] 21 "192" 1000
        = ["192.168.1.1", "192.168.1.2", "192.168.1.3", "192.168.2.4", "192.168.2.5",
            "192.168.2.6", "192.168.3.7", "192.168.3.8", "192.168.3.9"] ∧
      tagReader.SuggestTagValues [brokenSource, ipSource] 21 "192" 1000 ≠ [] ∧
      tagReader.WalkTagValues [brokenSource, ipSource] 21 "192" (recordingVisitor thirdStops)
          (0, [])
        = .ok (3, [("192.168.1.1", 1, true), ("192.168.1.2", 2, true),
            ("192.168.1.3", 3, false)]) ∧
      tagReader.WalkTagValues [brokenSource, ipSource] 21 "192" (recordingVisitor thirdStops)
          (0, []) ≠ .ok (0, []) := by
  have hd : tagReader.decodedEntries [brokenSource, ipSource] 21
      = tagReader.decodedEntries [ipSource] 21 :=
    decodedEntries_drop_failing [] [ipSource] brokenSource 21 _ "err" rfl rfl
  have hsuggest : tagReader.SuggestTagValues [brokenSource, ipSource] 21 "192" 1000
      = ["192.168.1.1", "192.168.1.2", "192.168.1.3", "192.168.2.4", "192.168.2.5",
          "192.168.2.6", "192.168.3.7", "192.168.3.8", "192.168.3.9"] := by
    unfold tagReader.SuggestTagValues
    rw [hd]
    simp only [tagReader.decodedEntries, ipSource, flushedEntrySet,
      TagKVEntrySet.decoded, List.nil_append, List.filterMap_cons, List.filterMap_nil, if_true,
      List.flatMap_cons, List.flatMap_nil, List.append_nil, List.map]
    have hfilter : List.filter (startsWith "192")
        ["192.168.1.1", "192.168.1.2", "192.168.1.3", "192.168.2.4", "192.168.2.5",
          "192.168.2.6", "192.168.3.7", "192.168.3.8", "192.168.3.9"]
        = ["192.168.1.1", "192.168.1.2", "192.168.1.3", "192.168.2.4", "192.168.2.5",
          "192.168.2.6", "192.168.3.7", "192.168.3.8", "192.168.3.9"] := by decide
    have hdedup : List.dedup
        ["192.168.1.1", "192.168.1.2", "192.168.1.3", "192.168.2.4", "192.168.2.5",
          "192.168.2.6", "192.168.3.7", "192.168.3.8", "192.168.3.9"]
        = ["192.168.1.1", "192.168.1.2", "192.168.1.3", "192.168.2.4", "192.168.2.5",
          "192.168.2.6", "192.168.3.7", "192.168.3.8", "192.168.3.9"] := by decide
    rw [hfilter, hdedup]
    simp only [List.insertionSort, List.orderedInsert, String.le_iff_toList_le]
    decide
  have hwalk : tagReader.WalkTagValues [brokenSource, ipSource] 21 "192"
      (recordingVisitor thirdStops) (0, [])
      = .ok (3, [("192.168.1.1", 1, true), ("192.168.1.2", 2, true),
          ("192.168.1.3", 3, false)]) := by
    have hsame : tagReader.WalkTagValues [brokenSource, ipSource] 21 "192"
        (recordingVisitor thirdStops) (0, [])
        = tagReader.WalkTagValues [ipSource] 21 "192" (recordingVisitor thirdStops) (0, []) := by
      unfold tagReader.WalkTagValues
      rw [hd]
    rw [hsame]
    exact Walk_samples.1
  refine ⟨⟨_, rfl, rfl⟩, ?_, hsuggest, ?_, hwalk, ?_⟩
  · cases hres : tagReader.FindValueIDsByExprForTagKeyID sampleMatchers [brokenSource, ipSource]
        21 (.Equals "192.168.1.1") with
    | error err => exact ⟨err, rfl⟩
    | ok ids =>
      exfalso
      obtain ⟨_, _, _, hcm⟩ := Find_nonempty _ _ _ _ ids hres
      obtain ⟨err, herr⟩ := collectMatches_error sampleMatchers (.Equals "192.168.1.1")
        (List.filterMap (fun source => source 21) [brokenSource, ipSource])
        ⟨_, List.mem_filterMap.mpr ⟨brokenSource, List.mem_cons_self _ _, rfl⟩, "err", rfl⟩
      rw [herr] at hcm
      cases hcm
  · rw [hsuggest]
    exact List.cons_ne_nil _ _
  · rw [hwalk]
    intro h
    simp at h

/-- Claim C26, amended: when the trie of a source fails to decode for the key,
`FindValueIDsByExprForTagKeyID` returns an error, and no set, for every predicate; whereas
`SuggestTagValues` and `WalkTagValues` leave that source out and report no error: they
return and visit what the reader without that source returns and visits.  So, when no
remaining source has a trie that decodes for the key, `SuggestTagValues` returns an empty
result and `WalkTagValues` returns no error and invokes the visitor zero times. -/
theorem decode_failure_asymmetry (σ : Type) (M : Matchers) (r1 r2 : tagReader)
    (bad : Nat → Option TagKVEntrySet) (tagKeyID : Nat) (e : TagKVEntrySet) (msg : String)
    (hblock : bad tagKeyID = some e) (hfail : e.trie = .error msg) :
    (∀ expr, ∃ err,
        tagReader.FindValueIDsByExprForTagKeyID M (r1 ++ bad :: r2) tagKeyID expr = .error err) ∧
      (∀ pre limit, tagReader.SuggestTagValues (r1 ++ bad :: r2) tagKeyID pre limit
        = tagReader.SuggestTagValues (r1 ++ r2) tagKeyID pre limit) ∧
      (∀ pre (fn : σ → String → Nat → σ × Bool) (st : σ),
        tagReader.WalkTagValues (r1 ++ bad :: r2) tagKeyID pre fn st
          = tagReader.WalkTagValues (r1 ++ r2) tagKeyID pre fn st ∧
        ∃ st1, tagReader.WalkTagValues (r1 ++ bad :: r2) tagKeyID pre fn st = .ok st1) ∧
      ((∀ source ∈ r1 ++ r2, ∀ e1, source tagKeyID = some e1 → ∃ msg1, e1.trie = .error msg1) →
        (∀ pre limit, tagReader.SuggestTagValues (r1 ++ bad :: r2) tagKeyID pre limit = []) ∧
        (∀ pre (fn : σ → String → Nat → σ × Bool) (st : σ),
          tagReader.WalkTagValues (r1 ++ bad :: r2) tagKeyID pre (recordingVisitor fn) (st, [])
            = .ok (st, []))) := by
  have hdrop := decodedEntries_drop_failing r1 r2 bad tagKeyID e msg hblock hfail
  refine ⟨?_, ?_, ?_, ?_⟩
  · intro expr
    cases hres : tagReader.FindValueIDsByExprForTagKeyID M (r1 ++ bad :: r2) tagKeyID expr with
    | error err => exact ⟨err, rfl⟩
    | ok ids =>
      exfalso
      obtain ⟨_, _, _, hcm⟩ := Find_nonempty M (r1 ++ bad :: r2) tagKeyID expr ids hres
      obtain ⟨err, herr⟩ := collectMatches_error M expr
        ((r1 ++ bad :: r2).filterMap (fun source => source tagKeyID))
        ⟨e, List.mem_filterMap.mpr ⟨bad, List.mem_append_right _ (List.mem_cons_self _ _),
          hblock⟩, msg, hfail⟩
      rw [herr] at hcm
      cases hcm
  · intro pre limit
    unfold tagReader.SuggestTagValues
    rw [hdrop]
  · intro pre fn st
    refine ⟨?_, _, rfl⟩
    unfold tagReader.WalkTagValues
    rw [hdrop]
  · intro hall
    have hnil : tagReader.decodedEntries (r1 ++ bad :: r2) tagKeyID = [] := by
      rw [hdrop]
      exact decodedEntries_all_fail (r1 ++ r2) tagKeyID hall
    constructor
    · intro pre limit
      simp [tagReader.SuggestTagValues, hnil]
    · intro pre fn st
      simp [tagReader.WalkTagValues, hnil, walkLoop]

/-- Witness of the amended C26: with the broken source before the ip source, the find fails
and the suggestions and the walk are those of the ip source alone; with the broken source
alone, the find fails, the suggestions are empty and the walk makes no visit. -/
theorem decode_failure_asymmetry_witness :
    (∃ err, tagReader.FindValueIDsByExprForTagKeyID sampleMatchers [brokenSource, ipSource] 21
        (.Equals "192.168.1.1") = .error err) ∧
      tagReader.SuggestTagValues [brokenSource, ipSource] 21 "192" 1000
        = tagReader.SuggestTagValues [ipSource] 21 "192" 1000 ∧
      tagReader.WalkTagValues [brokenSource, ipSource] 21 "192" (recordingVisitor thirdStops)
          (0, [])
        = tagReader.WalkTagValues [ipSource] 21 "192" (recordingVisitor thirdStops) (0, []) ∧
      (∃ err, tagReader.FindValueIDsByExprForTagKeyID sampleMatchers [brokenSource] 22
        (.Equals "eleme-dev-sh-4") = .error err) ∧
      tagReader.SuggestTagValues [brokenSource] 21 "192" 1000 = [] ∧
      tagReader.WalkTagValues [brokenSource] 21 "192" (recordingVisitor thirdStops) (0, [])
        = .ok (0, []) :=
  have hnone : ∀ source ∈ ([] : tagReader) ++ [], ∀ e1, source 21 = some e1 →
      ∃ msg1, e1.trie = .error msg1 := by
    intro source hsource
    cases hsource
  ⟨(decode_failure_asymmetry Nat sampleMatchers [] [ipSource] brokenSource 21 _ "err"
      rfl rfl).1 (.Equals "192.168.1.1"),
    (decode_failure_asymmetry Nat sampleMatchers [] [ipSource] brokenSource 21 _ "err"
      rfl rfl).2.1 "192" 1000,
    ((decode_failure_asymmetry (Nat × List (String × Nat × Bool)) sampleMatchers []
      [ipSource] brokenSource 21 _ "err" rfl rfl).2.2.1 "192" (recordingVisitor thirdStops)
        (0, [])).1,
    (decode_failure_asymmetry Nat sampleMatchers [] [] brokenSource 22 _ "err"
      rfl rfl).1 (.Equals "eleme-dev-sh-4"),
    ((decode_failure_asymmetry Nat sampleMatchers [] [] brokenSource 21 _ "err"
      rfl rfl).2.2.2 hnone).1 "192" 1000,
    ((decode_failure_asymmetry Nat sampleMatchers [] [] brokenSource 21 _ "err"
      rfl rfl).2.2.2 hnone).2 "192" thirdStops 0⟩


/-! ## Task messages: decode undoes encode -/

/-- The number of binary digits of `x` is at most `n` exactly when `x` is below `2 ^ n`. -/
theorem bitLen_le_iff (fuel : Nat) : ∀ (x n : Nat), x < 2 ^ fuel → (bitLen fuel x ≤ n ↔ x < 2 ^ n) := by
  induction fuel with
  | zero =>
    intro x n hx
    have hx0 : x = 0 := by simpa using hx
    subst hx0
    simp [bitLen]
  | succ fuel ih =>
    intro x n hx
    unfold bitLen
    by_cases h0 : x = 0
    · subst h0
      simp
    · rw [if_neg h0]
      cases n with
      | zero =>
        constructor
        · intro h; omega
        · intro h; simp at h; exact absurd h h0
      | succ n =>
        have hx2 : x / 2 < 2 ^ fuel := by
          rw [Nat.div_lt_iff_lt_mul (by decide)]
          rw [pow_succ] at hx
          exact hx
        rw [Nat.succ_le_succ_iff, ih (x / 2) n hx2, Nat.div_lt_iff_lt_mul (by decide), pow_succ]

/-- Setting the lowest bit does not carry a number over a power of two. -/
theorem or_one_lt_iff (v k : Nat) (hk : 1 ≤ k) : v ||| 1 < 2 ^ k ↔ v < 2 ^ k := by
  constructor
  · intro h
    apply Nat.lt_pow_two_of_testBit
    intro i hi
    have hlt : v ||| 1 < 2 ^ i := lt_of_lt_of_le h (Nat.pow_le_pow_right (by decide) hi)
    have := Nat.testBit_lt_two_pow hlt
    rw [Nat.testBit_or, Bool.or_eq_false_iff] at this
    exact this.1
  · intro h
    exact Nat.or_lt_two_pow h (Nat.one_lt_two_pow (by omega))

/-- Go `sovCommon(v)` is at most `n` exactly when `v` has at most `7 * n` binary digits. -/
theorem sovCommon_le_iff (v n : Nat) (hv : v < 2 ^ 64) (hn : 1 ≤ n) :
    sovCommon v ≤ n ↔ v < 2 ^ (7 * n) := by
  unfold sovCommon Len64
  have hor : v ||| 1 < 2 ^ 64 := (or_one_lt_iff v 64 (by decide)).mpr hv
  have h1 : (bitLen 64 (v ||| 1) + 6) / 7 ≤ n ↔ bitLen 64 (v ||| 1) ≤ 7 * n := by
    constructor
    · intro h; omega
    · intro h; omega
  rw [h1, bitLen_le_iff 64 _ _ hor, or_one_lt_iff v (7 * n) (by omega)]

/-- Go `sovCommon(v)` is at least 1. -/
theorem sovCommon_pos (v : Nat) (hv : v < 2 ^ 64) : 1 ≤ sovCommon v := by
  unfold sovCommon Len64
  have hor : v ||| 1 < 2 ^ 64 := (or_one_lt_iff v 64 (by decide)).mpr hv
  have h0 : ¬ bitLen 64 (v ||| 1) ≤ 0 := by
    rw [bitLen_le_iff 64 _ _ hor]
    intro h
    have h1 : v ||| 1 = 0 := by simpa using h
    have := congrArg (fun x => Nat.testBit x 0) h1
    simp at this
  omega

/-- A varint has at least one byte. -/
theorem varintBytes_length_pos (v : Nat) : 1 ≤ (varintBytes v).length := by
  rw [varintBytes]
  split <;> simp

/-- A varint has at most `n` bytes exactly when the value has at most `7 * n` binary
digits. -/
theorem varintBytes_length_le_iff (v : Nat) : ∀ n, 1 ≤ n →
    ((varintBytes v).length ≤ n ↔ v < 2 ^ (7 * n)) := by
  induction v using Nat.strong_induction_on with
  | _ v ih =>
    intro n hn
    rw [varintBytes]
    by_cases hv : v < 128
    · rw [if_pos hv]
      have : v < 2 ^ (7 * n) := lt_of_lt_of_le hv (by
        calc 128 = 2 ^ 7 := by norm_num
          _ ≤ 2 ^ (7 * n) := Nat.pow_le_pow_right (by decide) (by omega))
      simp [this, hn]
    · rw [if_neg hv]
      simp only [List.length_cons]
      have hdiv : v / 128 < v := by omega
      cases n with
      | zero => omega
      | succ n =>
        cases n with
        | zero =>
          have hlen := varintBytes_length_pos (v / 128)
          constructor
          · intro h; omega
          · intro h; norm_num at h; omega
        | succ n =>
          rw [Nat.succ_le_succ_iff, ih (v / 128) hdiv (n + 1) (by omega)]
          rw [Nat.div_lt_iff_lt_mul (by decide)]
          have : 2 ^ (7 * (n + 1 + 1)) = 2 ^ (7 * (n + 1)) * 128 := by
            rw [show 7 * (n + 1 + 1) = 7 * (n + 1) + 7 by ring, pow_add]
            norm_num
          rw [this]

/-- Go `sovCommon(v)` is the number of bytes of the varint of `v`. -/
theorem sovCommon_eq_length (v : Nat) (hv : v < 2 ^ 64) :
    sovCommon v = (varintBytes v).length := by
  apply le_antisymm
  · rw [sovCommon_le_iff v _ hv (varintBytes_length_pos v),
      ← varintBytes_length_le_iff v _ (varintBytes_length_pos v)]
  · rw [varintBytes_length_le_iff v _ (sovCommon_pos v hv),
      ← sovCommon_le_iff v _ hv (sovCommon_pos v hv)]

/-- The byte that the encoder writes for a group that is not the last. -/
theorem encode_byte (v : Nat) : v &&& 0x7f ||| 0x80 = v % 128 + 128 := by
  have h1 : v &&& 0x7f = v % 128 := Nat.and_pow_two_sub_one_eq_mod v 7
  rw [h1]
  have h2 := Nat.mul_add_lt_is_or (show v % 128 < 2 ^ 7 from Nat.mod_lt _ (by decide)) 1
  norm_num at h2
  rw [Nat.or_comm, ← h2]
  omega

/-- Writing a byte at the position that follows `pre`. -/
theorem setAt_append (pre : List UInt8) (b0 b : UInt8) (suf : List UInt8) :
    setAt (pre ++ b0 :: suf) (pre.length : Int) b = .ok (pre ++ b :: suf) := by
  unfold setAt
  have h : ¬ ((pre.length : Int) < 0 ∨ ((pre ++ b0 :: suf).length : Int) ≤ (pre.length : Int)) := by
    simp only [List.length_append, List.length_cons]
    push_cast
    omega
  rw [if_neg h]
  simp

/-- The loop of the encoder overwrites as many bytes as the varint has with the varint. -/
theorem encodeVarintLoop_ok (fuel : Nat) : ∀ (v : Nat) (pre old suf : List UInt8),
    old.length = (varintBytes v).length → (varintBytes v).length ≤ fuel →
    encodeVarintLoop fuel (pre ++ (old ++ suf)) (pre.length : Int) v
      = .ok (pre ++ (varintBytes v ++ suf)) := by
  induction fuel with
  | zero =>
    intro v pre old suf _ hfuel
    have := varintBytes_length_pos v
    omega
  | succ fuel ih =>
    intro v pre old suf hold hfuel
    rw [varintBytes] at hold hfuel ⊢
    unfold encodeVarintLoop
    by_cases hv : v < 128
    · rw [if_pos hv] at hold hfuel ⊢
      have hge : ¬ v ≥ 1 <<< 7 := by
        have : (1 : Nat) <<< 7 = 128 := by decide
        omega
      rw [if_neg hge]
      match old, hold with
      | [b0], _ => exact setAt_append pre b0 _ suf
    · rw [if_neg hv] at hold hfuel ⊢
      have hge : v ≥ 1 <<< 7 := by
        have : (1 : Nat) <<< 7 = 128 := by decide
        omega
      rw [if_pos hge]
      match old, hold with
      | b0 :: old1, hold1 =>
        simp only [List.length_cons, Nat.add_right_cancel_iff] at hold1
        simp only [List.length_cons, Nat.add_le_add_iff_right] at hfuel
        rw [List.cons_append, setAt_append, encode_byte]
        simp only
        have hshift : v >>> 7 = v / 128 := by
          rw [Nat.shiftRight_eq_div_pow]
        rw [hshift]
        have hpre : ((pre.length : Int) + 1) = ((pre ++ [UInt8.ofNat (v % 128 + 128)]).length : Int) := by
          simp
        have hlist : pre ++ UInt8.ofNat (v % 128 + 128) :: (old1 ++ suf)
            = (pre ++ [UInt8.ofNat (v % 128 + 128)]) ++ (old1 ++ suf) := by simp
        rw [hpre, hlist, ih (v / 128) _ old1 suf hold1 hfuel]
        simp

/-- A varint of a uint64 has at most ten bytes. -/
theorem varintBytes_length_le_ten (v : Nat) (hv : v < 2 ^ 64) : (varintBytes v).length ≤ 10 := by
  rw [varintBytes_length_le_iff v 10 (by decide)]
  exact lt_of_lt_of_le hv (Nat.pow_le_pow_right (by decide) (by decide))

/-- Writing a varint backwards: the varint replaces the last bytes of `pre`. -/
theorem encodeVarintCommon_ok (v : Nat) (hv : v < 2 ^ 64) (pre suf : List UInt8)
    (hroom : (varintBytes v).length ≤ pre.length) :
    encodeVarintCommon (pre ++ suf) (pre.length : Int) v
      = .ok (pre.take (pre.length - (varintBytes v).length) ++ (varintBytes v ++ suf),
          ((pre.length - (varintBytes v).length : Nat) : Int)) := by
  unfold encodeVarintCommon
  rw [sovCommon_eq_length v hv]
  have hbase : (pre.length : Int) - ((varintBytes v).length : Int)
      = ((pre.take (pre.length - (varintBytes v).length)).length : Int) := by
    rw [List.length_take]
    omega
  have hsplit : pre ++ suf = pre.take (pre.length - (varintBytes v).length)
      ++ (pre.drop (pre.length - (varintBytes v).length) ++ suf) := by
    rw [← List.append_assoc, List.take_append_drop]
  simp only []
  rw [hbase]
  nth_rewrite 1 [hsplit]
  rw [encodeVarintLoop_ok 10 v _ _ suf (by rw [List.length_drop]; omega)
    (varintBytes_length_le_ten v hv)]
  simp only [List.length_take]
  congr 3
  omega

/-- Copying backwards: the bytes replace the last bytes of `pre`. -/
theorem copyAt_ok (x pre suf : List UInt8) (hroom : x.length ≤ pre.length) :
    copyAt (pre ++ suf) ((pre.length : Int) - (x.length : Int)) x
      = .ok (pre.take (pre.length - x.length) ++ (x ++ suf)) := by
  unfold copyAt
  have h : ¬ ((pre.length : Int) - (x.length : Int) < 0 ∨
      ((pre ++ suf).length : Int) < (pre.length : Int) - (x.length : Int)) := by
    simp only [List.length_append]
    push_cast
    omega
  rw [if_neg h]
  have hnat : ((pre.length : Int) - (x.length : Int)).toNat = pre.length - x.length := by omega
  simp only []
  rw [hnat]
  have hmin : min ((pre ++ suf).length - (pre.length - x.length)) x.length = x.length := by
    simp only [List.length_append]
    omega
  rw [hmin, List.take_length, List.take_append_of_le_length (by omega)]
  have hdrop : pre.length - x.length + x.length = pre.length := by omega
  rw [hdrop, List.drop_left, List.append_assoc]

/-- Writing a byte backwards: it replaces the last byte of `pre`. -/
theorem setAt_back (pre suf : List UInt8) (b : UInt8) (hroom : 1 ≤ pre.length) :
    setAt (pre ++ suf) ((pre.length : Int) - 1) b
      = .ok (pre.take (pre.length - 1) ++ (b :: suf)) := by
  have hsplit : pre ++ suf = pre.take (pre.length - 1) ++ (pre.drop (pre.length - 1) ++ suf) := by
    rw [← List.append_assoc, List.take_append_drop]
  have hlen : (pre.drop (pre.length - 1)).length = 1 := by
    rw [List.length_drop]; omega
  have hidx : (pre.length : Int) - 1 = ((pre.take (pre.length - 1)).length : Int) := by
    rw [List.length_take]; omega
  match hdrop : pre.drop (pre.length - 1), hlen with
  | [b0], _ =>
    rw [hsplit, hdrop, hidx]
    exact setAt_append _ b0 b suf

/-- The bytes field is written backwards in its wire form. -/
theorem putBytesField_ok (tag : UInt8) (x pre suf : List UInt8) (hx : x.length < 2 ^ 64)
    (hroom : (bytesFieldBytes tag x).length ≤ pre.length) :
    putBytesField tag x (pre ++ suf, (pre.length : Int))
      = .ok (pre.take (pre.length - (bytesFieldBytes tag x).length)
            ++ (bytesFieldBytes tag x ++ suf),
          ((pre.length - (bytesFieldBytes tag x).length : Nat) : Int)) := by
  unfold putBytesField bytesFieldBytes
  unfold bytesFieldBytes at hroom
  by_cases hpos : x.length > 0
  · rw [if_pos hpos] at hroom ⊢
    rw [if_pos hpos]
    simp only [List.length_cons, List.length_append] at hroom
    have hmod : x.length % 2 ^ 64 = x.length := Nat.mod_eq_of_lt hx
    rw [hmod] at hroom ⊢
    simp only []
    rw [copyAt_ok x pre suf (by omega)]
    simp only []
    have hidx : (pre.length : Int) - (x.length : Int)
        = ((pre.take (pre.length - x.length)).length : Int) := by
      rw [List.length_take]; omega
    rw [hidx, encodeVarintCommon_ok x.length hx _ _ (by rw [List.length_take]; omega)]
    simp only []
    have hidx2 : (((pre.take (pre.length - x.length)).length
          - (varintBytes x.length).length : Nat) : Int) - 1
        = (((pre.take (pre.length - x.length)).take ((pre.take (pre.length - x.length)).length
          - (varintBytes x.length).length)).length : Int) - 1 := by
      simp only [List.length_take]
      omega
    rw [hidx2, setAt_back _ _ tag (by simp only [List.length_take]; omega)]
    simp only [List.length_take, List.take_take, List.length_cons, List.length_append,
      List.cons_append, List.append_assoc]
    congr 2
    · congr 1
      congr 1
      omega
    · omega
  · rw [if_neg hpos, if_neg hpos]
    simp

/-- The integer field is written backwards in its wire form. -/
theorem putVarintField_ok (tag : UInt8) (x : Int) (pre suf : List UInt8)
    (hroom : (varintFieldBytes tag x).length ≤ pre.length) :
    putVarintField tag x (pre ++ suf, (pre.length : Int))
      = .ok (pre.take (pre.length - (varintFieldBytes tag x).length)
            ++ (varintFieldBytes tag x ++ suf),
          ((pre.length - (varintFieldBytes tag x).length : Nat) : Int)) := by
  unfold putVarintField varintFieldBytes
  unfold varintFieldBytes at hroom
  have hv : toU64 x < 2 ^ 64 := by
    unfold toU64
    have := Int.emod_lt_of_pos x (show (0 : Int) < 2 ^ 64 by norm_num)
    have := Int.emod_nonneg x (show (2 ^ 64 : Int) ≠ 0 by norm_num)
    omega
  by_cases hne : x ≠ 0
  · rw [if_pos hne] at hroom ⊢
    rw [if_pos hne]
    simp only [List.length_cons] at hroom
    simp only []
    rw [encodeVarintCommon_ok (toU64 x) hv pre suf (by omega)]
    simp only []
    have hidx2 : ((pre.length - (varintBytes (toU64 x)).length : Nat) : Int) - 1
        = ((pre.take (pre.length - (varintBytes (toU64 x)).length)).length : Int) - 1 := by
      simp only [List.length_take]
      omega
    rw [hidx2, setAt_back _ _ tag (by simp only [List.length_take]; omega)]
    simp only [List.length_take, List.take_take, List.length_cons, List.cons_append]
    congr 2
    · congr 1
      congr 1
      omega
    · omega
  · rw [if_neg hne, if_neg hne]
    simp

/-- The bool field is written backwards in its wire form. -/
theorem putBoolField_ok (tag : UInt8) (x : Bool) (pre suf : List UInt8)
    (hroom : (boolFieldBytes tag x).length ≤ pre.length) :
    putBoolField tag x (pre ++ suf, (pre.length : Int))
      = .ok (pre.take (pre.length - (boolFieldBytes tag x).length)
            ++ (boolFieldBytes tag x ++ suf),
          ((pre.length - (boolFieldBytes tag x).length : Nat) : Int)) := by
  unfold putBoolField boolFieldBytes
  unfold boolFieldBytes at hroom
  cases x with
  | false => simp
  | true =>
    simp only [if_true, List.length_cons, List.length_nil] at hroom ⊢
    rw [setAt_back pre suf 1 (by omega)]
    simp only []
    have hidx2 : (pre.length : Int) - 1 - 1 = ((pre.take (pre.length - 1)).length : Int) - 1 := by
      simp only [List.length_take]
      omega
    rw [hidx2, setAt_back _ _ tag (by simp only [List.length_take]; omega)]
    simp only [List.length_take, List.take_take, List.cons_append, List.nil_append]
    congr 2
    · congr 1
      congr 1
      omega
    · omega

/-- The unrecognized bytes are copied backwards as they are. -/
theorem putUnrecognized_ok (x pre suf : List UInt8) (hroom : x.length ≤ pre.length) :
    putUnrecognized x (pre ++ suf, (pre.length : Int))
      = .ok (pre.take (pre.length - x.length) ++ (x ++ suf),
          ((pre.length - x.length : Nat) : Int)) := by
  unfold putUnrecognized
  by_cases hne : x ≠ []
  · rw [if_pos hne]
    simp only []
    rw [copyAt_ok x pre suf hroom]
    simp only []
    congr 2
    omega
  · rw [if_neg hne]
    have hx : x = [] := by simpa using hne
    subst hx
    simp

/-- The 64-bit pattern of an integer is below `2 ^ 64`. -/
theorem toU64_lt (x : Int) : toU64 x < 2 ^ 64 := by
  unfold toU64
  have h1 := Int.emod_lt_of_pos x (show (0 : Int) < 2 ^ 64 by norm_num)
  have h2 := Int.emod_nonneg x (show (2 ^ 64 : Int) ≠ 0 by norm_num)
  omega

/-- The length of the wire form of a bytes field, as `Size` counts it. -/
theorem bytesFieldBytes_length (tag : UInt8) (x : List UInt8) :
    (bytesFieldBytes tag x).length
      = if x.length > 0 then 1 + x.length + sovCommon (x.length % 2 ^ 64) else 0 := by
  unfold bytesFieldBytes
  by_cases hpos : x.length > 0
  · rw [if_pos hpos, if_pos hpos, sovCommon_eq_length _ (Nat.mod_lt _ (by norm_num))]
    simp only [List.length_cons, List.length_append]
    omega
  · rw [if_neg hpos, if_neg hpos]
    rfl

/-- The length of the wire form of an integer field, as `Size` counts it. -/
theorem varintFieldBytes_length (tag : UInt8) (x : Int) :
    (varintFieldBytes tag x).length = if x ≠ 0 then 1 + sovCommon (toU64 x) else 0 := by
  unfold varintFieldBytes
  by_cases hne : x ≠ 0
  · rw [if_pos hne, if_pos hne, sovCommon_eq_length _ (toU64_lt x)]
    simp only [List.length_cons]
    omega
  · rw [if_neg hne, if_neg hne]
    rfl

/-- The length of the wire form of a bool field, as `Size` counts it. -/
theorem boolFieldBytes_length (tag : UInt8) (x : Bool) :
    (boolFieldBytes tag x).length = if x then 2 else 0 := by
  cases x <;> rfl

/-- Go `Size` is the length of the wire form of a request. -/
theorem TaskRequest_Size_eq (m : TaskRequest) :
    m.Size = m.wire.length := by
  unfold TaskRequest.Size TaskRequest.wire
  simp only [List.length_append, bytesFieldBytes_length, varintFieldBytes_length]
  omega

/-- Go `Size` is the length of the wire form of a response. -/
theorem TaskResponse_Size_eq (m : TaskResponse) :
    m.Size = m.wire.length := by
  unfold TaskResponse.Size TaskResponse.wire
  simp only [List.length_append, bytesFieldBytes_length, varintFieldBytes_length, boolFieldBytes_length]
  omega

/-- Go `Marshal` of a request returns its wire form. -/
theorem TaskRequest_Marshal_eq_wire (m : TaskRequest) (hsize : m.Size < 2 ^ 64) :
    m.Marshal = .ok m.wire := by
  have h1 : m.ParentTaskID.length < 2 ^ 64 := by
    unfold TaskRequest.Size at hsize
    split_ifs at hsize <;> omega
  have h2 : m.PhysicalPlan.length < 2 ^ 64 := by
    unfold TaskRequest.Size at hsize
    split_ifs at hsize <;> omega
  have h3 : m.Payload.length < 2 ^ 64 := by
    unfold TaskRequest.Size at hsize
    split_ifs at hsize <;> omega
  have hlen := TaskRequest_Size_eq m
  unfold TaskRequest.wire at hlen
  simp only [List.length_append] at hlen
  unfold TaskRequest.Marshal TaskRequest.MarshalToSizedBuffer
  simp only []
  generalize hbuf : List.replicate m.Size (0 : UInt8) = buf
  have hbuflen : buf.length = m.Size := by rw [← hbuf, List.length_replicate]
  have hstart : (buf, (buf.length : Int)) = (buf ++ [], (buf.length : Int)) := by simp
  rw [hstart, putUnrecognized_ok _ buf [] (by omega)]
  simp only []
  generalize hp1 : buf.take (buf.length - m.XXX_unrecognized.length) = p1
  have hl1 : p1.length = buf.length - m.XXX_unrecognized.length := by
    rw [← hp1, List.length_take]; omega
  rw [← hl1, putBytesField_ok _ _ p1 _ h3 (by omega)]
  simp only []
  generalize hp2 : p1.take (p1.length - (bytesFieldBytes 0x2a m.Payload).length) = p2
  have hl2 : p2.length = p1.length - (bytesFieldBytes 0x2a m.Payload).length := by
    rw [← hp2, List.length_take]; omega
  rw [← hl2, putBytesField_ok _ _ p2 _ h2 (by omega)]
  simp only []
  generalize hp3 : p2.take (p2.length - (bytesFieldBytes 0x22 m.PhysicalPlan).length) = p3
  have hl3 : p3.length = p2.length - (bytesFieldBytes 0x22 m.PhysicalPlan).length := by
    rw [← hp3, List.length_take]; omega
  rw [← hl3, putVarintField_ok _ _ p3 _ (by omega)]
  simp only []
  generalize hp4 : p3.take (p3.length - (varintFieldBytes 0x18 m.Type_).length) = p4
  have hl4 : p4.length = p3.length - (varintFieldBytes 0x18 m.Type_).length := by
    rw [← hp4, List.length_take]; omega
  rw [← hl4, putBytesField_ok _ _ p4 _ h1 (by omega)]
  simp only []
  generalize hp5 : p4.take (p4.length - (bytesFieldBytes 0x12 m.ParentTaskID).length) = p5
  have hl5 : p5.length = p4.length - (bytesFieldBytes 0x12 m.ParentTaskID).length := by
    rw [← hp5, List.length_take]; omega
  rw [← hl5, putVarintField_ok _ _ p5 _ (by omega)]
  simp only []
  have hp6 : p5.take (p5.length - (varintFieldBytes 0x8 m.JobID).length) = [] := by
    apply List.eq_nil_of_length_eq_zero
    rw [List.length_take]; omega
  rw [hp6]
  unfold sliceTo
  have hn : (buf.length : Int)
      - ((p5.length - (varintFieldBytes 0x8 m.JobID).length : Nat) : Int) = (m.Size : Int) := by
    omega
  rw [hn]
  have hwire : ([] : List UInt8) ++ (varintFieldBytes 0x8 m.JobID ++ (bytesFieldBytes 0x12 m.ParentTaskID
      ++ (varintFieldBytes 0x18 m.Type_ ++ (bytesFieldBytes 0x22 m.PhysicalPlan
      ++ (bytesFieldBytes 0x2a m.Payload ++ (m.XXX_unrecognized ++ [])))))) = m.wire := by
    simp [TaskRequest.wire]
  rw [hwire]
  have hwl : m.wire.length = m.Size := (TaskRequest_Size_eq m).symm
  have hguard : ¬ ((m.Size : Int) < 0 ∨ (m.wire.length : Int) < (m.Size : Int)) := by omega
  rw [if_neg hguard]
  simp only [Int.toNat_ofNat, ← hwl, List.take_length]

/-- Go `Marshal` of a response returns its wire form. -/
theorem TaskResponse_Marshal_eq_wire (m : TaskResponse) (hsize : m.Size < 2 ^ 64) :
    m.Marshal = .ok m.wire := by
  have h1 : m.TaskID.length < 2 ^ 64 := by
    unfold TaskResponse.Size at hsize
    split_ifs at hsize <;> omega
  have h2 : m.ErrMsg.length < 2 ^ 64 := by
    unfold TaskResponse.Size at hsize
    split_ifs at hsize <;> omega
  have h3 : m.Payload.length < 2 ^ 64 := by
    unfold TaskResponse.Size at hsize
    split_ifs at hsize <;> omega
  have hlen := TaskResponse_Size_eq m
  unfold TaskResponse.wire at hlen
  simp only [List.length_append] at hlen
  unfold TaskResponse.Marshal TaskResponse.MarshalToSizedBuffer
  simp only []
  generalize hbuf : List.replicate m.Size (0 : UInt8) = buf
  have hbuflen : buf.length = m.Size := by rw [← hbuf, List.length_replicate]
  have hstart : (buf, (buf.length : Int)) = (buf ++ [], (buf.length : Int)) := by simp
  rw [hstart, putUnrecognized_ok _ buf [] (by omega)]
  simp only []
  generalize hp1 : buf.take (buf.length - m.XXX_unrecognized.length) = p1
  have hl1 : p1.length = buf.length - m.XXX_unrecognized.length := by
    rw [← hp1, List.length_take]; omega
  rw [← hl1, putBytesField_ok _ _ p1 _ h3 (by omega)]
  simp only []
  generalize hp2 : p1.take (p1.length - (bytesFieldBytes 0x2a m.Payload).length) = p2
  have hl2 : p2.length = p1.length - (bytesFieldBytes 0x2a m.Payload).length := by
    rw [← hp2, List.length_take]; omega
  rw [← hl2, putBytesField_ok _ _ p2 _ h2 (by omega)]
  simp only []
  generalize hp3 : p2.take (p2.length - (bytesFieldBytes 0x22 m.ErrMsg).length) = p3
  have hl3 : p3.length = p2.length - (bytesFieldBytes 0x22 m.ErrMsg).length := by
    rw [← hp3, List.length_take]; omega
  rw [← hl3, putBoolField_ok _ _ p3 _ (by omega)]
  simp only []
  generalize hp4 : p3.take (p3.length - (boolFieldBytes 0x18 m.Completed).length) = p4
  have hl4 : p4.length = p3.length - (boolFieldBytes 0x18 m.Completed).length := by
    rw [← hp4, List.length_take]; omega
  rw [← hl4, putBytesField_ok _ _ p4 _ h1 (by omega)]
  simp only []
  generalize hp5 : p4.take (p4.length - (bytesFieldBytes 0x12 m.TaskID).length) = p5
  have hl5 : p5.length = p4.length - (bytesFieldBytes 0x12 m.TaskID).length := by
    rw [← hp5, List.length_take]; omega
  rw [← hl5, putVarintField_ok _ _ p5 _ (by omega)]
  simp only []
  have hp6 : p5.take (p5.length - (varintFieldBytes 0x8 m.JobID).length) = [] := by
    apply List.eq_nil_of_length_eq_zero
    rw [List.length_take]; omega
  rw [hp6]
  unfold sliceTo
  have hn : (buf.length : Int)
      - ((p5.length - (varintFieldBytes 0x8 m.JobID).length : Nat) : Int) = (m.Size : Int) := by
    omega
  rw [hn]
  have hwire : ([] : List UInt8) ++ (varintFieldBytes 0x8 m.JobID ++ (bytesFieldBytes 0x12 m.TaskID
      ++ (boolFieldBytes 0x18 m.Completed ++ (bytesFieldBytes 0x22 m.ErrMsg
      ++ (bytesFieldBytes 0x2a m.Payload ++ (m.XXX_unrecognized ++ [])))))) = m.wire := by
    simp [TaskResponse.wire]
  rw [hwire]
  have hwl : m.wire.length = m.Size := (TaskResponse_Size_eq m).symm
  have hguard : ¬ ((m.Size : Int) < 0 ∨ (m.wire.length : Int) < (m.Size : Int)) := by omega
  rw [if_neg hguard]
  simp only [Int.toNat_ofNat, ← hwl, List.take_length]

/-- The groups of seven bits of `u`, shifted to their places, make up `u`. -/
theorem or_groups (u s w : Nat) :
    ((u % 128) <<< s) % 2 ^ w ||| ((u / 128) <<< (s + 7)) % 2 ^ w = (u <<< s) % 2 ^ w := by
  apply Nat.eq_of_testBit_eq
  intro j
  have h128 : (128 : Nat) = 2 ^ 7 := by norm_num
  have hdiv : u / 128 = u >>> 7 := by rw [Nat.shiftRight_eq_div_pow]
  rw [hdiv, h128]
  simp only [Nat.testBit_or, Nat.testBit_mod_two_pow, Nat.testBit_shiftLeft,
    Nat.testBit_shiftRight]
  by_cases hw : j < w
  · by_cases hs : s ≤ j
    · by_cases h7 : s + 7 ≤ j
      · have e1 : 7 + (j - (s + 7)) = j - s := by omega
        have e2 : ¬ j - s < 7 := by omega
        simp [hw, hs, h7, e1, e2]
      · have e2 : j - s < 7 := by omega
        simp [hw, hs, h7, e2]
    · have h7 : ¬ s + 7 ≤ j := by omega
      simp [hw, hs, h7]
  · simp [hw]

/-- The element that follows `pre`. -/
theorem getElem_append_cons (pre : List UInt8) (b : UInt8) (suf : List UInt8) :
    (pre ++ b :: suf)[pre.length]? = some b := by
  rw [List.getElem?_append_right (le_refl _)]
  simp

/-- The byte of a last group, read back. -/
theorem toNat_ofNat_small (v : Nat) (hv : v < 256) : (UInt8.ofNat v).toNat = v := by
  simp [UInt8.ofNat, UInt8.toNat, Fin.ofNat, Nat.mod_eq_of_lt hv]

/-- The loop of the decoder reads back a varint: from shift `s`, with `x` accumulated, it
yields `x` with the value shifted to its place, cut to `w` bits, and stops after the
varint. -/
theorem readVarint_ok (w : Nat) (fuel : Nat) : ∀ (s u x : Nat) (pre suf : List UInt8),
    s < 64 → u < 2 ^ (64 - s) → 64 ≤ s + 7 * fuel →
    readVarint w (pre ++ (varintBytes u ++ suf)) fuel s pre.length x
      = .ok (x ||| ((u <<< s) % 2 ^ w), pre.length + (varintBytes u).length) := by
  induction fuel with
  | zero =>
    intro s u x pre suf hs _ hfuel
    omega
  | succ fuel ih =>
    intro s u x pre suf hs hu hfuel
    rw [varintBytes]
    unfold readVarint
    have hs1 : ¬ s ≥ 64 := by omega
    rw [if_neg hs1]
    by_cases hv : u < 128
    · rw [if_pos hv]
      have hlen : ¬ pre.length ≥ (pre ++ ([UInt8.ofNat u] ++ suf)).length := by
        simp only [List.length_append, List.length_cons]
        omega
      rw [if_neg hlen]
      have hget : (pre ++ ([UInt8.ofNat u] ++ suf))[pre.length]? = some (UInt8.ofNat u) :=
        getElem_append_cons pre _ suf
      rw [hget]
      simp only []
      rw [toNat_ofNat_small u (by omega)]
      have hlt : u < 0x80 := hv
      rw [if_pos hlt]
      have hand : u &&& 0x7F = u := by
        have := Nat.and_pow_two_sub_one_eq_mod u 7
        norm_num at this
        rw [this]
        exact Nat.mod_eq_of_lt hv
      rw [hand]
      simp
    · rw [if_neg hv]
      have hlen : ¬ pre.length
          ≥ (pre ++ (UInt8.ofNat (u % 128 + 128) :: varintBytes (u / 128) ++ suf)).length := by
        simp only [List.length_append, List.length_cons]
        omega
      rw [if_neg hlen]
      have hget : (pre ++ (UInt8.ofNat (u % 128 + 128) :: varintBytes (u / 128) ++ suf))[pre.length]?
          = some (UInt8.ofNat (u % 128 + 128)) :=
        getElem_append_cons pre _ _
      rw [hget]
      simp only []
      rw [toNat_ofNat_small (u % 128 + 128) (by omega)]
      have hlt : ¬ u % 128 + 128 < 0x80 := by omega
      rw [if_neg hlt]
      have hand : (u % 128 + 128) &&& 0x7F = u % 128 := by
        have := Nat.and_pow_two_sub_one_eq_mod (u % 128 + 128) 7
        norm_num at this
        exact this
      rw [hand]
      have hlist : pre ++ (UInt8.ofNat (u % 128 + 128) :: varintBytes (u / 128) ++ suf)
          = (pre ++ [UInt8.ofNat (u % 128 + 128)]) ++ (varintBytes (u / 128) ++ suf) := by
        simp
      have hpl : pre.length + 1 = (pre ++ [UInt8.ofNat (u % 128 + 128)]).length := by simp
      have hs7 : s + 7 < 64 := by
        by_contra hcon
        have h57 : 64 - s ≤ 7 := by omega
        have : u < 2 ^ 7 := lt_of_lt_of_le hu (Nat.pow_le_pow_right (by decide) h57)
        norm_num at this
        omega
      have hu7 : u / 128 < 2 ^ (64 - (s + 7)) := by
        rw [Nat.div_lt_iff_lt_mul (by decide)]
        have : 2 ^ (64 - (s + 7)) * 128 = 2 ^ (64 - s) := by
          rw [show (128 : Nat) = 2 ^ 7 by norm_num, ← pow_add]
          congr 1
          omega
        rw [this]
        exact hu
      rw [hlist, hpl, ih (s + 7) (u / 128) _ _ suf hs7 hu7 (by omega)]
      rw [Nat.or_assoc, or_groups]
      simp only [List.length_append, List.length_cons, List.length_nil]
      congr 2
      omega

/-- A varint of a uint64 is read back from the start, with ten rounds at most. -/
theorem readVarint_value (w v : Nat) (hv : v < 2 ^ 64) (pre suf : List UInt8) :
    readVarint w (pre ++ (varintBytes v ++ suf)) 10 0 pre.length 0
      = .ok (v % 2 ^ w, pre.length + (varintBytes v).length) := by
  rw [readVarint_ok w 10 0 v 0 pre suf (by decide) hv (by decide)]
  simp

/-- A tag below 128 is read back as itself. -/
theorem readVarint_tag (tag : UInt8) (htag : tag.toNat < 128) (pre suf : List UInt8) :
    readVarint 64 (pre ++ (tag :: suf)) 10 0 pre.length 0 = .ok (tag.toNat, pre.length + 1) := by
  have hvar : varintBytes tag.toNat = [tag] := by
    rw [varintBytes, if_pos htag]
    congr 1
    cases tag with
    | mk val => simp [UInt8.ofNat, UInt8.toNat, Fin.ofNat]
  have h := readVarint_value 64 tag.toNat (by omega) pre suf
  rw [hvar] at h
  simp only [List.singleton_append, List.length_singleton] at h
  rw [h, Nat.mod_eq_of_lt (by omega)]

/-- An int64 is read back from its 64-bit pattern. -/
theorem toI64_toU64 (j : Int) (hlo : -2 ^ 63 ≤ j) (hhi : j < 2 ^ 63) :
    toI64 (toU64 j % 2 ^ 64) = j := by
  unfold toI64 toU64
  norm_num at hlo hhi ⊢
  split_ifs <;> omega

/-- An int32 is read back from the low 32 bits of its 64-bit pattern. -/
theorem toI32_toU64 (t : Int) (hlo : -2 ^ 31 ≤ t) (hhi : t < 2 ^ 31) :
    toI32 (toU64 t % 2 ^ 32) = t := by
  unfold toI32 toU64
  norm_num at hlo hhi ⊢
  split_ifs <;> omega

/-- A length below `2 ^ 63` is read back as an `int`. -/
theorem toI64_length (n : Nat) (hn : n < 2 ^ 63) : toI64 n = (n : Int) := by
  unfold toI64
  norm_num at hn ⊢
  split_ifs <;> omega

/-- Adding two `int` values whose sum is below `2 ^ 63` does not wrap. -/
theorem wrapAdd_small (a b : Nat) (h : a + b < 2 ^ 63) :
    wrapAdd (a : Int) (b : Int) = ((a + b : Nat) : Int) := by
  unfold wrapAdd toI64 toU64
  norm_num at h ⊢
  split_ifs <;> omega

/-- A string or bytes field is read back from its length and its bytes. -/
theorem readBytes_ok (x pre suf : List UInt8)
    (hlen : (pre ++ (varintBytes (x.length % 2 ^ 64) ++ (x ++ suf))).length < 2 ^ 63) :
    readBytes (pre ++ (varintBytes (x.length % 2 ^ 64) ++ (x ++ suf))) pre.length
      = .ok (x, pre.length + (varintBytes (x.length % 2 ^ 64)).length + x.length) := by
  unfold readBytes
  rw [readVarint_value 64 _ (Nat.mod_lt _ (by norm_num)) pre (x ++ suf)]
  simp only [List.length_append] at hlen ⊢
  have hx : x.length < 2 ^ 63 := by omega
  have hmod : x.length % 2 ^ 64 = x.length := Nat.mod_eq_of_lt (by
    have : (2 : Nat) ^ 63 < 2 ^ 64 := by norm_num
    omega)
  simp only [hmod] at hlen ⊢
  rw [toI64_length x.length hx]
  have hadd := wrapAdd_small (pre.length + (varintBytes x.length).length) x.length (by omega)
  rw [hadd]
  have h1 : ¬ ((x.length : Int) < 0) := by omega
  have h2 : ¬ (((pre.length + (varintBytes x.length).length + x.length : Nat) : Int) < 0) := by
    omega
  have h3 : ¬ (((pre.length + (varintBytes x.length).length + x.length : Nat) : Int)
      > ((pre.length + ((varintBytes x.length).length + (x.length + suf.length)) : Nat) : Int)) := by
    omega
  rw [if_neg h1, if_neg h2, if_neg h3]
  simp only [Int.toNat_ofNat]
  have hdrop : List.drop (pre.length + (varintBytes x.length).length)
      (pre ++ (varintBytes x.length ++ (x ++ suf))) = x ++ suf := by
    rw [← List.append_assoc]
    have : pre.length + (varintBytes x.length).length = (pre ++ varintBytes x.length).length := by
      simp
    rw [this, List.drop_left]
  have hsub : pre.length + (varintBytes x.length).length + x.length
      - (pre.length + (varintBytes x.length).length) = x.length := by omega
  have hguard : 0 ≤ ((pre.length + (varintBytes x.length).length : Nat) : Int) ∧
      ((pre.length + (varintBytes x.length).length : Nat) : Int)
        ≤ ((pre.length + (varintBytes x.length).length + x.length : Nat) : Int) ∧
      ((pre.length + (varintBytes x.length).length + x.length : Nat) : Int)
        ≤ ((pre ++ (varintBytes x.length ++ (x ++ suf))).length : Int) := by
    simp only [List.length_append]
    omega
  unfold sliceBetween
  rw [if_pos hguard]
  simp only [Int.toNat_ofNat]
  rw [hdrop, hsub, List.take_left]

/-- The round of the request loop for field 1, once the tag is read. -/
theorem TaskRequest_unmarshalLoop_JobID (d : List UInt8) (fuel i i1 : Nat) (m : TaskRequest)
    (hi : i < d.length) (htag : readVarint 64 d 10 0 i 0 = .ok (0x8, i1)) :
    TaskRequest.unmarshalLoop d (fuel + 1) i m
      = match readVarint 64 d 10 0 i1 0 with
        | .error e => .error e
        | .ok (v, i2) =>
          TaskRequest.unmarshalLoop d fuel i2
            ⟨toI64 v, m.ParentTaskID, m.Type_, m.PhysicalPlan, m.Payload, m.XXX_unrecognized⟩ := by
  rw [TaskRequest.unmarshalLoop, if_pos hi, htag]
  rfl

/-- The round of the request loop for field 2, once the tag is read. -/
theorem TaskRequest_unmarshalLoop_ParentTaskID (d : List UInt8) (fuel i i1 : Nat)
    (m : TaskRequest) (hi : i < d.length) (htag : readVarint 64 d 10 0 i 0 = .ok (0x12, i1)) :
    TaskRequest.unmarshalLoop d (fuel + 1) i m
      = match readBytes d i1 with
        | .error e => .error e
        | .ok (s, i2) =>
          TaskRequest.unmarshalLoop d fuel i2
            ⟨m.JobID, s, m.Type_, m.PhysicalPlan, m.Payload, m.XXX_unrecognized⟩ := by
  rw [TaskRequest.unmarshalLoop, if_pos hi, htag]
  rfl

/-- The round of the request loop for field 3, once the tag is read. -/
theorem TaskRequest_unmarshalLoop_Type (d : List UInt8) (fuel i i1 : Nat) (m : TaskRequest)
    (hi : i < d.length) (htag : readVarint 64 d 10 0 i 0 = .ok (0x18, i1)) :
    TaskRequest.unmarshalLoop d (fuel + 1) i m
      = match readVarint 32 d 10 0 i1 0 with
        | .error e => .error e
        | .ok (v, i2) =>
          TaskRequest.unmarshalLoop d fuel i2
            ⟨m.JobID, m.ParentTaskID, toI32 v, m.PhysicalPlan, m.Payload, m.XXX_unrecognized⟩ := by
  rw [TaskRequest.unmarshalLoop, if_pos hi, htag]
  rfl

/-- The round of the request loop for field 4, once the tag is read. -/
theorem TaskRequest_unmarshalLoop_PhysicalPlan (d : List UInt8) (fuel i i1 : Nat)
    (m : TaskRequest) (hi : i < d.length) (htag : readVarint 64 d 10 0 i 0 = .ok (0x22, i1)) :
    TaskRequest.unmarshalLoop d (fuel + 1) i m
      = match readBytes d i1 with
        | .error e => .error e
        | .ok (s, i2) =>
          TaskRequest.unmarshalLoop d fuel i2
            ⟨m.JobID, m.ParentTaskID, m.Type_, s, m.Payload, m.XXX_unrecognized⟩ := by
  rw [TaskRequest.unmarshalLoop, if_pos hi, htag]
  rfl

/-- The round of the request loop for field 5, once the tag is read. -/
theorem TaskRequest_unmarshalLoop_Payload (d : List UInt8) (fuel i i1 : Nat) (m : TaskRequest)
    (hi : i < d.length) (htag : readVarint 64 d 10 0 i 0 = .ok (0x2a, i1)) :
    TaskRequest.unmarshalLoop d (fuel + 1) i m
      = match readBytes d i1 with
        | .error e => .error e
        | .ok (s, i2) =>
          TaskRequest.unmarshalLoop d fuel i2
            ⟨m.JobID, m.ParentTaskID, m.Type_, m.PhysicalPlan, s, m.XXX_unrecognized⟩ := by
  rw [TaskRequest.unmarshalLoop, if_pos hi, htag]
  rfl

/-- The request loop ends without error when the index is the length of the input. -/
theorem TaskRequest_unmarshalLoop_end (d : List UInt8) (fuel : Nat) (m : TaskRequest) :
    TaskRequest.unmarshalLoop d (fuel + 1) d.length m = .ok m := by
  rw [TaskRequest.unmarshalLoop, if_neg (lt_irrefl _), if_neg (lt_irrefl _)]

/-- Reading an integer field that is present: the tag, then the value cut to `w` bits. -/
theorem read_varintField (w : Nat) (tag : UInt8) (htag : tag.toNat < 128) (x : Int) (hx : x ≠ 0)
    (d pre suf : List UInt8) (i : Nat) (hi : i = pre.length)
    (hd : d = pre ++ (varintFieldBytes tag x ++ suf)) :
    i < d.length ∧ readVarint 64 d 10 0 i 0 = .ok (tag.toNat, i + 1) ∧
      readVarint w d 10 0 (i + 1) 0
        = .ok (toU64 x % 2 ^ w, i + (varintFieldBytes tag x).length) := by
  have henc : varintFieldBytes tag x = tag :: varintBytes (toU64 x) := by
    simp [varintFieldBytes, hx]
  subst hi
  rw [henc] at hd ⊢
  subst hd
  refine ⟨by simp, readVarint_tag tag htag pre _, ?_⟩
  have h := readVarint_value w (toU64 x) (toU64_lt x) (pre ++ [tag]) suf
  simp only [List.length_append, List.length_singleton, List.append_assoc,
    List.singleton_append] at h
  rw [List.cons_append, h, List.length_cons]
  congr 2
  omega

/-- Reading a string or bytes field that is present: the tag, then the bytes. -/
theorem read_bytesField (tag : UInt8) (htag : tag.toNat < 128) (x : List UInt8)
    (hx : x.length > 0) (d pre suf : List UInt8) (i : Nat) (hi : i = pre.length)
    (hd : d = pre ++ (bytesFieldBytes tag x ++ suf)) (hlen : d.length < 2 ^ 63) :
    i < d.length ∧ readVarint 64 d 10 0 i 0 = .ok (tag.toNat, i + 1) ∧
      readBytes d (i + 1) = .ok (x, i + (bytesFieldBytes tag x).length) := by
  have henc : bytesFieldBytes tag x = tag :: (varintBytes (x.length % 2 ^ 64) ++ x) := by
    simp [bytesFieldBytes, hx]
  subst hi
  rw [henc] at hd ⊢
  subst hd
  refine ⟨by simp, readVarint_tag tag htag pre _, ?_⟩
  have hshape : pre ++ (tag :: (varintBytes (x.length % 2 ^ 64) ++ x) ++ suf)
      = (pre ++ [tag]) ++ (varintBytes (x.length % 2 ^ 64) ++ (x ++ suf)) := by simp
  have h := readBytes_ok x (pre ++ [tag]) suf (by rw [← hshape]; exact hlen)
  simp only [List.length_append, List.length_singleton] at h
  rw [hshape, h]
  simp only [List.length_cons, List.length_append]
  congr 2
  omega

/-- One round of the request loop reads the field `JobID`, or none when it is zero. -/
theorem TaskRequest_step_JobID (j : Int) (hlo : -2 ^ 63 ≤ j) (hhi : j < 2 ^ 63)
    (d pre suf : List UInt8) (i : Nat) (hi : i = pre.length)
    (hd : d = pre ++ (varintFieldBytes 0x8 j ++ suf)) (m : TaskRequest) (hm : m.JobID = 0) :
    ∃ c, c ≤ (varintFieldBytes 0x8 j).length ∧ ∀ fuel,
      TaskRequest.unmarshalLoop d (fuel + c) i m
        = TaskRequest.unmarshalLoop d fuel (i + (varintFieldBytes 0x8 j).length)
            ⟨j, m.ParentTaskID, m.Type_, m.PhysicalPlan, m.Payload, m.XXX_unrecognized⟩ := by
  by_cases hj : j = 0
  · refine ⟨0, Nat.zero_le _, fun fuel => ?_⟩
    subst hj
    cases m
    simp only at hm
    subst hm
    simp [varintFieldBytes]
  · obtain ⟨h1, h2, h3⟩ := read_varintField 64 0x8 (by decide) j hj d pre suf i hi hd
    refine ⟨1, by simp [varintFieldBytes, hj], fun fuel => ?_⟩
    rw [TaskRequest_unmarshalLoop_JobID d fuel i (i + 1) m h1 h2, h3]
    simp only [toI64_toU64 j hlo hhi]

/-- One round of the request loop reads the field `Type`, or none when it is zero. -/
theorem TaskRequest_step_Type (t : Int) (hlo : -2 ^ 31 ≤ t) (hhi : t < 2 ^ 31)
    (d pre suf : List UInt8) (i : Nat) (hi : i = pre.length)
    (hd : d = pre ++ (varintFieldBytes 0x18 t ++ suf)) (m : TaskRequest) (hm : m.Type_ = 0) :
    ∃ c, c ≤ (varintFieldBytes 0x18 t).length ∧ ∀ fuel,
      TaskRequest.unmarshalLoop d (fuel + c) i m
        = TaskRequest.unmarshalLoop d fuel (i + (varintFieldBytes 0x18 t).length)
            ⟨m.JobID, m.ParentTaskID, t, m.PhysicalPlan, m.Payload, m.XXX_unrecognized⟩ := by
  by_cases ht : t = 0
  · refine ⟨0, Nat.zero_le _, fun fuel => ?_⟩
    subst ht
    cases m
    simp only at hm
    subst hm
    simp [varintFieldBytes]
  · obtain ⟨h1, h2, h3⟩ := read_varintField 32 0x18 (by decide) t ht d pre suf i hi hd
    refine ⟨1, by simp [varintFieldBytes, ht], fun fuel => ?_⟩
    rw [TaskRequest_unmarshalLoop_Type d fuel i (i + 1) m h1 h2, h3]
    simp only [toI32_toU64 t hlo hhi]

/-- One round of the request loop reads the field `ParentTaskID`, or none when it is
empty. -/
theorem TaskRequest_step_ParentTaskID (x : List UInt8)
    (d pre suf : List UInt8) (i : Nat) (hi : i = pre.length)
    (hd : d = pre ++ (bytesFieldBytes 0x12 x ++ suf)) (hlen : d.length < 2 ^ 63)
    (m : TaskRequest) (hm : m.ParentTaskID = []) :
    ∃ c, c ≤ (bytesFieldBytes 0x12 x).length ∧ ∀ fuel,
      TaskRequest.unmarshalLoop d (fuel + c) i m
        = TaskRequest.unmarshalLoop d fuel (i + (bytesFieldBytes 0x12 x).length)
            ⟨m.JobID, x, m.Type_, m.PhysicalPlan, m.Payload, m.XXX_unrecognized⟩ := by
  by_cases hx : x.length > 0
  · obtain ⟨h1, h2, h3⟩ := read_bytesField 0x12 (by decide) x hx d pre suf i hi hd hlen
    refine ⟨1, by simp [bytesFieldBytes, hx], fun fuel => ?_⟩
    rw [TaskRequest_unmarshalLoop_ParentTaskID d fuel i (i + 1) m h1 h2, h3]
  · refine ⟨0, Nat.zero_le _, fun fuel => ?_⟩
    have hnil : x = [] := List.eq_nil_of_length_eq_zero (by omega)
    subst hnil
    cases m
    simp only at hm
    subst hm
    simp [bytesFieldBytes]

/-- One round of the request loop reads the field `PhysicalPlan`, or none when it is
empty. -/
theorem TaskRequest_step_PhysicalPlan (x : List UInt8)
    (d pre suf : List UInt8) (i : Nat) (hi : i = pre.length)
    (hd : d = pre ++ (bytesFieldBytes 0x22 x ++ suf)) (hlen : d.length < 2 ^ 63)
    (m : TaskRequest) (hm : m.PhysicalPlan = []) :
    ∃ c, c ≤ (bytesFieldBytes 0x22 x).length ∧ ∀ fuel,
      TaskRequest.unmarshalLoop d (fuel + c) i m
        = TaskRequest.unmarshalLoop d fuel (i + (bytesFieldBytes 0x22 x).length)
            ⟨m.JobID, m.ParentTaskID, m.Type_, x, m.Payload, m.XXX_unrecognized⟩ := by
  by_cases hx : x.length > 0
  · obtain ⟨h1, h2, h3⟩ := read_bytesField 0x22 (by decide) x hx d pre suf i hi hd hlen
    refine ⟨1, by simp [bytesFieldBytes, hx], fun fuel => ?_⟩
    rw [TaskRequest_unmarshalLoop_PhysicalPlan d fuel i (i + 1) m h1 h2, h3]
  · refine ⟨0, Nat.zero_le _, fun fuel => ?_⟩
    have hnil : x = [] := List.eq_nil_of_length_eq_zero (by omega)
    subst hnil
    cases m
    simp only at hm
    subst hm
    simp [bytesFieldBytes]

/-- One round of the request loop reads the field `Payload`, or none when it is empty. -/
theorem TaskRequest_step_Payload (x : List UInt8)
    (d pre suf : List UInt8) (i : Nat) (hi : i = pre.length)
    (hd : d = pre ++ (bytesFieldBytes 0x2a x ++ suf)) (hlen : d.length < 2 ^ 63)
    (m : TaskRequest) (hm : m.Payload = []) :
    ∃ c, c ≤ (bytesFieldBytes 0x2a x).length ∧ ∀ fuel,
      TaskRequest.unmarshalLoop d (fuel + c) i m
        = TaskRequest.unmarshalLoop d fuel (i + (bytesFieldBytes 0x2a x).length)
            ⟨m.JobID, m.ParentTaskID, m.Type_, m.PhysicalPlan, x, m.XXX_unrecognized⟩ := by
  by_cases hx : x.length > 0
  · obtain ⟨h1, h2, h3⟩ := read_bytesField 0x2a (by decide) x hx d pre suf i hi hd hlen
    refine ⟨1, by simp [bytesFieldBytes, hx], fun fuel => ?_⟩
    rw [TaskRequest_unmarshalLoop_Payload d fuel i (i + 1) m h1 h2, h3]
  · refine ⟨0, Nat.zero_le _, fun fuel => ?_⟩
    have hnil : x = [] := List.eq_nil_of_length_eq_zero (by omega)
    subst hnil
    cases m
    simp only at hm
    subst hm
    simp [bytesFieldBytes]

/-- Go `Unmarshal` into a fresh request reads a wire form back as the request it is the
wire form of. -/
theorem TaskRequest_Unmarshal_wire (m : TaskRequest) (hsize : m.Size < 2 ^ 63)
    (hJobID : -2 ^ 63 ≤ m.JobID ∧ m.JobID < 2 ^ 63)
    (hType : -2 ^ 31 ≤ m.Type_ ∧ m.Type_ < 2 ^ 31) (hun : m.XXX_unrecognized = []) :
    TaskRequest.Unmarshal ⟨0, [], 0, [], [], []⟩ m.wire = .ok m := by
  have hsize64 : m.Size < 2 ^ 64 := lt_trans hsize (by norm_num)
  have hlen : m.wire.length < 2 ^ 63 := by rw [← TaskRequest_Size_eq m]; exact hsize
  unfold TaskRequest.Unmarshal
  generalize hd : m.wire = d at hlen ⊢
  unfold TaskRequest.wire at hd
  rw [hun] at hd
  simp only [List.append_nil] at hd
  have hdlen := congrArg List.length hd
  simp only [List.length_append] at hdlen
  obtain ⟨c1, hc1, s1⟩ := TaskRequest_step_JobID m.JobID hJobID.1 hJobID.2 d []
    (bytesFieldBytes 0x12 m.ParentTaskID ++ (varintFieldBytes 0x18 m.Type_
      ++ (bytesFieldBytes 0x22 m.PhysicalPlan ++ bytesFieldBytes 0x2a m.Payload))) 0 rfl
    (by rw [← hd]; rfl) ⟨0, [], 0, [], [], []⟩ rfl
  obtain ⟨c2, hc2, s2⟩ := TaskRequest_step_ParentTaskID m.ParentTaskID d
    (varintFieldBytes 0x8 m.JobID)
    (varintFieldBytes 0x18 m.Type_
      ++ (bytesFieldBytes 0x22 m.PhysicalPlan ++ bytesFieldBytes 0x2a m.Payload))
    (0 + (varintFieldBytes 0x8 m.JobID).length) (by simp)
    (by rw [← hd]) hlen ⟨m.JobID, [], 0, [], [], []⟩ rfl
  obtain ⟨c3, hc3, s3⟩ := TaskRequest_step_Type m.Type_ hType.1 hType.2 d
    (varintFieldBytes 0x8 m.JobID ++ bytesFieldBytes 0x12 m.ParentTaskID)
    (bytesFieldBytes 0x22 m.PhysicalPlan ++ bytesFieldBytes 0x2a m.Payload)
    (0 + (varintFieldBytes 0x8 m.JobID).length + (bytesFieldBytes 0x12 m.ParentTaskID).length)
    (by simp only [List.length_append]; omega) (by rw [← hd]; simp) ⟨m.JobID, m.ParentTaskID, 0, [], [], []⟩ rfl
  obtain ⟨c4, hc4, s4⟩ := TaskRequest_step_PhysicalPlan m.PhysicalPlan d
    (varintFieldBytes 0x8 m.JobID ++ bytesFieldBytes 0x12 m.ParentTaskID
      ++ varintFieldBytes 0x18 m.Type_) (bytesFieldBytes 0x2a m.Payload)
    (0 + (varintFieldBytes 0x8 m.JobID).length + (bytesFieldBytes 0x12 m.ParentTaskID).length
      + (varintFieldBytes 0x18 m.Type_).length)
    (by simp only [List.length_append]; omega) (by rw [← hd]; simp) hlen ⟨m.JobID, m.ParentTaskID, m.Type_, [], [], []⟩ rfl
  obtain ⟨c5, hc5, s5⟩ := TaskRequest_step_Payload m.Payload d
    (varintFieldBytes 0x8 m.JobID ++ bytesFieldBytes 0x12 m.ParentTaskID
      ++ varintFieldBytes 0x18 m.Type_ ++ bytesFieldBytes 0x22 m.PhysicalPlan) []
    (0 + (varintFieldBytes 0x8 m.JobID).length + (bytesFieldBytes 0x12 m.ParentTaskID).length
      + (varintFieldBytes 0x18 m.Type_).length + (bytesFieldBytes 0x22 m.PhysicalPlan).length)
    (by simp only [List.length_append]; omega) (by rw [← hd]; simp) hlen
    ⟨m.JobID, m.ParentTaskID, m.Type_, m.PhysicalPlan, [], []⟩ rfl
  dsimp only at s1 s2 s3 s4 s5
  obtain ⟨f, hf⟩ : ∃ f, d.length + 1 = f + 1 + c5 + c4 + c3 + c2 + c1 :=
    ⟨d.length - (c1 + c2 + c3 + c4 + c5), by omega⟩
  rw [hf, s1, s2, s3, s4, s5]
  have hend : 0 + (varintFieldBytes 0x8 m.JobID).length
      + (bytesFieldBytes 0x12 m.ParentTaskID).length + (varintFieldBytes 0x18 m.Type_).length
      + (bytesFieldBytes 0x22 m.PhysicalPlan).length + (bytesFieldBytes 0x2a m.Payload).length
      = d.length := by omega
  rw [hend, TaskRequest_unmarshalLoop_end]
  cases m
  simp only at hun
  subst hun
  rfl

/-- The round of the response loop for field 1, once the tag is read. -/
theorem TaskResponse_unmarshalLoop_JobID (d : List UInt8) (fuel i i1 : Nat) (m : TaskResponse)
    (hi : i < d.length) (htag : readVarint 64 d 10 0 i 0 = .ok (0x8, i1)) :
    TaskResponse.unmarshalLoop d (fuel + 1) i m
      = match readVarint 64 d 10 0 i1 0 with
        | .error e => .error e
        | .ok (v, i2) =>
          TaskResponse.unmarshalLoop d fuel i2
            ⟨toI64 v, m.TaskID, m.Completed, m.ErrMsg, m.Payload, m.XXX_unrecognized⟩ := by
  rw [TaskResponse.unmarshalLoop, if_pos hi, htag]
  rfl

/-- The round of the response loop for field 2, once the tag is read. -/
theorem TaskResponse_unmarshalLoop_TaskID (d : List UInt8) (fuel i i1 : Nat) (m : TaskResponse)
    (hi : i < d.length) (htag : readVarint 64 d 10 0 i 0 = .ok (0x12, i1)) :
    TaskResponse.unmarshalLoop d (fuel + 1) i m
      = match readBytes d i1 with
        | .error e => .error e
        | .ok (s, i2) =>
          TaskResponse.unmarshalLoop d fuel i2
            ⟨m.JobID, s, m.Completed, m.ErrMsg, m.Payload, m.XXX_unrecognized⟩ := by
  rw [TaskResponse.unmarshalLoop, if_pos hi, htag]
  rfl

/-- The round of the response loop for field 3, once the tag is read. -/
theorem TaskResponse_unmarshalLoop_Completed (d : List UInt8) (fuel i i1 : Nat) (m : TaskResponse)
    (hi : i < d.length) (htag : readVarint 64 d 10 0 i 0 = .ok (0x18, i1)) :
    TaskResponse.unmarshalLoop d (fuel + 1) i m
      = match readVarint 64 d 10 0 i1 0 with
        | .error e => .error e
        | .ok (v, i2) =>
          TaskResponse.unmarshalLoop d fuel i2
            ⟨m.JobID, m.TaskID, decide (v ≠ 0), m.ErrMsg, m.Payload, m.XXX_unrecognized⟩ := by
  rw [TaskResponse.unmarshalLoop, if_pos hi, htag]
  rfl

/-- The round of the response loop for field 4, once the tag is read. -/
theorem TaskResponse_unmarshalLoop_ErrMsg (d : List UInt8) (fuel i i1 : Nat) (m : TaskResponse)
    (hi : i < d.length) (htag : readVarint 64 d 10 0 i 0 = .ok (0x22, i1)) :
    TaskResponse.unmarshalLoop d (fuel + 1) i m
      = match readBytes d i1 with
        | .error e => .error e
        | .ok (s, i2) =>
          TaskResponse.unmarshalLoop d fuel i2
            ⟨m.JobID, m.TaskID, m.Completed, s, m.Payload, m.XXX_unrecognized⟩ := by
  rw [TaskResponse.unmarshalLoop, if_pos hi, htag]
  rfl

/-- The round of the response loop for field 5, once the tag is read. -/
theorem TaskResponse_unmarshalLoop_Payload (d : List UInt8) (fuel i i1 : Nat) (m : TaskResponse)
    (hi : i < d.length) (htag : readVarint 64 d 10 0 i 0 = .ok (0x2a, i1)) :
    TaskResponse.unmarshalLoop d (fuel + 1) i m
      = match readBytes d i1 with
        | .error e => .error e
        | .ok (s, i2) =>
          TaskResponse.unmarshalLoop d fuel i2
            ⟨m.JobID, m.TaskID, m.Completed, m.ErrMsg, s, m.XXX_unrecognized⟩ := by
  rw [TaskResponse.unmarshalLoop, if_pos hi, htag]
  rfl

/-- The response loop ends without error when the index is the length of the input. -/
theorem TaskResponse_unmarshalLoop_end (d : List UInt8) (fuel : Nat) (m : TaskResponse) :
    TaskResponse.unmarshalLoop d (fuel + 1) d.length m = .ok m := by
  rw [TaskResponse.unmarshalLoop, if_neg (lt_irrefl _), if_neg (lt_irrefl _)]

/-- Reading a bool field that is present: the tag, then the value 1. -/
theorem read_boolField (tag : UInt8) (htag : tag.toNat < 128)
    (d pre suf : List UInt8) (i : Nat) (hi : i = pre.length)
    (hd : d = pre ++ (boolFieldBytes tag true ++ suf)) :
    i < d.length ∧ readVarint 64 d 10 0 i 0 = .ok (tag.toNat, i + 1) ∧
      readVarint 64 d 10 0 (i + 1) 0 = .ok (1, i + (boolFieldBytes tag true).length) := by
  have henc : boolFieldBytes tag true = [tag, 1] := rfl
  subst hi
  rw [henc] at hd ⊢
  subst hd
  refine ⟨by simp, readVarint_tag tag htag pre _, ?_⟩
  have h := readVarint_tag 1 (by decide) (pre ++ [tag]) suf
  simp only [List.length_append, List.length_singleton, List.append_assoc,
    List.singleton_append] at h
  exact h

/-- One round of the response loop reads the field `JobID`, or none when it is zero. -/
theorem TaskResponse_step_JobID (j : Int) (hlo : -2 ^ 63 ≤ j) (hhi : j < 2 ^ 63)
    (d pre suf : List UInt8) (i : Nat) (hi : i = pre.length)
    (hd : d = pre ++ (varintFieldBytes 0x8 j ++ suf)) (m : TaskResponse) (hm : m.JobID = 0) :
    ∃ c, c ≤ (varintFieldBytes 0x8 j).length ∧ ∀ fuel,
      TaskResponse.unmarshalLoop d (fuel + c) i m
        = TaskResponse.unmarshalLoop d fuel (i + (varintFieldBytes 0x8 j).length)
            ⟨j, m.TaskID, m.Completed, m.ErrMsg, m.Payload, m.XXX_unrecognized⟩ := by
  by_cases hj : j = 0
  · refine ⟨0, Nat.zero_le _, fun fuel => ?_⟩
    subst hj
    cases m
    simp only at hm
    subst hm
    simp [varintFieldBytes]
  · obtain ⟨h1, h2, h3⟩ := read_varintField 64 0x8 (by decide) j hj d pre suf i hi hd
    refine ⟨1, by simp [varintFieldBytes, hj], fun fuel => ?_⟩
    rw [TaskResponse_unmarshalLoop_JobID d fuel i (i + 1) m h1 h2, h3]
    simp only [toI64_toU64 j hlo hhi]

/-- One round of the response loop reads the field `Completed`, or none when it is
false. -/
theorem TaskResponse_step_Completed (b : Bool)
    (d pre suf : List UInt8) (i : Nat) (hi : i = pre.length)
    (hd : d = pre ++ (boolFieldBytes 0x18 b ++ suf)) (m : TaskResponse)
    (hm : m.Completed = false) :
    ∃ c, c ≤ (boolFieldBytes 0x18 b).length ∧ ∀ fuel,
      TaskResponse.unmarshalLoop d (fuel + c) i m
        = TaskResponse.unmarshalLoop d fuel (i + (boolFieldBytes 0x18 b).length)
            ⟨m.JobID, m.TaskID, b, m.ErrMsg, m.Payload, m.XXX_unrecognized⟩ := by
  cases b with
  | false =>
    refine ⟨0, Nat.zero_le _, fun fuel => ?_⟩
    cases m
    simp only at hm
    subst hm
    simp [boolFieldBytes]
  | true =>
    obtain ⟨h1, h2, h3⟩ := read_boolField 0x18 (by decide) d pre suf i hi hd
    refine ⟨1, by simp [boolFieldBytes], fun fuel => ?_⟩
    rw [TaskResponse_unmarshalLoop_Completed d fuel i (i + 1) m h1 h2, h3]
    rfl

/-- One round of the response loop reads the field `TaskID`, or none when it is empty. -/
theorem TaskResponse_step_TaskID (x : List UInt8)
    (d pre suf : List UInt8) (i : Nat) (hi : i = pre.length)
    (hd : d = pre ++ (bytesFieldBytes 0x12 x ++ suf)) (hlen : d.length < 2 ^ 63)
    (m : TaskResponse) (hm : m.TaskID = []) :
    ∃ c, c ≤ (bytesFieldBytes 0x12 x).length ∧ ∀ fuel,
      TaskResponse.unmarshalLoop d (fuel + c) i m
        = TaskResponse.unmarshalLoop d fuel (i + (bytesFieldBytes 0x12 x).length)
            ⟨m.JobID, x, m.Completed, m.ErrMsg, m.Payload, m.XXX_unrecognized⟩ := by
  by_cases hx : x.length > 0
  · obtain ⟨h1, h2, h3⟩ := read_bytesField 0x12 (by decide) x hx d pre suf i hi hd hlen
    refine ⟨1, by simp [bytesFieldBytes, hx], fun fuel => ?_⟩
    rw [TaskResponse_unmarshalLoop_TaskID d fuel i (i + 1) m h1 h2, h3]
  · refine ⟨0, Nat.zero_le _, fun fuel => ?_⟩
    have hnil : x = [] := List.eq_nil_of_length_eq_zero (by omega)
    subst hnil
    cases m
    simp only at hm
    subst hm
    simp [bytesFieldBytes]

/-- One round of the response loop reads the field `ErrMsg`, or none when it is empty. -/
theorem TaskResponse_step_ErrMsg (x : List UInt8)
    (d pre suf : List UInt8) (i : Nat) (hi : i = pre.length)
    (hd : d = pre ++ (bytesFieldBytes 0x22 x ++ suf)) (hlen : d.length < 2 ^ 63)
    (m : TaskResponse) (hm : m.ErrMsg = []) :
    ∃ c, c ≤ (bytesFieldBytes 0x22 x).length ∧ ∀ fuel,
      TaskResponse.unmarshalLoop d (fuel + c) i m
        = TaskResponse.unmarshalLoop d fuel (i + (bytesFieldBytes 0x22 x).length)
            ⟨m.JobID, m.TaskID, m.Completed, x, m.Payload, m.XXX_unrecognized⟩ := by
  by_cases hx : x.length > 0
  · obtain ⟨h1, h2, h3⟩ := read_bytesField 0x22 (by decide) x hx d pre suf i hi hd hlen
    refine ⟨1, by simp [bytesFieldBytes, hx], fun fuel => ?_⟩
    rw [TaskResponse_unmarshalLoop_ErrMsg d fuel i (i + 1) m h1 h2, h3]
  · refine ⟨0, Nat.zero_le _, fun fuel => ?_⟩
    have hnil : x = [] := List.eq_nil_of_length_eq_zero (by omega)
    subst hnil
    cases m
    simp only at hm
    subst hm
    simp [bytesFieldBytes]

/-- One round of the response loop reads the field `Payload`, or none when it is empty. -/
theorem TaskResponse_step_Payload (x : List UInt8)
    (d pre suf : List UInt8) (i : Nat) (hi : i = pre.length)
    (hd : d = pre ++ (bytesFieldBytes 0x2a x ++ suf)) (hlen : d.length < 2 ^ 63)
    (m : TaskResponse) (hm : m.Payload = []) :
    ∃ c, c ≤ (bytesFieldBytes 0x2a x).length ∧ ∀ fuel,
      TaskResponse.unmarshalLoop d (fuel + c) i m
        = TaskResponse.unmarshalLoop d fuel (i + (bytesFieldBytes 0x2a x).length)
            ⟨m.JobID, m.TaskID, m.Completed, m.ErrMsg, x, m.XXX_unrecognized⟩ := by
  by_cases hx : x.length > 0
  · obtain ⟨h1, h2, h3⟩ := read_bytesField 0x2a (by decide) x hx d pre suf i hi hd hlen
    refine ⟨1, by simp [bytesFieldBytes, hx], fun fuel => ?_⟩
    rw [TaskResponse_unmarshalLoop_Payload d fuel i (i + 1) m h1 h2, h3]
  · refine ⟨0, Nat.zero_le _, fun fuel => ?_⟩
    have hnil : x = [] := List.eq_nil_of_length_eq_zero (by omega)
    subst hnil
    cases m
    simp only at hm
    subst hm
    simp [bytesFieldBytes]

/-- Go `Unmarshal` into a fresh response reads a wire form back as the response it is the
wire form of. -/
theorem TaskResponse_Unmarshal_wire (m : TaskResponse) (hsize : m.Size < 2 ^ 63)
    (hJobID : -2 ^ 63 ≤ m.JobID ∧ m.JobID < 2 ^ 63) (hun : m.XXX_unrecognized = []) :
    TaskResponse.Unmarshal ⟨0, [], false, [], [], []⟩ m.wire = .ok m := by
  have hsize64 : m.Size < 2 ^ 64 := lt_trans hsize (by norm_num)
  have hlen : m.wire.length < 2 ^ 63 := by rw [← TaskResponse_Size_eq m]; exact hsize
  unfold TaskResponse.Unmarshal
  generalize hd : m.wire = d at hlen ⊢
  unfold TaskResponse.wire at hd
  rw [hun] at hd
  simp only [List.append_nil] at hd
  have hdlen := congrArg List.length hd
  simp only [List.length_append] at hdlen
  obtain ⟨c1, hc1, s1⟩ := TaskResponse_step_JobID m.JobID hJobID.1 hJobID.2 d []
    (bytesFieldBytes 0x12 m.TaskID ++ (boolFieldBytes 0x18 m.Completed
      ++ (bytesFieldBytes 0x22 m.ErrMsg ++ bytesFieldBytes 0x2a m.Payload))) 0 rfl
    (by rw [← hd]; rfl) ⟨0, [], false, [], [], []⟩ rfl
  obtain ⟨c2, hc2, s2⟩ := TaskResponse_step_TaskID m.TaskID d
    (varintFieldBytes 0x8 m.JobID)
    (boolFieldBytes 0x18 m.Completed
      ++ (bytesFieldBytes 0x22 m.ErrMsg ++ bytesFieldBytes 0x2a m.Payload))
    (0 + (varintFieldBytes 0x8 m.JobID).length) (by simp)
    (by rw [← hd]) hlen ⟨m.JobID, [], false, [], [], []⟩ rfl
  obtain ⟨c3, hc3, s3⟩ := TaskResponse_step_Completed m.Completed d
    (varintFieldBytes 0x8 m.JobID ++ bytesFieldBytes 0x12 m.TaskID)
    (bytesFieldBytes 0x22 m.ErrMsg ++ bytesFieldBytes 0x2a m.Payload)
    (0 + (varintFieldBytes 0x8 m.JobID).length + (bytesFieldBytes 0x12 m.TaskID).length)
    (by simp only [List.length_append]; omega) (by rw [← hd]; simp)
    ⟨m.JobID, m.TaskID, false, [], [], []⟩ rfl
  obtain ⟨c4, hc4, s4⟩ := TaskResponse_step_ErrMsg m.ErrMsg d
    (varintFieldBytes 0x8 m.JobID ++ bytesFieldBytes 0x12 m.TaskID
      ++ boolFieldBytes 0x18 m.Completed) (bytesFieldBytes 0x2a m.Payload)
    (0 + (varintFieldBytes 0x8 m.JobID).length + (bytesFieldBytes 0x12 m.TaskID).length
      + (boolFieldBytes 0x18 m.Completed).length)
    (by simp only [List.length_append]; omega) (by rw [← hd]; simp) hlen
    ⟨m.JobID, m.TaskID, m.Completed, [], [], []⟩ rfl
  obtain ⟨c5, hc5, s5⟩ := TaskResponse_step_Payload m.Payload d
    (varintFieldBytes 0x8 m.JobID ++ bytesFieldBytes 0x12 m.TaskID
      ++ boolFieldBytes 0x18 m.Completed ++ bytesFieldBytes 0x22 m.ErrMsg) []
    (0 + (varintFieldBytes 0x8 m.JobID).length + (bytesFieldBytes 0x12 m.TaskID).length
      + (boolFieldBytes 0x18 m.Completed).length + (bytesFieldBytes 0x22 m.ErrMsg).length)
    (by simp only [List.length_append]; omega) (by rw [← hd]; simp) hlen
    ⟨m.JobID, m.TaskID, m.Completed, m.ErrMsg, [], []⟩ rfl
  dsimp only at s1 s2 s3 s4 s5
  obtain ⟨f, hf⟩ : ∃ f, d.length + 1 = f + 1 + c5 + c4 + c3 + c2 + c1 :=
    ⟨d.length - (c1 + c2 + c3 + c4 + c5), by omega⟩
  rw [hf, s1, s2, s3, s4, s5]
  have hend : 0 + (varintFieldBytes 0x8 m.JobID).length
      + (bytesFieldBytes 0x12 m.TaskID).length + (boolFieldBytes 0x18 m.Completed).length
      + (bytesFieldBytes 0x22 m.ErrMsg).length + (bytesFieldBytes 0x2a m.Payload).length
      = d.length := by omega
  rw [hend, TaskResponse_unmarshalLoop_end]
  cases m
  simp only at hun
  subst hun
  rfl

/-- The varint of the 64-bit pattern of a negative int64 takes ten bytes. -/
theorem sovCommon_negative (j : Int) (hlo : -2 ^ 63 ≤ j) (hneg : j < 0) :
    sovCommon (toU64 j) = 10 := by
  have hv := toU64_lt j
  have hbig : 2 ^ 63 ≤ toU64 j := by
    unfold toU64
    norm_num at hlo ⊢
    omega
  apply le_antisymm
  · rw [sovCommon_le_iff _ 10 hv (by decide)]
    exact lt_of_lt_of_le hv (by norm_num)
  · by_contra hcon
    have h9 : sovCommon (toU64 j) ≤ 9 := by omega
    rw [sovCommon_le_iff _ 9 hv (by decide)] at h9
    norm_num at h9 hbig
    omega

/-- Claim C27: decode undoes encode for `TaskRequest`: for every request `m` with no
unrecognized bytes (whose `JobID` is an int64, whose `Type` is an int32 and whose size is an
`int`), `Marshal` succeeds with `Size()` bytes, and `Unmarshal` of these bytes into a fresh
request returns no error and yields `m`: the same `JobID`, `ParentTaskID`, `Type`,
`PhysicalPlan` and `Payload`, and no unrecognized bytes.  A negative `JobID` and a negative
`Type` take varints of ten bytes, and a request whose fields are all zero or empty is
encoded as no bytes at all. -/
theorem TaskRequest_Unmarshal_Marshal (m : TaskRequest) (hsize : m.Size < 2 ^ 63)
    (hJobID : -2 ^ 63 ≤ m.JobID ∧ m.JobID < 2 ^ 63)
    (hType : -2 ^ 31 ≤ m.Type_ ∧ m.Type_ < 2 ^ 31) (hun : m.XXX_unrecognized = []) :
    ∃ dAtA, m.Marshal = .ok dAtA ∧ dAtA.length = m.Size ∧
      TaskRequest.Unmarshal ⟨0, [], 0, [], [], []⟩ dAtA = .ok m ∧
      (m.JobID < 0 → sovCommon (toU64 m.JobID) = 10) ∧
      (m.Type_ < 0 → sovCommon (toU64 m.Type_) = 10) ∧
      (m = ⟨0, [], 0, [], [], []⟩ → dAtA = []) := by
  have hsize64 : m.Size < 2 ^ 64 := lt_trans hsize (by norm_num)
  refine ⟨m.wire, TaskRequest_Marshal_eq_wire m hsize64, (TaskRequest_Size_eq m).symm,
    TaskRequest_Unmarshal_wire m hsize hJobID hType hun,
    sovCommon_negative m.JobID hJobID.1, ?_, ?_⟩
  · intro hneg
    exact sovCommon_negative m.Type_ (le_trans (by norm_num) hType.1) hneg
  · intro hm
    subst hm
    rfl

/-- Witness of C27 on a request with a negative job id, a negative type and an empty
physical plan: the bytes that `Marshal` returns are read back as the request. -/
theorem TaskRequest_Unmarshal_Marshal_witness :
    (∃ dAtA, sampleRequest.Marshal = .ok dAtA ∧ dAtA.length = sampleRequest.Size ∧
      TaskRequest.Unmarshal ⟨0, [], 0, [], [], []⟩ dAtA = .ok sampleRequest ∧
      (sampleRequest.JobID < 0 → sovCommon (toU64 sampleRequest.JobID) = 10) ∧
      (sampleRequest.Type_ < 0 → sovCommon (toU64 sampleRequest.Type_) = 10) ∧
      (sampleRequest = ⟨0, [], 0, [], [], []⟩ → dAtA = [])) ∧
    TaskRequest.Unmarshal ⟨0, [], 0, [], [], []⟩
      [8, 254, 255, 255, 255, 255, 255, 255, 255, 255, 1, 18, 2, 97, 98,
        24, 255, 255, 255, 255, 255, 255, 255, 255, 255, 1, 42, 3, 7, 8, 9]
      = .ok sampleRequest :=
  ⟨TaskRequest_Unmarshal_Marshal sampleRequest (by decide) (by decide) (by decide) rfl, rfl⟩

/-- Claim C28: decode undoes encode for `TaskResponse`: for every response `m` with no
unrecognized bytes (whose `JobID` is an int64 and whose size is an `int`), `Marshal`
succeeds with `Size()` bytes, and `Unmarshal` of these bytes into a fresh response returns
no error and yields `m`: the same `JobID`, `TaskID`, `Completed`, `ErrMsg` and `Payload`. -/
theorem TaskResponse_Unmarshal_Marshal (m : TaskResponse) (hsize : m.Size < 2 ^ 63)
    (hJobID : -2 ^ 63 ≤ m.JobID ∧ m.JobID < 2 ^ 63) (hun : m.XXX_unrecognized = []) :
    ∃ dAtA, m.Marshal = .ok dAtA ∧ dAtA.length = m.Size ∧
      TaskResponse.Unmarshal ⟨0, [], false, [], [], []⟩ dAtA = .ok m := by
  have hsize64 : m.Size < 2 ^ 64 := lt_trans hsize (by norm_num)
  exact ⟨m.wire, TaskResponse_Marshal_eq_wire m hsize64,
    (TaskResponse_Size_eq m).symm, TaskResponse_Unmarshal_wire m hsize hJobID hun⟩

/-- Witness of C28 on a completed response with an error message and no payload: the
bytes that `Marshal` returns are read back as the response. -/
theorem TaskResponse_Unmarshal_Marshal_witness :
    (∃ dAtA, sampleResponse.Marshal = .ok dAtA ∧ dAtA.length = sampleResponse.Size ∧
      TaskResponse.Unmarshal ⟨0, [], false, [], [], []⟩ dAtA = .ok sampleResponse) ∧
    TaskResponse.Unmarshal ⟨0, [], false, [], [], []⟩
      [8, 172, 2, 18, 1, 116, 24, 1, 34, 3, 101, 114, 114] = .ok sampleResponse :=
  ⟨TaskResponse_Unmarshal_Marshal sampleResponse (by decide) (by decide) rfl, rfl⟩

/-! ## The cursor of the merge scanner -/

/-- The lookup after the advance leaves the scanner as it is. -/
theorem scanFind_snd (env : Env) (s : dataScanner) (highKey lowSeriesID : Nat) :
    (s.scanFind env highKey lowSeriesID).2 = s := by
  unfold dataScanner.scanFind
  simp only []
  split_ifs <;> rfl

/-- An advance that returns puts the cursor on the container at the old position: the
position grows by one and the current high key, container and offset index are those of
that container. -/
theorem nextContainer_inv (env : Env) (r : reader) (s s1 : dataScanner) (p : Nat)
    (hr : s.reader = r) (hk : s.highKeys = r.seriesIDs.GetHighKeys) (hp : s.seriesPos = p)
    (h : s.nextContainer env = .ok s1) : s1.atRank env r p ∧ s1.seriesPos = s.seriesPos + 1 := by
  unfold dataScanner.nextContainer at h
  split at h
  · cases h
  · rename_i k hkey
    split at h
    · cases h
    · rename_i c hc
      simp only at h
      split at h
      · cases h
      · rename_i sub hsub
        injection h with h
        subst h
        rw [hr, hp] at hc
        rw [hk, hp] at hkey
        have hent : r.seriesIDs.entries[p]? = some (k, c) := by
          simp only [Bitmap.GetHighKeys, List.getElem?_map] at hkey
          have hn : ¬ ((p : Int) < 0) := by omega
          simp only [Bitmap.GetContainerAtIndex, hn, if_false, Int.toNat_ofNat] at hc
          cases he : r.seriesIDs.entries[p]? with
          | none => rw [he] at hkey; cases hkey
          | some e =>
            rw [he] at hkey hc
            simp only [Option.map_some', Option.some.injEq] at hkey
            injection hc with hc
            rw [← hkey, ← hc]
        rw [hr, hp] at hsub
        have hs := (sliceFrom_ok hsub).2.2
        refine ⟨⟨hr, hk, by simp only [hp], hent, ?_⟩, rfl⟩
        simp only [reader.containerOffsets, hs]

/-- One `scan` call that returns, from a scanner whose cursor is on the container of rank
`j`: the scanner afterwards is the same one, or its cursor is on the container of rank
`j + 1` after one advance, which only a greater requested high key causes. -/
theorem scan_inv (env : Env) (r : reader) (s : dataScanner) (j : Nat)
    (hs : s.atRank env r j) (highKey lowSeriesID : Nat) (off : Int) (s1 : dataScanner)
    (h : s.scan env highKey lowSeriesID = .ok (off, s1)) :
    s1 = s ∨ (s1.atRank env r (j + 1) ∧ s1.seriesPos = s.seriesPos + 1 ∧ s.highKey < highKey ∧
      s.seriesPos < s.highKeys.length) := by
  unfold dataScanner.scan at h
  by_cases hlt : s.highKey < highKey
  · rw [if_pos hlt] at h
    by_cases hex : s.seriesPos ≥ s.highKeys.length
    · rw [if_pos hex] at h
      injection h with h
      exact Or.inl (Prod.mk.inj h).2.symm
    · rw [if_neg hex] at h
      cases hn : s.nextContainer env with
      | error e => rw [hn] at h; cases h
      | ok s2 =>
        rw [hn] at h
        injection h with h
        have h2 : s1 = s2 := by
          rw [← scanFind_snd env s2 highKey lowSeriesID, h]
        subst h2
        obtain ⟨hat, hpos⟩ := nextContainer_inv env r s s1 (j + 1) hs.1 hs.2.1 hs.2.2.1 hn
        exact Or.inr ⟨hat, hpos, hlt, by omega⟩
  · rw [if_neg hlt] at h
    injection h with h
    left
    rw [← scanFind_snd env s highKey lowSeriesID, h]

/-- A cursor on the container of rank `j` has a position between 1 and the number of
containers. -/
theorem atRank_pos (env : Env) (r : reader) (s : dataScanner) (j : Nat)
    (hs : s.atRank env r j) :
    s.seriesPos = j + 1 ∧ s.seriesPos ≤ r.seriesIDs.entries.length := by
  refine ⟨hs.2.2.1, ?_⟩
  have hlt : j < r.seriesIDs.entries.length := by
    by_contra hcon
    have hnone : r.seriesIDs.entries[j]? = none := List.getElem?_eq_none (by omega)
    rw [hs.2.2.2.1] at hnone
    cases hnone
  rw [hs.2.2.1]
  omega

/-- A sequence of `scan` calls that returns, from a scanner whose cursor is on the container
of rank `j`: the cursor afterwards is on the container of a rank from `j` to `j` plus the
number of calls. -/
theorem scanAll_inv (env : Env) (r : reader) :
    ∀ (ps : List (Nat × Nat)) (s : dataScanner) (j : Nat) (res : List Int) (s2 : dataScanner),
      s.atRank env r j → scanAll env s ps = .ok (res, s2) →
      ∃ j2, s2.atRank env r j2 ∧ j ≤ j2 ∧ j2 ≤ j + ps.length := by
  intro ps
  induction ps with
  | nil =>
    intro s j res s2 hs h
    simp only [scanAll] at h
    injection h with h
    have h2 : s2 = s := (Prod.mk.inj h).2.symm
    subst h2
    exact ⟨j, hs, le_refl _, by simp⟩
  | cons p rest ih =>
    intro s j res s2 hs h
    simp only [scanAll] at h
    cases h1 : s.scan env p.1 p.2 with
    | error e => rw [h1] at h; cases h
    | ok r1 =>
      obtain ⟨v, s1⟩ := r1
      rw [h1] at h
      simp only at h
      cases h2 : scanAll env s1 rest with
      | error e => rw [h2] at h; cases h
      | ok r2 =>
        obtain ⟨vs, s3⟩ := r2
        rw [h2] at h
        simp only at h
        injection h with h
        have h3 : s2 = s3 := (Prod.mk.inj h).2.symm
        subst h3
        rcases scan_inv env r s j hs p.1 p.2 v s1 h1 with heq | ⟨hat, -, -, -⟩
        · subst heq
          obtain ⟨j2, hj2, hle, hge⟩ := ih s1 j vs s2 hs h2
          exact ⟨j2, hj2, hle, by simp only [List.length_cons]; omega⟩
        · obtain ⟨j2, hj2, hle, hge⟩ := ih s1 (j + 1) vs s2 hat h2
          exact ⟨j2, hj2, by omega, by simp only [List.length_cons]; omega⟩

/-- Claim C31: the cursor of the merge scanner is forward-only and moves at most one
container per `scan` call.  From a scanner whose cursor is on the container of rank `j`
(position `j + 1`), every `scan` call that returns leaves the position unchanged or
increases it by exactly one, the latter only for a requested high key above the current one;
the position stays between 1 and the number of containers; and the current high key,
container and offset index are those of the container at position - 1.  The scanner that
`newDataScanner` returns is in such a state, and so is the scanner after any sequence of
`scan` calls on it.  When the entries of the high-offset index lie in the buffer, the call
returns. -/
theorem scan_cursor_forward (env : Env) (r : reader) (s : dataScanner) (j : Nat)
    (hs : s.atRank env r j) (highKey lowSeriesID : Nat) :
    (∀ off s1, s.scan env highKey lowSeriesID = .ok (off, s1) →
      (s1.seriesPos = s.seriesPos ∨ (s1.seriesPos = s.seriesPos + 1 ∧ s.highKey < highKey)) ∧
      1 ≤ s1.seriesPos ∧ s1.seriesPos ≤ r.seriesIDs.entries.length ∧
      s1.atRank env r (s1.seriesPos - 1)) ∧
    (∀ s0 ps res s2, newDataScanner env r = .ok s0 → scanAll env s0 ps = .ok (res, s2) →
      1 ≤ s2.seriesPos ∧ s2.seriesPos ≤ r.seriesIDs.entries.length ∧
      s2.seriesPos ≤ 1 + ps.length ∧ s2.atRank env r (s2.seriesPos - 1)) ∧
    ((∀ i : Nat, i < r.seriesIDs.entries.length →
        0 ≤ (env.Get r.highOffsets (i : Int)).1 ∧
          (env.Get r.highOffsets (i : Int)).1 ≤ (r.buf.length : Int)) →
      ∃ off s1, s.scan env highKey lowSeriesID = .ok (off, s1)) := by
  refine ⟨?_, ?_, ?_⟩
  · intro off s1 h
    rcases scan_inv env r s j hs highKey lowSeriesID off s1 h with heq | ⟨hat, hpos, hlt, -⟩
    · subst heq
      obtain ⟨hp, hle⟩ := atRank_pos env r s1 j hs
      refine ⟨Or.inl rfl, by omega, hle, ?_⟩
      rw [hp]
      exact hs
    · obtain ⟨hp, hle⟩ := atRank_pos env r s1 (j + 1) hat
      refine ⟨Or.inr ⟨hpos, hlt⟩, by omega, hle, ?_⟩
      rw [hp]
      exact hat
  · intro s0 ps res s2 h0 h
    have hs0 := newDataScanner_inv env r s0 h0
    obtain ⟨j2, hj2, -, hge⟩ := scanAll_inv env r ps s0 0 res s2 hs0 h
    obtain ⟨hp, hle⟩ := atRank_pos env r s2 j2 hj2
    refine ⟨by omega, hle, by omega, ?_⟩
    rw [hp]
    exact hj2
  · intro hrange
    unfold dataScanner.scan
    by_cases hlt : s.highKey < highKey
    · rw [if_pos hlt]
      by_cases hex : s.seriesPos ≥ s.highKeys.length
      · rw [if_pos hex]
        exact ⟨_, _, rfl⟩
      · rw [if_neg hex]
        have hlen : s.highKeys.length = r.seriesIDs.entries.length := by
          rw [hs.2.1]
          simp [Bitmap.GetHighKeys]
        have hp : s.seriesPos < r.seriesIDs.entries.length := by omega
        cases hent : r.seriesIDs.entries[s.seriesPos]? with
        | none =>
          have := List.getElem?_eq_none_iff.mp hent
          omega
        | some e =>
          obtain ⟨s2, hn, -, -⟩ := nextContainer_ok env r s s.seriesPos e.1 e.2 hs.1 hs.2.1 rfl
            hent (hrange s.seriesPos hp)
          rw [hn]
          exact ⟨_, _, rfl⟩
    · rw [if_neg hlt]
      exact ⟨_, _, rfl⟩

/-- Witness of C31 on the block with three containers: the scanner that `newDataScanner`
returns has its cursor on the container of rank 0; a `scan` for high key 1 moves the
position from 1 to 2, and a `scan` for high key 0 leaves it at 1. -/
theorem scan_cursor_forward_witness :
    newDataScanner refEnv threeContainerReader = .ok threeContainerScanner ∧
    (threeContainerScanner.scan refEnv 1 1).map (fun x => x.2.seriesPos) = .ok 2 ∧
    (threeContainerScanner.scan refEnv 0 1).map (fun x => x.2.seriesPos) = .ok 1 ∧
    ((∀ off s1, threeContainerScanner.scan refEnv 1 1 = .ok (off, s1) →
      (s1.seriesPos = threeContainerScanner.seriesPos ∨
        (s1.seriesPos = threeContainerScanner.seriesPos + 1 ∧
          threeContainerScanner.highKey < 1)) ∧
      1 ≤ s1.seriesPos ∧ s1.seriesPos ≤ threeContainerReader.seriesIDs.entries.length ∧
      s1.atRank refEnv threeContainerReader (s1.seriesPos - 1)) ∧
    (∀ s0 ps res s2, newDataScanner refEnv threeContainerReader = .ok s0 →
      scanAll refEnv s0 ps = .ok (res, s2) →
      1 ≤ s2.seriesPos ∧ s2.seriesPos ≤ threeContainerReader.seriesIDs.entries.length ∧
      s2.seriesPos ≤ 1 + ps.length ∧ s2.atRank refEnv threeContainerReader (s2.seriesPos - 1)) ∧
    ((∀ i : Nat, i < threeContainerReader.seriesIDs.entries.length →
        0 ≤ (refEnv.Get threeContainerReader.highOffsets (i : Int)).1 ∧
          (refEnv.Get threeContainerReader.highOffsets (i : Int)).1
            ≤ (threeContainerReader.buf.length : Int)) →
      ∃ off s1, threeContainerScanner.scan refEnv 1 1 = .ok (off, s1))) :=
  ⟨rfl, rfl, rfl,
    scan_cursor_forward refEnv threeContainerReader threeContainerScanner 0
      (newDataScanner_inv refEnv threeContainerReader threeContainerScanner rfl) 1 1⟩

/-! ## Task messages: the length of the encoding -/

/-- Go `MarshalToSizedBuffer` of a request on a buffer of `Size()` bytes fills the whole
buffer with the wire form: it reports `Size()` bytes written, so the writing ends at
index 0. -/
theorem TaskRequest_MarshalToSizedBuffer_wire (m : TaskRequest) (hsize : m.Size < 2 ^ 64) :
    m.MarshalToSizedBuffer (List.replicate m.Size 0) = .ok (m.wire, (m.Size : Int)) := by
  have h1 : m.ParentTaskID.length < 2 ^ 64 := by
    unfold TaskRequest.Size at hsize
    split_ifs at hsize <;> omega
  have h2 : m.PhysicalPlan.length < 2 ^ 64 := by
    unfold TaskRequest.Size at hsize
    split_ifs at hsize <;> omega
  have h3 : m.Payload.length < 2 ^ 64 := by
    unfold TaskRequest.Size at hsize
    split_ifs at hsize <;> omega
  have hlen := TaskRequest_Size_eq m
  unfold TaskRequest.wire at hlen
  simp only [List.length_append] at hlen
  unfold TaskRequest.MarshalToSizedBuffer
  generalize hbuf : List.replicate m.Size (0 : UInt8) = buf
  have hbuflen : buf.length = m.Size := by rw [← hbuf, List.length_replicate]
  have hstart : (buf, (buf.length : Int)) = (buf ++ [], (buf.length : Int)) := by simp
  rw [hstart, putUnrecognized_ok _ buf [] (by omega)]
  simp only []
  generalize hp1 : buf.take (buf.length - m.XXX_unrecognized.length) = p1
  have hl1 : p1.length = buf.length - m.XXX_unrecognized.length := by
    rw [← hp1, List.length_take]; omega
  rw [← hl1, putBytesField_ok _ _ p1 _ h3 (by omega)]
  simp only []
  generalize hp2 : p1.take (p1.length - (bytesFieldBytes 0x2a m.Payload).length) = p2
  have hl2 : p2.length = p1.length - (bytesFieldBytes 0x2a m.Payload).length := by
    rw [← hp2, List.length_take]; omega
  rw [← hl2, putBytesField_ok _ _ p2 _ h2 (by omega)]
  simp only []
  generalize hp3 : p2.take (p2.length - (bytesFieldBytes 0x22 m.PhysicalPlan).length) = p3
  have hl3 : p3.length = p2.length - (bytesFieldBytes 0x22 m.PhysicalPlan).length := by
    rw [← hp3, List.length_take]; omega
  rw [← hl3, putVarintField_ok _ _ p3 _ (by omega)]
  simp only []
  generalize hp4 : p3.take (p3.length - (varintFieldBytes 0x18 m.Type_).length) = p4
  have hl4 : p4.length = p3.length - (varintFieldBytes 0x18 m.Type_).length := by
    rw [← hp4, List.length_take]; omega
  rw [← hl4, putBytesField_ok _ _ p4 _ h1 (by omega)]
  simp only []
  generalize hp5 : p4.take (p4.length - (bytesFieldBytes 0x12 m.ParentTaskID).length) = p5
  have hl5 : p5.length = p4.length - (bytesFieldBytes 0x12 m.ParentTaskID).length := by
    rw [← hp5, List.length_take]; omega
  rw [← hl5, putVarintField_ok _ _ p5 _ (by omega)]
  simp only []
  have hp6 : p5.take (p5.length - (varintFieldBytes 0x8 m.JobID).length) = [] := by
    apply List.eq_nil_of_length_eq_zero
    rw [List.length_take]; omega
  rw [hp6]
  have hn : (buf.length : Int)
      - ((p5.length - (varintFieldBytes 0x8 m.JobID).length : Nat) : Int) = (m.Size : Int) := by
    omega
  have hwire : ([] : List UInt8) ++ (varintFieldBytes 0x8 m.JobID ++ (bytesFieldBytes 0x12 m.ParentTaskID
      ++ (varintFieldBytes 0x18 m.Type_ ++ (bytesFieldBytes 0x22 m.PhysicalPlan
      ++ (bytesFieldBytes 0x2a m.Payload ++ (m.XXX_unrecognized ++ [])))))) = m.wire := by
    simp [TaskRequest.wire]
  rw [hn, hwire]

/-- Go `MarshalToSizedBuffer` of a response on a buffer of `Size()` bytes fills the whole
buffer with the wire form: it reports `Size()` bytes written, so the writing ends at
index 0. -/
theorem TaskResponse_MarshalToSizedBuffer_wire (m : TaskResponse) (hsize : m.Size < 2 ^ 64) :
    m.MarshalToSizedBuffer (List.replicate m.Size 0) = .ok (m.wire, (m.Size : Int)) := by
  have h1 : m.TaskID.length < 2 ^ 64 := by
    unfold TaskResponse.Size at hsize
    split_ifs at hsize <;> omega
  have h2 : m.ErrMsg.length < 2 ^ 64 := by
    unfold TaskResponse.Size at hsize
    split_ifs at hsize <;> omega
  have h3 : m.Payload.length < 2 ^ 64 := by
    unfold TaskResponse.Size at hsize
    split_ifs at hsize <;> omega
  have hlen := TaskResponse_Size_eq m
  unfold TaskResponse.wire at hlen
  simp only [List.length_append] at hlen
  unfold TaskResponse.MarshalToSizedBuffer
  generalize hbuf : List.replicate m.Size (0 : UInt8) = buf
  have hbuflen : buf.length = m.Size := by rw [← hbuf, List.length_replicate]
  have hstart : (buf, (buf.length : Int)) = (buf ++ [], (buf.length : Int)) := by simp
  rw [hstart, putUnrecognized_ok _ buf [] (by omega)]
  simp only []
  generalize hp1 : buf.take (buf.length - m.XXX_unrecognized.length) = p1
  have hl1 : p1.length = buf.length - m.XXX_unrecognized.length := by
    rw [← hp1, List.length_take]; omega
  rw [← hl1, putBytesField_ok _ _ p1 _ h3 (by omega)]
  simp only []
  generalize hp2 : p1.take (p1.length - (bytesFieldBytes 0x2a m.Payload).length) = p2
  have hl2 : p2.length = p1.length - (bytesFieldBytes 0x2a m.Payload).length := by
    rw [← hp2, List.length_take]; omega
  rw [← hl2, putBytesField_ok _ _ p2 _ h2 (by omega)]
  simp only []
  generalize hp3 : p2.take (p2.length - (bytesFieldBytes 0x22 m.ErrMsg).length) = p3
  have hl3 : p3.length = p2.length - (bytesFieldBytes 0x22 m.ErrMsg).length := by
    rw [← hp3, List.length_take]; omega
  rw [← hl3, putBoolField_ok _ _ p3 _ (by omega)]
  simp only []
  generalize hp4 : p3.take (p3.length - (boolFieldBytes 0x18 m.Completed).length) = p4
  have hl4 : p4.length = p3.length - (boolFieldBytes 0x18 m.Completed).length := by
    rw [← hp4, List.length_take]; omega
  rw [← hl4, putBytesField_ok _ _ p4 _ h1 (by omega)]
  simp only []
  generalize hp5 : p4.take (p4.length - (bytesFieldBytes 0x12 m.TaskID).length) = p5
  have hl5 : p5.length = p4.length - (bytesFieldBytes 0x12 m.TaskID).length := by
    rw [← hp5, List.length_take]; omega
  rw [← hl5, putVarintField_ok _ _ p5 _ (by omega)]
  simp only []
  have hp6 : p5.take (p5.length - (varintFieldBytes 0x8 m.JobID).length) = [] := by
    apply List.eq_nil_of_length_eq_zero
    rw [List.length_take]; omega
  rw [hp6]
  have hn : (buf.length : Int)
      - ((p5.length - (varintFieldBytes 0x8 m.JobID).length : Nat) : Int) = (m.Size : Int) := by
    omega
  have hwire : ([] : List UInt8) ++ (varintFieldBytes 0x8 m.JobID ++ (bytesFieldBytes 0x12 m.TaskID
      ++ (boolFieldBytes 0x18 m.Completed ++ (bytesFieldBytes 0x22 m.ErrMsg
      ++ (bytesFieldBytes 0x2a m.Payload ++ (m.XXX_unrecognized ++ [])))))) = m.wire := by
    simp [TaskResponse.wire]
  rw [hn, hwire]

/-- Claim C32: for every `TaskRequest` and every `TaskResponse` (whose size is an `int`),
`Marshal` returns no error and a byte sequence whose length equals `Size()`:
`MarshalToSizedBuffer`, writing backwards from the end of the buffer of `Size()` bytes,
reports `Size()` bytes written, that is, it ends exactly at index 0; and each varint that
`encodeVarintCommon` writes occupies exactly `sovCommon(v)` bytes, the last ones before the
offset, and the returned index is the offset less `sovCommon(v)`. -/
theorem Marshal_length_eq_Size (req : TaskRequest) (resp : TaskResponse)
    (hreq : req.Size < 2 ^ 63) (hresp : resp.Size < 2 ^ 63) :
    (∃ dAtA, req.Marshal = .ok dAtA ∧ dAtA.length = req.Size ∧
      req.MarshalToSizedBuffer (List.replicate req.Size 0) = .ok (dAtA, (req.Size : Int))) ∧
    (∃ dAtA, resp.Marshal = .ok dAtA ∧ dAtA.length = resp.Size ∧
      resp.MarshalToSizedBuffer (List.replicate resp.Size 0) = .ok (dAtA, (resp.Size : Int))) ∧
    (∀ (v : Nat) (pre suf : List UInt8), v < 2 ^ 64 → sovCommon v ≤ pre.length →
      ∃ bytes, bytes.length = sovCommon v ∧
        encodeVarintCommon (pre ++ suf) (pre.length : Int) v
          = .ok (pre.take (pre.length - sovCommon v) ++ (bytes ++ suf),
              ((pre.length - sovCommon v : Nat) : Int))) := by
  have hreq64 : req.Size < 2 ^ 64 := lt_trans hreq (by norm_num)
  have hresp64 : resp.Size < 2 ^ 64 := lt_trans hresp (by norm_num)
  refine ⟨⟨req.wire, TaskRequest_Marshal_eq_wire req hreq64, (TaskRequest_Size_eq req).symm,
      TaskRequest_MarshalToSizedBuffer_wire req hreq64⟩,
    ⟨resp.wire, TaskResponse_Marshal_eq_wire resp hresp64, (TaskResponse_Size_eq resp).symm,
      TaskResponse_MarshalToSizedBuffer_wire resp hresp64⟩, ?_⟩
  intro v pre suf hv hroom
  have hlen := sovCommon_eq_length v hv
  refine ⟨varintBytes v, hlen.symm, ?_⟩
  rw [hlen] at hroom ⊢
  exact encodeVarintCommon_ok v hv pre suf hroom

/-- Witness of C32 on the sample request, whose size is 31 with two varints of ten bytes,
and the sample response, whose size is 13; the varint of 300 takes the two bytes before the
offset. -/
theorem Marshal_length_eq_Size_witness :
    ((∃ dAtA, sampleRequest.Marshal = .ok dAtA ∧ dAtA.length = sampleRequest.Size ∧
      sampleRequest.MarshalToSizedBuffer (List.replicate sampleRequest.Size 0)
        = .ok (dAtA, (sampleRequest.Size : Int))) ∧
    (∃ dAtA, sampleResponse.Marshal = .ok dAtA ∧ dAtA.length = sampleResponse.Size ∧
      sampleResponse.MarshalToSizedBuffer (List.replicate sampleResponse.Size 0)
        = .ok (dAtA, (sampleResponse.Size : Int))) ∧
    (∀ (v : Nat) (pre suf : List UInt8), v < 2 ^ 64 → sovCommon v ≤ pre.length →
      ∃ bytes, bytes.length = sovCommon v ∧
        encodeVarintCommon (pre ++ suf) (pre.length : Int) v
          = .ok (pre.take (pre.length - sovCommon v) ++ (bytes ++ suf),
              ((pre.length - sovCommon v : Nat) : Int)))) ∧
    sampleRequest.Size = 31 ∧ sampleResponse.Size = 13 ∧
    encodeVarintCommon [0, 0, 0, 9] 3 300 = .ok ([0, 172, 2, 9], 1) :=
  ⟨Marshal_length_eq_Size sampleRequest sampleResponse (by decide) (by decide),
    by decide, by decide, rfl⟩

/-! ## Task messages: decoding is total -/

/-- The two errors of the varint loops are returned errors, not panics. -/
theorem varint_errors_ne_panic :
    ErrIntOverflowCommon ≠ Fault.panic ∧ ErrUnexpectedEOF ≠ Fault.panic ∧
      ErrInvalidLengthCommon ≠ Fault.panic := by
  refine ⟨?_, ?_, ?_⟩ <;> intro h <;> cases h

/-- A varint that is read ends inside the input, after at least one byte and at most as
many bytes as rounds. -/
theorem readVarint_ok_bounds (w : Nat) (d : List UInt8) (fuel : Nat) :
    ∀ (shift i x v i1 : Nat), readVarint w d fuel shift i x = .ok (v, i1) →
      i < i1 ∧ i1 ≤ d.length ∧ i1 ≤ i + fuel := by
  induction fuel with
  | zero =>
    intro shift i x v i1 h
    simp only [readVarint] at h
    cases h
  | succ fuel ih =>
    intro shift i x v i1 h
    rw [readVarint] at h
    split_ifs at h with h1 h2
    have hlt : i < d.length := by omega
    rw [List.getElem?_eq_getElem hlt] at h
    simp only at h
    split_ifs at h with h3
    · injection h with h
      have := (Prod.mk.inj h).2
      omega
    · have := ih _ _ _ _ _ h
      omega

/-- A varint loop that fails returns one of its two errors: no byte outside the input is
read. -/
theorem readVarint_error (w : Nat) (d : List UInt8) (fuel : Nat) :
    ∀ (shift i x : Nat) (e : Fault), readVarint w d fuel shift i x = .error e →
      e = ErrIntOverflowCommon ∨ e = ErrUnexpectedEOF := by
  induction fuel with
  | zero =>
    intro shift i x e h
    simp only [readVarint] at h
    injection h with h
    exact Or.inl h.symm
  | succ fuel ih =>
    intro shift i x e h
    rw [readVarint] at h
    split_ifs at h with h1 h2
    · injection h with h
      exact Or.inl h.symm
    · injection h with h
      exact Or.inr h.symm
    · have hlt : i < d.length := by omega
      rw [List.getElem?_eq_getElem hlt] at h
      simp only at h
      split_ifs at h with h3
      exact ih _ _ _ _ h

/-- A varint that is skipped ends inside the input, after at least one byte. -/
theorem skipVarint_ok_bounds (d : List UInt8) (fuel : Nat) :
    ∀ (shift i i1 : Nat), skipVarint d fuel shift i = .ok i1 → i < i1 ∧ i1 ≤ d.length := by
  induction fuel with
  | zero =>
    intro shift i i1 h
    simp only [skipVarint] at h
    cases h
  | succ fuel ih =>
    intro shift i i1 h
    rw [skipVarint] at h
    split_ifs at h with h1 h2
    have hlt : i < d.length := by omega
    rw [List.getElem?_eq_getElem hlt] at h
    simp only at h
    split_ifs at h with h3
    · injection h with h
      omega
    · have := ih _ _ _ h
      omega

/-- A skipping loop that fails returns one of its two errors. -/
theorem skipVarint_error (d : List UInt8) (fuel : Nat) :
    ∀ (shift i : Nat) (e : Fault), skipVarint d fuel shift i = .error e →
      e = ErrIntOverflowCommon ∨ e = ErrUnexpectedEOF := by
  induction fuel with
  | zero =>
    intro shift i e h
    simp only [skipVarint] at h
    injection h with h
    exact Or.inl h.symm
  | succ fuel ih =>
    intro shift i e h
    rw [skipVarint] at h
    split_ifs at h with h1 h2
    · injection h with h
      exact Or.inl h.symm
    · injection h with h
      exact Or.inr h.symm
    · have hlt : i < d.length := by omega
      rw [List.getElem?_eq_getElem hlt] at h
      simp only at h
      split_ifs at h with h3
      exact ih _ _ _ h

/-- The signed reading of a 64-bit pattern is an int64. -/
theorem toI64_range (x : Nat) : -2 ^ 63 ≤ toI64 x ∧ toI64 x < 2 ^ 63 := by
  unfold toI64
  norm_num
  split_ifs <;> omega

/-- A sum of two non-negative `int` values that is not negative after wrapping did not
wrap. -/
theorem wrapAdd_nonneg (a b : Int) (ha : 0 ≤ a ∧ a < 2 ^ 63) (hb : 0 ≤ b ∧ b < 2 ^ 63)
    (h : ¬ wrapAdd a b < 0) : wrapAdd a b = a + b := by
  unfold wrapAdd toI64 toU64 at h ⊢
  norm_num at ha hb h ⊢
  split_ifs at h ⊢ <;> omega
/-- An index inside an input of admissible length, moved on by 8 or by 4, is still an
`int`. -/
theorem wrapAdd_index (i k : Nat) (h : i + k < 2 ^ 63) : wrapAdd (i : Int) (k : Int) = ((i + k : Nat) : Int) := by
  unfold wrapAdd toI64 toU64
  norm_num at h ⊢
  split_ifs <;> omega

/-- Go `skipCommon` and its group loop, with fuel for twice the bytes ahead, return a length
that moves forward, or a returned error: they do not run out of fuel, read no byte outside
the input, and do not reach the final panic. -/
theorem skip_total (fuel : Nat) :
    (∀ (d : List UInt8), d.length + 8 < 2 ^ 63 → d ≠ [] → 2 * d.length ≤ fuel →
      (∀ e, skipCommon fuel d = .error e → e ≠ .panic) ∧
      (∀ n, skipCommon fuel d = .ok n → 1 ≤ n ∧ n < 2 ^ 63)) ∧
    (∀ (d : List UInt8) (start : Nat), d.length + 8 < 2 ^ 63 → (start : Int) < 2 ^ 63 →
      2 * (d.length - start) + 1 ≤ fuel →
      (∀ e, skipGroup fuel d start = .error e → e ≠ .panic) ∧
      (∀ n, skipGroup fuel d start = .ok n → (start : Int) < n ∧ n < 2 ^ 63)) := by
  induction fuel with
  | zero =>
    constructor
    · intro d hlen hne hfuel
      have : d.length = 0 := by omega
      exact absurd (List.eq_nil_of_length_eq_zero this) hne
    · intro d start hlen hstart hfuel
      omega
  | succ fuel ih =>
    obtain ⟨ihC, ihG⟩ := ih
    constructor
    · intro d hlen hne hfuel
      have hpos : 0 < d.length := List.length_pos.mpr hne
      rw [skipCommon, if_pos hpos]
      cases hr : readVarint 64 d 10 0 0 0 with
      | error e1 =>
        simp only []
        have he := readVarint_error 64 d 10 0 0 0 e1 hr
        refine ⟨?_, ?_⟩
        · intro e h
          injection h with h
          subst h
          rcases he with he | he <;> rw [he]
          · exact varint_errors_ne_panic.1
          · exact varint_errors_ne_panic.2.1
        · intro n h
          cases h
      | ok r1 =>
        obtain ⟨wire, i⟩ := r1
        obtain ⟨hi0, hil, -⟩ := readVarint_ok_bounds 64 d 10 0 0 0 wire i hr
        simp only []
        by_cases h0 : wire &&& 0x7 = 0
        · rw [if_pos h0]
          cases hs : skipVarint d 10 0 i with
          | error e1 =>
            simp only []
            have he := skipVarint_error d 10 0 i e1 hs
            refine ⟨?_, ?_⟩
            · intro e h
              injection h with h
              subst h
              rcases he with he | he <;> rw [he]
              · exact varint_errors_ne_panic.1
              · exact varint_errors_ne_panic.2.1
            · intro n h
              cases h
          | ok i1 =>
            simp only []
            obtain ⟨hlt, hle⟩ := skipVarint_ok_bounds d 10 0 i i1 hs
            refine ⟨fun e h => (by cases h), ?_⟩
            intro n h
            injection h with h
            subst h
            norm_num at hlen ⊢
            omega
        · rw [if_neg h0]
          by_cases h1 : wire &&& 0x7 = 1
          · rw [if_pos h1]
            refine ⟨fun e h => (by cases h), ?_⟩
            intro n h
            injection h with h
            subst h
            have := wrapAdd_index i 8 (by omega)
            norm_num at this hlen ⊢
            rw [this]
            omega
          · rw [if_neg h1]
            by_cases h2 : wire &&& 0x7 = 2
            · rw [if_pos h2]
              cases hr2 : readVarint 64 d 10 0 i 0 with
              | error e1 =>
                simp only []
                have he := readVarint_error 64 d 10 0 i 0 e1 hr2
                refine ⟨?_, ?_⟩
                · intro e h
                  injection h with h
                  subst h
                  rcases he with he | he <;> rw [he]
                  · exact varint_errors_ne_panic.1
                  · exact varint_errors_ne_panic.2.1
                · intro n h
                  cases h
              | ok r2 =>
                obtain ⟨length, i1⟩ := r2
                obtain ⟨hlt1, hle1, -⟩ := readVarint_ok_bounds 64 d 10 0 i 0 length i1 hr2
                simp only []
                by_cases hneg : toI64 length < 0
                · rw [if_pos hneg]
                  refine ⟨?_, fun n h => by cases h⟩
                  intro e h
                  injection h with h
                  subst h
                  exact varint_errors_ne_panic.2.2
                · rw [if_neg hneg]
                  by_cases hneg2 : wrapAdd (i1 : Int) (toI64 length) < 0
                  · rw [if_pos hneg2]
                    refine ⟨?_, fun n h => by cases h⟩
                    intro e h
                    injection h with h
                    subst h
                    exact varint_errors_ne_panic.2.2
                  · rw [if_neg hneg2]
                    refine ⟨fun e h => (by cases h), ?_⟩
                    intro n h
                    injection h with h
                    subst h
                    have hr64 := toI64_range length
                    have hw := wrapAdd_nonneg (i1 : Int) (toI64 length)
                      ⟨by omega, by norm_num at hlen ⊢; omega⟩ ⟨by omega, hr64.2⟩ hneg2
                    have hrw := toI64_range (toU64 ((i1 : Int) + toI64 length))
                    refine ⟨?_, hrw.2⟩
                    rw [hw]
                    omega
            · rw [if_neg h2]
              by_cases h3 : wire &&& 0x7 = 3
              · rw [if_pos h3]
                obtain ⟨hE, hN⟩ := ihG d i hlen (by norm_num at hlen ⊢; omega) (by omega)
                refine ⟨hE, ?_⟩
                intro n h
                obtain ⟨hlt, hhi⟩ := hN n h
                exact ⟨by omega, hhi⟩
              · rw [if_neg h3]
                by_cases h4 : wire &&& 0x7 = 4
                · rw [if_pos h4]
                  refine ⟨fun e h => (by cases h), ?_⟩
                  intro n h
                  injection h with h
                  subst h
                  norm_num at hlen ⊢
                  omega
                · rw [if_neg h4]
                  by_cases h5 : wire &&& 0x7 = 5
                  · rw [if_pos h5]
                    refine ⟨fun e h => (by cases h), ?_⟩
                    intro n h
                    injection h with h
                    subst h
                    have := wrapAdd_index i 4 (by omega)
                    norm_num at this hlen ⊢
                    rw [this]
                    omega
                  · rw [if_neg h5]
                    refine ⟨?_, fun n h => by cases h⟩
                    intro e h
                    injection h with h
                    subst h
                    intro hc
                    cases hc
    · intro d start hlen hstart hfuel
      rw [skipGroup]
      cases hr : readVarint 64 d 10 0 start 0 with
      | error e1 =>
        simp only []
        have he := readVarint_error 64 d 10 0 start 0 e1 hr
        refine ⟨?_, ?_⟩
        · intro e h
          injection h with h
          subst h
          rcases he with he | he <;> rw [he]
          · exact varint_errors_ne_panic.1
          · exact varint_errors_ne_panic.2.1
        · intro n h
          cases h
      | ok r1 =>
        obtain ⟨innerWire, i⟩ := r1
        obtain ⟨hlt, hle, -⟩ := readVarint_ok_bounds 64 d 10 0 start 0 innerWire i hr
        simp only []
        by_cases h4 : innerWire &&& 0x7 = 4
        · rw [if_pos h4]
          refine ⟨fun e h => (by cases h), ?_⟩
          intro n h
          injection h with h
          subst h
          norm_num at hlen ⊢
          omega
        · rw [if_neg h4]
          have hslice : sliceFrom d (start : Int) = .ok (d.drop start) := by
            unfold sliceFrom
            rw [if_pos ⟨by omega, by omega⟩]
            simp
          rw [hslice]
          simp only []
          have hdl : (d.drop start).length = d.length - start := List.length_drop _ _
          obtain ⟨hE, hN⟩ := ihC (d.drop start) (by rw [hdl]; omega)
            (by intro hnil; rw [hnil] at hdl; simp at hdl; omega) (by rw [hdl]; omega)
          cases hs : skipCommon fuel (d.drop start) with
          | error e1 =>
            simp only []
            refine ⟨?_, fun n h => by cases h⟩
            intro e h
            injection h with h
            subst h
            exact hE e1 hs
          | ok next =>
            simp only []
            obtain ⟨hn1, hn2⟩ := hN next hs
            by_cases hneg : wrapAdd (start : Int) next < 0
            · rw [if_pos hneg]
              refine ⟨?_, fun n h => by cases h⟩
              intro e h
              injection h with h
              subst h
              exact varint_errors_ne_panic.2.2
            · rw [if_neg hneg]
              have hw := wrapAdd_nonneg (start : Int) next ⟨by omega, hstart⟩
                ⟨by omega, hn2⟩ hneg
              have hrw := toI64_range (toU64 ((start : Int) + next))
              have hlt63 : (start : Int) + next < 2 ^ 63 := by
                rw [← hw]
                exact hrw.2
              rw [hw]
              have hnat : (((start : Int) + next).toNat : Int) = (start : Int) + next := by
                omega
              obtain ⟨hE2, hN2⟩ := ihG d ((start : Int) + next).toNat hlen
                (by rw [hnat]; exact hlt63) (by omega)
              refine ⟨hE2, ?_⟩
              intro n h
              obtain ⟨hlt2, hhi2⟩ := hN2 n h
              exact ⟨by omega, hhi2⟩
/-- A varint loop that fails does not panic. -/
theorem readVarint_error_ne_panic (w : Nat) (d : List UInt8) (fuel shift i x : Nat) (e : Fault)
    (h : readVarint w d fuel shift i x = .error e) : e ≠ .panic := by
  rcases readVarint_error w d fuel shift i x e h with he | he <;> rw [he]
  · exact varint_errors_ne_panic.1
  · exact varint_errors_ne_panic.2.1

/-- Reading a string or bytes field returns the bytes and an index that moved forward inside
the input, or one of three returned errors: the slice is taken inside the input. -/
theorem readBytes_total (d : List UInt8) (hlen : d.length + 8 < 2 ^ 63) (i : Nat) :
    (∀ e, readBytes d i = .error e →
      e = ErrIntOverflowCommon ∨ e = ErrUnexpectedEOF ∨ e = ErrInvalidLengthCommon) ∧
    (∀ s i2, readBytes d i = .ok (s, i2) → i < i2 ∧ i2 ≤ d.length) := by
  unfold readBytes
  cases hr : readVarint 64 d 10 0 i 0 with
  | error e1 =>
    simp only []
    refine ⟨?_, fun s i2 h => (by cases h)⟩
    intro e h
    injection h with h
    subst h
    rcases readVarint_error 64 d 10 0 i 0 e1 hr with he | he
    · exact Or.inl he
    · exact Or.inr (Or.inl he)
  | ok r1 =>
    obtain ⟨byteLen, i1⟩ := r1
    obtain ⟨hlt, hle, -⟩ := readVarint_ok_bounds 64 d 10 0 i 0 byteLen i1 hr
    simp only []
    by_cases h1 : toI64 byteLen < 0
    · rw [if_pos h1]
      refine ⟨?_, fun s i2 h => (by cases h)⟩
      intro e h
      injection h with h
      exact Or.inr (Or.inr h.symm)
    · rw [if_neg h1]
      by_cases h2 : wrapAdd (i1 : Int) (toI64 byteLen) < 0
      · rw [if_pos h2]
        refine ⟨?_, fun s i2 h => (by cases h)⟩
        intro e h
        injection h with h
        exact Or.inr (Or.inr h.symm)
      · rw [if_neg h2]
        by_cases h3 : wrapAdd (i1 : Int) (toI64 byteLen) > (d.length : Int)
        · rw [if_pos h3]
          refine ⟨?_, fun s i2 h => (by cases h)⟩
          intro e h
          injection h with h
          exact Or.inr (Or.inl h.symm)
        · rw [if_neg h3]
          have hr64 := toI64_range byteLen
          have hw := wrapAdd_nonneg (i1 : Int) (toI64 byteLen)
            ⟨by omega, by norm_num at hlen ⊢; omega⟩ ⟨by omega, hr64.2⟩ h2
          have hguard : 0 ≤ (i1 : Int) ∧ (i1 : Int) ≤ wrapAdd (i1 : Int) (toI64 byteLen) ∧
              wrapAdd (i1 : Int) (toI64 byteLen) ≤ (d.length : Int) := by
            rw [hw]
            rw [hw] at h3
            omega
          unfold sliceBetween
          rw [if_pos hguard]
          simp only []
          refine ⟨fun e h => (by cases h), ?_⟩
          intro s i2 h
          injection h with h
          have hi2 := (Prod.mk.inj h).2
          rw [hw] at hi2 h3
          omega

/-- Reading a string or bytes field does not panic. -/
theorem readBytes_error_ne_panic (d : List UInt8) (hlen : d.length + 8 < 2 ^ 63) (i : Nat)
    (e : Fault) (h : readBytes d i = .error e) : e ≠ .panic := by
  rcases (readBytes_total d hlen i).1 e h with he | he | he <;> rw [he]
  · exact varint_errors_ne_panic.1
  · exact varint_errors_ne_panic.2.1
  · exact varint_errors_ne_panic.2.2

/-- Skipping an unknown field returns the skipped bytes and an index that moved forward
inside the input, or a returned error: both slices are taken inside the input and
`skipCommon` has fuel to spare. -/
theorem skipUnknown_total (d : List UInt8) (hlen : d.length + 8 < 2 ^ 63) (i : Nat)
    (hi : i < d.length) :
    (∀ e, skipUnknown d i = .error e → e ≠ .panic) ∧
    (∀ s i2, skipUnknown d i = .ok (s, i2) → i < i2 ∧ i2 ≤ d.length) := by
  unfold skipUnknown
  have hslice : sliceFrom d (i : Int) = .ok (d.drop i) := by
    unfold sliceFrom
    rw [if_pos ⟨by omega, by omega⟩]
    simp
  rw [hslice]
  simp only []
  have hdl : (d.drop i).length = d.length - i := List.length_drop _ _
  obtain ⟨hE, hN⟩ := (skip_total (2 * d.length + 2)).1 (d.drop i) (by rw [hdl]; omega)
    (by intro hnil; rw [hnil] at hdl; simp at hdl; omega) (by rw [hdl]; omega)
  cases hs : skipCommon (2 * d.length + 2) (d.drop i) with
  | error e1 =>
    simp only []
    refine ⟨?_, fun s i2 h => (by cases h)⟩
    intro e h
    injection h with h
    subst h
    exact hE e1 hs
  | ok skippy =>
    simp only []
    obtain ⟨hn1, hn2⟩ := hN skippy hs
    have h1 : ¬ skippy < 0 := by omega
    rw [if_neg h1]
    by_cases h2 : wrapAdd (i : Int) skippy < 0
    · rw [if_pos h2]
      refine ⟨?_, fun s i2 h => (by cases h)⟩
      intro e h
      injection h with h
      subst h
      exact varint_errors_ne_panic.2.2
    · rw [if_neg h2]
      by_cases h3 : wrapAdd (i : Int) skippy > (d.length : Int)
      · rw [if_pos h3]
        refine ⟨?_, fun s i2 h => (by cases h)⟩
        intro e h
        injection h with h
        subst h
        exact varint_errors_ne_panic.2.1
      · rw [if_neg h3]
        have hw := wrapAdd_nonneg (i : Int) skippy ⟨by omega, by norm_num at hlen ⊢; omega⟩
          ⟨by omega, hn2⟩ h2
        have hguard : 0 ≤ (i : Int) ∧ (i : Int) ≤ wrapAdd (i : Int) skippy ∧
            wrapAdd (i : Int) skippy ≤ (d.length : Int) := by
          rw [hw]
          rw [hw] at h3
          omega
        unfold sliceBetween
        rw [if_pos hguard]
        simp only []
        refine ⟨fun e h => (by cases h), ?_⟩
        intro s i2 h
        injection h with h
        have hi2 := (Prod.mk.inj h).2
        rw [hw] at hi2 h3
        omega

/-- The loop of `(*TaskRequest).Unmarshal`, with fuel for the bytes ahead, does not panic:
it does not run out of fuel, and reads and slices inside the input only. -/
theorem TaskRequest_unmarshalLoop_total (d : List UInt8) (hlen : d.length + 8 < 2 ^ 63)
    (fuel : Nat) : ∀ (i : Nat) (m : TaskRequest), i ≤ d.length → d.length - i + 1 ≤ fuel →
      ∀ e, TaskRequest.unmarshalLoop d fuel i m = .error e → e ≠ .panic := by
  induction fuel with
  | zero =>
    intro i m hi hfuel
    omega
  | succ fuel ih =>
    intro i m hi hfuel e h
    rw [TaskRequest.unmarshalLoop] at h
    by_cases hlt : i < d.length
    · rw [if_pos hlt] at h
      cases hr : readVarint 64 d 10 0 i 0 with
      | error e1 =>
        rw [hr] at h
        simp only [] at h
        injection h with h
        subst h
        exact readVarint_error_ne_panic _ _ _ _ _ _ _ hr
      | ok r1 =>
        obtain ⟨wire, i1⟩ := r1
        rw [hr] at h
        simp only [] at h
        obtain ⟨hb1, hb2, -⟩ := readVarint_ok_bounds 64 d 10 0 i 0 wire i1 hr
        split_ifs at h
        all_goals first
          | (injection h with h; subst h; intro hc; cases hc)
          | (split at h
             · next e1 heq =>
               injection h with h
               subst h
               first
                 | exact readVarint_error_ne_panic _ _ _ _ _ _ _ heq
                 | exact readBytes_error_ne_panic d hlen _ _ heq
                 | exact (skipUnknown_total d hlen i hlt).1 _ heq
             · next v i2 heq =>
               first
                 | (have hb := readVarint_ok_bounds _ d 10 0 i1 0 v i2 heq
                    exact ih i2 _ hb.2.1 (by omega) e h)
                 | (have hb := (readBytes_total d hlen i1).2 v i2 heq
                    exact ih i2 _ hb.2 (by omega) e h)
                 | (have hb := (skipUnknown_total d hlen i hlt).2 v i2 heq
                    exact ih i2 _ hb.2 (by omega) e h))
    · rw [if_neg hlt] at h
      have hgt : ¬ i > d.length := by omega
      rw [if_neg hgt] at h
      cases h
/-- A varint loop on bytes that all have the high bit set, up to the end of the input, does
not find the end of the varint: it fails. -/
theorem readVarint_cut (w : Nat) (fuel : Nat) : ∀ (shift x : Nat) (pre rest : List UInt8),
    (∀ b ∈ rest, 0x80 ≤ b.toNat) →
    ∃ e, readVarint w (pre ++ rest) fuel shift pre.length x = .error e ∧
      (e = ErrIntOverflowCommon ∨ e = ErrUnexpectedEOF) := by
  induction fuel with
  | zero =>
    intro shift x pre rest _
    exact ⟨_, rfl, Or.inl rfl⟩
  | succ fuel ih =>
    intro shift x pre rest hhigh
    rw [readVarint]
    by_cases h1 : shift ≥ 64
    · rw [if_pos h1]
      exact ⟨_, rfl, Or.inl rfl⟩
    · rw [if_neg h1]
      cases rest with
      | nil =>
        have h2 : pre.length ≥ (pre ++ []).length := by simp
        rw [if_pos h2]
        exact ⟨_, rfl, Or.inr rfl⟩
      | cons b rest1 =>
        have h2 : ¬ pre.length ≥ (pre ++ b :: rest1).length := by
          simp only [List.length_append, List.length_cons]
          omega
        rw [if_neg h2, getElem_append_cons]
        simp only []
        have hb : ¬ b.toNat < 0x80 := by
          have := hhigh b (List.mem_cons_self _ _)
          omega
        rw [if_neg hb]
        have hlist : pre ++ b :: rest1 = (pre ++ [b]) ++ rest1 := by simp
        have hpl : pre.length + 1 = (pre ++ [b]).length := by simp
        rw [hlist, hpl]
        exact ih _ _ (pre ++ [b]) rest1 (fun c hc => hhigh c (List.mem_cons_of_mem _ hc))

/-- Reading a string or bytes field whose length varint is cut by the end of the input
fails. -/
theorem readBytes_cut (pre rest : List UInt8) (hhigh : ∀ b ∈ rest, 0x80 ≤ b.toNat) :
    ∃ e, readBytes (pre ++ rest) pre.length = .error e ∧
      (e = ErrIntOverflowCommon ∨ e = ErrUnexpectedEOF) := by
  obtain ⟨e, he, hor⟩ := readVarint_cut 64 10 0 0 pre rest hhigh
  refine ⟨e, ?_, hor⟩
  unfold readBytes
  rw [he]

/-- Reading a string or bytes field whose declared length exceeds the bytes that are left
fails. -/
theorem readBytes_short (n : Nat) (pre body : List UInt8) (hn : n < 2 ^ 63)
    (hshort : body.length < n)
    (hlen : (pre ++ (varintBytes n ++ body)).length + 8 < 2 ^ 63) :
    ∃ e, readBytes (pre ++ (varintBytes n ++ body)) pre.length = .error e ∧
      (e = ErrUnexpectedEOF ∨ e = ErrInvalidLengthCommon) := by
  unfold readBytes
  have hn64 : n < 2 ^ 64 := lt_trans hn (by norm_num)
  rw [readVarint_value 64 n hn64 pre body, Nat.mod_eq_of_lt hn64]
  simp only []
  rw [toI64_length n hn]
  have h1 : ¬ ((n : Int) < 0) := by omega
  rw [if_neg h1]
  by_cases h2 : wrapAdd ((pre.length + (varintBytes n).length : Nat) : Int) (n : Int) < 0
  · rw [if_pos h2]
    exact ⟨_, rfl, Or.inr rfl⟩
  · rw [if_neg h2]
    simp only [List.length_append] at hlen
    have hw := wrapAdd_nonneg ((pre.length + (varintBytes n).length : Nat) : Int) (n : Int)
      ⟨by omega, by norm_num at hlen ⊢; omega⟩ ⟨by omega, by norm_num at hn ⊢; omega⟩ h2
    have h3 : wrapAdd ((pre.length + (varintBytes n).length : Nat) : Int) (n : Int)
        > ((pre ++ (varintBytes n ++ body)).length : Int) := by
      rw [hw]
      simp only [List.length_append]
      push_cast
      omega
    rw [if_pos h3]
    exact ⟨_, rfl, Or.inl rfl⟩

/-- After the wire form of a request, `Unmarshal` into a fresh request goes on with the
bytes that follow it: the loop is at the end of the wire form, holds the request, and
has fuel for the bytes that follow. -/
theorem TaskRequest_Unmarshal_after_wire (m : TaskRequest)
    (hJobID : -2 ^ 63 ≤ m.JobID ∧ m.JobID < 2 ^ 63)
    (hType : -2 ^ 31 ≤ m.Type_ ∧ m.Type_ < 2 ^ 31) (hun : m.XXX_unrecognized = [])
    (cut : List UInt8) (hlen : (m.wire ++ cut).length + 8 < 2 ^ 63) :
    ∃ f, cut.length ≤ f ∧
      TaskRequest.Unmarshal ⟨0, [], 0, [], [], []⟩ (m.wire ++ cut)
        = TaskRequest.unmarshalLoop (m.wire ++ cut) (f + 1) m.wire.length m := by
  have hlen63 : (m.wire ++ cut).length < 2 ^ 63 := by omega
  have hwl : m.wire.length = 0 + (varintFieldBytes 0x8 m.JobID).length + (bytesFieldBytes 0x12 m.ParentTaskID).length + (varintFieldBytes 0x18 m.Type_).length + (bytesFieldBytes 0x22 m.PhysicalPlan).length + (bytesFieldBytes 0x2a m.Payload).length := by
    unfold TaskRequest.wire
    rw [hun]
    simp only [List.length_append, List.length_nil]
    omega
  unfold TaskRequest.Unmarshal
  rw [hwl]
  generalize hd : m.wire ++ cut = d at hlen63 ⊢
  unfold TaskRequest.wire at hd
  rw [hun] at hd
  simp only [List.append_nil, List.append_assoc] at hd
  have hdlen := congrArg List.length hd
  simp only [List.length_append] at hdlen
  obtain ⟨c1, hc1, s1⟩ := TaskRequest_step_JobID m.JobID hJobID.1 hJobID.2 d
    ([])
    (bytesFieldBytes 0x12 m.ParentTaskID ++ (varintFieldBytes 0x18 m.Type_ ++ (bytesFieldBytes 0x22 m.PhysicalPlan ++ (bytesFieldBytes 0x2a m.Payload ++ cut))))
    (0) rfl
    (by rw [← hd]; rfl) ⟨0, [], 0, [], [], []⟩ rfl
  obtain ⟨c2, hc2, s2⟩ := TaskRequest_step_ParentTaskID m.ParentTaskID d
    (varintFieldBytes 0x8 m.JobID)
    (varintFieldBytes 0x18 m.Type_ ++ (bytesFieldBytes 0x22 m.PhysicalPlan ++ (bytesFieldBytes 0x2a m.Payload ++ cut)))
    (0 + (varintFieldBytes 0x8 m.JobID).length) (by simp)
    (by rw [← hd]) hlen63 ⟨m.JobID, [], 0, [], [], []⟩ rfl
  obtain ⟨c3, hc3, s3⟩ := TaskRequest_step_Type m.Type_ hType.1 hType.2 d
    (varintFieldBytes 0x8 m.JobID ++ bytesFieldBytes 0x12 m.ParentTaskID)
    (bytesFieldBytes 0x22 m.PhysicalPlan ++ (bytesFieldBytes 0x2a m.Payload ++ cut))
    (0 + (varintFieldBytes 0x8 m.JobID).length + (bytesFieldBytes 0x12 m.ParentTaskID).length) (by simp only [List.length_append]; omega)
    (by rw [← hd]; simp) ⟨m.JobID, m.ParentTaskID, 0, [], [], []⟩ rfl
  obtain ⟨c4, hc4, s4⟩ := TaskRequest_step_PhysicalPlan m.PhysicalPlan d
    (varintFieldBytes 0x8 m.JobID ++ bytesFieldBytes 0x12 m.ParentTaskID ++ varintFieldBytes 0x18 m.Type_)
    (bytesFieldBytes 0x2a m.Payload ++ cut)
    (0 + (varintFieldBytes 0x8 m.JobID).length + (bytesFieldBytes 0x12 m.ParentTaskID).length + (varintFieldBytes 0x18 m.Type_).length) (by simp only [List.length_append]; omega)
    (by rw [← hd]; simp) hlen63 ⟨m.JobID, m.ParentTaskID, m.Type_, [], [], []⟩ rfl
  obtain ⟨c5, hc5, s5⟩ := TaskRequest_step_Payload m.Payload d
    (varintFieldBytes 0x8 m.JobID ++ bytesFieldBytes 0x12 m.ParentTaskID ++ varintFieldBytes 0x18 m.Type_ ++ bytesFieldBytes 0x22 m.PhysicalPlan)
    (cut)
    (0 + (varintFieldBytes 0x8 m.JobID).length + (bytesFieldBytes 0x12 m.ParentTaskID).length + (varintFieldBytes 0x18 m.Type_).length + (bytesFieldBytes 0x22 m.PhysicalPlan).length) (by simp only [List.length_append]; omega)
    (by rw [← hd]; simp) hlen63 ⟨m.JobID, m.ParentTaskID, m.Type_, m.PhysicalPlan, [], []⟩ rfl
  dsimp only at s1 s2 s3 s4 s5
  obtain ⟨f, hf⟩ : ∃ f, d.length + 1 = f + 1 + c5 + c4 + c3 + c2 + c1 :=
    ⟨d.length - (c1 + c2 + c3 + c4 + c5), by omega⟩
  refine ⟨f, by omega, ?_⟩
  rw [hf, s1, s2, s3, s4, s5]
  cases m
  simp only at hun
  subst hun
  rfl

/-- Truncated input of `TaskRequest`: after the wire form of a request, bytes that
are cut inside a tag, inside the varint or the length of a field, or inside the bytes of a
string or bytes field make `Unmarshal` return an error. -/
theorem TaskRequest_Unmarshal_truncated (m : TaskRequest)
    (hJobID : -2 ^ 63 ≤ m.JobID ∧ m.JobID < 2 ^ 63)
    (hType : -2 ^ 31 ≤ m.Type_ ∧ m.Type_ < 2 ^ 31) (hun : m.XXX_unrecognized = [])
    (cut : List UInt8) (hlen : (m.wire ++ cut).length + 8 < 2 ^ 63) :
    (cut ≠ [] → (∀ b ∈ cut, 0x80 ≤ b.toNat) →
      ∃ e, TaskRequest.Unmarshal ⟨0, [], 0, [], [], []⟩ (m.wire ++ cut) = .error e ∧
        (e = ErrIntOverflowCommon ∨ e = ErrUnexpectedEOF)) ∧
    (∀ (tag : UInt8) (rest : List UInt8), cut = tag :: rest →
      tag = 0x8 ∨ tag = 0x12 ∨ tag = 0x18 ∨ tag = 0x22 ∨ tag = 0x2a →
      (∀ b ∈ rest, 0x80 ≤ b.toNat) →
      ∃ e, TaskRequest.Unmarshal ⟨0, [], 0, [], [], []⟩ (m.wire ++ cut) = .error e ∧
        (e = ErrIntOverflowCommon ∨ e = ErrUnexpectedEOF)) ∧
    (∀ (tag : UInt8) (n : Nat) (body : List UInt8), cut = tag :: (varintBytes n ++ body) →
      tag = 0x12 ∨ tag = 0x22 ∨ tag = 0x2a → n < 2 ^ 63 → body.length < n →
      ∃ e, TaskRequest.Unmarshal ⟨0, [], 0, [], [], []⟩ (m.wire ++ cut) = .error e ∧
        (e = ErrUnexpectedEOF ∨ e = ErrInvalidLengthCommon)) := by
  obtain ⟨f, -, hloop⟩ := TaskRequest_Unmarshal_after_wire m hJobID hType hun cut hlen
  refine ⟨?_, ?_, ?_⟩
  · intro hne hhigh
    obtain ⟨e, he, hor⟩ := readVarint_cut 64 10 0 0 m.wire cut hhigh
    refine ⟨e, ?_, hor⟩
    have hi : m.wire.length < (m.wire ++ cut).length := by
      have := List.length_pos.mpr hne
      simp only [List.length_append]
      omega
    rw [hloop, TaskRequest.unmarshalLoop, if_pos hi, he]
  · intro tag rest hcut htag hhigh
    subst hcut
    have hi : m.wire.length < (m.wire ++ tag :: rest).length := by
      simp only [List.length_append, List.length_cons]
      omega
    have hshape : m.wire ++ tag :: rest = (m.wire ++ [tag]) ++ rest := by simp
    have hidx : m.wire.length + 1 = (m.wire ++ [tag]).length := by simp
    obtain ⟨e1, he1, hor1⟩ := readVarint_cut 64 10 0 0 (m.wire ++ [tag]) rest hhigh
    obtain ⟨e2, he2, hor2⟩ := readVarint_cut 32 10 0 0 (m.wire ++ [tag]) rest hhigh
    obtain ⟨e3, he3, hor3⟩ := readBytes_cut (m.wire ++ [tag]) rest hhigh
    rw [← hshape, ← hidx] at he1 he2 he3
    rcases htag with h | h | h | h | h <;> subst h
    · refine ⟨e1, ?_, hor1⟩
      rw [hloop, TaskRequest_unmarshalLoop_JobID _ f _ _ m hi
        (readVarint_tag 0x8 (by decide) m.wire rest), he1]
    · refine ⟨e3, ?_, hor3⟩
      rw [hloop, TaskRequest_unmarshalLoop_ParentTaskID _ f _ _ m hi
        (readVarint_tag 0x12 (by decide) m.wire rest), he3]
    · refine ⟨e2, ?_, hor2⟩
      rw [hloop, TaskRequest_unmarshalLoop_Type _ f _ _ m hi
        (readVarint_tag 0x18 (by decide) m.wire rest), he2]
    · refine ⟨e3, ?_, hor3⟩
      rw [hloop, TaskRequest_unmarshalLoop_PhysicalPlan _ f _ _ m hi
        (readVarint_tag 0x22 (by decide) m.wire rest), he3]
    · refine ⟨e3, ?_, hor3⟩
      rw [hloop, TaskRequest_unmarshalLoop_Payload _ f _ _ m hi
        (readVarint_tag 0x2a (by decide) m.wire rest), he3]
  · intro tag n body hcut htag hn hshort
    subst hcut
    have hi : m.wire.length < (m.wire ++ tag :: (varintBytes n ++ body)).length := by
      simp only [List.length_append, List.length_cons]
      omega
    have hshape : m.wire ++ tag :: (varintBytes n ++ body)
        = (m.wire ++ [tag]) ++ (varintBytes n ++ body) := by simp
    have hidx : m.wire.length + 1 = (m.wire ++ [tag]).length := by simp
    obtain ⟨e, he, hor⟩ := readBytes_short n (m.wire ++ [tag]) body hn hshort
      (by rw [← hshape]; exact hlen)
    rw [← hshape, ← hidx] at he
    refine ⟨e, ?_, hor⟩
    rcases htag with h | h | h <;> subst h
    · rw [hloop, TaskRequest_unmarshalLoop_ParentTaskID _ f _ _ m hi
        (readVarint_tag 0x12 (by decide) m.wire _), he]
    · rw [hloop, TaskRequest_unmarshalLoop_PhysicalPlan _ f _ _ m hi
        (readVarint_tag 0x22 (by decide) m.wire _), he]
    · rw [hloop, TaskRequest_unmarshalLoop_Payload _ f _ _ m hi
        (readVarint_tag 0x2a (by decide) m.wire _), he]

/-- After the wire form of a response, `Unmarshal` into a fresh response goes on with the
bytes that follow it: the loop is at the end of the wire form, holds the response, and
has fuel for the bytes that follow. -/
theorem TaskResponse_Unmarshal_after_wire (m : TaskResponse)
    (hJobID : -2 ^ 63 ≤ m.JobID ∧ m.JobID < 2 ^ 63) (hun : m.XXX_unrecognized = [])
    (cut : List UInt8) (hlen : (m.wire ++ cut).length + 8 < 2 ^ 63) :
    ∃ f, cut.length ≤ f ∧
      TaskResponse.Unmarshal ⟨0, [], false, [], [], []⟩ (m.wire ++ cut)
        = TaskResponse.unmarshalLoop (m.wire ++ cut) (f + 1) m.wire.length m := by
  have hlen63 : (m.wire ++ cut).length < 2 ^ 63 := by omega
  have hwl : m.wire.length = 0 + (varintFieldBytes 0x8 m.JobID).length + (bytesFieldBytes 0x12 m.TaskID).length + (boolFieldBytes 0x18 m.Completed).length + (bytesFieldBytes 0x22 m.ErrMsg).length + (bytesFieldBytes 0x2a m.Payload).length := by
    unfold TaskResponse.wire
    rw [hun]
    simp only [List.length_append, List.length_nil]
    omega
  unfold TaskResponse.Unmarshal
  rw [hwl]
  generalize hd : m.wire ++ cut = d at hlen63 ⊢
  unfold TaskResponse.wire at hd
  rw [hun] at hd
  simp only [List.append_nil, List.append_assoc] at hd
  have hdlen := congrArg List.length hd
  simp only [List.length_append] at hdlen
  obtain ⟨c1, hc1, s1⟩ := TaskResponse_step_JobID m.JobID hJobID.1 hJobID.2 d
    ([])
    (bytesFieldBytes 0x12 m.TaskID ++ (boolFieldBytes 0x18 m.Completed ++ (bytesFieldBytes 0x22 m.ErrMsg ++ (bytesFieldBytes 0x2a m.Payload ++ cut))))
    (0) rfl
    (by rw [← hd]; rfl) ⟨0, [], false, [], [], []⟩ rfl
  obtain ⟨c2, hc2, s2⟩ := TaskResponse_step_TaskID m.TaskID d
    (varintFieldBytes 0x8 m.JobID)
    (boolFieldBytes 0x18 m.Completed ++ (bytesFieldBytes 0x22 m.ErrMsg ++ (bytesFieldBytes 0x2a m.Payload ++ cut)))
    (0 + (varintFieldBytes 0x8 m.JobID).length) (by simp)
    (by rw [← hd]) hlen63 ⟨m.JobID, [], false, [], [], []⟩ rfl
  obtain ⟨c3, hc3, s3⟩ := TaskResponse_step_Completed m.Completed d
    (varintFieldBytes 0x8 m.JobID ++ bytesFieldBytes 0x12 m.TaskID)
    (bytesFieldBytes 0x22 m.ErrMsg ++ (bytesFieldBytes 0x2a m.Payload ++ cut))
    (0 + (varintFieldBytes 0x8 m.JobID).length + (bytesFieldBytes 0x12 m.TaskID).length) (by simp only [List.length_append]; omega)
    (by rw [← hd]; simp) ⟨m.JobID, m.TaskID, false, [], [], []⟩ rfl
  obtain ⟨c4, hc4, s4⟩ := TaskResponse_step_ErrMsg m.ErrMsg d
    (varintFieldBytes 0x8 m.JobID ++ bytesFieldBytes 0x12 m.TaskID ++ boolFieldBytes 0x18 m.Completed)
    (bytesFieldBytes 0x2a m.Payload ++ cut)
    (0 + (varintFieldBytes 0x8 m.JobID).length + (bytesFieldBytes 0x12 m.TaskID).length + (boolFieldBytes 0x18 m.Completed).length) (by simp only [List.length_append]; omega)
    (by rw [← hd]; simp) hlen63 ⟨m.JobID, m.TaskID, m.Completed, [], [], []⟩ rfl
  obtain ⟨c5, hc5, s5⟩ := TaskResponse_step_Payload m.Payload d
    (varintFieldBytes 0x8 m.JobID ++ bytesFieldBytes 0x12 m.TaskID ++ boolFieldBytes 0x18 m.Completed ++ bytesFieldBytes 0x22 m.ErrMsg)
    (cut)
    (0 + (varintFieldBytes 0x8 m.JobID).length + (bytesFieldBytes 0x12 m.TaskID).length + (boolFieldBytes 0x18 m.Completed).length + (bytesFieldBytes 0x22 m.ErrMsg).length) (by simp only [List.length_append]; omega)
    (by rw [← hd]; simp) hlen63 ⟨m.JobID, m.TaskID, m.Completed, m.ErrMsg, [], []⟩ rfl
  dsimp only at s1 s2 s3 s4 s5
  obtain ⟨f, hf⟩ : ∃ f, d.length + 1 = f + 1 + c5 + c4 + c3 + c2 + c1 :=
    ⟨d.length - (c1 + c2 + c3 + c4 + c5), by omega⟩
  refine ⟨f, by omega, ?_⟩
  rw [hf, s1, s2, s3, s4, s5]
  cases m
  simp only at hun
  subst hun
  rfl

/-- Truncated input of `TaskResponse`: after the wire form of a response, bytes that
are cut inside a tag, inside the varint or the length of a field, or inside the bytes of a
string or bytes field make `Unmarshal` return an error. -/
theorem TaskResponse_Unmarshal_truncated (m : TaskResponse)
    (hJobID : -2 ^ 63 ≤ m.JobID ∧ m.JobID < 2 ^ 63) (hun : m.XXX_unrecognized = [])
    (cut : List UInt8) (hlen : (m.wire ++ cut).length + 8 < 2 ^ 63) :
    (cut ≠ [] → (∀ b ∈ cut, 0x80 ≤ b.toNat) →
      ∃ e, TaskResponse.Unmarshal ⟨0, [], false, [], [], []⟩ (m.wire ++ cut) = .error e ∧
        (e = ErrIntOverflowCommon ∨ e = ErrUnexpectedEOF)) ∧
    (∀ (tag : UInt8) (rest : List UInt8), cut = tag :: rest →
      tag = 0x8 ∨ tag = 0x12 ∨ tag = 0x18 ∨ tag = 0x22 ∨ tag = 0x2a →
      (∀ b ∈ rest, 0x80 ≤ b.toNat) →
      ∃ e, TaskResponse.Unmarshal ⟨0, [], false, [], [], []⟩ (m.wire ++ cut) = .error e ∧
        (e = ErrIntOverflowCommon ∨ e = ErrUnexpectedEOF)) ∧
    (∀ (tag : UInt8) (n : Nat) (body : List UInt8), cut = tag :: (varintBytes n ++ body) →
      tag = 0x12 ∨ tag = 0x22 ∨ tag = 0x2a → n < 2 ^ 63 → body.length < n →
      ∃ e, TaskResponse.Unmarshal ⟨0, [], false, [], [], []⟩ (m.wire ++ cut) = .error e ∧
        (e = ErrUnexpectedEOF ∨ e = ErrInvalidLengthCommon)) := by
  obtain ⟨f, -, hloop⟩ := TaskResponse_Unmarshal_after_wire m hJobID hun cut hlen
  refine ⟨?_, ?_, ?_⟩
  · intro hne hhigh
    obtain ⟨e, he, hor⟩ := readVarint_cut 64 10 0 0 m.wire cut hhigh
    refine ⟨e, ?_, hor⟩
    have hi : m.wire.length < (m.wire ++ cut).length := by
      have := List.length_pos.mpr hne
      simp only [List.length_append]
      omega
    rw [hloop, TaskResponse.unmarshalLoop, if_pos hi, he]
  · intro tag rest hcut htag hhigh
    subst hcut
    have hi : m.wire.length < (m.wire ++ tag :: rest).length := by
      simp only [List.length_append, List.length_cons]
      omega
    have hshape : m.wire ++ tag :: rest = (m.wire ++ [tag]) ++ rest := by simp
    have hidx : m.wire.length + 1 = (m.wire ++ [tag]).length := by simp
    obtain ⟨e1, he1, hor1⟩ := readVarint_cut 64 10 0 0 (m.wire ++ [tag]) rest hhigh
    obtain ⟨e2, he2, hor2⟩ := readVarint_cut 32 10 0 0 (m.wire ++ [tag]) rest hhigh
    obtain ⟨e3, he3, hor3⟩ := readBytes_cut (m.wire ++ [tag]) rest hhigh
    rw [← hshape, ← hidx] at he1 he2 he3
    rcases htag with h | h | h | h | h <;> subst h
    · refine ⟨e1, ?_, hor1⟩
      rw [hloop, TaskResponse_unmarshalLoop_JobID _ f _ _ m hi
        (readVarint_tag 0x8 (by decide) m.wire rest), he1]
    · refine ⟨e3, ?_, hor3⟩
      rw [hloop, TaskResponse_unmarshalLoop_TaskID _ f _ _ m hi
        (readVarint_tag 0x12 (by decide) m.wire rest), he3]
    · refine ⟨e1, ?_, hor1⟩
      rw [hloop, TaskResponse_unmarshalLoop_Completed _ f _ _ m hi
        (readVarint_tag 0x18 (by decide) m.wire rest), he1]
    · refine ⟨e3, ?_, hor3⟩
      rw [hloop, TaskResponse_unmarshalLoop_ErrMsg _ f _ _ m hi
        (readVarint_tag 0x22 (by decide) m.wire rest), he3]
    · refine ⟨e3, ?_, hor3⟩
      rw [hloop, TaskResponse_unmarshalLoop_Payload _ f _ _ m hi
        (readVarint_tag 0x2a (by decide) m.wire rest), he3]
  · intro tag n body hcut htag hn hshort
    subst hcut
    have hi : m.wire.length < (m.wire ++ tag :: (varintBytes n ++ body)).length := by
      simp only [List.length_append, List.length_cons]
      omega
    have hshape : m.wire ++ tag :: (varintBytes n ++ body)
        = (m.wire ++ [tag]) ++ (varintBytes n ++ body) := by simp
    have hidx : m.wire.length + 1 = (m.wire ++ [tag]).length := by simp
    obtain ⟨e, he, hor⟩ := readBytes_short n (m.wire ++ [tag]) body hn hshort
      (by rw [← hshape]; exact hlen)
    rw [← hshape, ← hidx] at he
    refine ⟨e, ?_, hor⟩
    rcases htag with h | h | h <;> subst h
    · rw [hloop, TaskResponse_unmarshalLoop_TaskID _ f _ _ m hi
        (readVarint_tag 0x12 (by decide) m.wire _), he]
    · rw [hloop, TaskResponse_unmarshalLoop_ErrMsg _ f _ _ m hi
        (readVarint_tag 0x22 (by decide) m.wire _), he]
    · rw [hloop, TaskResponse_unmarshalLoop_Payload _ f _ _ m hi
        (readVarint_tag 0x2a (by decide) m.wire _), he]
/-- The loop of `(*TaskResponse).Unmarshal`, with fuel for the bytes ahead, does not panic:
it does not run out of fuel, and reads and slices inside the input only. -/
theorem TaskResponse_unmarshalLoop_total (d : List UInt8) (hlen : d.length + 8 < 2 ^ 63)
    (fuel : Nat) : ∀ (i : Nat) (m : TaskResponse), i ≤ d.length → d.length - i + 1 ≤ fuel →
      ∀ e, TaskResponse.unmarshalLoop d fuel i m = .error e → e ≠ .panic := by
  induction fuel with
  | zero =>
    intro i m hi hfuel
    omega
  | succ fuel ih =>
    intro i m hi hfuel e h
    rw [TaskResponse.unmarshalLoop] at h
    by_cases hlt : i < d.length
    · rw [if_pos hlt] at h
      cases hr : readVarint 64 d 10 0 i 0 with
      | error e1 =>
        rw [hr] at h
        simp only [] at h
        injection h with h
        subst h
        exact readVarint_error_ne_panic _ _ _ _ _ _ _ hr
      | ok r1 =>
        obtain ⟨wire, i1⟩ := r1
        rw [hr] at h
        simp only [] at h
        obtain ⟨hb1, hb2, -⟩ := readVarint_ok_bounds 64 d 10 0 i 0 wire i1 hr
        split_ifs at h
        all_goals first
          | (injection h with h; subst h; intro hc; cases hc)
          | (split at h
             · next e1 heq =>
               injection h with h
               subst h
               first
                 | exact readVarint_error_ne_panic _ _ _ _ _ _ _ heq
                 | exact readBytes_error_ne_panic d hlen _ _ heq
                 | exact (skipUnknown_total d hlen i hlt).1 _ heq
             · next v i2 heq =>
               first
                 | (have hb := readVarint_ok_bounds _ d 10 0 i1 0 v i2 heq
                    exact ih i2 _ hb.2.1 (by omega) e h)
                 | (have hb := (readBytes_total d hlen i1).2 v i2 heq
                    exact ih i2 _ hb.2 (by omega) e h)
                 | (have hb := (skipUnknown_total d hlen i hlt).2 v i2 heq
                    exact ih i2 _ hb.2 (by omega) e h))
    · rw [if_neg hlt] at h
      have hgt : ¬ i > d.length := by omega
      rw [if_neg hgt] at h
      cases h

/-- Go `Unmarshal` of a request returns a request or a returned error on every input. -/
theorem TaskRequest_Unmarshal_total (m : TaskRequest) (d : List UInt8)
    (hlen : d.length + 8 < 2 ^ 63) :
    (∃ m1, TaskRequest.Unmarshal m d = .ok m1) ∨
      (∃ msg, TaskRequest.Unmarshal m d = .error (.error msg)) := by
  cases h : TaskRequest.Unmarshal m d with
  | ok m1 => exact Or.inl ⟨m1, rfl⟩
  | error e =>
    cases e with
    | error msg => exact Or.inr ⟨msg, rfl⟩
    | panic =>
      exact absurd rfl
        (TaskRequest_unmarshalLoop_total d hlen (d.length + 1) 0 m (Nat.zero_le _) (by omega)
          .panic h)

/-- Go `Unmarshal` of a response returns a response or a returned error on every input. -/
theorem TaskResponse_Unmarshal_total (m : TaskResponse) (d : List UInt8)
    (hlen : d.length + 8 < 2 ^ 63) :
    (∃ m1, TaskResponse.Unmarshal m d = .ok m1) ∨
      (∃ msg, TaskResponse.Unmarshal m d = .error (.error msg)) := by
  cases h : TaskResponse.Unmarshal m d with
  | ok m1 => exact Or.inl ⟨m1, rfl⟩
  | error e =>
    cases e with
    | error msg => exact Or.inr ⟨msg, rfl⟩
    | panic =>
      exact absurd rfl
        (TaskResponse_unmarshalLoop_total d hlen (d.length + 1) 0 m (Nat.zero_le _) (by omega)
          .panic h)

/-- A byte in front of equal bytes is one behind them. -/
theorem cons_replicate_append (k : Nat) (a : UInt8) (suf : List UInt8) :
    a :: (List.replicate k a ++ suf) = List.replicate k a ++ a :: suf := by
  induction k with
  | zero => rfl
  | succ k ih => simp only [List.replicate_succ, List.cons_append, ih]

/-- Go `skipCommon` on `k` groups nested in each other (`k` start-group tags of field 1
followed by `k` end-group tags) returns the length `2 * k` of the outermost group, whatever
follows it. -/
theorem skipCommon_nested : ∀ (k : Nat) (suf : List UInt8) (fuel : Nat),
    2 * (k + 1) ≤ fuel → 2 * (k + 1) < 2 ^ 62 →
    skipCommon fuel (List.replicate (k + 1) 0x0b ++ (List.replicate (k + 1) 0x0c ++ suf))
      = .ok ((2 * (k + 1) : Nat) : Int) := by
  intro k
  induction k with
  | zero =>
    intro suf fuel hfuel _
    obtain ⟨f, hf⟩ : ∃ f, fuel = f + 1 + 1 := ⟨fuel - 2, by omega⟩
    subst hf
    have hd : List.replicate (0 + 1) (0x0b : UInt8) ++ (List.replicate (0 + 1) 0x0c ++ suf)
        = [] ++ (0x0b :: (0x0c :: suf)) := rfl
    rw [hd, skipCommon, if_pos (by simp)]
    have ht := readVarint_tag 0x0b (by decide) [] (0x0c :: suf)
    simp only [List.length_nil] at ht
    rw [ht]
    simp only []
    have hw : (0x0b : UInt8).toNat &&& 0x7 = 3 := by decide
    rw [if_neg (by rw [hw]; decide), if_neg (by rw [hw]; decide), if_neg (by rw [hw]; decide),
      if_pos hw, skipGroup]
    have ht2 := readVarint_tag 0x0c (by decide) [0x0b] suf
    simp only [List.length_singleton, List.singleton_append] at ht2
    simp only [List.nil_append, Nat.zero_add]
    rw [ht2]
    simp only []
    have hw2 : (0x0c : UInt8).toNat &&& 0x7 = 4 := by decide
    rw [if_pos hw2]
  | succ k ih =>
    intro suf fuel hfuel hsmall
    obtain ⟨f, hf⟩ : ∃ f, fuel = f + 1 + 1 := ⟨fuel - 2, by omega⟩
    subst hf
    have hd : List.replicate (k + 1 + 1) (0x0b : UInt8)
          ++ (List.replicate (k + 1 + 1) 0x0c ++ suf)
        = [] ++ (0x0b :: (0x0b :: (List.replicate k 0x0b
            ++ (List.replicate (k + 1) 0x0c ++ (0x0c :: suf))))) := by
      simp only [List.replicate_succ, List.nil_append, List.cons_append]
      rw [cons_replicate_append k 0x0c suf]
    rw [hd, skipCommon, if_pos (by simp)]
    have ht := readVarint_tag 0x0b (by decide) []
      (0x0b :: (List.replicate k 0x0b ++ (List.replicate (k + 1) 0x0c ++ (0x0c :: suf))))
    simp only [List.length_nil] at ht
    rw [ht]
    simp only []
    have hw : (0x0b : UInt8).toNat &&& 0x7 = 3 := by decide
    rw [if_neg (by rw [hw]; decide), if_neg (by rw [hw]; decide), if_neg (by rw [hw]; decide),
      if_pos hw, skipGroup]
    simp only [List.nil_append, Nat.zero_add]
    have ht2 := readVarint_tag 0x0b (by decide) [0x0b]
      (List.replicate k 0x0b ++ (List.replicate (k + 1) 0x0c ++ (0x0c :: suf)))
    simp only [List.length_singleton, List.singleton_append] at ht2
    rw [ht2]
    simp only []
    have hw4 : ¬ (0x0b : UInt8).toNat &&& 0x7 = 4 := by rw [hw]; decide
    rw [if_neg hw4]
    have hslice : sliceFrom (0x0b :: 0x0b :: (List.replicate k 0x0b
          ++ (List.replicate (k + 1) 0x0c ++ (0x0c :: suf)))) ((1 : Nat) : Int)
        = .ok (List.replicate (k + 1) 0x0b
            ++ (List.replicate (k + 1) 0x0c ++ (0x0c :: suf))) := by
      unfold sliceFrom
      rw [if_pos ⟨by omega, by simp only [List.length_cons]; omega⟩]
      simp [List.replicate_succ]
    rw [hslice]
    simp only []
    rw [ih (0x0c :: suf) f (by omega) (by omega)]
    simp only []
    have hwrap := wrapAdd_index 1 (2 * (k + 1)) (by norm_num at hsmall ⊢; omega)
    rw [hwrap]
    have hnn : ¬ (((1 + 2 * (k + 1) : Nat) : Int) < 0) := by omega
    rw [if_neg hnn]
    simp only [Int.toNat_ofNat]
    obtain ⟨f2, hf2⟩ : ∃ f2, f = f2 + 1 := ⟨f - 1, by omega⟩
    subst hf2
    rw [skipGroup]
    have hshape : (0x0b : UInt8) :: 0x0b :: (List.replicate k 0x0b
          ++ (List.replicate (k + 1) 0x0c ++ (0x0c :: suf)))
        = (0x0b :: 0x0b :: (List.replicate k 0x0b ++ List.replicate (k + 1) 0x0c))
            ++ (0x0c :: suf) := by simp
    have hplen : 1 + 2 * (k + 1)
        = ((0x0b : UInt8) :: 0x0b :: (List.replicate k 0x0b
            ++ List.replicate (k + 1) 0x0c)).length := by
      simp only [List.length_cons, List.length_append, List.length_replicate]
      omega
    have ht3 := readVarint_tag 0x0c (by decide)
      ((0x0b : UInt8) :: 0x0b :: (List.replicate k 0x0b ++ List.replicate (k + 1) 0x0c)) suf
    rw [hshape, hplen, ht3]
    simp only []
    have hw2 : (0x0c : UInt8).toNat &&& 0x7 = 4 := by decide
    rw [if_pos hw2]
    congr 1
    rw [← hplen]
    push_cast
    omega
/-- Claim C33: `TaskRequest.Unmarshal` and `TaskResponse.Unmarshal` are total on every byte
sequence (of a length that a Go slice can have): they return a message or a returned error,
never a panic, so that no byte is read and no slice is taken outside the input, the loops
end, and the final `panic("unreachable")` of `skipCommon` is not reached from `Unmarshal`.
`skipCommon` on a non-empty input returns a length of at least 1 or a returned error,
whatever the nesting of the groups, and on `k + 1` groups nested in each other it returns
the length of the outermost group.  After the wire form of a message, bytes that are cut
inside a tag, inside the varint or the length of a field, or inside the bytes of a string
or bytes field make `Unmarshal` return an error. -/
theorem Unmarshal_total :
    (∀ (m : TaskRequest) (dAtA : List UInt8), dAtA.length + 8 < 2 ^ 63 →
      (∃ m1, TaskRequest.Unmarshal m dAtA = .ok m1) ∨
        (∃ msg, TaskRequest.Unmarshal m dAtA = .error (.error msg))) ∧
    (∀ (m : TaskResponse) (dAtA : List UInt8), dAtA.length + 8 < 2 ^ 63 →
      (∃ m1, TaskResponse.Unmarshal m dAtA = .ok m1) ∨
        (∃ msg, TaskResponse.Unmarshal m dAtA = .error (.error msg))) ∧
    (∀ (dAtA : List UInt8) (fuel : Nat), dAtA ≠ [] → dAtA.length + 8 < 2 ^ 63 →
      2 * dAtA.length ≤ fuel →
      (∃ n, skipCommon fuel dAtA = .ok n ∧ 1 ≤ n) ∨
        (∃ msg, skipCommon fuel dAtA = .error (.error msg))) ∧
    (∀ (k : Nat) (suf : List UInt8) (fuel : Nat), 2 * (k + 1) ≤ fuel → 2 * (k + 1) < 2 ^ 62 →
      skipCommon fuel (List.replicate (k + 1) 0x0b ++ (List.replicate (k + 1) 0x0c ++ suf))
        = .ok ((2 * (k + 1) : Nat) : Int)) ∧
    (∀ (m : TaskRequest), (-2 ^ 63 ≤ m.JobID ∧ m.JobID < 2 ^ 63) →
      (-2 ^ 31 ≤ m.Type_ ∧ m.Type_ < 2 ^ 31) → m.XXX_unrecognized = [] →
      ∀ (cut : List UInt8), (m.wire ++ cut).length + 8 < 2 ^ 63 →
      (cut ≠ [] → (∀ b ∈ cut, 0x80 ≤ b.toNat) →
        ∃ e, TaskRequest.Unmarshal ⟨0, [], 0, [], [], []⟩ (m.wire ++ cut) = .error e ∧
          (e = ErrIntOverflowCommon ∨ e = ErrUnexpectedEOF)) ∧
      (∀ (tag : UInt8) (rest : List UInt8), cut = tag :: rest →
        tag = 0x8 ∨ tag = 0x12 ∨ tag = 0x18 ∨ tag = 0x22 ∨ tag = 0x2a →
        (∀ b ∈ rest, 0x80 ≤ b.toNat) →
        ∃ e, TaskRequest.Unmarshal ⟨0, [], 0, [], [], []⟩ (m.wire ++ cut) = .error e ∧
          (e = ErrIntOverflowCommon ∨ e = ErrUnexpectedEOF)) ∧
      (∀ (tag : UInt8) (n : Nat) (body : List UInt8), cut = tag :: (varintBytes n ++ body) →
        tag = 0x12 ∨ tag = 0x22 ∨ tag = 0x2a → n < 2 ^ 63 → body.length < n →
        ∃ e, TaskRequest.Unmarshal ⟨0, [], 0, [], [], []⟩ (m.wire ++ cut) = .error e ∧
          (e = ErrUnexpectedEOF ∨ e = ErrInvalidLengthCommon))) ∧
    (∀ (m : TaskResponse), (-2 ^ 63 ≤ m.JobID ∧ m.JobID < 2 ^ 63) → m.XXX_unrecognized = [] →
      ∀ (cut : List UInt8), (m.wire ++ cut).length + 8 < 2 ^ 63 →
      (cut ≠ [] → (∀ b ∈ cut, 0x80 ≤ b.toNat) →
        ∃ e, TaskResponse.Unmarshal ⟨0, [], false, [], [], []⟩ (m.wire ++ cut) = .error e ∧
          (e = ErrIntOverflowCommon ∨ e = ErrUnexpectedEOF)) ∧
      (∀ (tag : UInt8) (rest : List UInt8), cut = tag :: rest →
        tag = 0x8 ∨ tag = 0x12 ∨ tag = 0x18 ∨ tag = 0x22 ∨ tag = 0x2a →
        (∀ b ∈ rest, 0x80 ≤ b.toNat) →
        ∃ e, TaskResponse.Unmarshal ⟨0, [], false, [], [], []⟩ (m.wire ++ cut) = .error e ∧
          (e = ErrIntOverflowCommon ∨ e = ErrUnexpectedEOF)) ∧
      (∀ (tag : UInt8) (n : Nat) (body : List UInt8), cut = tag :: (varintBytes n ++ body) →
        tag = 0x12 ∨ tag = 0x22 ∨ tag = 0x2a → n < 2 ^ 63 → body.length < n →
        ∃ e, TaskResponse.Unmarshal ⟨0, [], false, [], [], []⟩ (m.wire ++ cut) = .error e ∧
          (e = ErrUnexpectedEOF ∨ e = ErrInvalidLengthCommon))) := by
  refine ⟨TaskRequest_Unmarshal_total, TaskResponse_Unmarshal_total, ?_, skipCommon_nested,
    ?_, ?_⟩
  · intro dAtA fuel hne hlen hfuel
    obtain ⟨hE, hN⟩ := (skip_total fuel).1 dAtA hlen hne hfuel
    cases h : skipCommon fuel dAtA with
    | ok n => exact Or.inl ⟨n, rfl, (hN n h).1⟩
    | error e =>
      cases e with
      | error msg => exact Or.inr ⟨msg, rfl⟩
      | panic => exact absurd rfl (hE .panic h)
  · intro m hJobID hType hun cut hlen
    exact TaskRequest_Unmarshal_truncated m hJobID hType hun cut hlen
  · intro m hJobID hun cut hlen
    exact TaskResponse_Unmarshal_truncated m hJobID hun cut hlen

/-- Witness of C33 on concrete inputs: an input cut inside a tag, inside a varint and
inside a bytes field gives the error of an unexpected end; an unknown field that is a group
nested in a group is skipped and kept as unrecognized bytes; `skipCommon` on 3 nested groups
returns 6; and the final panic of `skipCommon` is what the empty input reaches. -/
theorem Unmarshal_total_witness :
    ((∃ m1, TaskRequest.Unmarshal ⟨0, [], 0, [], [], []⟩ [0x80] = .ok m1) ∨
      (∃ msg, TaskRequest.Unmarshal ⟨0, [], 0, [], [], []⟩ [0x80] = .error (.error msg))) ∧
    TaskRequest.Unmarshal ⟨0, [], 0, [], [], []⟩ [0x80] = .error ErrUnexpectedEOF ∧
    TaskRequest.Unmarshal ⟨0, [], 0, [], [], []⟩ [8, 254] = .error ErrUnexpectedEOF ∧
    TaskRequest.Unmarshal ⟨0, [], 0, [], [], []⟩ [18, 2, 97] = .error ErrUnexpectedEOF ∧
    TaskResponse.Unmarshal ⟨0, [], false, [], [], []⟩ [8, 172, 2, 34, 3, 101]
      = .error ErrUnexpectedEOF ∧
    TaskRequest.Unmarshal ⟨0, [], 0, [], [], []⟩ [0x33, 0x33, 0x34, 0x34, 8, 5]
      = .ok ⟨5, [], 0, [], [], [0x33, 0x33, 0x34, 0x34]⟩ ∧
    TaskRequest.Unmarshal ⟨0, [], 0, [], [], []⟩ [0x33, 0x33, 0x34]
      = .error ErrUnexpectedEOF ∧
    skipCommon 6 [0x0b, 0x0b, 0x0b, 0x0c, 0x0c, 0x0c] = .ok 6 ∧
    skipCommon 6 [] = .error .panic :=
  ⟨Unmarshal_total.1 ⟨0, [], 0, [], [], []⟩ [0x80] (by decide),
    rfl, rfl, rfl, rfl, rfl, rfl, rfl, rfl⟩

end Lindb
